import Mathlib

/-!
# SS-Tree: a shallow embedding of `src/SSTree.cpp`

The development follows the first draft of the engine (`src/SSTree.cpp`, `src/SSTree.h`,
`src/main.cpp`) together with `Point.h`, `Point.cpp` and `Data.h`.

Modelling conventions.

* Scalars.  The C++ code computes in `float`.  The definitions are written over an
  arbitrary scalar type `K` that has the operations the engine uses (`0`, `+`, `-`, `*`,
  `/`, the conversion of a count, a linear order, and `acc += std::pow(x, 2)`).  Two
  kinds of scalars are used: a linearly ordered field, where the arithmetic is exact, and
  `F32`, the finite binary32 numbers with rounding to nearest.  Infinities and NaN are
  not represented in either: a division by zero or an overflow is outside the model.
* Environment.  Three things that the engine takes from outside `SSTree.cpp` are collected
  in `Env`: the dimension `DIM` (a `constexpr` of `Point.h`, 768 in the repository), the
  square root used by Eigen's `norm()`, and `std::numeric_limits<float>::max()`.
  Every definition is computable; the evaluations in this file use `K := ℚ` with
  `Rat.sqrt` (exact on squares of rationals), or `K := F32` with the rounded square
  root, and `FLT_MAX = 2^128 - 2^104`.
* Pointers.  A `Data*` is modelled by the record it points to together with its address
  (`Data.addr`); pointer comparison is comparison of addresses.  A `SSNode*` held in a
  `children` vector is modelled by the node value at that position; the non-owning `parent`
  back link is never read by any algorithm and is not represented.
* In-place mutation becomes value passing: a method that mutates `*this` returns the new
  node.
* Undefined behaviour (dereferencing `end()` or a null pointer, `top()` of an empty
  priority queue) is an explicit `Except.error`.
* A `std::priority_queue` is modelled by the list of its elements: `push` appends, `top`
  is the first element that is largest for the comparator, `pop` removes it.
-/

namespace SSTreeModel

/-- The ways in which the C++ code can leave defined behaviour, plus the fuel guard of
the model of the `while` loop of `SSTree::knn`. -/
inductive Failure where
  | nullRoot
  | emptyRange
  | emptyHeap
  | outOfFuel
  deriving DecidableEq, Repr

/-- What the engine takes from outside `SSTree.cpp`: `DIM` of `Point.h`, the square root
behind Eigen's `norm()`, and `std::numeric_limits<float>::max()`. -/
structure Env (K : Type) where
  DIM : Nat
  sqrt : K → K
  FLT_MAX : K

/-- The class `Point`: the coordinate vector `coordinates_`. -/
structure Point (K : Type) where
  coordinates_ : List K
  deriving DecidableEq, Repr

/-- The class `Data`: an embedding and a path; `addr` is the address of the object, the
identity that a comparison of two `Data*` looks at. -/
structure Data (K : Type) where
  addr : Nat
  embedding : Point K
  path : String
  deriving DecidableEq, Repr

/-- The class `SSNode` (fields in the order of `SSTree.h`, without `parent`). -/
inductive SSNode (K : Type) where
  | mk (maxPointsPerNode : Nat) (centroid : Point K) (radius : K) (isLeaf : Bool)
       (children : List (SSNode K)) (_data : List (Data K)) : SSNode K

/-- The class `SSTree`: the root pointer (`none` is `nullptr`) and the branching factor. -/
structure SSTree (K : Type) where
  root : Option (SSNode K)
  maxPointsPerNode : Nat

/-- The value of the pair returned by `SSNode::insert` together with the effect on the
node it was called on: `absorbed node` is `{nullptr, nullptr}` with the node in its new
state, `split l r` is the pair of new siblings. -/
inductive InsertResult (K : Type) where
  | absorbed (node : SSNode K)
  | split (leftSplit rightSplit : SSNode K)

section Structure

variable {K : Type}

/-- Field `maxPointsPerNode` of a node. -/
def SSNode.maxPointsPerNode : SSNode K → Nat
  | .mk M _ _ _ _ _ => M

/-- Getter `SSNode::getCentroid`. -/
def SSNode.centroid : SSNode K → Point K
  | .mk _ c _ _ _ _ => c

/-- Getter `SSNode::getRadius`. -/
def SSNode.radius : SSNode K → K
  | .mk _ _ r _ _ _ => r

/-- Getter `SSNode::getIsLeaf`. -/
def SSNode.isLeaf : SSNode K → Bool
  | .mk _ _ _ l _ _ => l

/-- Getter `SSNode::getChildren`. -/
def SSNode.children : SSNode K → List (SSNode K)
  | .mk _ _ _ _ cs _ => cs

/-- Getter `SSNode::getData`. -/
def SSNode._data : SSNode K → List (Data K)
  | .mk _ _ _ _ _ d => d

/-- The loop of `std::min_element`: the position of the first element that no later
element is strictly smaller than; `cur` is the current candidate, `best` its position and
`i` the position of the head of the remaining range. -/
def minElementGo {α : Type} (less : α → α → Bool) : List α → Nat → α → Nat → Nat
  | [], _, _, best => best
  | x :: xs, i, cur, best =>
    if less x cur then minElementGo less xs (i + 1) x i
    else minElementGo less xs (i + 1) cur best

/-- The algorithm `std::min_element` over a whole vector; `none` is the `end()` iterator
that is returned for an empty range. -/
def minElement {α : Type} (less : α → α → Bool) : List α → Option Nat
  | [] => none
  | x :: xs => some (minElementGo less xs 1 x 0)

/-- The position of `top()` in a `std::priority_queue` with comparator `comp`: an element
that is largest for `comp`. -/
def pqTop {α : Type} (comp : α → α → Bool) (q : List α) : Option Nat :=
  minElement (fun a b => comp b a) q

/-- The final loop of `SSTree::knn`: `ans.push_back(top()); pop();` until the heap is
empty (at most `n` rounds, where `n` is the size of the heap). -/
def drain {α : Type} (comp : α → α → Bool) : Nat → List α → List α
  | 0, _ => []
  | n + 1, q =>
    match pqTop comp q with
    | none => []
    | some i =>
      match q.get? i with
      | none => []
      | some top => top :: drain comp n (q.eraseIdx i)

mutual
/-- The number of nodes of a subtree. -/
def countNodes : SSNode K → Nat
  | .mk _ _ _ _ children _ => 1 + countNodesList children
/-- The number of nodes of a list of subtrees. -/
def countNodesList : List (SSNode K) → Nat
  | [] => 0
  | child :: rest => countNodes child + countNodesList rest
end

mutual
/-- Helper `collectDataDFS` of `main.cpp`, as the sequence of records handed to
`treeData.insert`. -/
def collectDataDFS : SSNode K → List (Data K)
  | .mk _ _ _ isLeaf children _data =>
    if isLeaf then _data else collectDataDFSChildren children
/-- The loop over the children in `collectDataDFS`. -/
def collectDataDFSChildren : List (SSNode K) → List (Data K)
  | [] => []
  | child :: rest => collectDataDFS child ++ collectDataDFSChildren rest
end

mutual
/-- Test helper `leavesAtSameLevelDFS` of `main.cpp`; the second component of the result is
the value of the reference parameter `leafLevel` on return. -/
def leavesAtSameLevelDFS : SSNode K → Int → Int → Bool × Int
  | .mk _ _ _ isLeaf children _, level, leafLevel =>
    if isLeaf then
      let leafLevel := if leafLevel = -1 then level else leafLevel
      (decide (leafLevel = level), leafLevel)
    else leavesAtSameLevelChildren children level leafLevel
/-- The loop over the children in `leavesAtSameLevelDFS`. -/
def leavesAtSameLevelChildren : List (SSNode K) → Int → Int → Bool × Int
  | [], _, leafLevel => (true, leafLevel)
  | child :: rest, level, leafLevel =>
    match leavesAtSameLevelDFS child (level + 1) leafLevel with
    | (false, leafLevel) => (false, leafLevel)
    | (true, leafLevel) => leavesAtSameLevelChildren rest level leafLevel
end

/-- Test `leavesAtSameLevel` of `main.cpp`. -/
def leavesAtSameLevel (root : SSNode K) : Bool := (leavesAtSameLevelDFS root 0 (-1)).1

mutual
/-- Test helper `noNodeExceedsMaxChildrenDFS` of `main.cpp`. -/
def noNodeExceedsMaxChildrenDFS : SSNode K → Nat → Bool
  | .mk _ _ _ _ children _, maxPointsPerNode =>
    if children.length > maxPointsPerNode then false
    else noNodeExceedsMaxChildrenLoop children maxPointsPerNode
/-- The loop over the children in `noNodeExceedsMaxChildrenDFS`. -/
def noNodeExceedsMaxChildrenLoop : List (SSNode K) → Nat → Bool
  | [], _ => true
  | child :: rest, maxPointsPerNode =>
    if !noNodeExceedsMaxChildrenDFS child maxPointsPerNode then false
    else noNodeExceedsMaxChildrenLoop rest maxPointsPerNode
end

/-- The number of entries of a node: records for a leaf, children for an internal node. -/
def SSNode.entryCount (node : SSNode K) : Nat :=
  if node.isLeaf then node._data.length else node.children.length

mutual
/-- Capacity of every node of a subtree: between 1 and `M` entries. -/
def capacityOk (M : Nat) : SSNode K → Bool
  | .mk M' c r isLeaf children _data =>
    decide (1 ≤ (SSNode.mk M' c r isLeaf children _data).entryCount) &&
    decide ((SSNode.mk M' c r isLeaf children _data).entryCount ≤ M) &&
    (isLeaf || capacityOkList M children)
/-- Capacity of every node of a list of subtrees. -/
def capacityOkList (M : Nat) : List (SSNode K) → Bool
  | [] => true
  | child :: rest => capacityOk M child && capacityOkList M rest
end

/-- The records reachable from the outcome of `SSNode::insert`, in depth-first order. -/
def InsertResult.records : InsertResult K → List (Data K)
  | .absorbed node => collectDataDFS node
  | .split leftSplit rightSplit => collectDataDFS leftSplit ++ collectDataDFS rightSplit

/-- The records of a tree in depth-first order: `collectDataDFS(tree.getRoot())`, and no
record for the empty tree. -/
def SSTree.records (tree : SSTree K) : List (Data K) :=
  match tree.root with
  | none => []
  | some root => collectDataDFS root

/-- The test `std::find(node->_data.begin(), node->_data.end(), data) != end`, a
comparison of pointers. -/
def containsPtr (_data : List (Data K)) (data : Data K) : Bool :=
  _data.any (fun e => e.addr == data.addr)

/-- The records handed back by the recursive call of `SSNode::insert` on a child: what is
left in the child vector plus the two new siblings, if any. -/
def childRecords (r : List (SSNode K) × Option (SSNode K × SSNode K)) : List (Data K) :=
  collectDataDFSChildren r.1 ++
    (match r.2 with
     | none => []
     | some (leftSplit, rightSplit) => collectDataDFS leftSplit ++ collectDataDFS rightSplit)

mutual
/-- The depths of the leaves of a subtree whose root is at depth `depth`, in depth-first
order. -/
def leafDepths : SSNode K → Nat → List Nat
  | .mk _ _ _ isLeaf children _, depth =>
    if isLeaf then [depth] else leafDepthsChildren children (depth + 1)
/-- The depths of the leaves below a list of siblings that are at depth `depth`. -/
def leafDepthsChildren : List (SSNode K) → Nat → List Nat
  | [], _ => []
  | child :: rest, depth => leafDepths child depth ++ leafDepthsChildren rest depth
end

mutual
/-- Every leaf of the subtree is exactly `h` levels below its root. -/
def uniformDepth : SSNode K → Nat → Bool
  | .mk _ _ _ isLeaf children _, h =>
    if isLeaf then h == 0
    else
      match h with
      | 0 => false
      | h + 1 => uniformDepthList children h
/-- Every leaf below the listed siblings is exactly `h` levels below them. -/
def uniformDepthList : List (SSNode K) → Nat → Bool
  | [], _ => true
  | child :: rest, h => uniformDepth child h && uniformDepthList rest h
end

/-- A property of the node or nodes that `SSNode::insert` hands back. -/
def InsertResult.Forall (P : SSNode K → Prop) : InsertResult K → Prop
  | .absorbed node => P node
  | .split leftSplit rightSplit => P leftSplit ∧ P rightSplit

/-- A property of the nodes that the recursive call of `SSNode::insert` on a child hands
back: the members of the child vector and the two new siblings, if any. -/
def childForall (P : SSNode K → Prop) (r : List (SSNode K) × Option (SSNode K × SSNode K)) :
    Prop :=
  (∀ c ∈ r.1, P c) ∧
    (match r.2 with
     | none => True
     | some (leftSplit, rightSplit) => P leftSplit ∧ P rightSplit)

/-- The root of a tree, when there is one, has all its leaves at one depth. -/
def treeUniform (t : SSTree K) : Prop :=
  ∀ root, t.root = some root → ∃ h, uniformDepth root h = true

mutual
/-- The nodes of a subtree, root first, in depth-first order.  The children of a node are
visited only when the node is internal, as in the traversals of `main.cpp`. -/
def allNodes : SSNode K → List (SSNode K)
  | .mk M centroid radius isLeaf children _data =>
    .mk M centroid radius isLeaf children _data ::
      (if isLeaf then [] else allNodesList children)
/-- The nodes of the subtrees of a list of siblings. -/
def allNodesList : List (SSNode K) → List (SSNode K)
  | [] => []
  | child :: rest => allNodes child ++ allNodesList rest
end

/-- The nodes of a tree (none for the empty tree). -/
def SSTree.nodes (tree : SSTree K) : List (SSNode K) :=
  match tree.root with
  | none => []
  | some root => allNodes root

/-- The number of tree nodes held, with their subtrees, by a node queue of
`SSTree::knn`. -/
def queueNodes {α : Type} (nodeQueue : List (SSNode K × α)) : Nat :=
  (nodeQueue.map (fun e => countNodes e.1)).sum

/-- The property `P` holds at every node strictly below `node`, and at `node` itself when
it is a leaf. -/
def holdsBelow (P : SSNode K → Prop) (node : SSNode K) : Prop :=
  (node.isLeaf = true → P node) ∧
  (node.isLeaf = false → ∀ c ∈ node.children, ∀ x ∈ allNodes c, P x)

/-- Addresses identify records: two records of the list at one address are the same
record (two `Data*` to one object see one object). -/
def addrFaithful (R : List (Data K)) : Prop :=
  ∀ a ∈ R, ∀ b ∈ R, a.addr = b.addr → a = b

end Structure

/-- The statement `acc += std::pow(x, 2)` of `SSNode::minVarianceSplit` on two `float`
values: `std::pow` computes in `double`, and so does the addition, before the sum is
stored in the `float` variable. -/
class PowAcc (K : Type) where
  /-- The value of `acc` after `acc += std::pow(x, 2)`. -/
  powAcc : K → K → K

/-- In exact arithmetic `acc += std::pow(x, 2)` adds the square. -/
instance instPowAccOfField {K : Type} [LinearOrderedField K] : PowAcc K :=
  ⟨fun acc x => acc + x ^ 2⟩

/-- What padding a point with zero coordinates needs of the arithmetic: the operations
give zero on zeros. -/
class PadLaws (K : Type) [Zero K] [Add K] [Sub K] [Mul K] [Div K] : Prop where
  /-- The sum of two zeros. -/
  zero_add_zero : (0 : K) + 0 = 0
  /-- The difference of two zeros. -/
  zero_sub_zero : (0 : K) - 0 = 0
  /-- The product of two zeros. -/
  zero_mul_zero : (0 : K) * 0 = 0
  /-- A quotient of zero. -/
  zero_div : ∀ x : K, 0 / x = 0

/-- Exact arithmetic gives zero on zeros. -/
instance instPadLawsOfField {K : Type} [LinearOrderedField K] : PadLaws K :=
  ⟨add_zero 0, sub_zero 0, mul_zero 0, fun x => zero_div x⟩

section Defs

variable {K : Type} [Zero K] [Add K] [Sub K] [Mul K] [Div K] [NatCast K] [LinearOrder K]
  [PowAcc K]

/-- Coordinate access, `Point::operator[]`. -/
def Point.get (p : Point K) (index : Nat) : K := p.coordinates_.getD index 0

/-- Componentwise difference, `Point::operator-`. -/
def Point.sub (a b : Point K) : Point K :=
  ⟨List.zipWith (fun x y => x - y) a.coordinates_ b.coordinates_⟩

/-- Squared norm, `Point::normSquared` (Eigen `squaredNorm`).  Eigen does not fix the order
in which the squares are added; the model adds them from the last coordinate to the
first, which makes no difference when at most two squares are not zero. -/
def Point.normSquared (p : Point K) : K := (p.coordinates_.map (fun x => x * x)).sum

/-- Euclidean norm, `Point::norm` (Eigen `norm`): the square root of the squared norm. -/
def Point.norm (env : Env K) (p : Point K) : K := env.sqrt p.normSquared

/-- Euclidean distance, `Point::distance`: `(a - b).norm()`. -/
def Point.distance (env : Env K) (a b : Point K) : K := (a.sub b).norm env

/-- Function `calculateMean`. -/
def calculateMean (centroids : List (Point K)) (dimension : Nat) : K :=
  centroids.foldl (fun sum point => sum + point.get dimension) 0 / (centroids.length : K)

/-- Function `calculateVariance`. -/
def calculateVariance (centroids : List (Point K)) (dimension : Nat) : K :=
  let meanValue := calculateMean centroids dimension
  centroids.foldl
    (fun varianceSum point =>
      let deviation := point.get dimension - meanValue
      varianceSum + deviation * deviation) 0 / (centroids.length : K)

/-- Method `SSNode::intersectsPoint`. -/
def SSNode.intersectsPoint (env : Env K) (node : SSNode K) (point : Point K) : Bool :=
  decide (Point.distance env node.centroid point ≤ node.radius)

/-- Method `SSNode::findClosestChild`, as the position of the chosen child in `children`.
Dereferencing the `end()` iterator of an empty child vector is undefined. -/
def findClosestChild (env : Env K) (children : List (SSNode K)) (target : Point K) :
    Except Failure Nat :=
  match minElement
      (fun a b => decide (Point.distance env a.centroid target
                            < Point.distance env b.centroid target)) children with
  | none => .error .emptyRange
  | some i => .ok i

/-- Method `SSNode::getEntriesCentroids`. -/
def SSNode.getEntriesCentroids (node : SSNode K) : List (Point K) :=
  if node.isLeaf then node._data.map (fun data => data.embedding)
  else node.children.map (fun child => child.centroid)

/-- Method `SSNode::updateBoundingEnvelope`. -/
def SSNode.updateBoundingEnvelope (env : Env K) (node : SSNode K) : SSNode K :=
  let entryCentroids := node.getEntriesCentroids
  let centroid : Point K :=
    ⟨(List.range env.DIM).map (fun dim => calculateMean entryCentroids dim)⟩
  let maxRadius : K :=
    if node.isLeaf then
      node._data.foldl
        (fun maxRadius entry => max maxRadius (Point.distance env centroid entry.embedding)) 0
    else
      node.children.foldl
        (fun maxRadius child =>
          max maxRadius (Point.distance env centroid child.centroid + child.radius)) 0
  .mk node.maxPointsPerNode centroid maxRadius node.isLeaf node.children node._data

/-- The loop of `SSNode::directionOfMaxVariance` over the remaining dimensions, with the
loop variables `highestVariance` and `maxVarianceDirection`. -/
def directionLoop (centroids : List (Point K)) : List Nat → K → Nat → Nat
  | [], _, maxVarianceDirection => maxVarianceDirection
  | dim :: dims, highestVariance, maxVarianceDirection =>
    if calculateVariance centroids dim > highestVariance then
      directionLoop centroids dims (calculateVariance centroids dim) dim
    else
      directionLoop centroids dims highestVariance maxVarianceDirection

/-- Method `SSNode::directionOfMaxVariance`. -/
def SSNode.directionOfMaxVariance (env : Env K) (node : SSNode K) : Nat :=
  directionLoop node.getEntriesCentroids (List.range env.DIM) 0 0

/-- The sum of the two slice variances computed in the body of the loop of
`SSNode::minVarianceSplit` for the candidate index `i`; the slices `values[0..i)` and
`values[i..)` are `take i` and `drop i`. -/
def sumVarianceAt (values : List K) (i : Nat) : K :=
  let meanLeft := (values.take i).foldl (fun a b => a + b) 0 / (i : K)
  let meanRight :=
    (values.drop i).foldl (fun a b => a + b) 0 / ((values.length - i : Nat) : K)
  let varLeft := (values.take i).foldl (fun v x => PowAcc.powAcc v (x - meanLeft)) 0
  let varRight := (values.drop i).foldl (fun v x => PowAcc.powAcc v (x - meanRight)) 0
  varLeft + varRight

/-- The loop of `SSNode::minVarianceSplit` over the remaining candidates, with the loop
variables `min_s` and `idx_min`. -/
def minVarianceLoop (values : List K) : List Nat → K → Nat → Nat
  | [], _, idx_min => idx_min
  | i :: is, min_s, idx_min =>
    if sumVarianceAt values i < min_s then
      minVarianceLoop values is (sumVarianceAt values i) i
    else
      minVarianceLoop values is min_s idx_min

/-- Method `SSNode::minVarianceSplit`: candidates `i = m, …, M - m` with `m = 1`. -/
def minVarianceSplit (env : Env K) (maxPointsPerNode : Nat) (values : List K) : Nat :=
  let M := maxPointsPerNode
  let m := 1
  minVarianceLoop values (List.range' m (M + 1 - m - m)) env.FLT_MAX 0

/-- The `std::sort` calls of `SSNode::findSplitIndex`: ascending by `key`.  The order that
`std::sort` gives to entries with equal keys is not specified; the model keeps them in
their original order. -/
def sortByKey {α : Type} (key : α → K) (xs : List α) : List α :=
  List.insertionSort (fun a b => key a ≤ key b) xs

/-- Method `SSNode::findSplitIndex`: it sorts the entries of the node in place and returns
the split index; the model returns the node with its entries sorted together with the
index. -/
def SSNode.findSplitIndex (env : Env K) (node : SSNode K) (coordinateIndex : Nat) :
    SSNode K × Nat :=
  if node.isLeaf then
    let sorted := sortByKey (fun (e : Data K) => e.embedding.get coordinateIndex) node._data
    let coordinateValues := sorted.map (fun entry => entry.embedding.get coordinateIndex)
    (.mk node.maxPointsPerNode node.centroid node.radius node.isLeaf node.children sorted,
      minVarianceSplit env node.maxPointsPerNode coordinateValues)
  else
    let sorted :=
      sortByKey (fun (c : SSNode K) => c.centroid.get coordinateIndex) node.children
    let coordinateValues := sorted.map (fun child => child.centroid.get coordinateIndex)
    (.mk node.maxPointsPerNode node.centroid node.radius node.isLeaf sorted node._data,
      minVarianceSplit env node.maxPointsPerNode coordinateValues)

/-- Method `SSNode::split`: the two new siblings.  (The node being split is sorted and has
its envelope recomputed as well, but every caller drops it.) -/
def SSNode.split (env : Env K) (node : SSNode K) : SSNode K × SSNode K :=
  let splitDimension := node.directionOfMaxVariance env
  let sortedSplit := node.findSplitIndex env splitDimension
  let this := sortedSplit.1
  let splitIndex := sortedSplit.2
  let leftNode : SSNode K :=
    if this.isLeaf then
      .mk this.maxPointsPerNode this.centroid this.radius this.isLeaf []
        (this._data.take splitIndex)
    else
      .mk this.maxPointsPerNode this.centroid this.radius this.isLeaf
        (this.children.take splitIndex) []
  let rightNode : SSNode K :=
    if this.isLeaf then
      .mk this.maxPointsPerNode this.centroid this.radius this.isLeaf []
        (this._data.drop splitIndex)
    else
      .mk this.maxPointsPerNode this.centroid this.radius this.isLeaf
        (this.children.drop splitIndex) []
  (leftNode.updateBoundingEnvelope env, rightNode.updateBoundingEnvelope env)

/-- The tail of `SSNode::insert` once the entries of `node` are in place: recompute the
envelope, then return or split according to the entry count `size`. -/
def finishInsert (env : Env K) (node : SSNode K) (size : Nat) : InsertResult K :=
  let node := node.updateBoundingEnvelope env
  if size ≤ node.maxPointsPerNode then .absorbed node
  else
    let p := node.split env
    .split p.1 p.2

mutual
/-- Method `SSNode::insert`. -/
def SSNode.insert (env : Env K) : SSNode K → Data K → Except Failure (InsertResult K)
  | .mk M centroid radius isLeaf children _data, data =>
    if isLeaf then
      if containsPtr _data data then
        .ok (.absorbed (.mk M centroid radius isLeaf children _data))
      else
        .ok (finishInsert env (.mk M centroid radius isLeaf children (_data ++ [data]))
              (_data.length + 1))
    else
      match findClosestChild env children data.embedding with
      | .error e => .error e
      | .ok closestChild =>
        match insertChildAt env children closestChild data with
        | .error e => .error e
        | .ok (children, none) =>
          .ok (.absorbed
                ((SSNode.mk M centroid radius isLeaf children _data).updateBoundingEnvelope env))
        | .ok (children, some (leftSplit, rightSplit)) =>
          .ok (finishInsert env
                (.mk M centroid radius isLeaf (children ++ [leftSplit, rightSplit]) _data)
                (children.length + 2))
/-- The recursive call `insert(closestChild, data)` of `SSNode::insert` on the child at
position `closestChild`, with its effect on the child vector: if the child absorbed the
record it stays in place in its new state; if it split it is erased from the vector (the
`std::find` and `erase` of the caller) and the two siblings are returned. -/
def insertChildAt (env : Env K) :
    List (SSNode K) → Nat → Data K →
      Except Failure (List (SSNode K) × Option (SSNode K × SSNode K))
  | [], _, _ => .error .emptyRange
  | child :: rest, 0, data =>
    match SSNode.insert env child data with
    | .error e => .error e
    | .ok (.absorbed child) => .ok (child :: rest, none)
    | .ok (.split leftSplit rightSplit) => .ok (rest, some (leftSplit, rightSplit))
  | child :: rest, closestChild + 1, data =>
    match insertChildAt env rest closestChild data with
    | .error e => .error e
    | .ok (rest, r) => .ok (child :: rest, r)
end

/-- Method `SSTree::insert`. -/
def SSTree.insert (env : Env K) (tree : SSTree K) (_data : Data K) :
    Except Failure (SSTree K) :=
  let root : SSNode K :=
    match tree.root with
    | none => .mk tree.maxPointsPerNode _data.embedding 0 true [] []
    | some root => root
  match root.insert env _data with
  | .error e => .error e
  | .ok (.absorbed root) => .ok ⟨some root, tree.maxPointsPerNode⟩
  | .ok (.split n1 n2) =>
    .ok ⟨some (.mk tree.maxPointsPerNode _data.embedding 0 false [n1, n2] []),
          tree.maxPointsPerNode⟩

/-- The constructor `SSTree(maxPointsPerNode)`: an empty tree. -/
def SSTree.empty (maxPointsPerNode : Nat) : SSTree K := ⟨none, maxPointsPerNode⟩

/-- The driver loop of `main`: `for (d : data) tree.insert(d)`. -/
def SSTree.insertAll (env : Env K) : SSTree K → List (Data K) → Except Failure (SSTree K)
  | tree, [] => .ok tree
  | tree, d :: ds =>
    match tree.insert env d with
    | .error e => .error e
    | .ok tree => SSTree.insertAll env tree ds

/-- A tree built by inserting the records `R`, in order, into an empty tree with branching
factor `M`. -/
def SSTree.build (env : Env K) (M : Nat) (R : List (Data K)) : Except Failure (SSTree K) :=
  SSTree.insertAll env (SSTree.empty M) R

mutual
/-- Method `SSNode::search`. -/
def SSNode.search (env : Env K) : SSNode K → Data K → Option (SSNode K)
  | .mk M centroid radius isLeaf children _data, data =>
    if isLeaf then
      if containsPtr _data data then some (.mk M centroid radius isLeaf children _data)
      else none
    else searchChildren env children data
/-- The loop over `node->children` of `SSNode::search`. -/
def searchChildren (env : Env K) : List (SSNode K) → Data K → Option (SSNode K)
  | [], _ => none
  | child :: rest, data =>
    if child.intersectsPoint env data.embedding then
      match SSNode.search env child data with
      | some ans => some ans
      | none => searchChildren env rest data
    else searchChildren env rest data
end

/-- Method `SSTree::search`: `root->search(root, _data)` reads through `root`. -/
def SSTree.search (env : Env K) (tree : SSTree K) (_data : Data K) :
    Except Failure (Option (SSNode K)) :=
  match tree.root with
  | none => .error .nullRoot
  | some root => .ok (root.search env _data)

/-- The comparator `compare` of the node queue of `SSTree::knn`. -/
def nodeCompare (a b : SSNode K × K) : Bool := decide (a.2 > b.2)

/-- The comparator `dataCompare` of the result heap of `SSTree::knn`. -/
def dataCompare (env : Env K) (query : Point K) (a b : Data K) : Bool :=
  decide (Point.distance env a.embedding query < Point.distance env b.embedding query)

/-- The distance of `nearestNeighbors.top()` to the query; `none` when the heap is
empty. -/
def topDistance (env : Env K) (query : Point K) (nearestNeighbors : List (Data K)) :
    Option K :=
  match pqTop (dataCompare env query) nearestNeighbors with
  | none => none
  | some i =>
    match nearestNeighbors.get? i with
    | none => none
    | some top => some (Point.distance env top.embedding query)

/-- The pruning test of `SSTree::knn`:
`!nearestNeighbors.empty() && d > nearestNeighbors.top()->getEmbedding().distance(query)`. -/
def pruned (env : Env K) (query : Point K) (nearestNeighbors : List (Data K)) (d : K) :
    Bool :=
  match topDistance env query nearestNeighbors with
  | none => false
  | some t => decide (d > t)

/-- The loop over the records of a leaf in `SSTree::knn`. -/
def scanLeaf (env : Env K) (query : Point K) (k : Nat) :
    List (Data K) → List (Data K) → Except Failure (List (Data K))
  | [], nearestNeighbors => .ok nearestNeighbors
  | data :: rest, nearestNeighbors =>
    let dataDistance := Point.distance env data.embedding query
    if nearestNeighbors.length < k then
      scanLeaf env query k rest (nearestNeighbors ++ [data])
    else
      match pqTop (dataCompare env query) nearestNeighbors, topDistance env query nearestNeighbors with
      | some i, some t =>
        if dataDistance < t then
          scanLeaf env query k rest (nearestNeighbors.eraseIdx i ++ [data])
        else
          scanLeaf env query k rest nearestNeighbors
      | _, _ => .error .emptyHeap

/-- The loop over the children of an internal node in `SSTree::knn`. -/
def enqueueChildren (env : Env K) (query : Point K) (nearestNeighbors : List (Data K)) :
    List (SSNode K) → List (SSNode K × K) → List (SSNode K × K)
  | [], nodeQueue => nodeQueue
  | child :: rest, nodeQueue =>
    let childDistance := Point.distance env query child.centroid - child.radius
    if pruned env query nearestNeighbors childDistance then
      enqueueChildren env query nearestNeighbors rest nodeQueue
    else
      enqueueChildren env query nearestNeighbors rest (nodeQueue ++ [(child, childDistance)])

/-- The `while (!nodeQueue.empty())` loop of `SSTree::knn`; `fuel` bounds the number of
iterations. -/
def knnLoop (env : Env K) (query : Point K) (k : Nat) :
    Nat → List (SSNode K × K) → List (Data K) → Except Failure (List (Data K))
  | _, [], nearestNeighbors => .ok nearestNeighbors
  | 0, _ :: _, _ => .error .outOfFuel
  | fuel + 1, e :: es, nearestNeighbors =>
    match pqTop nodeCompare (e :: es) with
    | none => .error .emptyHeap
    | some i =>
      match (e :: es).get? i with
      | none => .error .emptyHeap
      | some (currentNode, nodeDistance) =>
        let nodeQueue := (e :: es).eraseIdx i
        if pruned env query nearestNeighbors nodeDistance then
          knnLoop env query k fuel nodeQueue nearestNeighbors
        else if currentNode.isLeaf then
          match scanLeaf env query k currentNode._data nearestNeighbors with
          | .error err => .error err
          | .ok nearestNeighbors => knnLoop env query k fuel nodeQueue nearestNeighbors
        else
          knnLoop env query k fuel
            (enqueueChildren env query nearestNeighbors currentNode.children nodeQueue)
            nearestNeighbors

/-- Method `SSTree::knn`.  Every node enters the node queue at most once, so the number
of nodes of the tree is enough fuel for the loop. -/
def SSTree.knn (env : Env K) (tree : SSTree K) (query : Point K) (k : Nat) :
    Except Failure (List (Data K)) :=
  match tree.root with
  | none => .ok []
  | some root =>
    match knnLoop env query k (countNodes root)
        [(root, Point.distance env query root.centroid - root.radius)] [] with
    | .error e => .error e
    | .ok nearestNeighbors =>
      .ok (drain (dataCompare env query) nearestNeighbors.length nearestNeighbors).reverse

/-- Test helper `sphereCoversAllPointsDFS` of `main.cpp`. -/
def sphereCoversAllPointsDFS (env : Env K) (node : SSNode K) : Bool :=
  if !node.isLeaf then true
  else
    node._data.all
      (fun data => !decide (Point.distance env node.centroid data.embedding > node.radius))

mutual
/-- Test helper `dfsSphereCoversAllPoints` of `main.cpp`. -/
def dfsSphereCoversAllPoints (env : Env K) : SSNode K → Bool
  | .mk M centroid radius isLeaf children _data =>
    if isLeaf then sphereCoversAllPointsDFS env (.mk M centroid radius isLeaf children _data)
    else dfsSphereCoversAllPointsChildren env children
/-- The loop over the children in `dfsSphereCoversAllPoints`. -/
def dfsSphereCoversAllPointsChildren (env : Env K) : List (SSNode K) → Bool
  | [] => true
  | child :: rest =>
    if !dfsSphereCoversAllPoints env child then false
    else dfsSphereCoversAllPointsChildren env rest
end

/-- Test `sphereCoversAllPoints` of `main.cpp`. -/
def sphereCoversAllPoints (env : Env K) (root : SSNode K) : Bool :=
  dfsSphereCoversAllPoints env root

/-- Test helper `sphereCoversAllChildrenSpheresDFS` of `main.cpp`. -/
def sphereCoversAllChildrenSpheresDFS (env : Env K) (node : SSNode K) : Bool :=
  if node.isLeaf then true
  else
    node.children.all
      (fun child =>
        !decide (Point.distance env node.centroid child.centroid + child.radius > node.radius))

mutual
/-- Test helper `dfsSphereCoversAllChildrenSpheres` of `main.cpp`. -/
def dfsSphereCoversAllChildrenSpheres (env : Env K) : SSNode K → Bool
  | .mk M centroid radius isLeaf children _data =>
    if !sphereCoversAllChildrenSpheresDFS env (.mk M centroid radius isLeaf children _data)
    then false
    else dfsSphereCoversAllChildrenSpheresLoop env children
/-- The loop over the children in `dfsSphereCoversAllChildrenSpheres`. -/
def dfsSphereCoversAllChildrenSpheresLoop (env : Env K) : List (SSNode K) → Bool
  | [] => true
  | child :: rest =>
    if !dfsSphereCoversAllChildrenSpheres env child then false
    else dfsSphereCoversAllChildrenSpheresLoop env rest
end

/-- Test `sphereCoversAllChildrenSpheres` of `main.cpp`. -/
def sphereCoversAllChildrenSpheres (env : Env K) (root : SSNode K) : Bool :=
  dfsSphereCoversAllChildrenSpheres env root

/-- The sphere of a leaf covers the records of the leaf (no condition on an internal
node). -/
def leafCovered (env : Env K) (node : SSNode K) : Prop :=
  node.isLeaf = true →
    ∀ r ∈ node._data, Point.distance env node.centroid r.embedding ≤ node.radius

/-- The environment of the repository over the rationals: `DIM = 768`, the exact rational
square root (`Rat.sqrt`, exact on squares) and the largest finite binary32 value. -/
def envQ : Env ℚ := ⟨768, Rat.sqrt, 2 ^ 128 - 2 ^ 104⟩

/-- The point `(x, 0, …, 0)` of dimension 768. -/
def axisPoint (x : ℚ) : Point ℚ := ⟨x :: List.replicate 767 0⟩

/-- A record at address `addr` whose embedding is `(x, 0, …, 0)`. -/
def axisRecord (addr : Nat) (x : ℚ) : Data ℚ := ⟨addr, axisPoint x, ""⟩

/-- Three records on the first coordinate axis, at 0, 10 and 11. -/
def threeRecords : List (Data ℚ) := [axisRecord 1 0, axisRecord 2 10, axisRecord 3 11]

/-- The square root of the environment is the exact one: non-negative, and it squares
back to its argument on non-negative arguments. -/
structure Env.Exact (env : Env K) : Prop where
  sqrt_nonneg : ∀ x, 0 ≤ env.sqrt x
  sqrt_mul_self : ∀ x, 0 ≤ x → env.sqrt x * env.sqrt x = x

/-- The envelope of a node is consistent with its entries: the centroid has `DIM`
coordinates, the sphere of a leaf covers its records, and the sphere of an internal node
covers the spheres of its children. -/
def envelopeSound (env : Env K) (node : SSNode K) : Prop :=
  node.centroid.coordinates_.length = env.DIM ∧
  (node.isLeaf = true →
    ∀ r ∈ node._data, Point.distance env node.centroid r.embedding ≤ node.radius) ∧
  (node.isLeaf = false →
    ∀ c ∈ node.children,
      Point.distance env node.centroid c.centroid + c.radius ≤ node.radius)

/-- The point `p` seen in a space with `n` more dimensions: `n` zero coordinates are
appended. -/
def liftPoint (n : Nat) (p : Point K) : Point K :=
  ⟨p.coordinates_ ++ List.replicate n 0⟩

/-- The record `d` with its embedding padded by `n` zero coordinates. -/
def liftData (n : Nat) (d : Data K) : Data K :=
  ⟨d.addr, liftPoint n d.embedding, d.path⟩

mutual
/-- The subtree `node` with every centroid and embedding padded by `n` zero
coordinates. -/
def liftNode (n : Nat) : SSNode K → SSNode K
  | .mk M centroid radius isLeaf children _data =>
    .mk M (liftPoint n centroid) radius isLeaf (liftNodes n children)
      (_data.map (liftData n))
/-- The padding of a list of subtrees. -/
def liftNodes (n : Nat) : List (SSNode K) → List (SSNode K)
  | [] => []
  | child :: rest => liftNode n child :: liftNodes n rest
end

/-- The padding of the outcome of `SSNode::insert`. -/
def liftResult (n : Nat) : InsertResult K → InsertResult K
  | .absorbed node => .absorbed (liftNode n node)
  | .split leftSplit rightSplit => .split (liftNode n leftSplit) (liftNode n rightSplit)

/-- The padding of a tree. -/
def liftTree (n : Nat) (tree : SSTree K) : SSTree K :=
  ⟨tree.root.map (liftNode n), tree.maxPointsPerNode⟩

/-- The environment with `n` more dimensions. -/
def Env.widen (env : Env K) (n : Nat) : Env K :=
  ⟨env.DIM + n, env.sqrt, env.FLT_MAX⟩

mutual
/-- Every centroid and every embedding of the subtree has exactly `D` coordinates. -/
def wfNode (D : Nat) : SSNode K → Prop
  | .mk _ centroid _ _ children _data =>
    centroid.coordinates_.length = D ∧
    (∀ d ∈ _data, d.embedding.coordinates_.length = D) ∧
    wfNodes D children
/-- Every centroid and embedding below the listed siblings has exactly `D` coordinates. -/
def wfNodes (D : Nat) : List (SSNode K) → Prop
  | [] => True
  | child :: rest => wfNode D child ∧ wfNodes D rest
end

/-- The padding of what the recursive call of `SSNode::insert` on a child hands back. -/
def liftChildResult (n : Nat) (r : List (SSNode K) × Option (SSNode K × SSNode K)) :
    List (SSNode K) × Option (SSNode K × SSNode K) :=
  (r.1.map (liftNode n),
    match r.2 with
    | none => none
    | some (leftSplit, rightSplit) => some (liftNode n leftSplit, liftNode n rightSplit))

/-- Every embedding and every centroid of the tree has exactly `D` coordinates. -/
def wfTree (D : Nat) (tree : SSTree K) : Prop :=
  ∀ root, tree.root = some root → wfNode D root

/-- The padding of an entry of the node queue of `SSTree::knn`. -/
def liftEntry (n : Nat) (e : SSNode K × K) : SSNode K × K := (liftNode n e.1, e.2)

/-- The environment `envQ` restricted to the first coordinate: `DIM = 1`. -/
def envQ1 : Env ℚ := ⟨1, Rat.sqrt, 2 ^ 128 - 2 ^ 104⟩

/-- The point `(x)` of dimension 1, the first coordinate of `axisPoint x`. -/
def linePoint (x : ℚ) : Point ℚ := ⟨[x]⟩

/-- The record `axisRecord addr x` restricted to the first coordinate. -/
def lineRecord (addr : Nat) (x : ℚ) : Data ℚ := ⟨addr, linePoint x, ""⟩

/-- The records `threeRecords` restricted to the first coordinate. -/
def threeLineRecords : List (Data ℚ) := [lineRecord 1 0, lineRecord 2 10, lineRecord 3 11]

/-- Three records on the first coordinate axis, at 0, 10^20 and 2·10^20 (magnitudes within
the finite range of binary32). -/
def farRecords : List (Data ℚ) :=
  [axisRecord 1 0, axisRecord 2 (10 ^ 20), axisRecord 3 (2 * 10 ^ 20)]

/-- The records `farRecords` restricted to the first coordinate. -/
def farLineRecords : List (Data ℚ) :=
  [lineRecord 1 0, lineRecord 2 (10 ^ 20), lineRecord 3 (2 * 10 ^ 20)]

/-- The computation `r` ends normally with a value that passes the test `p`. -/
def resultIs {α : Type} (r : Except Failure α) (p : α → Bool) : Bool :=
  match r with
  | .ok a => p a
  | .error _ => false

/-- The tree has a root and the root passes the test `p`. -/
def rootIs (tree : SSTree K) (p : SSNode K → Bool) : Bool :=
  match tree.root with
  | some root => p root
  | none => false

/-- The computation `r` fails with the error `e`. -/
def failsWith {α : Type} (r : Except Failure α) (e : Failure) : Bool :=
  match r with
  | .ok _ => false
  | .error e' => decide (e' = e)

end Defs

section SpecWords

variable {K : Type} [LinearOrderedField K]

/-- The arithmetic mean of a list of scalars: their sum divided by their number. -/
def arithmeticMean (xs : List K) : K := xs.sum / (xs.length : K)

/-- The population variance of a list of scalars about its own arithmetic mean: the mean
of the squared deviations (divisor: the number of values). -/
def populationVariance (xs : List K) : K :=
  (xs.map (fun x => (x - arithmeticMean xs) ^ 2)).sum / (xs.length : K)

/-- The quantity that the split index is to minimise: the variance of the slice
`v[0..i)` plus the variance of the slice `v[i..)`. -/
def varianceSumAt (v : List K) (i : Nat) : K :=
  populationVariance (v.take i) + populationVariance (v.drop i)

/-- The `dim`-th coordinates of the entry centroids of a node. -/
def SSNode.entryCoordinates (node : SSNode K) (dim : Nat) : List K :=
  node.getEntriesCentroids.map (fun p => p.get dim)

/-- A record at address `addr` with embedding `(x, 0, …, 0)` and key (path) `key`. -/
def keyRecord (addr : Nat) (x : ℚ) (key : String) : Data ℚ := ⟨addr, axisPoint x, key⟩

/-- Three records on the first coordinate axis, at 0, 4 and 1, in insertion order. -/
def nearRecords : List (Data ℚ) := [axisRecord 1 0, axisRecord 2 4, axisRecord 3 1]

/-- The records `nearRecords` restricted to the first coordinate. -/
def nearLineRecords : List (Data ℚ) := [lineRecord 1 0, lineRecord 2 4, lineRecord 3 1]

/-- The point `(x, y, 0, …, 0)` of dimension 768: two significant coordinates. -/
def planePoint (x y : K) : Point K := ⟨x :: y :: List.replicate 766 0⟩

/-- A record at address `addr` whose embedding is `(x, y, 0, …, 0)`. -/
def planeRecord (addr : Nat) (x y : K) : Data K := ⟨addr, planePoint x y, ""⟩

/-- The five records `(0,0)`, `(10,0)`, `(0,10)`, `(10,10)`, `(5,5)` of the concrete
scenario, in insertion order. -/
def fiveRecords : List (Data K) :=
  [planeRecord 1 0 0, planeRecord 2 10 0, planeRecord 3 0 10, planeRecord 4 10 10,
    planeRecord 5 5 5]

/-- The point `(x, y)` of dimension 2, the significant coordinates of `planePoint x y`. -/
def flatPoint (x y : K) : Point K := ⟨[x, y]⟩

/-- The record `planeRecord addr x y` restricted to its two significant coordinates. -/
def flatRecord (addr : Nat) (x y : K) : Data K := ⟨addr, flatPoint x y, ""⟩

/-- The records `fiveRecords` restricted to their two significant coordinates. -/
def fiveFlatRecords : List (Data K) :=
  [flatRecord 1 0 0, flatRecord 2 10 0, flatRecord 3 0 10, flatRecord 4 10 10,
    flatRecord 5 5 5]

/-- The tree of the concrete scenario on the two significant coordinates: a root with the
leaves `{(0,0), (0,10)}` and `{(5,5), (10,0), (10,10)}`. -/
def scenarioFlatTree (env : Env K) : SSTree K :=
  ⟨some (.mk 4 (flatPoint 5 5) 0 false
    [.mk 4 (flatPoint 0 5) 5 true [] [flatRecord 1 0 0, flatRecord 3 0 10],
      .mk 4 (flatPoint (25 / 3) 5) (env.sqrt (250 / 9)) true []
        [flatRecord 5 5 5, flatRecord 2 10 0, flatRecord 4 10 10]] []), 4⟩

end SpecWords

/-- The exception `std::invalid_argument` thrown by the class `Point`. -/
inductive PointError where
  | invalidArgument
  deriving DecidableEq, Repr

section PointOps

variable {K : Type} [LinearOrderedField K]

/-- The constructor `Point(const Eigen::VectorXf&)` of `Point.cpp`: it throws when the
number of coordinates is not `DIM`. -/
def Point.ofCoordinates (env : Env K) (coordinates : List K) : Except PointError (Point K) :=
  if coordinates.length ≠ env.DIM then .error .invalidArgument
  else .ok ⟨coordinates⟩

/-- The operator `Point::operator/` of `Point.cpp`; `EPSILON` is the constant of `Point.h`
(`1e-8f`). -/
def Point.div (env : Env K) (EPSILON : K) (p : Point K) (scalar : K) :
    Except PointError (Point K) :=
  if |scalar| < EPSILON then .error .invalidArgument
  else Point.ofCoordinates env (p.coordinates_.map (fun x => x / scalar))

/-- The operator `Point::operator/=` of `Point.cpp`: the first component is the state of
`*this` after the call, the second one tells whether the call threw. -/
def Point.divAssign (EPSILON : K) (p : Point K) (scalar : K) :
    Point K × Except PointError Unit :=
  if |scalar| < EPSILON then (p, .error .invalidArgument)
  else (⟨p.coordinates_.map (fun x => x / scalar)⟩, .ok ())

/-- The part of `SSNode::insert` on an internal node that follows the recursive call on the
child at position `closestChild`: if the child absorbed the record it stays in place and
the envelope is recomputed; if it split it is erased, the two siblings are appended and the
node is finished as usual; a failure of the recursive call is passed on. -/
def afterChildInsert (env : Env K) (M : Nat) (centroid : Point K) (radius : K)
    (children : List (SSNode K)) (_data : List (Data K)) (closestChild : Nat) :
    Except Failure (InsertResult K) → Except Failure (InsertResult K)
  | .error e => .error e
  | .ok (.absorbed child) =>
    .ok (.absorbed
          ((SSNode.mk M centroid radius false (children.set closestChild child)
              _data).updateBoundingEnvelope env))
  | .ok (.split leftSplit rightSplit) =>
    .ok (finishInsert env
          (.mk M centroid radius false
            (children.eraseIdx closestChild ++ [leftSplit, rightSplit]) _data)
          ((children.eraseIdx closestChild).length + 2))

/-- The key under which `SSTree::knn` places a node in the node queue: the expression
`query.distance(node->getCentroid()) - node->getRadius()` of its two `emplace` calls. -/
def queueKey (env : Env K) (query : Point K) (node : SSNode K) : K :=
  Point.distance env query node.centroid - node.radius

/-- The end of `SSTree::knn`, after the `while` loop: the result heap is drained and the
answer reversed; a failure of the loop is passed on. -/
def finishKnn (env : Env K) (query : Point K) :
    Except Failure (List (Data K)) → Except Failure (List (Data K))
  | .error e => .error e
  | .ok nearestNeighbors =>
    .ok (drain (dataCompare env query) nearestNeighbors.length nearestNeighbors).reverse

/-- Two leaves, each with one record on the first coordinate axis, at 0 and at 10. -/
def twoLeaves : List (SSNode ℚ) :=
  [.mk 2 (axisPoint 0) 0 true [] [axisRecord 1 0],
    .mk 2 (axisPoint 10) 0 true [] [axisRecord 2 10]]

end PointOps

section QueueRecords

variable {K : Type}

/-- The records held, in their subtrees, by the nodes of a node queue of `SSTree::knn`. -/
def queueRecords {α : Type} (nodeQueue : List (SSNode K × α)) : List (Data K) :=
  (nodeQueue.map (fun e => collectDataDFS e.1)).flatten

end QueueRecords

/-!
## The second draft

The definitions named `Draft.…` follow the second draft of the engine
(`src/src/SSTree.cpp`, `src/src/SSTree.h`).  The draft's `SSNode` constructor leaves the
field `maxPointsPerNode` of a node without a value; the model gives every node the
branching factor of the tree.  The methods `findClosestChild` and `minVarianceSplit` of
the draft are those of the first draft, and the draft's driver has the same
`collectDataDFS`.
-/

/-- How a call into the second draft can end without a result: with the exception thrown
by the class `Point`, or in undefined behaviour. -/
inductive DraftFailure where
  | thrown (e : PointError)
  | undefined (f : Failure)
  deriving DecidableEq, Repr

section Draft

variable {K : Type} [LinearOrderedField K]

/-- The static method `Point::Zero` of `Point.h`. -/
def Point.Zero (env : Env K) : Point K := ⟨List.replicate env.DIM 0⟩

/-- The operator `Point::operator+=` of `Point.cpp`: the state of `*this` after the
call. -/
def Point.addAssign (p other : Point K) : Point K :=
  ⟨List.zipWith (fun x y => x + y) p.coordinates_ other.coordinates_⟩

/-- Method `SSNode::updateBoundingEnvelope` of the second draft.  The division
`n_cent /= size` throws when the node has no entry. -/
def Draft.SSNode.updateBoundingEnvelope (env : Env K) (EPSILON : K) (node : SSNode K) :
    Except DraftFailure (SSNode K) :=
  if node.isLeaf then
    let n_cent :=
      node._data.foldl (fun n_cent data => n_cent.addAssign data.embedding) (Point.Zero env)
    match Point.divAssign EPSILON n_cent (node._data.length : K) with
    | (_, .error e) => .error (.thrown e)
    | (n_cent, .ok _) =>
      let n_rad :=
        node._data.foldl
          (fun n_rad data => max n_rad (Point.distance env n_cent data.embedding)) 0
      .ok (.mk node.maxPointsPerNode n_cent n_rad node.isLeaf node.children node._data)
  else
    let n_cent :=
      node.children.foldl (fun n_cent child => n_cent.addAssign child.centroid)
        (Point.Zero env)
    match Point.divAssign EPSILON n_cent (node.children.length : K) with
    | (_, .error e) => .error (.thrown e)
    | (n_cent, .ok _) =>
      let n_rad :=
        node.children.foldl
          (fun n_rad child =>
            max n_rad (Point.distance env n_cent child.centroid + child.radius)) 0
      .ok (.mk node.maxPointsPerNode n_cent n_rad node.isLeaf node.children node._data)

/-- The entry `med_vals[i]` of `SSNode::directionOfMaxVariance` of the second draft, over
the embeddings of the records of a leaf or the centroids of the children of an internal
node. -/
def Draft.med_vals (points : List (Point K)) (i : Nat) : K :=
  points.foldl (fun sum point => sum + point.get i) 0 / (points.length : K)

/-- The entry `variances[i]` of `SSNode::directionOfMaxVariance` of the second draft: the
sum of the squared deviations, not divided by the number of entries. -/
def Draft.variances (points : List (Point K)) (i : Nat) : K :=
  points.foldl (fun sum point => sum + (point.get i - Draft.med_vals points i) ^ 2) 0

/-- The final loop of `SSNode::directionOfMaxVariance` of the second draft over the
remaining dimensions, with the loop variable `min_idxvar`. -/
def Draft.directionLoop (points : List (Point K)) : List Nat → Nat → Nat
  | [], min_idxvar => min_idxvar
  | i :: is, min_idxvar =>
    if Draft.variances points i > Draft.variances points min_idxvar then
      Draft.directionLoop points is i
    else
      Draft.directionLoop points is min_idxvar

/-- Method `SSNode::directionOfMaxVariance` of the second draft: the loop runs over
`i = 1, …, DIM - 1`. -/
def Draft.SSNode.directionOfMaxVariance (env : Env K) (node : SSNode K) : Nat :=
  let points :=
    if node.isLeaf then node._data.map (fun data => data.embedding)
    else node.children.map (fun child => child.centroid)
  Draft.directionLoop points (List.range' 1 (env.DIM - 1)) 0

/-- Method `SSNode::findSplitIndex` of the second draft: the coordinates are taken in the
order in which the entries stand in the node. -/
def Draft.SSNode.findSplitIndex (env : Env K) (node : SSNode K) (coordinateIndex : Nat) :
    Nat :=
  let vals :=
    if node.isLeaf then node._data.map (fun data => data.embedding.get coordinateIndex)
    else node.children.map (fun child => child.centroid.get coordinateIndex)
  minVarianceSplit env node.maxPointsPerNode vals

/-- The algorithm `std::nth_element` with the position `n` and a comparison of keys.  The
standard fixes the element at position `n` and that no element before it is larger and
none after it is smaller, not the arrangement inside the two parts; the model sorts the
whole range, which is one such arrangement.  With `n` at the end of the range the call
has no effect. -/
def Draft.nth_element {α : Type} (key : α → K) (n : Nat) (xs : List α) : List α :=
  if n < xs.length then sortByKey key xs else xs

/-- Method `SSNode::split` of the second draft: the first component is the state of `*this`
after the call, the second one is the returned node `n_node`. -/
def Draft.SSNode.split (env : Env K) (EPSILON : K) (node : SSNode K) :
    Except DraftFailure (SSNode K × SSNode K) :=
  let dir_split := Draft.SSNode.directionOfMaxVariance env node
  let idx_split := Draft.SSNode.findSplitIndex env node dir_split
  let parts : SSNode K × SSNode K :=
    if node.isLeaf then
      let arranged :=
        Draft.nth_element (fun (a : Data K) => a.embedding.get dir_split) idx_split
          node._data
      (.mk node.maxPointsPerNode node.centroid node.radius node.isLeaf node.children
          (arranged.take idx_split),
        .mk node.maxPointsPerNode (Point.Zero env) 0 node.isLeaf []
          (arranged.drop idx_split))
    else
      let arranged :=
        Draft.nth_element (fun (a : SSNode K) => a.centroid.get dir_split) idx_split
          node.children
      (.mk node.maxPointsPerNode node.centroid node.radius node.isLeaf
          (arranged.take idx_split) node._data,
        .mk node.maxPointsPerNode (Point.Zero env) 0 node.isLeaf
          (arranged.drop idx_split) [])
  match Draft.SSNode.updateBoundingEnvelope env EPSILON parts.1 with
  | .error e => .error e
  | .ok this =>
    match Draft.SSNode.updateBoundingEnvelope env EPSILON parts.2 with
    | .error e => .error e
    | .ok n_node => .ok (this, n_node)

/-- The two ways in which `SSNode::insert` of the second draft ends on a node whose
entries are in place: `updateBoundingEnvelope(); return nullptr;` when `split` is false,
`return split();` otherwise.  The first component of the result is the state of the node
after the call, the second one is the returned pointer (`none` is `nullptr`). -/
def Draft.finish (env : Env K) (EPSILON : K) (node : SSNode K) (split : Bool) :
    Except DraftFailure (SSNode K × Option (SSNode K)) :=
  if split then
    match Draft.SSNode.split env EPSILON node with
    | .error e => .error e
    | .ok (node, s_auxpr) => .ok (node, some s_auxpr)
  else
    match Draft.SSNode.updateBoundingEnvelope env EPSILON node with
    | .error e => .error e
    | .ok node => .ok (node, none)

mutual
/-- Method `SSNode::insert` of the second draft: the first component of the result is the
state of `node` after the call, the second one is the returned pointer (`none` is
`nullptr`).  On a full leaf the method splits the leaf and returns; `data` is not
stored. -/
def Draft.SSNode.insert (env : Env K) (EPSILON : K) :
    SSNode K → Data K → Except DraftFailure (SSNode K × Option (SSNode K))
  | .mk M centroid radius isLeaf children _data, data =>
    if isLeaf then
      if M > _data.length then
        Draft.finish env EPSILON (.mk M centroid radius isLeaf children (_data ++ [data]))
          false
      else
        Draft.finish env EPSILON (.mk M centroid radius isLeaf children _data) true
    else
      match findClosestChild env children data.embedding with
      | .error f => .error (.undefined f)
      | .ok s_auxpr =>
        match Draft.insertChildAt env EPSILON children s_auxpr data with
        | .error e => .error e
        | .ok (children, none) =>
          Draft.finish env EPSILON (.mk M centroid radius isLeaf children _data) false
        | .ok (children, some s_ret) =>
          if children.length < M then
            Draft.finish env EPSILON
              (.mk M centroid radius isLeaf (children ++ [s_ret]) _data) false
          else
            Draft.finish env EPSILON
              (.mk M centroid radius isLeaf (children ++ [s_ret]) _data) true
/-- The recursive call `s_auxpr->insert(s_auxpr, data)` of `SSNode::insert` of the second
draft on the child at position `s_auxpr`: the child vector with that child in its new
state, and the returned pointer. -/
def Draft.insertChildAt (env : Env K) (EPSILON : K) :
    List (SSNode K) → Nat → Data K →
      Except DraftFailure (List (SSNode K) × Option (SSNode K))
  | [], _, _ => .error (.undefined .emptyRange)
  | child :: rest, 0, data =>
    match Draft.SSNode.insert env EPSILON child data with
    | .error e => .error e
    | .ok (child, s_ret) => .ok (child :: rest, s_ret)
  | child :: rest, s_auxpr + 1, data =>
    match Draft.insertChildAt env EPSILON rest s_auxpr data with
    | .error e => .error e
    | .ok (rest, s_ret) => .ok (child :: rest, s_ret)
end

/-- Method `SSTree::insert` of the second draft: the pointer returned by `root->insert` is
dropped in both branches. -/
def Draft.SSTree.insert (env : Env K) (EPSILON : K) (tree : SSTree K) (data : Data K) :
    Except DraftFailure (SSTree K) :=
  let root : SSNode K :=
    match tree.root with
    | none => .mk tree.maxPointsPerNode data.embedding 0 true [] []
    | some root => root
  match Draft.SSNode.insert env EPSILON root data with
  | .error e => .error e
  | .ok (root, _) => .ok ⟨some root, tree.maxPointsPerNode⟩

/-- The loop `for (const auto& d : data) tree.insert(d);` of the draft's driver. -/
def Draft.SSTree.insertAll (env : Env K) (EPSILON : K) :
    SSTree K → List (Data K) → Except DraftFailure (SSTree K)
  | tree, [] => .ok tree
  | tree, d :: rest =>
    match Draft.SSTree.insert env EPSILON tree d with
    | .error e => .error e
    | .ok tree => Draft.SSTree.insertAll env EPSILON tree rest

/-- The draft's driver up to its checks: the records `R` inserted one by one into the
empty tree with branching factor `M`. -/
def Draft.SSTree.build (env : Env K) (EPSILON : K) (M : Nat) (R : List (Data K)) :
    Except DraftFailure (SSTree K) :=
  Draft.SSTree.insertAll env EPSILON (SSTree.empty M) R

mutual
/-- Method `SSNode::search` of the second draft on a node that is not null: on a leaf the
loop over `node->children`, on an internal node the scan of `node->_data` by path. -/
def Draft.SSNode.search : SSNode K → Data K → Option (SSNode K)
  | .mk M centroid radius isLeaf children _data, data =>
    if isLeaf then Draft.searchChildren children data
    else if _data.any (fun d => data.path == d.path) then
      some (.mk M centroid radius isLeaf children _data)
    else none
/-- The loop over `node->children` of `SSNode::search` of the second draft. -/
def Draft.searchChildren : List (SSNode K) → Data K → Option (SSNode K)
  | [], _ => none
  | child :: rest, data =>
    match Draft.SSNode.search child data with
    | some ans => some ans
    | none => Draft.searchChildren rest data
end

/-- Method `SSTree::search` of the second draft, `root->search(root, data)`: with a null
root the body, which reads no field of `*this`, answers `nullptr` in its first
statement. -/
def Draft.SSTree.search (tree : SSTree K) (data : Data K) : Option (SSNode K) :=
  match tree.root with
  | none => none
  | some root => Draft.SSNode.search root data

/-- The constant `EPSILON` of `Point.h`: the binary32 value of the literal `1e-8f`. -/
def EPSILON : ℚ := 11258999 / 2 ^ 50

/-- A tree with an internal root over the two leaves `twoLeaves`. -/
def twoLeafTree : SSTree ℚ := ⟨some (.mk 2 (axisPoint 5) 5 false twoLeaves []), 2⟩

end Draft

/-!
## Binary32 arithmetic

The engine computes in `float`.  `F32` carries the value of a finite binary32 number as a
rational; every operation is the exact operation followed by rounding to the nearest
binary32 number, ties to even (the default rounding of IEEE 754, which `+`, `-`, `*`, `/`
and `sqrt` of the C++ code follow).  Infinities and NaN are not represented: an
operation whose IEEE result is not finite (overflow, division by zero, square root of a
negative number) is outside this model.
-/

/-- The power `2 ^ e` as a rational. -/
def F32.pow2 (e : Int) : ℚ :=
  if 0 ≤ e then ((2 ^ e.toNat : Nat) : ℚ) else 1 / ((2 ^ (-e).toNat : Nat) : ℚ)

/-- The search for the binary logarithm of `n`, by powers of two from `2 ^ (b - 1)`
down: `e` is the exponent found so far, with `2 ^ e ≤ n`. -/
def F32.log2Go (n : Nat) : Nat → Nat → Nat
  | 0, e => e
  | b + 1, e =>
    if 2 ^ (e + 2 ^ b) ≤ n then F32.log2Go n b (e + 2 ^ b) else F32.log2Go n b e

/-- The binary logarithm of a positive natural number `n < 2 ^ 2048`, rounded down: the
`e` with `2 ^ e ≤ n < 2 ^ (e + 1)`. -/
def F32.log2 (n : Nat) : Nat := F32.log2Go n 11 0

/-- The binary exponent of a positive rational `q`: the integer `e` with
`2 ^ e ≤ q < 2 ^ (e + 1)`. -/
def F32.exponent (q : ℚ) : Int :=
  let e0 : Int := (F32.log2 q.num.natAbs : Int) - (F32.log2 q.den : Int)
  if F32.pow2 e0 ≤ q then e0 else e0 - 1

/-- The integer nearest to the non-negative rational `t`, the even one of the two when
`t` lies halfway. -/
def F32.nearestEven (t : ℚ) : Int :=
  let k := t.floor
  let r := t - (k : ℚ)
  if r < 1 / 2 then k
  else if 1 / 2 < r then k + 1
  else if k % 2 = 0 then k else k + 1

/-- Rounding to the nearest number with a significand of `p` bits whose last place is at
least `2 ^ emin`, ties to even. -/
def F32.roundTo (p : Nat) (emin : Int) (q : ℚ) : ℚ :=
  if q = 0 then 0
  else
    let a := if q < 0 then -q else q
    let quantum := F32.pow2 (max (F32.exponent a - ((p : Int) - 1)) emin)
    let m := (F32.nearestEven (a / quantum) : ℚ) * quantum
    if q < 0 then -m else m

/-- Rounding to binary32: 24 bits, last place at least `2 ^ (-149)`. -/
def F32.round (q : ℚ) : ℚ := F32.roundTo 24 (-149) q

/-- Rounding to binary64 (`double`): 53 bits, last place at least `2 ^ (-1074)`. -/
def F32.round64 (q : ℚ) : ℚ := F32.roundTo 53 (-1074) q

/-- The loop of the integer square root, bit by bit from bit `b - 1` down. -/
def F32.isqrtGo (n : Nat) : Nat → Nat → Nat
  | 0, r => r
  | b + 1, r =>
    if (r + 2 ^ b) * (r + 2 ^ b) ≤ n then F32.isqrtGo n b (r + 2 ^ b)
    else F32.isqrtGo n b r

/-- The integer square root: the largest `r` with `r * r ≤ n`. -/
def F32.isqrt (n : Nat) : Nat := F32.isqrtGo n (F32.log2 n / 2 + 1) 0

/-- The square root of a non-negative rational rounded to binary32, ties to even. -/
def F32.sqrtRound (q : ℚ) : ℚ :=
  if q ≤ 0 then 0
  else
    let quantum := F32.pow2 (max (F32.exponent q / 2 - 23) (-149))
    let t := q / (quantum * quantum)
    let k : Nat := F32.isqrt t.floor.toNat
    let mid : ℚ := ((k : ℚ) + 1 / 2) * ((k : ℚ) + 1 / 2)
    let k' : Nat :=
      if t < mid then k
      else if mid < t then k + 1
      else if k % 2 = 0 then k else k + 1
    (k' : ℚ) * quantum

/-- A finite `float` value. -/
structure F32 where
  val : ℚ
  deriving DecidableEq, Repr

/-- A literal such as `2.6f`: the decimal rounded to binary32. -/
def F32.ofRat (q : ℚ) : F32 := ⟨F32.round q⟩

/-- The value `0.0f`. -/
instance F32.instZero : Zero F32 := ⟨⟨0⟩⟩

/-- The operator `+` of `float`. -/
instance F32.instAdd : Add F32 := ⟨fun a b => ⟨F32.round (a.val + b.val)⟩⟩

/-- The operator `-` of `float`. -/
instance F32.instSub : Sub F32 := ⟨fun a b => ⟨F32.round (a.val - b.val)⟩⟩

/-- The operator `*` of `float`. -/
instance F32.instMul : Mul F32 := ⟨fun a b => ⟨F32.round (a.val * b.val)⟩⟩

/-- The operator `/` of `float`. -/
instance F32.instDiv : Div F32 := ⟨fun a b => ⟨F32.round (a.val / b.val)⟩⟩

/-- The conversion of a `size_t` or an `int` to `float`. -/
instance F32.instNatCast : NatCast F32 := ⟨fun n => ⟨F32.round (n : ℚ)⟩⟩

/-- The comparisons of `float`, and `std::max`: the order of the values. -/
instance F32.instLinearOrder : LinearOrder F32 :=
  LinearOrder.lift' F32.val (fun a b h => by cases a; cases b; cases h; rfl)

/-- The statement `acc += std::pow(x, 2)` on `float` values: the square and the sum are
computed in `double`, the sum is then stored as a `float`. -/
instance F32.instPowAcc : PowAcc F32 :=
  ⟨fun acc x => ⟨F32.round (F32.round64 (acc.val + F32.round64 (x.val * x.val)))⟩⟩

/-- Binary32 arithmetic gives zero on zeros. -/
instance F32.instPadLaws : PadLaws F32 :=
  ⟨by decide!, by decide!, by decide!, fun x => by
    show (⟨F32.round (0 / x.val)⟩ : F32) = ⟨0⟩
    rw [zero_div]
    rfl⟩

/-- The function `std::sqrt` on `float`. -/
def F32.sqrt (x : F32) : F32 := ⟨F32.sqrtRound x.val⟩

/-- The largest finite binary32 value, `std::numeric_limits<float>::max()`. -/
def F32.FLT_MAX : F32 := ⟨2 ^ 128 - 2 ^ 104⟩

/-- The environment of the repository in binary32 arithmetic: `DIM = 768`. -/
def envF : Env F32 := ⟨768, F32.sqrt, F32.FLT_MAX⟩

/-- The environment `envF` restricted to the first coordinate: `DIM = 1`. -/
def envF1 : Env F32 := ⟨1, F32.sqrt, F32.FLT_MAX⟩

/-- The point `(x, 0, …, 0)` of dimension 768 in binary32. -/
def axisPointF (x : ℚ) : Point F32 := ⟨F32.ofRat x :: List.replicate 767 0⟩

/-- A record at address `addr` whose embedding is `(x, 0, …, 0)` in binary32. -/
def axisRecordF (addr : Nat) (x : ℚ) : Data F32 := ⟨addr, axisPointF x, ""⟩

/-- The point `(x)` of dimension 1 in binary32. -/
def linePointF (x : ℚ) : Point F32 := ⟨[F32.ofRat x]⟩

/-- The record `axisRecordF addr x` restricted to the first coordinate. -/
def lineRecordF (addr : Nat) (x : ℚ) : Data F32 := ⟨addr, linePointF x, ""⟩

/-- The environment `envF` restricted to the first two coordinates: `DIM = 2`. -/
def envF2 : Env F32 := ⟨2, F32.sqrt, F32.FLT_MAX⟩

/-- The point `(x, y, 0, …, 0)` of dimension 768 in binary32. -/
def planePointF (x y : ℚ) : Point F32 :=
  ⟨F32.ofRat x :: F32.ofRat y :: List.replicate 766 0⟩

/-- A record at address `addr` whose embedding is `(x, y, 0, …, 0)` in binary32. -/
def planeRecordF (addr : Nat) (x y : ℚ) : Data F32 := ⟨addr, planePointF x y, ""⟩

/-- The point `(x, y)` of dimension 2 in binary32. -/
def flatPointF (x y : ℚ) : Point F32 := ⟨[F32.ofRat x, F32.ofRat y]⟩

/-- The record `planeRecordF addr x y` restricted to its first two coordinates. -/
def flatRecordF (addr : Nat) (x y : ℚ) : Data F32 := ⟨addr, flatPointF x y, ""⟩

/-- Four records on the first coordinate axis, at `2.6f`, `6.0f`, `79.2f` and `9.6f`, in
insertion order. -/
def knnRecordsF : List (Data F32) :=
  [axisRecordF 1 (26 / 10), axisRecordF 2 6, axisRecordF 3 (792 / 10),
    axisRecordF 4 (96 / 10)]

/-- The records `knnRecordsF` restricted to the first coordinate. -/
def knnLineRecordsF : List (Data F32) :=
  [lineRecordF 1 (26 / 10), lineRecordF 2 6, lineRecordF 3 (792 / 10),
    lineRecordF 4 (96 / 10)]

/-- Six records on the first coordinate axis, at `4.2f`, `21.9f`, `7.4f`, `13.6f`, `95.7f`
and `37.0f`, in insertion order. -/
def searchRecordsF : List (Data F32) :=
  [axisRecordF 1 (42 / 10), axisRecordF 2 (219 / 10), axisRecordF 3 (74 / 10),
    axisRecordF 4 (136 / 10), axisRecordF 5 (957 / 10), axisRecordF 6 37]

/-- The records `searchRecordsF` restricted to the first coordinate. -/
def searchLineRecordsF : List (Data F32) :=
  [lineRecordF 1 (42 / 10), lineRecordF 2 (219 / 10), lineRecordF 3 (74 / 10),
    lineRecordF 4 (136 / 10), lineRecordF 5 (957 / 10), lineRecordF 6 37]

/-- Three records whose first two coordinates hold the same three values `0.1f`, `0.2f`
and `1.1f` in different orders: `(0.1f, 1.1f)`, `(0.2f, 0.1f)`, `(1.1f, 0.2f)`. -/
def tiedRecordsF : List (Data F32) :=
  [planeRecordF 1 (1 / 10) (11 / 10), planeRecordF 2 (2 / 10) (1 / 10),
    planeRecordF 3 (11 / 10) (2 / 10)]

/-- The records `tiedRecordsF` restricted to their first two coordinates. -/
def tiedFlatRecordsF : List (Data F32) :=
  [flatRecordF 1 (1 / 10) (11 / 10), flatRecordF 2 (2 / 10) (1 / 10),
    flatRecordF 3 (11 / 10) (2 / 10)]

/-- The records `tiedRecordsF` with the first coordinate of the second one lowered to the
next binary32 value, `0.19999999f`: `(0.1f, 1.1f)`, `(0.19999999f, 0.1f)`,
`(1.1f, 0.2f)`. -/
def skewedRecordsF : List (Data F32) :=
  [planeRecordF 1 (1 / 10) (11 / 10), planeRecordF 2 (19999999 / 100000000) (1 / 10),
    planeRecordF 3 (11 / 10) (2 / 10)]

/-- The records `skewedRecordsF` restricted to their first two coordinates. -/
def skewedFlatRecordsF : List (Data F32) :=
  [flatRecordF 1 (1 / 10) (11 / 10), flatRecordF 2 (19999999 / 100000000) (1 / 10),
    flatRecordF 3 (11 / 10) (2 / 10)]

/-- The `dim`-th coordinates of the embeddings of binary32 records, as exact rationals. -/
def exactCoordinates (records : List (Data F32)) (dim : Nat) : List ℚ :=
  records.map (fun r => (r.embedding.get dim).val)

section Basic

variable {K : Type}

@[simp] theorem isLeaf_mk (M : Nat) (c : Point K) (r : K) (l : Bool) (cs : List (SSNode K))
    (d : List (Data K)) : (SSNode.mk M c r l cs d).isLeaf = l := rfl

@[simp] theorem children_mk (M : Nat) (c : Point K) (r : K) (l : Bool) (cs : List (SSNode K))
    (d : List (Data K)) : (SSNode.mk M c r l cs d).children = cs := rfl

@[simp] theorem data_mk (M : Nat) (c : Point K) (r : K) (l : Bool) (cs : List (SSNode K))
    (d : List (Data K)) : (SSNode.mk M c r l cs d)._data = d := rfl

@[simp] theorem centroid_mk (M : Nat) (c : Point K) (r : K) (l : Bool) (cs : List (SSNode K))
    (d : List (Data K)) : (SSNode.mk M c r l cs d).centroid = c := rfl

@[simp] theorem radius_mk (M : Nat) (c : Point K) (r : K) (l : Bool) (cs : List (SSNode K))
    (d : List (Data K)) : (SSNode.mk M c r l cs d).radius = r := rfl

@[simp] theorem maxPointsPerNode_mk (M : Nat) (c : Point K) (r : K) (l : Bool)
    (cs : List (SSNode K)) (d : List (Data K)) :
    (SSNode.mk M c r l cs d).maxPointsPerNode = M := rfl

/-- In exact arithmetic `acc += std::pow(x, 2)` adds the square. -/
@[simp] theorem powAcc_eq {F : Type} [LinearOrderedField F] (acc x : F) :
    PowAcc.powAcc acc x = acc + x ^ 2 := rfl

theorem node_eta (n : SSNode K) :
    SSNode.mk n.maxPointsPerNode n.centroid n.radius n.isLeaf n.children n._data = n := by
  cases n; rfl

theorem collectDataDFS_eq (n : SSNode K) :
    collectDataDFS n = if n.isLeaf then n._data else collectDataDFSChildren n.children := by
  cases n; simp [collectDataDFS]

@[simp] theorem collectDataDFS_mk (M : Nat) (c : Point K) (r : K) (l : Bool)
    (cs : List (SSNode K)) (d : List (Data K)) :
    collectDataDFS (SSNode.mk M c r l cs d) = if l then d else collectDataDFSChildren cs := by
  simp [collectDataDFS]

@[simp] theorem collectDataDFSChildren_nil :
    collectDataDFSChildren ([] : List (SSNode K)) = [] := by
  simp [collectDataDFSChildren]

@[simp] theorem collectDataDFSChildren_cons (c : SSNode K) (cs : List (SSNode K)) :
    collectDataDFSChildren (c :: cs) = collectDataDFS c ++ collectDataDFSChildren cs := by
  simp [collectDataDFSChildren]

theorem collectDataDFSChildren_eq_join (cs : List (SSNode K)) :
    collectDataDFSChildren cs = (cs.map collectDataDFS).flatten := by
  induction cs with
  | nil => simp
  | cons c cs ih => simp [ih]

@[simp] theorem collectDataDFSChildren_append (as bs : List (SSNode K)) :
    collectDataDFSChildren (as ++ bs) = collectDataDFSChildren as ++ collectDataDFSChildren bs := by
  simp [collectDataDFSChildren_eq_join]

theorem collectDataDFSChildren_perm {as bs : List (SSNode K)} (h : as.Perm bs) :
    (collectDataDFSChildren as).Perm (collectDataDFSChildren bs) := by
  rw [collectDataDFSChildren_eq_join, collectDataDFSChildren_eq_join]
  exact (h.map _).flatten

theorem containsPtr_eq_false {ds : List (Data K)} {d : Data K}
    (h : ∀ e ∈ ds, e.addr ≠ d.addr) : containsPtr ds d = false := by
  simp only [containsPtr, List.any_eq_false, beq_iff_eq]
  exact fun e he => h e he

mutual
theorem SSNode.induction_aux {P : SSNode K → Prop}
    (h : ∀ n : SSNode K, (∀ c ∈ n.children, P c) → P n) : ∀ n : SSNode K, P n
  | .mk M c r l cs d => h _ (SSNode.induction_list h cs)
theorem SSNode.induction_list {P : SSNode K → Prop}
    (h : ∀ n : SSNode K, (∀ c ∈ n.children, P c) → P n) :
    ∀ cs : List (SSNode K), ∀ c ∈ cs, P c
  | [], c, hc => by simp at hc
  | x :: xs, c, hc => by
    rcases List.mem_cons.1 hc with rfl | hc
    · exact SSNode.induction_aux h c
    · exact SSNode.induction_list h xs c hc
end

theorem mem_collectDataDFSChildren (cs : List (SSNode K)) (r : Data K) :
    r ∈ collectDataDFSChildren cs ↔ ∃ c ∈ cs, r ∈ collectDataDFS c := by
  induction cs with
  | nil => simp
  | cons c cs ih => simp [ih]

end Basic

section Envelope

variable {K : Type} [Zero K] [Add K] [Sub K] [Mul K] [Div K] [NatCast K] [LinearOrder K]
  [PowAcc K]

@[simp] theorem update_isLeaf (env : Env K) (n : SSNode K) :
    (n.updateBoundingEnvelope env).isLeaf = n.isLeaf := rfl

@[simp] theorem update_children (env : Env K) (n : SSNode K) :
    (n.updateBoundingEnvelope env).children = n.children := rfl

@[simp] theorem update_data (env : Env K) (n : SSNode K) :
    (n.updateBoundingEnvelope env)._data = n._data := rfl

@[simp] theorem update_maxPointsPerNode (env : Env K) (n : SSNode K) :
    (n.updateBoundingEnvelope env).maxPointsPerNode = n.maxPointsPerNode := rfl

@[simp] theorem collectDataDFS_update (env : Env K) (n : SSNode K) :
    collectDataDFS (n.updateBoundingEnvelope env) = collectDataDFS n := by
  rw [collectDataDFS_eq, collectDataDFS_eq]; simp

theorem sortByKey_perm {α : Type} (key : α → K) (xs : List α) :
    (sortByKey key xs).Perm xs := List.perm_insertionSort _ xs

theorem split_leaf (env : Env K) (n : SSNode K) (h : n.isLeaf = true) :
    n.split env =
      (let key := fun (e : Data K) => e.embedding.get (n.directionOfMaxVariance env)
       let sorted := sortByKey key n._data
       let i := minVarianceSplit env n.maxPointsPerNode (sorted.map key)
       ((SSNode.mk n.maxPointsPerNode n.centroid n.radius true []
            (sorted.take i)).updateBoundingEnvelope env,
        (SSNode.mk n.maxPointsPerNode n.centroid n.radius true []
            (sorted.drop i)).updateBoundingEnvelope env)) := by
  simp [SSNode.split, SSNode.findSplitIndex, h]

theorem split_internal (env : Env K) (n : SSNode K) (h : n.isLeaf = false) :
    n.split env =
      (let key := fun (c : SSNode K) => c.centroid.get (n.directionOfMaxVariance env)
       let sorted := sortByKey key n.children
       let i := minVarianceSplit env n.maxPointsPerNode (sorted.map key)
       ((SSNode.mk n.maxPointsPerNode n.centroid n.radius false
            (sorted.take i) []).updateBoundingEnvelope env,
        (SSNode.mk n.maxPointsPerNode n.centroid n.radius false
            (sorted.drop i) []).updateBoundingEnvelope env)) := by
  simp [SSNode.split, SSNode.findSplitIndex, h]

end Envelope

section Completeness

section

variable {K : Type} [Zero K] [Add K] [Sub K] [Mul K] [Div K] [NatCast K] [LinearOrder K]
  [PowAcc K]

theorem collect_split_perm (env : Env K) (n : SSNode K) :
    (collectDataDFS (n.split env).1 ++ collectDataDFS (n.split env).2).Perm
      (collectDataDFS n) := by
  cases hl : n.isLeaf with
  | true =>
    rw [split_leaf env n hl, collectDataDFS_eq n]
    simp only [collectDataDFS_update, collectDataDFS_mk, if_true, hl, List.take_append_drop]
    exact sortByKey_perm _ _
  | false =>
    rw [split_internal env n hl, collectDataDFS_eq n]
    simp only [collectDataDFS_update, collectDataDFS_mk, hl, Bool.false_eq_true, if_false]
    rw [← collectDataDFSChildren_append, List.take_append_drop]
    exact collectDataDFSChildren_perm (sortByKey_perm _ _)

theorem finishInsert_records (env : Env K) (n : SSNode K) (size : Nat) :
    (finishInsert env n size).records.Perm (collectDataDFS n) := by
  unfold finishInsert
  simp only
  split
  · simp [InsertResult.records]
  · simp only [InsertResult.records]
    exact (collect_split_perm env _).trans (by simp)

mutual
theorem insert_records (env : Env K) :
    ∀ (n : SSNode K) (d : Data K) (res : InsertResult K),
      n.insert env d = .ok res → (∀ e ∈ collectDataDFS n, e.addr ≠ d.addr) →
      res.records.Perm (d :: collectDataDFS n)
  | .mk M c r isLeaf children _data, d, res, h, hfresh => by
    unfold SSNode.insert at h
    cases isLeaf with
    | true =>
      simp only [collectDataDFS_mk, if_true] at hfresh
      simp only [if_true, containsPtr_eq_false hfresh] at h
      simp only [Bool.false_eq_true, if_false, Except.ok.injEq] at h
      subst h
      refine (finishInsert_records env _ _).trans ?_
      simp only [collectDataDFS_mk, if_true]
      exact List.perm_append_singleton _ _
    | false =>
      simp only [Bool.false_eq_true, if_false] at h
      simp only [collectDataDFS_mk, Bool.false_eq_true, if_false] at hfresh ⊢
      cases hf : findClosestChild env children d.embedding with
      | error e => simp [hf] at h
      | ok i =>
        simp only [hf] at h
        cases hc : insertChildAt env children i d with
        | error e => simp [hc] at h
        | ok p =>
          have ih := insertChildAt_records env children i d p hc hfresh
          obtain ⟨cs', o⟩ := p
          cases o with
          | none =>
            simp only [hc, Except.ok.injEq] at h
            subst h
            simp only [InsertResult.records, collectDataDFS_update, collectDataDFS_mk,
              Bool.false_eq_true, if_false]
            simpa [childRecords] using ih
          | some lr =>
            obtain ⟨l, r'⟩ := lr
            simp only [hc, Except.ok.injEq] at h
            subst h
            refine (finishInsert_records env _ _).trans ?_
            simp only [collectDataDFS_mk, Bool.false_eq_true, if_false]
            simpa [childRecords] using ih
theorem insertChildAt_records (env : Env K) :
    ∀ (cs : List (SSNode K)) (i : Nat) (d : Data K)
      (p : List (SSNode K) × Option (SSNode K × SSNode K)),
      insertChildAt env cs i d = .ok p → (∀ e ∈ collectDataDFSChildren cs, e.addr ≠ d.addr) →
      (childRecords p).Perm (d :: collectDataDFSChildren cs)
  | [], _, _, _, h, _ => by simp [insertChildAt] at h
  | child :: rest, 0, d, p, h, hfresh => by
    unfold insertChildAt at h
    cases hi : SSNode.insert env child d with
    | error e => simp [hi] at h
    | ok res =>
      have ih := insert_records env child d res hi
        (fun e he => hfresh e (by simp [he]))
      cases res with
      | absorbed child' =>
        simp only [hi, Except.ok.injEq] at h
        subst h
        simp only [childRecords, collectDataDFSChildren_cons, List.append_nil]
        simp only [InsertResult.records] at ih
        exact (ih.append_right _)
      | split l r =>
        simp only [hi, Except.ok.injEq] at h
        subst h
        simp only [childRecords, collectDataDFSChildren_cons]
        simp only [InsertResult.records] at ih
        exact List.perm_append_comm.trans (ih.append_right _)
  | child :: rest, i + 1, d, p, h, hfresh => by
    unfold insertChildAt at h
    cases hi : insertChildAt env rest i d with
    | error e => simp [hi] at h
    | ok q =>
      have ih := insertChildAt_records env rest i d q hi
        (fun e he => hfresh e (by simp [he]))
      obtain ⟨rest', o⟩ := q
      simp only [hi, Except.ok.injEq] at h
      subst h
      simp only [childRecords, collectDataDFSChildren_cons, List.append_assoc] at ih ⊢
      exact ((ih.append_left (collectDataDFS child)).trans List.perm_middle)
end

theorem tree_insert_records (env : Env K) (t t' : SSTree K) (d : Data K)
    (h : t.insert env d = .ok t') (hfresh : ∀ e ∈ t.records, e.addr ≠ d.addr) :
    t'.records.Perm (d :: t.records) := by
  unfold SSTree.insert at h
  simp only at h
  split at h
  · simp at h
  · next root' hi =>
    simp only [Except.ok.injEq] at h
    subst h
    have := insert_records env _ d _ hi
    cases hr : t.root with
    | none =>
      simp only [hr, SSTree.records] at this ⊢
      exact this (by simp)
    | some root =>
      simp only [hr, SSTree.records] at this hfresh ⊢
      exact this hfresh
  · next n1 n2 hi =>
    simp only [Except.ok.injEq] at h
    subst h
    have := insert_records env _ d _ hi
    cases hr : t.root with
    | none =>
      simp only [hr, SSTree.records, InsertResult.records] at this ⊢
      simpa using this (by simp)
    | some root =>
      simp only [hr, SSTree.records, InsertResult.records] at this hfresh ⊢
      simpa using this hfresh

theorem insertAll_records (env : Env K) :
    ∀ (R : List (Data K)) (t t' : SSTree K), SSTree.insertAll env t R = .ok t' →
      ((t.records ++ R).map Data.addr).Nodup → t'.records.Perm (t.records ++ R)
  | [], t, t', h, _ => by
    simp only [SSTree.insertAll, Except.ok.injEq] at h
    subst h
    simp
  | d :: ds, t, t', h, hnd => by
    unfold SSTree.insertAll at h
    cases hi : t.insert env d with
    | error e => simp [hi] at h
    | ok t1 =>
      simp only [hi] at h
      have hfresh : ∀ e ∈ t.records, e.addr ≠ d.addr := by
        intro e he heq
        rw [List.map_append, List.map_cons] at hnd
        have := (List.nodup_append.1 hnd).2.2
        exact this (List.mem_map_of_mem _ he) (by rw [heq]; exact List.mem_cons_self _ _)
      have h1 := tree_insert_records env t t1 d hi hfresh
      have hperm : (t1.records ++ ds).Perm (t.records ++ d :: ds) :=
        (h1.append_right ds).trans (List.perm_middle.symm)
      have hnd1 : ((t1.records ++ ds).map Data.addr).Nodup :=
        ((hperm.map Data.addr).nodup_iff).2 hnd
      exact (insertAll_records env ds t1 t' h hnd1).trans hperm

/-- The depth-first traversal of a tree built from records at distinct addresses is a
permutation of the inserted records. -/
theorem build_records_perm (env : Env K) (M : Nat) (R : List (Data K)) (t : SSTree K)
    (hR : (R.map Data.addr).Nodup) (h : SSTree.build env M R = .ok t) :
    t.records.Perm R := by
  have := insertAll_records env R (SSTree.empty M) t h
    (by simpa [SSTree.records, SSTree.empty] using hR)
  simpa [SSTree.records, SSTree.empty] using this

end

section

variable {K : Type} [LinearOrderedField K]

/-- Claim C6 (completeness).  After the pairwise distinct records `R` (distinct objects,
that is, distinct addresses) have been inserted into an empty tree, the depth-first
traversal of the leaves yields exactly the records of `R`, each of them once: the
traversal is a permutation of `R`.  This holds for every branching factor. -/
theorem claim_C6_completeness (env : Env K) (M : Nat) (R : List (Data K)) (t : SSTree K)
    (hR : (R.map Data.addr).Nodup) (h : SSTree.build env M R = .ok t) :
    t.records.Perm R :=
  build_records_perm env M R t hR h

/-- Witness for claim C6: three distinct records and a root split at `M = 2`. -/
theorem claim_C6_completeness_witness :
    ∃ t, SSTree.build envQ 2 threeRecords = .ok t ∧
      t.records.Perm threeRecords :=
  ⟨_, rfl, claim_C6_completeness envQ 2 _ _ (by decide) rfl⟩

end

end Completeness

section UniformDepth

variable {K : Type}

theorem uniformDepthList_iff (cs : List (SSNode K)) (h : Nat) :
    uniformDepthList cs h = true ↔ ∀ c ∈ cs, uniformDepth c h = true := by
  induction cs with
  | nil => simp [uniformDepthList]
  | cons c cs ih => simp [uniformDepthList, ih]

theorem uniformDepth_mk_leaf (M : Nat) (c : Point K) (r : K) (cs : List (SSNode K))
    (d : List (Data K)) (h : Nat) :
    uniformDepth (SSNode.mk M c r true cs d) h = true ↔ h = 0 := by
  simp [uniformDepth]

theorem uniformDepth_mk_internal (M : Nat) (c : Point K) (r : K) (cs : List (SSNode K))
    (d : List (Data K)) (h : Nat) :
    uniformDepth (SSNode.mk M c r false cs d) h = true ↔
      ∃ h', h = h' + 1 ∧ ∀ x ∈ cs, uniformDepth x h' = true := by
  cases h with
  | zero => simp [uniformDepth]
  | succ h' => simp [uniformDepth, uniformDepthList_iff]

theorem uniformDepth_congr {n m : SSNode K} (hl : n.isLeaf = m.isLeaf)
    (hc : n.children = m.children) (h : Nat) : uniformDepth n h = uniformDepth m h := by
  cases n; cases m
  simp only [isLeaf_mk, children_mk] at hl hc
  subst hl; subst hc
  simp [uniformDepth]

mutual
theorem leafDepths_of_uniform :
    ∀ (n : SSNode K) (h : Nat), uniformDepth n h = true →
      ∀ lvl, ∀ d ∈ leafDepths n lvl, d = lvl + h
  | .mk M c r isLeaf children _data, h, hu, lvl, d, hd => by
    cases isLeaf with
    | true =>
      rw [uniformDepth_mk_leaf] at hu
      simp only [leafDepths, if_true, List.mem_singleton] at hd
      omega
    | false =>
      cases h with
      | zero => simp [uniformDepth] at hu
      | succ h' =>
        simp only [uniformDepth, Bool.false_eq_true, if_false] at hu
        simp only [leafDepths, Bool.false_eq_true, if_false] at hd
        have := leafDepthsChildren_of_uniform children h' hu (lvl + 1) d hd
        omega
theorem leafDepthsChildren_of_uniform :
    ∀ (cs : List (SSNode K)) (h : Nat), uniformDepthList cs h = true →
      ∀ lvl, ∀ d ∈ leafDepthsChildren cs lvl, d = lvl + h
  | [], _, _, _, d, hd => by simp [leafDepthsChildren] at hd
  | c :: cs, h, hu, lvl, d, hd => by
    simp only [uniformDepthList, Bool.and_eq_true] at hu
    simp only [leafDepthsChildren, List.mem_append] at hd
    rcases hd with hd | hd
    · exact leafDepths_of_uniform c h hu.1 lvl d hd
    · exact leafDepthsChildren_of_uniform cs h hu.2 lvl d hd
end

mutual
theorem leavesAtSameLevelDFS_of_uniform :
    ∀ (n : SSNode K) (h : Nat), uniformDepth n h = true →
      ∀ (level leafLevel : Int), (leafLevel = -1 ∨ leafLevel = level + h) →
        (leavesAtSameLevelDFS n level leafLevel).1 = true ∧
        ((leavesAtSameLevelDFS n level leafLevel).2 = -1 ∨
          (leavesAtSameLevelDFS n level leafLevel).2 = level + h)
  | .mk M c r isLeaf children _data, h, hu, level, leafLevel, hll => by
    cases isLeaf with
    | true =>
      rw [uniformDepth_mk_leaf] at hu
      subst hu
      simp only [leavesAtSameLevelDFS, if_true]
      rcases hll with hll | hll
      · subst hll; simp
      · subst hll
        by_cases hlv : level + ((0 : Nat) : Int) = -1 <;> simp [hlv]
    | false =>
      cases h with
      | zero => simp [uniformDepth] at hu
      | succ h' =>
        simp only [uniformDepth, Bool.false_eq_true, if_false] at hu
        simp only [leavesAtSameLevelDFS, Bool.false_eq_true, if_false]
        have := leavesAtSameLevelChildren_of_uniform children h' hu level leafLevel
          (by rcases hll with hll | hll
              · exact Or.inl hll
              · right; rw [hll]; push_cast; ring)
        rcases this with ⟨h1, h2⟩
        refine ⟨h1, ?_⟩
        rcases h2 with h2 | h2
        · exact Or.inl h2
        · right; rw [h2]; push_cast; ring
theorem leavesAtSameLevelChildren_of_uniform :
    ∀ (cs : List (SSNode K)) (h : Nat), uniformDepthList cs h = true →
      ∀ (level leafLevel : Int), (leafLevel = -1 ∨ leafLevel = level + 1 + h) →
        (leavesAtSameLevelChildren cs level leafLevel).1 = true ∧
        ((leavesAtSameLevelChildren cs level leafLevel).2 = -1 ∨
          (leavesAtSameLevelChildren cs level leafLevel).2 = level + 1 + h)
  | [], _, _, level, leafLevel, hll => by
    simp only [leavesAtSameLevelChildren, true_and]
    exact hll
  | c :: cs, h, hu, level, leafLevel, hll => by
    simp only [uniformDepthList, Bool.and_eq_true] at hu
    have hc := leavesAtSameLevelDFS_of_uniform c h hu.1 (level + 1) leafLevel hll
    unfold leavesAtSameLevelChildren
    rcases hres : leavesAtSameLevelDFS c (level + 1) leafLevel with ⟨b, ll⟩
    rw [hres] at hc
    simp only at hc
    rcases hc with ⟨hb, hl2⟩
    subst hb
    simp only
    exact leavesAtSameLevelChildren_of_uniform cs h hu.2 level ll hl2
end

end UniformDepth

section UniformDepthInsert

section

variable {K : Type} [Zero K] [Add K] [Sub K] [Mul K] [Div K] [NatCast K] [LinearOrder K]
  [PowAcc K]

theorem mem_sortByKey {α : Type} (key : α → K) (xs : List α) (x : α) :
    x ∈ sortByKey key xs ↔ x ∈ xs := (sortByKey_perm key xs).mem_iff

@[simp] theorem update_uniformDepth (env : Env K) (n : SSNode K) (h : Nat) :
    uniformDepth (n.updateBoundingEnvelope env) h = uniformDepth n h :=
  uniformDepth_congr (update_isLeaf env n) (update_children env n) h

theorem uniformDepth_eq (n : SSNode K) (h : Nat) :
    uniformDepth n h = true ↔
      if n.isLeaf then h = 0 else ∃ h', h = h' + 1 ∧ ∀ x ∈ n.children, uniformDepth x h' = true := by
  cases n with
  | mk M c r l cs d =>
    cases l with
    | true => simp [uniformDepth_mk_leaf]
    | false => simp [uniformDepth_mk_internal]

theorem split_uniformDepth (env : Env K) (n : SSNode K) (h : Nat)
    (hu : uniformDepth n h = true) :
    uniformDepth (n.split env).1 h = true ∧ uniformDepth (n.split env).2 h = true := by
  rw [uniformDepth_eq] at hu
  cases hl : n.isLeaf with
  | true =>
    simp only [hl, if_true] at hu
    rw [split_leaf env n hl]
    simp [update_uniformDepth, uniformDepth_mk_leaf, hu]
  | false =>
    simp only [hl, Bool.false_eq_true, if_false] at hu
    obtain ⟨h', rfl, hc⟩ := hu
    rw [split_internal env n hl]
    simp only [update_uniformDepth, uniformDepth_mk_internal]
    constructor
    · exact ⟨h', rfl, fun x hx => hc x ((mem_sortByKey _ _ _).1 (List.mem_of_mem_take hx))⟩
    · exact ⟨h', rfl, fun x hx => hc x ((mem_sortByKey _ _ _).1 (List.mem_of_mem_drop hx))⟩

theorem finishInsert_uniformDepth (env : Env K) (n : SSNode K) (size h : Nat)
    (hu : uniformDepth n h = true) :
    (finishInsert env n size).Forall (fun x => uniformDepth x h = true) := by
  unfold finishInsert
  simp only
  split
  · simpa [InsertResult.Forall] using hu
  · simp only [InsertResult.Forall]
    exact split_uniformDepth env _ h (by simpa using hu)

mutual
theorem insert_uniformDepth (env : Env K) :
    ∀ (n : SSNode K) (d : Data K) (res : InsertResult K) (h : Nat),
      n.insert env d = .ok res → uniformDepth n h = true →
      res.Forall (fun x => uniformDepth x h = true)
  | .mk M c r isLeaf children _data, d, res, h, he, hu => by
    unfold SSNode.insert at he
    cases isLeaf with
    | true =>
      simp only [if_true] at he
      split at he
      · simp only [Except.ok.injEq] at he
        subst he
        exact hu
      · simp only [Except.ok.injEq] at he
        subst he
        apply finishInsert_uniformDepth
        rw [uniformDepth_mk_leaf] at hu ⊢
        exact hu
    | false =>
      simp only [Bool.false_eq_true, if_false] at he
      rw [uniformDepth_mk_internal] at hu
      obtain ⟨h', rfl, hc⟩ := hu
      cases hf : findClosestChild env children d.embedding with
      | error e => simp [hf] at he
      | ok i =>
        simp only [hf] at he
        cases hci : insertChildAt env children i d with
        | error e => simp [hci] at he
        | ok p =>
          have ih := insertChildAt_uniformDepth env children i d p h' hci hc
          obtain ⟨cs', o⟩ := p
          cases o with
          | none =>
            simp only [hci, Except.ok.injEq] at he
            subst he
            simp only [InsertResult.Forall, update_uniformDepth, uniformDepth_mk_internal]
            exact ⟨h', rfl, ih.1⟩
          | some lr =>
            obtain ⟨l, r'⟩ := lr
            simp only [hci, Except.ok.injEq] at he
            subst he
            apply finishInsert_uniformDepth
            rw [uniformDepth_mk_internal]
            refine ⟨h', rfl, ?_⟩
            intro x hx
            simp only [List.mem_append, List.mem_cons, List.mem_singleton, List.not_mem_nil,
              or_false] at hx
            rcases hx with hx | rfl | rfl
            · exact ih.1 x hx
            · exact ih.2.1
            · exact ih.2.2
theorem insertChildAt_uniformDepth (env : Env K) :
    ∀ (cs : List (SSNode K)) (i : Nat) (d : Data K)
      (p : List (SSNode K) × Option (SSNode K × SSNode K)) (h : Nat),
      insertChildAt env cs i d = .ok p → (∀ x ∈ cs, uniformDepth x h = true) →
      childForall (fun x => uniformDepth x h = true) p
  | [], _, _, _, _, he, _ => by simp [insertChildAt] at he
  | child :: rest, 0, d, p, h, he, hc => by
    unfold insertChildAt at he
    cases hi : SSNode.insert env child d with
    | error e => simp [hi] at he
    | ok res =>
      have ih := insert_uniformDepth env child d res h hi (hc child (List.mem_cons_self _ _))
      cases res with
      | absorbed child' =>
        simp only [hi, Except.ok.injEq] at he
        subst he
        simp only [InsertResult.Forall] at ih
        refine ⟨?_, trivial⟩
        intro x hx
        rcases List.mem_cons.1 hx with rfl | hx
        · exact ih
        · exact hc x (List.mem_cons_of_mem _ hx)
      | split l r =>
        simp only [hi, Except.ok.injEq] at he
        subst he
        simp only [InsertResult.Forall] at ih
        exact ⟨fun x hx => hc x (List.mem_cons_of_mem _ hx), ih⟩
  | child :: rest, i + 1, d, p, h, he, hc => by
    unfold insertChildAt at he
    cases hi : insertChildAt env rest i d with
    | error e => simp [hi] at he
    | ok q =>
      have ih := insertChildAt_uniformDepth env rest i d q h hi
        (fun x hx => hc x (List.mem_cons_of_mem _ hx))
      obtain ⟨rest', o⟩ := q
      simp only [hi, Except.ok.injEq] at he
      subst he
      refine ⟨?_, ih.2⟩
      intro x hx
      rcases List.mem_cons.1 hx with rfl | hx
      · exact hc _ (List.mem_cons_self _ _)
      · exact ih.1 x hx
end

theorem tree_insert_uniform (env : Env K) (t t' : SSTree K) (d : Data K)
    (he : t.insert env d = .ok t') (hu : treeUniform t) : treeUniform t' := by
  unfold SSTree.insert at he
  simp only at he
  have hroot : ∃ h, uniformDepth (match t.root with
      | none => SSNode.mk t.maxPointsPerNode d.embedding 0 true [] []
      | some root => root) h = true := by
    cases hr : t.root with
    | none => exact ⟨0, by simp [uniformDepth_mk_leaf]⟩
    | some root => exact hu root hr
  obtain ⟨h, hh⟩ := hroot
  split at he
  · simp at he
  · next root' hi =>
    simp only [Except.ok.injEq] at he
    subst he
    have := insert_uniformDepth env _ d _ h hi hh
    intro r hr
    simp only [Option.some.injEq] at hr
    subst hr
    exact ⟨h, this⟩
  · next n1 n2 hi =>
    simp only [Except.ok.injEq] at he
    subst he
    have := insert_uniformDepth env _ d _ h hi hh
    intro r hr
    simp only [Option.some.injEq] at hr
    subst hr
    refine ⟨h + 1, ?_⟩
    rw [uniformDepth_mk_internal]
    refine ⟨h, rfl, ?_⟩
    intro x hx
    simp only [List.mem_cons, List.mem_singleton, List.not_mem_nil, or_false] at hx
    rcases hx with rfl | rfl
    · exact this.1
    · exact this.2

theorem insertAll_uniform (env : Env K) :
    ∀ (R : List (Data K)) (t t' : SSTree K), SSTree.insertAll env t R = .ok t' →
      treeUniform t → treeUniform t'
  | [], t, t', h, hu => by
    simp only [SSTree.insertAll, Except.ok.injEq] at h
    subst h
    exact hu
  | d :: ds, t, t', h, hu => by
    unfold SSTree.insertAll at h
    cases hi : t.insert env d with
    | error e => simp [hi] at h
    | ok t1 =>
      simp only [hi] at h
      exact insertAll_uniform env ds t1 t' h (tree_insert_uniform env t t1 d hi hu)

end

section

variable {K : Type} [LinearOrderedField K]

/-- Claim C7 (uniform depth).  After any sequence of `SSTree::insert` calls on an empty
tree, all leaves of the tree are at the same depth `h` below the root, and the test
`leavesAtSameLevel` of `main.cpp` accepts the tree.  This holds for every branching
factor. -/
theorem claim_C7_uniform_depth (env : Env K) (M : Nat) (R : List (Data K)) (t : SSTree K)
    (root : SSNode K) (h : SSTree.build env M R = .ok t) (hroot : t.root = some root) :
    (∃ depth, ∀ d ∈ leafDepths root 0, d = depth) ∧ leavesAtSameLevel root = true := by
  have hu : treeUniform t :=
    insertAll_uniform env R (SSTree.empty M) t h (by intro r hr; simp [SSTree.empty] at hr)
  obtain ⟨depth, hd⟩ := hu root hroot
  refine ⟨⟨depth, fun d hdm => ?_⟩, ?_⟩
  · have := leafDepths_of_uniform root depth hd 0 d hdm
    omega
  · exact (leavesAtSameLevelDFS_of_uniform root depth hd 0 (-1) (Or.inl rfl)).1

/-- Witness for claim C7: three records and a root split at `M = 2`. -/
theorem claim_C7_uniform_depth_witness :
    ∃ t root,
      SSTree.build envQ 2 threeRecords = .ok t ∧
      t.root = some root ∧
      ((∃ depth, ∀ d ∈ leafDepths root 0, d = depth) ∧ leavesAtSameLevel root = true) :=
  ⟨_, _, rfl, rfl, claim_C7_uniform_depth envQ 2 threeRecords _ _ rfl rfl⟩

end

end UniformDepthInsert

section AllNodes

variable {K : Type}

theorem mem_allNodesList (cs : List (SSNode K)) (x : SSNode K) :
    x ∈ allNodesList cs ↔ ∃ c ∈ cs, x ∈ allNodes c := by
  induction cs with
  | nil => simp [allNodesList]
  | cons c cs ih => simp [allNodesList, ih]

theorem mem_allNodes (n x : SSNode K) :
    x ∈ allNodes n ↔ x = n ∨ (n.isLeaf = false ∧ ∃ c ∈ n.children, x ∈ allNodes c) := by
  cases n with
  | mk M c r l cs d =>
    cases l with
    | true => simp [allNodes]
    | false => simp [allNodes, mem_allNodesList]

theorem self_mem_allNodes (n : SSNode K) : n ∈ allNodes n :=
  (mem_allNodes n n).2 (Or.inl rfl)

theorem mem_allNodes_of_child {n c x : SSNode K} (hl : n.isLeaf = false)
    (hc : c ∈ n.children) (hx : x ∈ allNodes c) : x ∈ allNodes n :=
  (mem_allNodes n x).2 (Or.inr ⟨hl, c, hc, hx⟩)

/-- A node built around entries all of whose subtrees satisfy `P` satisfies `P`
everywhere as soon as it satisfies `P` itself. -/
theorem forall_allNodes_of (P : SSNode K → Prop) (n : SSNode K) (hn : P n)
    (hc : n.isLeaf = false → ∀ c ∈ n.children, ∀ x ∈ allNodes c, P x) :
    ∀ x ∈ allNodes n, P x := by
  intro x hx
  rcases (mem_allNodes n x).1 hx with rfl | ⟨hl, c, hcm, hxc⟩
  · exact hn
  · exact hc hl c hcm x hxc

end AllNodes

section Hereditary

variable {K : Type} [Zero K] [Add K] [Sub K] [Mul K] [Div K] [NatCast K] [LinearOrder K]
  [PowAcc K]

theorem split_allNodes (env : Env K) (P : SSNode K → Prop)
    (hP : ∀ n : SSNode K, P (n.updateBoundingEnvelope env)) (n : SSNode K)
    (hc : n.isLeaf = false → ∀ c ∈ n.children, ∀ x ∈ allNodes c, P x) :
    (∀ x ∈ allNodes (n.split env).1, P x) ∧ (∀ x ∈ allNodes (n.split env).2, P x) := by
  cases hl : n.isLeaf with
  | true =>
    rw [split_leaf env n hl]
    constructor <;>
    · apply forall_allNodes_of P _ (hP _)
      intro h; simp at h
  | false =>
    rw [split_internal env n hl]
    constructor
    · apply forall_allNodes_of P _ (hP _)
      intro _ c hcm
      simp only [update_children, children_mk] at hcm
      exact hc hl c ((mem_sortByKey _ _ _).1 (List.mem_of_mem_take hcm))
    · apply forall_allNodes_of P _ (hP _)
      intro _ c hcm
      simp only [update_children, children_mk] at hcm
      exact hc hl c ((mem_sortByKey _ _ _).1 (List.mem_of_mem_drop hcm))

theorem finishInsert_allNodes (env : Env K) (P : SSNode K → Prop)
    (hP : ∀ n : SSNode K, P (n.updateBoundingEnvelope env)) (n : SSNode K) (size : Nat)
    (hc : n.isLeaf = false → ∀ c ∈ n.children, ∀ x ∈ allNodes c, P x) :
    (finishInsert env n size).Forall (fun m => ∀ x ∈ allNodes m, P x) := by
  unfold finishInsert
  simp only
  split
  · simp only [InsertResult.Forall]
    exact forall_allNodes_of P _ (hP _) (by simpa using hc)
  · simp only [InsertResult.Forall]
    exact split_allNodes env P hP _ (by simpa using hc)

theorem holdsBelow_of_allNodes (P : SSNode K → Prop) (n : SSNode K)
    (h : ∀ x ∈ allNodes n, P x) : holdsBelow P n :=
  ⟨fun _ => h n (self_mem_allNodes n), fun hl c hc x hx => h x (mem_allNodes_of_child hl hc hx)⟩

mutual
/-- Every node that `SSNode::insert` leaves behind is either a node that was there before
or a node whose envelope has just been recomputed; the envelope of the node the call is
made on does not matter unless it is a leaf. -/
theorem insert_below (env : Env K) (P : SSNode K → Prop)
    (hP : ∀ n : SSNode K, P (n.updateBoundingEnvelope env)) :
    ∀ (n : SSNode K) (d : Data K) (res : InsertResult K),
      n.insert env d = .ok res → holdsBelow P n →
      res.Forall (fun m => ∀ x ∈ allNodes m, P x)
  | .mk M c r isLeaf children _data, d, res, he, hn => by
    unfold SSNode.insert at he
    cases isLeaf with
    | true =>
      simp only [if_true] at he
      split at he
      · simp only [Except.ok.injEq] at he
        subst he
        simp only [InsertResult.Forall]
        exact forall_allNodes_of P _ (hn.1 rfl) (by intro h; simp at h)
      · simp only [Except.ok.injEq] at he
        subst he
        apply finishInsert_allNodes env P hP
        intro h; simp at h
    | false =>
      simp only [Bool.false_eq_true, if_false] at he
      have hch : ∀ x ∈ children, ∀ y ∈ allNodes x, P y := hn.2 rfl
      cases hf : findClosestChild env children d.embedding with
      | error e => simp [hf] at he
      | ok i =>
        simp only [hf] at he
        cases hci : insertChildAt env children i d with
        | error e => simp [hci] at he
        | ok p =>
          have ih := insertChildAt_allNodes env P hP children i d p hci hch
          obtain ⟨cs', o⟩ := p
          cases o with
          | none =>
            simp only [hci, Except.ok.injEq] at he
            subst he
            simp only [InsertResult.Forall]
            apply forall_allNodes_of P _ (hP _)
            intro _ x hx
            exact ih.1 x hx
          | some lr =>
            obtain ⟨l, r'⟩ := lr
            simp only [hci, Except.ok.injEq] at he
            subst he
            apply finishInsert_allNodes env P hP
            intro _ x hx
            simp only [children_mk, List.mem_append, List.mem_cons, List.mem_singleton,
              List.not_mem_nil, or_false] at hx
            rcases hx with hx | rfl | rfl
            · exact ih.1 x hx
            · exact ih.2.1
            · exact ih.2.2
theorem insertChildAt_allNodes (env : Env K) (P : SSNode K → Prop)
    (hP : ∀ n : SSNode K, P (n.updateBoundingEnvelope env)) :
    ∀ (cs : List (SSNode K)) (i : Nat) (d : Data K)
      (p : List (SSNode K) × Option (SSNode K × SSNode K)),
      insertChildAt env cs i d = .ok p → (∀ x ∈ cs, ∀ y ∈ allNodes x, P y) →
      childForall (fun m => ∀ y ∈ allNodes m, P y) p
  | [], _, _, _, he, _ => by simp [insertChildAt] at he
  | child :: rest, 0, d, p, he, hc => by
    unfold insertChildAt at he
    cases hi : SSNode.insert env child d with
    | error e => simp [hi] at he
    | ok res =>
      have ih := insert_below env P hP child d res hi
        (holdsBelow_of_allNodes P child (hc child (List.mem_cons_self _ _)))
      cases res with
      | absorbed child' =>
        simp only [hi, Except.ok.injEq] at he
        subst he
        simp only [InsertResult.Forall] at ih
        refine ⟨?_, trivial⟩
        intro x hx
        rcases List.mem_cons.1 hx with rfl | hx
        · exact ih
        · exact hc x (List.mem_cons_of_mem _ hx)
      | split l r =>
        simp only [hi, Except.ok.injEq] at he
        subst he
        simp only [InsertResult.Forall] at ih
        exact ⟨fun x hx => hc x (List.mem_cons_of_mem _ hx), ih⟩
  | child :: rest, i + 1, d, p, he, hc => by
    unfold insertChildAt at he
    cases hi : insertChildAt env rest i d with
    | error e => simp [hi] at he
    | ok q =>
      have ih := insertChildAt_allNodes env P hP rest i d q hi
        (fun x hx => hc x (List.mem_cons_of_mem _ hx))
      obtain ⟨rest', o⟩ := q
      simp only [hi, Except.ok.injEq] at he
      subst he
      refine ⟨?_, ih.2⟩
      intro x hx
      rcases List.mem_cons.1 hx with rfl | hx
      · exact hc _ (List.mem_cons_self _ _)
      · exact ih.1 x hx
end

theorem insert_allNodes (env : Env K) (P : SSNode K → Prop)
    (hP : ∀ n : SSNode K, P (n.updateBoundingEnvelope env)) (n : SSNode K) (d : Data K)
    (res : InsertResult K) (he : n.insert env d = .ok res) (hn : ∀ x ∈ allNodes n, P x) :
    res.Forall (fun m => ∀ x ∈ allNodes m, P x) :=
  insert_below env P hP n d res he (holdsBelow_of_allNodes P n hn)

/-- The insertion into the fresh leaf that `SSTree::insert` creates for an empty tree. -/
theorem insert_fresh_leaf (env : Env K) (P : SSNode K → Prop)
    (hP : ∀ n : SSNode K, P (n.updateBoundingEnvelope env)) (M : Nat) (c : Point K)
    (d : Data K) (res : InsertResult K)
    (he : (SSNode.mk M c 0 true [] []).insert env d = .ok res) :
    res.Forall (fun m => ∀ x ∈ allNodes m, P x) := by
  simp only [SSNode.insert, if_true, containsPtr, List.any_nil, Bool.false_eq_true,
    if_false, Except.ok.injEq] at he
  subst he
  exact finishInsert_allNodes env P hP _ _ (by intro h; simp at h)

/-- Tree level, below the root: after `SSTree::insert` every node other than a freshly
promoted root has the property. -/
theorem tree_insert_below (env : Env K) (P : SSNode K → Prop)
    (hP : ∀ n : SSNode K, P (n.updateBoundingEnvelope env))
    (t t' : SSTree K) (d : Data K) (he : t.insert env d = .ok t')
    (ht : ∀ root, t.root = some root → holdsBelow P root) :
    ∀ root, t'.root = some root → holdsBelow P root := by
  unfold SSTree.insert at he
  simp only at he
  have hres : ∀ res, (match t.root with
      | none => SSNode.mk t.maxPointsPerNode d.embedding 0 true [] []
      | some root => root).insert env d = .ok res →
      res.Forall (fun m => ∀ x ∈ allNodes m, P x) := by
    intro res hi
    cases hr : t.root with
    | none =>
      rw [hr] at hi
      exact insert_fresh_leaf env P hP _ _ d res hi
    | some root =>
      rw [hr] at hi
      exact insert_below env P hP root d res hi (ht root hr)
  split at he
  · simp at he
  · next root' hi =>
    simp only [Except.ok.injEq] at he
    subst he
    intro root hroot
    simp only [Option.some.injEq] at hroot
    subst hroot
    exact holdsBelow_of_allNodes P _ (hres _ hi)
  · next n1 n2 hi =>
    simp only [Except.ok.injEq] at he
    subst he
    intro root hroot
    simp only [Option.some.injEq] at hroot
    subst hroot
    have := hres _ hi
    refine ⟨fun h => by simp at h, fun _ c hc => ?_⟩
    simp only [children_mk, List.mem_cons, List.mem_singleton, List.not_mem_nil,
      or_false] at hc
    rcases hc with rfl | rfl
    · exact this.1
    · exact this.2

theorem insertAll_below (env : Env K) (P : SSNode K → Prop)
    (hP : ∀ n : SSNode K, P (n.updateBoundingEnvelope env)) :
    ∀ (R : List (Data K)) (t t' : SSTree K), SSTree.insertAll env t R = .ok t' →
      (∀ root, t.root = some root → holdsBelow P root) →
      ∀ root, t'.root = some root → holdsBelow P root
  | [], t, t', h, ht => by
    simp only [SSTree.insertAll, Except.ok.injEq] at h
    subst h
    exact ht
  | d :: ds, t, t', h, ht => by
    unfold SSTree.insertAll at h
    cases hi : t.insert env d with
    | error e => simp [hi] at h
    | ok t1 =>
      simp only [hi] at h
      exact insertAll_below env P hP ds t1 t' h (tree_insert_below env P hP t t1 d hi ht)

/-- Tree level: a property that every freshly recomputed node has, and that every
internal node with a given child list has whatever its envelope, holds at every node of
a tree after an insertion if it did before. -/
theorem tree_insert_nodes (env : Env K) (P : SSNode K → Prop)
    (hP : ∀ n : SSNode K, P (n.updateBoundingEnvelope env))
    (hroot : ∀ M c r cs d, P (SSNode.mk M c r false cs d))
    (t t' : SSTree K) (d : Data K) (he : t.insert env d = .ok t')
    (ht : ∀ x ∈ t.nodes, P x) : ∀ x ∈ t'.nodes, P x := by
  unfold SSTree.insert at he
  simp only at he
  split at he
  · simp at he
  · next root' hi =>
    simp only [Except.ok.injEq] at he
    subst he
    simp only [SSTree.nodes]
    cases hr : t.root with
    | none =>
      rw [hr] at hi
      -- the fresh leaf has no entries: the duplicate test fails
      simp only [SSNode.insert, if_true, containsPtr, List.any_nil, Bool.false_eq_true,
        if_false, Except.ok.injEq] at hi
      have := finishInsert_allNodes env P hP
        (SSNode.mk t.maxPointsPerNode d.embedding 0 true [] ([] ++ [d])) (0 + 1)
        (by intro h; simp at h)
      simp only [List.length_nil] at hi
      rw [hi] at this
      exact this
    | some root =>
      rw [hr] at hi
      exact insert_allNodes env P hP root d _ hi (by simpa [SSTree.nodes, hr] using ht)
  · next n1 n2 hi =>
    simp only [Except.ok.injEq] at he
    subst he
    simp only [SSTree.nodes]
    have hsplit : (InsertResult.split n1 n2).Forall (fun m => ∀ x ∈ allNodes m, P x) := by
      cases hr : t.root with
      | none =>
        rw [hr] at hi
        simp only [SSNode.insert, if_true, containsPtr, List.any_nil, Bool.false_eq_true,
          if_false, Except.ok.injEq] at hi
        have := finishInsert_allNodes env P hP
          (SSNode.mk t.maxPointsPerNode d.embedding 0 true [] ([] ++ [d])) (0 + 1)
          (by intro h; simp at h)
        simp only [List.length_nil] at hi
        rw [hi] at this
        exact this
      | some root =>
        rw [hr] at hi
        exact insert_allNodes env P hP root d _ hi (by simpa [SSTree.nodes, hr] using ht)
    apply forall_allNodes_of P _ (hroot _ _ _ _ _)
    intro _ x hx
    simp only [children_mk, List.mem_cons, List.mem_singleton, List.not_mem_nil,
      or_false] at hx
    rcases hx with rfl | rfl
    · exact hsplit.1
    · exact hsplit.2

theorem insertAll_nodes (env : Env K) (P : SSNode K → Prop)
    (hP : ∀ n : SSNode K, P (n.updateBoundingEnvelope env))
    (hroot : ∀ M c r cs d, P (SSNode.mk M c r false cs d)) :
    ∀ (R : List (Data K)) (t t' : SSTree K), SSTree.insertAll env t R = .ok t' →
      (∀ x ∈ t.nodes, P x) → ∀ x ∈ t'.nodes, P x
  | [], t, t', h, ht => by
    simp only [SSTree.insertAll, Except.ok.injEq] at h
    subst h
    exact ht
  | d :: ds, t, t', h, ht => by
    unfold SSTree.insertAll at h
    cases hi : t.insert env d with
    | error e => simp [hi] at h
    | ok t1 =>
      simp only [hi] at h
      exact insertAll_nodes env P hP hroot ds t1 t' h
        (tree_insert_nodes env P hP hroot t t1 d hi ht)

end Hereditary

section LeafCoverage

section

variable {K : Type} [Zero K] [Add K] [Sub K] [Mul K] [Div K] [NatCast K] [LinearOrder K]
  [PowAcc K]

theorem foldl_max_ge {α : Type} (g : α → K) :
    ∀ (l : List α) (init : K),
      init ≤ l.foldl (fun m e => max m (g e)) init ∧
      ∀ e ∈ l, g e ≤ l.foldl (fun m e => max m (g e)) init
  | [], init => by simp
  | a :: l, init => by
    have ih := foldl_max_ge g l (max init (g a))
    simp only [List.foldl_cons, List.mem_cons, forall_eq_or_imp]
    exact ⟨le_trans (le_max_left _ _) ih.1, le_trans (le_max_right _ _) ih.1, ih.2⟩

theorem update_centroid (env : Env K) (n : SSNode K) :
    (n.updateBoundingEnvelope env).centroid =
      ⟨(List.range env.DIM).map (fun dim => calculateMean n.getEntriesCentroids dim)⟩ := rfl

theorem update_radius_leaf (env : Env K) (n : SSNode K) (h : n.isLeaf = true) :
    (n.updateBoundingEnvelope env).radius =
      n._data.foldl
        (fun maxRadius entry =>
          max maxRadius
            (Point.distance env (n.updateBoundingEnvelope env).centroid entry.embedding)) 0 := by
  simp [SSNode.updateBoundingEnvelope, h]

theorem update_radius_internal (env : Env K) (n : SSNode K) (h : n.isLeaf = false) :
    (n.updateBoundingEnvelope env).radius =
      n.children.foldl
        (fun maxRadius child =>
          max maxRadius
            (Point.distance env (n.updateBoundingEnvelope env).centroid child.centroid
              + child.radius)) 0 := by
  simp [SSNode.updateBoundingEnvelope, h]

theorem update_radius_nonneg (env : Env K) (n : SSNode K) :
    0 ≤ (n.updateBoundingEnvelope env).radius := by
  cases h : n.isLeaf with
  | true => rw [update_radius_leaf env n h]; exact (foldl_max_ge _ _ _).1
  | false => rw [update_radius_internal env n h]; exact (foldl_max_ge _ _ _).1

theorem update_leafCovered (env : Env K) (n : SSNode K) :
    leafCovered env (n.updateBoundingEnvelope env) := by
  intro hl r hr
  simp only [update_isLeaf] at hl
  simp only [update_data] at hr
  rw [update_radius_leaf env n hl]
  exact (foldl_max_ge
    (fun (e : Data K) =>
      Point.distance env (n.updateBoundingEnvelope env).centroid e.embedding) _ _).2 r hr

theorem sphereCoversAllPointsDFS_iff (env : Env K) (n : SSNode K) :
    sphereCoversAllPointsDFS env n = true ↔ leafCovered env n := by
  unfold sphereCoversAllPointsDFS leafCovered
  cases h : n.isLeaf with
  | true => simp [not_lt]
  | false => simp

mutual
theorem dfsSphereCoversAllPoints_iff (env : Env K) :
    ∀ n : SSNode K,
      dfsSphereCoversAllPoints env n = true ↔ ∀ x ∈ allNodes n, leafCovered env x
  | .mk M c r isLeaf children _data => by
    cases isLeaf with
    | true =>
      simp only [dfsSphereCoversAllPoints, if_true, sphereCoversAllPointsDFS_iff, allNodes,
        List.mem_singleton, forall_eq]
    | false =>
      simp only [dfsSphereCoversAllPoints, Bool.false_eq_true, if_false, allNodes,
        List.mem_cons, forall_eq_or_imp]
      rw [dfsSphereCoversAllPointsChildren_iff env children]
      constructor
      · intro h
        exact ⟨by intro hl; simp at hl, h⟩
      · exact fun h => h.2
theorem dfsSphereCoversAllPointsChildren_iff (env : Env K) :
    ∀ cs : List (SSNode K),
      dfsSphereCoversAllPointsChildren env cs = true ↔
        ∀ x ∈ allNodesList cs, leafCovered env x
  | [] => by simp [dfsSphereCoversAllPointsChildren, allNodesList]
  | c :: cs => by
    have h1 := dfsSphereCoversAllPoints_iff env c
    have h2 := dfsSphereCoversAllPointsChildren_iff env cs
    unfold dfsSphereCoversAllPointsChildren
    simp only [allNodesList, List.mem_append]
    cases hc : dfsSphereCoversAllPoints env c with
    | true =>
      rw [hc] at h1
      simp only [Bool.not_true, Bool.false_eq_true, if_false]
      rw [h2]
      constructor
      · intro h x hx
        rcases hx with hx | hx
        · exact h1.1 rfl x hx
        · exact h x hx
      · exact fun h x hx => h x (Or.inr hx)
    | false =>
      rw [hc] at h1
      simp only [Bool.not_false, if_true, Bool.false_eq_true, false_iff]
      intro h
      exact absurd (h1.2 (fun x hx => h x (Or.inl hx))) (by simp)
end

end

section

variable {K : Type} [LinearOrderedField K]

/-- Claim C9 (leaf sphere coverage).  After any sequence of `SSTree::insert` calls on an
empty tree, every leaf `L` of the tree satisfies
`dist(L.centroid, r.embedding) ≤ L.radius` for each of its records `r`, and the test
`sphereCoversAllPoints` of `main.cpp` accepts the tree.  This holds for every branching
factor and whatever the square root function is. -/
theorem claim_C9_leaf_sphere_coverage (env : Env K) (M : Nat) (R : List (Data K))
    (t : SSTree K) (root : SSNode K) (h : SSTree.build env M R = .ok t)
    (hroot : t.root = some root) :
    (∀ L ∈ allNodes root, L.isLeaf = true →
      ∀ r ∈ L._data, Point.distance env L.centroid r.embedding ≤ L.radius) ∧
    sphereCoversAllPoints env root = true := by
  have hall : ∀ x ∈ t.nodes, leafCovered env x :=
    insertAll_nodes env (leafCovered env) (update_leafCovered env)
      (fun _ _ _ _ _ hl => by simp at hl) R (SSTree.empty M) t h
      (by intro x hx; simp [SSTree.nodes, SSTree.empty] at hx)
  simp only [SSTree.nodes, hroot] at hall
  exact ⟨hall, (dfsSphereCoversAllPoints_iff env root).2 hall⟩

/-- Witness for claim C9: three records and a root split at `M = 2`. -/
theorem claim_C9_leaf_sphere_coverage_witness :
    ∃ t root,
      SSTree.build envQ 2 threeRecords = .ok t ∧
      t.root = some root ∧
      ((∀ L ∈ allNodes root, L.isLeaf = true →
          ∀ r ∈ L._data, Point.distance envQ L.centroid r.embedding ≤ L.radius) ∧
        sphereCoversAllPoints envQ root = true) :=
  ⟨_, _, rfl, rfl, claim_C9_leaf_sphere_coverage envQ 2 threeRecords _ _ rfl rfl⟩

end

end LeafCoverage

section PriorityQueue

variable {α : Type}

theorem minElementGo_spec (less : α → α → Bool) (hirr : ∀ a, less a a = false)
    (htr : ∀ a b c, less a b = true → less b c = true → less a c = true) :
    ∀ (xs pre : List α) (cur : α) (best : Nat),
      pre.get? best = some cur → (∀ y ∈ pre, less y cur = false) →
      ∃ e, (pre ++ xs).get? (minElementGo less xs pre.length cur best) = some e ∧
        ∀ y ∈ pre ++ xs, less y e = false
  | [], pre, cur, best, hget, hmin => by
    refine ⟨cur, ?_, ?_⟩
    · simpa [minElementGo] using hget
    · simpa using hmin
  | x :: xs, pre, cur, best, hget, hmin => by
    unfold minElementGo
    by_cases hx : less x cur = true
    · simp only [hx, if_true]
      have h1 : (pre ++ [x]).get? pre.length = some x := by simp
      have h2 : ∀ y ∈ pre ++ [x], less y x = false := by
        intro y hy
        rcases List.mem_append.1 hy with hy | hy
        · cases hyx : less y x with
          | false => rfl
          | true =>
            have := htr y x cur hyx hx
            rw [hmin y hy] at this
            exact absurd this (by simp)
        · simp only [List.mem_singleton] at hy
          subst hy
          exact hirr y
      have ih := minElementGo_spec less hirr htr xs (pre ++ [x]) x pre.length h1 h2
      simpa [List.append_assoc] using ih
    · simp only [hx, if_false]
      have h1 : (pre ++ [x]).get? best = some cur := by
        have hb : best < pre.length := by
          by_contra hcon
          rw [List.get?_eq_none.2 (not_lt.1 hcon)] at hget
          exact absurd hget (by simp)
        simp only [List.get?_eq_getElem?] at hget ⊢
        rw [List.getElem?_append_left hb]
        exact hget
      have h2 : ∀ y ∈ pre ++ [x], less y cur = false := by
        intro y hy
        rcases List.mem_append.1 hy with hy | hy
        · exact hmin y hy
        · simp only [List.mem_singleton] at hy
          subst hy
          simpa using hx
      have ih := minElementGo_spec less hirr htr xs (pre ++ [x]) cur best h1 h2
      simpa [List.append_assoc] using ih

theorem minElement_spec (less : α → α → Bool) (hirr : ∀ a, less a a = false)
    (htr : ∀ a b c, less a b = true → less b c = true → less a c = true)
    (l : List α) (hl : l ≠ []) :
    ∃ i e, minElement less l = some i ∧ l.get? i = some e ∧ ∀ y ∈ l, less y e = false := by
  cases l with
  | nil => exact absurd rfl hl
  | cons x xs =>
    have := minElementGo_spec less hirr htr xs [x] x 0 (by simp) (by simpa using hirr x)
    obtain ⟨e, he, hmin⟩ := this
    exact ⟨_, e, rfl, by simpa using he, by simpa using hmin⟩

theorem minElement_eq_none (less : α → α → Bool) (l : List α) :
    minElement less l = none ↔ l = [] := by
  cases l <;> simp [minElement]

/-- The element at `top()` exists in a non-empty queue and no element of the queue is
larger for the comparator. -/
theorem pqTop_spec (comp : α → α → Bool) (hirr : ∀ a, comp a a = false)
    (htr : ∀ a b c, comp a b = true → comp b c = true → comp a c = true)
    (q : List α) (hq : q ≠ []) :
    ∃ i e, pqTop comp q = some i ∧ q.get? i = some e ∧ ∀ y ∈ q, comp e y = false :=
  minElement_spec (fun a b => comp b a) hirr (fun a b c hab hbc => htr c b a hbc hab) q hq

theorem mem_of_get?_eq_some {l : List α} {i : Nat} {e : α} (h : l.get? i = some e) : e ∈ l :=
  List.get?_mem h

theorem drain_subset (comp : α → α → Bool) :
    ∀ (n : Nat) (q : List α), ∀ x ∈ drain comp n q, x ∈ q
  | 0, _, x, hx => by simp [drain] at hx
  | n + 1, q, x, hx => by
    unfold drain at hx
    split at hx
    · simp at hx
    · next i hi =>
      split at hx
      · simp at hx
      · next top ht =>
        rcases List.mem_cons.1 hx with rfl | hx
        · exact mem_of_get?_eq_some ht
        · exact List.mem_of_mem_eraseIdx (drain_subset comp n _ x hx)

/-- Draining a priority queue yields its elements from the largest to the smallest. -/
theorem drain_pairwise (comp : α → α → Bool) (hirr : ∀ a, comp a a = false)
    (htr : ∀ a b c, comp a b = true → comp b c = true → comp a c = true) :
    ∀ (n : Nat) (q : List α), (drain comp n q).Pairwise (fun a b => comp a b = false)
  | 0, _ => by simp [drain]
  | n + 1, q => by
    unfold drain
    by_cases hq : q = []
    · subst hq; simp [pqTop, minElement]
    · obtain ⟨i, e, hi, he, hmax⟩ := pqTop_spec comp hirr htr q hq
      simp only [hi, he]
      refine List.Pairwise.cons ?_ (drain_pairwise comp hirr htr n _)
      intro b hb
      exact hmax b (List.mem_of_mem_eraseIdx (drain_subset comp n _ b hb))

end PriorityQueue

section KnnOrder

variable {K : Type} [Zero K] [Add K] [Sub K] [Mul K] [Div K] [NatCast K] [LinearOrder K]
  [PowAcc K]

theorem dataCompare_irrefl (env : Env K) (query : Point K) (a : Data K) :
    dataCompare env query a a = false := by
  simp [dataCompare]

theorem dataCompare_trans (env : Env K) (query : Point K) (a b c : Data K)
    (hab : dataCompare env query a b = true) (hbc : dataCompare env query b c = true) :
    dataCompare env query a c = true := by
  simp only [dataCompare, decide_eq_true_eq] at *
  exact lt_trans hab hbc

theorem nodeCompare_irrefl (a : SSNode K × K) : nodeCompare a a = false := by
  simp [nodeCompare]

theorem nodeCompare_trans (a b c : SSNode K × K)
    (hab : nodeCompare a b = true) (hbc : nodeCompare b c = true) :
    nodeCompare a c = true := by
  simp only [nodeCompare, decide_eq_true_eq, gt_iff_lt] at *
  exact lt_trans hbc hab

/-- The answer of `SSTree::knn`, the reversed drain of the result heap, is in ascending
order of distance to the query. -/
theorem drain_reverse_sorted (env : Env K) (query : Point K) (nn : List (Data K)) :
    ((drain (dataCompare env query) nn.length nn).reverse).Pairwise
      (fun a b => Point.distance env a.embedding query ≤ Point.distance env b.embedding query) := by
  rw [List.pairwise_reverse]
  refine (drain_pairwise (dataCompare env query) (dataCompare_irrefl env query)
    (dataCompare_trans env query) nn.length nn).imp ?_
  intro a b h
  simpa [dataCompare] using h

end KnnOrder

section KnnTotal

section

variable {K : Type} [Zero K] [Add K] [Sub K] [Mul K] [Div K] [NatCast K] [LinearOrder K]
  [PowAcc K]

theorem countNodes_eq (n : SSNode K) : countNodes n = 1 + countNodesList n.children := by
  cases n; simp [countNodes]

theorem countNodes_pos (n : SSNode K) : 1 ≤ countNodes n := by
  rw [countNodes_eq]; omega

theorem sum_map_eraseIdx {α : Type} (f : α → Nat) :
    ∀ (l : List α) (i : Nat) (e : α), l.get? i = some e →
      ((l.eraseIdx i).map f).sum + f e = (l.map f).sum
  | [], i, e, h => by simp at h
  | x :: xs, 0, e, h => by
    simp only [List.get?_cons_zero, Option.some.injEq] at h
    subst h
    simp [List.eraseIdx]; omega
  | x :: xs, i + 1, e, h => by
    simp only [List.get?_cons_succ] at h
    have := sum_map_eraseIdx f xs i e h
    simp only [List.eraseIdx, List.map_cons, List.sum_cons]
    omega

theorem queueNodes_eraseIdx (q : List (SSNode K × K)) (i : Nat) (e : SSNode K × K)
    (h : q.get? i = some e) : queueNodes (q.eraseIdx i) + countNodes e.1 = queueNodes q :=
  sum_map_eraseIdx (fun (x : SSNode K × K) => countNodes x.1) q i e h

theorem queueNodes_enqueueChildren (env : Env K) (query : Point K) (nn : List (Data K)) :
    ∀ (cs : List (SSNode K)) (q : List (SSNode K × K)),
      queueNodes (enqueueChildren env query nn cs q) ≤ queueNodes q + countNodesList cs
  | [], q => by simp [enqueueChildren, countNodesList]
  | c :: cs, q => by
    unfold enqueueChildren
    simp only
    split
    · have := queueNodes_enqueueChildren env query nn cs q
      simp only [countNodesList]
      omega
    · have := queueNodes_enqueueChildren env query nn cs
        (q ++ [(c, Point.distance env query c.centroid - c.radius)])
      simp only [countNodesList]
      simp only [queueNodes, List.map_append, List.sum_append, List.map_cons, List.map_nil,
        List.sum_cons, List.sum_nil] at this ⊢
      omega

/-- With a non-empty result heap `top()` is defined. -/
theorem heap_top_defined (env : Env K) (query : Point K) (nn : List (Data K)) (hnn : nn ≠ []) :
    ∃ i e, pqTop (dataCompare env query) nn = some i ∧ nn.get? i = some e ∧
      topDistance env query nn = some (Point.distance env e.embedding query) ∧
      ∀ y ∈ nn, Point.distance env y.embedding query ≤ Point.distance env e.embedding query := by
  obtain ⟨i, e, hi, he, hmax⟩ := pqTop_spec (dataCompare env query)
    (dataCompare_irrefl env query) (dataCompare_trans env query) nn hnn
  refine ⟨i, e, hi, he, ?_, ?_⟩
  · simp only [topDistance, hi, he]
  · intro y hy
    simpa [dataCompare] using hmax y hy

/-- For `k ≥ 1` the scan of a leaf never reads the top of an empty heap. -/
theorem scanLeaf_ok (env : Env K) (query : Point K) (k : Nat) (hk : 1 ≤ k) :
    ∀ (ds nn : List (Data K)), ∃ nn', scanLeaf env query k ds nn = .ok nn'
  | [], nn => ⟨nn, by simp [scanLeaf]⟩
  | d :: ds, nn => by
    unfold scanLeaf
    simp only
    by_cases hlen : nn.length < k
    · simp only [hlen, if_true]
      exact scanLeaf_ok env query k hk ds _
    · simp only [hlen, if_false]
      have hnn : nn ≠ [] := by
        intro h; subst h; simp at hlen; omega
      obtain ⟨i, e, hi, _, ht, _⟩ := heap_top_defined env query nn hnn
      simp only [hi, ht]
      split
      · exact scanLeaf_ok env query k hk ds _
      · exact scanLeaf_ok env query k hk ds _

/-- For `k ≥ 1` the loop of `SSTree::knn` ends normally when the fuel is at least the
number of tree nodes held by the queue. -/
theorem knnLoop_ok (env : Env K) (query : Point K) (k : Nat) (hk : 1 ≤ k) :
    ∀ (fuel : Nat) (q : List (SSNode K × K)) (nn : List (Data K)),
      queueNodes q ≤ fuel → ∃ nn', knnLoop env query k fuel q nn = .ok nn'
  | _, [], nn, _ => ⟨nn, by simp [knnLoop]⟩
  | 0, e :: es, nn, hf => by
    have := countNodes_pos e.1
    simp only [queueNodes, List.map_cons, List.sum_cons] at hf
    omega
  | fuel + 1, e :: es, nn, hf => by
    unfold knnLoop
    obtain ⟨i, top, hi, ht, _⟩ := pqTop_spec nodeCompare nodeCompare_irrefl
      nodeCompare_trans (e :: es) (by simp)
    obtain ⟨currentNode, nodeDistance⟩ := top
    have hq := queueNodes_eraseIdx (e :: es) i _ ht
    have hpos := countNodes_pos currentNode
    simp only at hq
    simp only [hi, ht]
    split
    · exact knnLoop_ok env query k hk fuel _ nn (by omega)
    · split
      · obtain ⟨nn1, h1⟩ := scanLeaf_ok env query k hk currentNode._data nn
        simp only [h1]
        exact knnLoop_ok env query k hk fuel _ nn1 (by omega)
      · have h2 := queueNodes_enqueueChildren env query nn currentNode.children
          ((e :: es).eraseIdx i)
        have h3 := countNodes_eq currentNode
        exact knnLoop_ok env query k hk fuel _ nn (by omega)

/-- Method `SSTree::knn` returns for every `k ≥ 1`, and what it returns is the reversed
drain of the result heap that the loop leaves behind. -/
theorem knn_ok (env : Env K) (tree : SSTree K) (query : Point K) (k : Nat) (hk : 1 ≤ k) :
    ∃ res, tree.knn env query k = .ok res := by
  unfold SSTree.knn
  cases hr : tree.root with
  | none => exact ⟨[], rfl⟩
  | some root =>
    simp only
    obtain ⟨nn, hnn⟩ := knnLoop_ok env query k hk (countNodes root)
      [(root, Point.distance env query root.centroid - root.radius)] []
      (by simp [queueNodes])
    simp only [hnn]
    exact ⟨_, rfl⟩

end

section

variable {K : Type} [LinearOrderedField K]

/-- Claim C4 (result order).  For every tree, every query and every `k ≥ 1`,
`SSTree::knn` returns, and the sequence it returns is ordered by non-decreasing distance
to the query (nearest first). -/
theorem claim_C4_knn_sorted (env : Env K) (tree : SSTree K) (query : Point K) (k : Nat)
    (hk : 1 ≤ k) :
    ∃ res, tree.knn env query k = .ok res ∧
      res.Pairwise (fun a b =>
        Point.distance env a.embedding query ≤ Point.distance env b.embedding query) := by
  obtain ⟨res, hres⟩ := knn_ok env tree query k hk
  refine ⟨res, hres, ?_⟩
  unfold SSTree.knn at hres
  cases hr : tree.root with
  | none =>
    simp only [hr, Except.ok.injEq] at hres
    subst hres
    exact List.Pairwise.nil
  | some root =>
    simp only [hr] at hres
    split at hres
    · simp at hres
    · simp only [Except.ok.injEq] at hres
      subst hres
      exact drain_reverse_sorted env query _

end

end KnnTotal

section Metric

section

variable {K : Type} [LinearOrderedField K]

theorem sum_sq_expand (l : List (K × K)) (t : K) :
    (l.map (fun p => (p.1 * t + p.2) * (p.1 * t + p.2))).sum =
      (l.map (fun p => p.1 * p.1)).sum * t * t + 2 * (l.map (fun p => p.1 * p.2)).sum * t
        + (l.map (fun p => p.2 * p.2)).sum := by
  induction l with
  | nil => simp
  | cons p l ih =>
    simp only [List.map_cons, List.sum_cons, ih]
    ring

theorem sum_mul_self_nonneg {α : Type} (f : α → K) (l : List α) :
    0 ≤ (l.map (fun p => f p * f p)).sum := by
  apply List.sum_nonneg
  intro x hx
  obtain ⟨p, _, rfl⟩ := List.mem_map.1 hx
  exact mul_self_nonneg _

/-- The Cauchy-Schwarz inequality for a list of pairs. -/
theorem cauchy_schwarz_pairs (l : List (K × K)) :
    (l.map (fun p => p.1 * p.2)).sum * (l.map (fun p => p.1 * p.2)).sum ≤
      (l.map (fun p => p.1 * p.1)).sum * (l.map (fun p => p.2 * p.2)).sum := by
  have h : ∀ t : K, 0 ≤ (l.map (fun p => p.1 * p.1)).sum * (t * t)
      + 2 * (l.map (fun p => p.1 * p.2)).sum * t + (l.map (fun p => p.2 * p.2)).sum := by
    intro t
    rw [← mul_assoc, ← sum_sq_expand]
    exact sum_mul_self_nonneg (fun p => p.1 * t + p.2) l
  have := @discrim_le_zero K _ _ _ _ h
  unfold discrim at this
  nlinarith [this]

/-- The triangle inequality of the Euclidean norm, for a list of pairs. -/
theorem sqrt_sum_add_le (env : Env K) (hx : env.Exact) (l : List (K × K)) :
    env.sqrt (l.map (fun p => (p.1 + p.2) * (p.1 + p.2))).sum ≤
      env.sqrt (l.map (fun p => p.1 * p.1)).sum + env.sqrt (l.map (fun p => p.2 * p.2)).sum := by
  set A := (l.map (fun p => p.1 * p.1)).sum with hA
  set B := (l.map (fun p => p.2 * p.2)).sum with hB
  set C := (l.map (fun p => p.1 * p.2)).sum with hC
  set S := (l.map (fun p => (p.1 + p.2) * (p.1 + p.2))).sum with hS
  have hA0 : 0 ≤ A := sum_mul_self_nonneg (fun p => p.1) l
  have hB0 : 0 ≤ B := sum_mul_self_nonneg (fun p => p.2) l
  have hS0 : 0 ≤ S := sum_mul_self_nonneg (fun p => p.1 + p.2) l
  have hSeq : S = A + 2 * C + B := by
    have := sum_sq_expand l 1
    simp only [mul_one] at this
    rw [hS, this]
  have hcs : C * C ≤ A * B := cauchy_schwarz_pairs l
  have ha := hx.sqrt_mul_self A hA0
  have hb := hx.sqrt_mul_self B hB0
  have hs := hx.sqrt_mul_self S hS0
  have ha0 := hx.sqrt_nonneg A
  have hb0 := hx.sqrt_nonneg B
  have hs0 := hx.sqrt_nonneg S
  have hC : C ≤ env.sqrt A * env.sqrt B := by
    by_contra hcon
    push_neg at hcon
    have h0 : 0 ≤ env.sqrt A * env.sqrt B := mul_nonneg ha0 hb0
    have : (env.sqrt A * env.sqrt B) * (env.sqrt A * env.sqrt B) < C * C :=
      mul_self_lt_mul_self h0 hcon
    have e : (env.sqrt A * env.sqrt B) * (env.sqrt A * env.sqrt B) = A * B := by
      calc (env.sqrt A * env.sqrt B) * (env.sqrt A * env.sqrt B)
          = (env.sqrt A * env.sqrt A) * (env.sqrt B * env.sqrt B) := by ring
        _ = A * B := by rw [ha, hb]
    rw [e] at this
    exact absurd hcs (not_le.2 this)
  by_contra hcon
  push_neg at hcon
  have h0 : 0 ≤ env.sqrt A + env.sqrt B := add_nonneg ha0 hb0
  have : (env.sqrt A + env.sqrt B) * (env.sqrt A + env.sqrt B) < env.sqrt S * env.sqrt S :=
    mul_self_lt_mul_self h0 hcon
  rw [hs, hSeq] at this
  have e : (env.sqrt A + env.sqrt B) * (env.sqrt A + env.sqrt B)
      = A + 2 * (env.sqrt A * env.sqrt B) + B := by
    calc (env.sqrt A + env.sqrt B) * (env.sqrt A + env.sqrt B)
        = env.sqrt A * env.sqrt A + 2 * (env.sqrt A * env.sqrt B) + env.sqrt B * env.sqrt B := by
          ring
      _ = A + 2 * (env.sqrt A * env.sqrt B) + B := by rw [ha, hb]
  rw [e] at this
  linarith

theorem normSquared_sub_decompose :
    ∀ (a b c : List K), a.length = b.length → b.length = c.length →
      ∃ l : List (K × K),
        (Point.sub ⟨a⟩ ⟨b⟩).normSquared = (l.map (fun p => p.1 * p.1)).sum ∧
        (Point.sub ⟨b⟩ ⟨c⟩).normSquared = (l.map (fun p => p.2 * p.2)).sum ∧
        (Point.sub ⟨a⟩ ⟨c⟩).normSquared = (l.map (fun p => (p.1 + p.2) * (p.1 + p.2))).sum
  | [], b, c, hab, hbc => by
    have hb : b = [] := List.length_eq_zero.1 hab.symm
    subst hb
    have hc : c = [] := List.length_eq_zero.1 hbc.symm
    subst hc
    exact ⟨[], by simp [Point.sub, Point.normSquared]⟩
  | x :: a, [], c, hab, _ => by simp at hab
  | x :: a, y :: b, [], _, hbc => by simp at hbc
  | x :: a, y :: b, z :: c, hab, hbc => by
    simp only [List.length_cons, add_left_inj] at hab hbc
    obtain ⟨l, h1, h2, h3⟩ := normSquared_sub_decompose a b c hab hbc
    refine ⟨(x - y, y - z) :: l, ?_, ?_, ?_⟩
    · simp only [Point.sub, Point.normSquared, List.zipWith_cons_cons, List.map_cons,
        List.sum_cons] at h1 ⊢
      rw [h1]
    · simp only [Point.sub, Point.normSquared, List.zipWith_cons_cons, List.map_cons,
        List.sum_cons] at h2 ⊢
      rw [h2]
    · simp only [Point.sub, Point.normSquared, List.zipWith_cons_cons, List.map_cons,
        List.sum_cons] at h3 ⊢
      rw [h3]
      ring

/-- The triangle inequality of `Point::distance` for points of one dimension. -/
theorem distance_triangle (env : Env K) (hx : env.Exact) (a b c : Point K)
    (hab : a.coordinates_.length = b.coordinates_.length)
    (hbc : b.coordinates_.length = c.coordinates_.length) :
    Point.distance env a c ≤ Point.distance env a b + Point.distance env b c := by
  obtain ⟨a⟩ := a
  obtain ⟨b⟩ := b
  obtain ⟨c⟩ := c
  obtain ⟨l, h1, h2, h3⟩ := normSquared_sub_decompose a b c hab hbc
  simp only [Point.distance, Point.norm, h1, h2, h3]
  exact sqrt_sum_add_le env hx l

theorem normSquared_sub_comm :
    ∀ (a b : List K), (Point.sub ⟨a⟩ ⟨b⟩).normSquared = (Point.sub ⟨b⟩ ⟨a⟩).normSquared
  | [], b => by cases b <;> simp [Point.sub, Point.normSquared]
  | x :: a, [] => by simp [Point.sub, Point.normSquared]
  | x :: a, y :: b => by
    have ih := normSquared_sub_comm a b
    simp only [Point.sub, Point.normSquared, List.zipWith_cons_cons, List.map_cons,
      List.sum_cons] at ih ⊢
    rw [ih]
    ring

/-- Symmetry of `Point::distance`. -/
theorem distance_comm (env : Env K) (a b : Point K) :
    Point.distance env a b = Point.distance env b a := by
  obtain ⟨a⟩ := a
  obtain ⟨b⟩ := b
  simp only [Point.distance, Point.norm, normSquared_sub_comm a b]

end

section

variable {K : Type} [Zero K] [Add K] [Sub K] [Mul K] [Div K] [NatCast K] [LinearOrder K]
  [PowAcc K]

theorem distance_nonneg (env : Env K) (hx : env.Exact) (a b : Point K) :
    0 ≤ Point.distance env a b := hx.sqrt_nonneg _

end

end Metric

section Membership

variable {K : Type} [Zero K] [Add K] [Sub K] [Mul K] [Div K] [NatCast K] [LinearOrder K]
  [PowAcc K]

theorem containsPtr_iff (ds : List (Data K)) (d : Data K) :
    containsPtr ds d = true ↔ ∃ e ∈ ds, e.addr = d.addr := by
  simp [containsPtr]

mutual
theorem insert_mem_records (env : Env K) :
    ∀ (n : SSNode K) (d : Data K) (res : InsertResult K),
      n.insert env d = .ok res → (∀ e ∈ collectDataDFS n, e.addr = d.addr → e = d) →
      ∀ r, r ∈ res.records ↔ (r = d ∨ r ∈ collectDataDFS n)
  | .mk M c r isLeaf children _data, d, res, h, hf, x => by
    unfold SSNode.insert at h
    cases isLeaf with
    | true =>
      simp only [collectDataDFS_mk, if_true] at hf ⊢
      simp only [if_true] at h
      split at h
      · next hc =>
        simp only [Except.ok.injEq] at h
        subst h
        obtain ⟨e, he, hea⟩ := (containsPtr_iff _ _).1 hc
        have := hf e he hea
        subst this
        simp only [InsertResult.records, collectDataDFS_mk, if_true]
        constructor
        · exact fun hx => Or.inr hx
        · rintro (rfl | hx)
          · exact he
          · exact hx
      · simp only [Except.ok.injEq] at h
        subst h
        rw [(finishInsert_records env _ _).mem_iff]
        simp only [collectDataDFS_mk, if_true, List.mem_append, List.mem_singleton]
        tauto
    | false =>
      simp only [Bool.false_eq_true, if_false] at h
      simp only [collectDataDFS_mk, Bool.false_eq_true, if_false] at hf ⊢
      cases hfc : findClosestChild env children d.embedding with
      | error e => simp [hfc] at h
      | ok i =>
        simp only [hfc] at h
        cases hc : insertChildAt env children i d with
        | error e => simp [hc] at h
        | ok p =>
          have ih := insertChildAt_mem_records env children i d p hc hf x
          obtain ⟨cs', o⟩ := p
          cases o with
          | none =>
            simp only [hc, Except.ok.injEq] at h
            subst h
            simp only [InsertResult.records, collectDataDFS_update, collectDataDFS_mk,
              Bool.false_eq_true, if_false]
            simpa [childRecords] using ih
          | some lr =>
            obtain ⟨l, r'⟩ := lr
            simp only [hc, Except.ok.injEq] at h
            subst h
            rw [(finishInsert_records env _ _).mem_iff]
            simp only [collectDataDFS_mk, Bool.false_eq_true, if_false]
            simpa [childRecords] using ih
theorem insertChildAt_mem_records (env : Env K) :
    ∀ (cs : List (SSNode K)) (i : Nat) (d : Data K)
      (p : List (SSNode K) × Option (SSNode K × SSNode K)),
      insertChildAt env cs i d = .ok p →
      (∀ e ∈ collectDataDFSChildren cs, e.addr = d.addr → e = d) →
      ∀ r, r ∈ childRecords p ↔ (r = d ∨ r ∈ collectDataDFSChildren cs)
  | [], _, _, _, h, _, _ => by simp [insertChildAt] at h
  | child :: rest, 0, d, p, h, hf, x => by
    unfold insertChildAt at h
    cases hi : SSNode.insert env child d with
    | error e => simp [hi] at h
    | ok res =>
      have ih := insert_mem_records env child d res hi
        (fun e he => hf e (by simp [he])) x
      cases res with
      | absorbed child' =>
        simp only [hi, Except.ok.injEq] at h
        subst h
        simp only [childRecords, collectDataDFSChildren_cons, List.append_nil, List.mem_append]
        simp only [InsertResult.records] at ih
        rw [ih]; tauto
      | split l r =>
        simp only [hi, Except.ok.injEq] at h
        subst h
        simp only [childRecords, collectDataDFSChildren_cons, List.mem_append]
        simp only [InsertResult.records, List.mem_append] at ih
        rw [ih]; tauto
  | child :: rest, i + 1, d, p, h, hf, x => by
    unfold insertChildAt at h
    cases hi : insertChildAt env rest i d with
    | error e => simp [hi] at h
    | ok q =>
      have ih := insertChildAt_mem_records env rest i d q hi
        (fun e he => hf e (by simp [he])) x
      obtain ⟨rest', o⟩ := q
      simp only [hi, Except.ok.injEq] at h
      subst h
      simp only [childRecords, collectDataDFSChildren_cons, List.mem_append] at ih ⊢
      rw [or_assoc, ih]; tauto
end

theorem tree_insert_mem_records (env : Env K) (t t' : SSTree K) (d : Data K)
    (h : t.insert env d = .ok t') (hf : ∀ e ∈ t.records, e.addr = d.addr → e = d) (r : Data K) :
    r ∈ t'.records ↔ (r = d ∨ r ∈ t.records) := by
  unfold SSTree.insert at h
  simp only at h
  have key : ∀ res, (match t.root with
      | none => SSNode.mk t.maxPointsPerNode d.embedding 0 true [] []
      | some root => root).insert env d = .ok res →
      (r ∈ res.records ↔ (r = d ∨ r ∈ t.records)) := by
    intro res hi
    cases hr : t.root with
    | none =>
      rw [hr] at hi
      have := insert_mem_records env _ d res hi (by simp) r
      simpa [SSTree.records, hr] using this
    | some root =>
      rw [hr] at hi
      have := insert_mem_records env root d res hi (by simpa [SSTree.records, hr] using hf) r
      simpa [SSTree.records, hr] using this
  split at h
  · simp at h
  · next root' hi =>
    simp only [Except.ok.injEq] at h
    subst h
    simpa [SSTree.records, InsertResult.records] using key _ hi
  · next n1 n2 hi =>
    simp only [Except.ok.injEq] at h
    subst h
    simpa [SSTree.records, InsertResult.records] using key _ hi

theorem insertAll_mem_records (env : Env K) :
    ∀ (R : List (Data K)) (t t' : SSTree K), SSTree.insertAll env t R = .ok t' →
      addrFaithful (t.records ++ R) → ∀ r, r ∈ t'.records ↔ (r ∈ t.records ∨ r ∈ R)
  | [], t, t', h, _, r => by
    simp only [SSTree.insertAll, Except.ok.injEq] at h
    subst h
    simp
  | d :: ds, t, t', h, hf, r => by
    unfold SSTree.insertAll at h
    cases hi : t.insert env d with
    | error e => simp [hi] at h
    | ok t1 =>
      simp only [hi] at h
      have hd : ∀ e ∈ t.records, e.addr = d.addr → e = d := fun e he hea =>
        hf e (by simp [he]) d (by simp) hea
      have h1 := tree_insert_mem_records env t t1 d hi hd
      have hf1 : addrFaithful (t1.records ++ ds) := by
        intro a ha b hb hab
        refine hf a ?_ b ?_ hab
        · rcases List.mem_append.1 ha with ha | ha
          · rcases (h1 a).1 ha with rfl | ha
            · simp
            · simp [ha]
          · simp [ha]
        · rcases List.mem_append.1 hb with hb | hb
          · rcases (h1 b).1 hb with rfl | hb
            · simp
            · simp [hb]
          · simp [hb]
      rw [insertAll_mem_records env ds t1 t' h hf1 r, h1 r]
      simp only [List.mem_cons]
      tauto

/-- The records of a built tree are the inserted records (as sets), whether or not a
record was inserted more than once. -/
theorem build_mem_records (env : Env K) (M : Nat) (R : List (Data K)) (t : SSTree K)
    (hf : addrFaithful R) (h : SSTree.build env M R = .ok t) (r : Data K) :
    r ∈ t.records ↔ r ∈ R := by
  have := insertAll_mem_records env R (SSTree.empty M) t h
    (by simpa [SSTree.records, SSTree.empty] using hf) r
  simpa [SSTree.records, SSTree.empty] using this

end Membership

section Soundness

section

variable {K : Type} [Zero K] [Add K] [Sub K] [Mul K] [Div K] [NatCast K] [LinearOrder K]
  [PowAcc K]

theorem update_envelopeSound (env : Env K) (n : SSNode K) :
    envelopeSound env (n.updateBoundingEnvelope env) := by
  refine ⟨?_, update_leafCovered env n, ?_⟩
  · simp [update_centroid]
  · intro hl c hc
    simp only [update_isLeaf] at hl
    simp only [update_children] at hc
    rw [update_radius_internal env n hl]
    exact (foldl_max_ge
      (fun (c : SSNode K) =>
        Point.distance env (n.updateBoundingEnvelope env).centroid c.centroid + c.radius)
      _ _).2 c hc

/-- Below the root of a built tree every envelope is consistent with its entries. -/
theorem build_sound_below (env : Env K) (M : Nat) (R : List (Data K)) (t : SSTree K)
    (h : SSTree.build env M R = .ok t) (root : SSNode K) (hroot : t.root = some root) :
    holdsBelow (envelopeSound env) root :=
  insertAll_below env (envelopeSound env) (update_envelopeSound env) R (SSTree.empty M) t h
    (by intro r hr; simp [SSTree.empty] at hr) root hroot

end

section

variable {K : Type} [LinearOrderedField K]

/-- Containment: a node all of whose descendants have consistent envelopes encloses, in
its sphere, every record of its subtree. -/
theorem encloses_of_sound (env : Env K) (hx : env.Exact) :
    ∀ n : SSNode K, (∀ x ∈ allNodes n, envelopeSound env x) →
      ∀ r ∈ collectDataDFS n, r.embedding.coordinates_.length = env.DIM →
        Point.distance env n.centroid r.embedding ≤ n.radius := by
  intro n
  induction n using SSNode.induction_aux with
  | h n ih =>
    intro hs r hr hlen
    have hn := hs n (self_mem_allNodes n)
    rw [collectDataDFS_eq] at hr
    cases hl : n.isLeaf with
    | true =>
      simp only [hl, if_true] at hr
      exact hn.2.1 hl r hr
    | false =>
      simp only [hl, Bool.false_eq_true, if_false] at hr
      obtain ⟨c, hc, hrc⟩ := (mem_collectDataDFSChildren _ _).1 hr
      have hcs : ∀ x ∈ allNodes c, envelopeSound env x := fun x hxc =>
        hs x (mem_allNodes_of_child hl hc hxc)
      have h1 := ih c hc hcs r hrc hlen
      have h2 := hn.2.2 hl c hc
      have hclen := (hcs c (self_mem_allNodes c)).1
      have h3 := distance_triangle env hx n.centroid c.centroid r.embedding
        (by rw [hn.1, hclen]) (by rw [hclen, hlen])
      linarith

end

section

variable {K : Type} [Zero K] [Add K] [Sub K] [Mul K] [Div K] [NatCast K] [LinearOrder K]
  [PowAcc K]

theorem leaf_data_subset_collect :
    ∀ n : SSNode K, ∀ L ∈ allNodes n, L.isLeaf = true → ∀ e ∈ L._data, e ∈ collectDataDFS n := by
  intro n
  induction n using SSNode.induction_aux with
  | h n ih =>
    intro L hL hleaf e he
    rcases (mem_allNodes n L).1 hL with rfl | ⟨hl, c, hc, hLc⟩
    · rw [collectDataDFS_eq, hleaf]
      exact he
    · rw [collectDataDFS_eq, hl]
      simp only [Bool.false_eq_true, if_false]
      exact (mem_collectDataDFSChildren _ _).2 ⟨c, hc, ih c hc L hLc hleaf e he⟩

end

end Soundness

section Search

section

variable {K : Type} [Zero K] [Add K] [Sub K] [Mul K] [Div K] [NatCast K] [LinearOrder K]
  [PowAcc K]

theorem search_mk (env : Env K) (M : Nat) (c : Point K) (r : K) (l : Bool)
    (cs : List (SSNode K)) (ds : List (Data K)) (d : Data K) :
    (SSNode.mk M c r l cs ds).search env d =
      if l then (if containsPtr ds d then some (SSNode.mk M c r l cs ds) else none)
      else searchChildren env cs d := by
  simp [SSNode.search]

theorem searchChildren_some (env : Env K) (d : Data K) (L : SSNode K) :
    ∀ cs : List (SSNode K), searchChildren env cs d = some L →
      ∃ c ∈ cs, c.intersectsPoint env d.embedding = true ∧ c.search env d = some L
  | [], h => by simp [searchChildren] at h
  | c :: cs, h => by
    unfold searchChildren at h
    split at h
    · next hi =>
      split at h
      · next ans hs =>
        simp only [Option.some.injEq] at h
        subst h
        exact ⟨c, List.mem_cons_self _ _, hi, hs⟩
      · obtain ⟨c', hc', h1, h2⟩ := searchChildren_some env d L cs h
        exact ⟨c', List.mem_cons_of_mem _ hc', h1, h2⟩
    · obtain ⟨c', hc', h1, h2⟩ := searchChildren_some env d L cs h
      exact ⟨c', List.mem_cons_of_mem _ hc', h1, h2⟩

theorem searchChildren_isSome (env : Env K) (d : Data K) :
    ∀ cs : List (SSNode K),
      (∃ c ∈ cs, c.intersectsPoint env d.embedding = true ∧ (c.search env d).isSome = true) →
      (searchChildren env cs d).isSome = true
  | [], h => by simp at h
  | c :: cs, h => by
    obtain ⟨c', hc', h1, h2⟩ := h
    unfold searchChildren
    by_cases hi : c.intersectsPoint env d.embedding = true
    · simp only [hi, if_true]
      cases hs : c.search env d with
      | some ans => simp
      | none =>
        simp only
        rcases List.mem_cons.1 hc' with rfl | hc'
        · rw [hs] at h2; simp at h2
        · exact searchChildren_isSome env d cs ⟨c', hc', h1, h2⟩
    · simp only [hi, if_false]
      rcases List.mem_cons.1 hc' with rfl | hc'
      · exact absurd h1 hi
      · exact searchChildren_isSome env d cs ⟨c', hc', h1, h2⟩

/-- Soundness of `SSNode::search`: a node that is returned is a leaf of the subtree that
holds a record at the address searched for. -/
theorem search_sound (env : Env K) (d : Data K) :
    ∀ (n L : SSNode K), n.search env d = some L →
      L ∈ allNodes n ∧ L.isLeaf = true ∧ containsPtr L._data d = true := by
  intro n
  induction n using SSNode.induction_aux with
  | h n ih =>
    intro L h
    obtain ⟨M, c, r, l, cs, ds⟩ := n
    rw [search_mk] at h
    cases l with
    | true =>
      simp only [if_true] at h
      split at h
      · next hc =>
        simp only [Option.some.injEq] at h
        subst h
        exact ⟨self_mem_allNodes _, rfl, hc⟩
      · simp at h
    | false =>
      simp only [Bool.false_eq_true, if_false] at h
      obtain ⟨c', hc', _, hs⟩ := searchChildren_some env d L cs h
      obtain ⟨h1, h2, h3⟩ := ih c' hc' L hs
      exact ⟨mem_allNodes_of_child rfl hc' h1, h2, h3⟩

end

section

variable {K : Type} [LinearOrderedField K]

/-- Completeness of `SSNode::search` below consistent envelopes: the sphere test never
prunes the way to a record of the subtree. -/
theorem search_complete (env : Env K) (hx : env.Exact) (d : Data K)
    (hd : d.embedding.coordinates_.length = env.DIM) :
    ∀ n : SSNode K, holdsBelow (envelopeSound env) n → d ∈ collectDataDFS n →
      (n.search env d).isSome = true := by
  intro n
  induction n using SSNode.induction_aux with
  | h n ih =>
    intro hb hmem
    obtain ⟨M, c, r, l, cs, ds⟩ := n
    rw [search_mk]
    rw [collectDataDFS_mk] at hmem
    cases l with
    | true =>
      simp only [if_true] at hmem ⊢
      have : containsPtr ds d = true := (containsPtr_iff _ _).2 ⟨d, hmem, rfl⟩
      simp [this]
    | false =>
      simp only [Bool.false_eq_true, if_false] at hmem ⊢
      obtain ⟨c', hc', hdc⟩ := (mem_collectDataDFSChildren _ _).1 hmem
      have hs : ∀ x ∈ allNodes c', envelopeSound env x := hb.2 rfl c' hc'
      apply searchChildren_isSome env d cs
      refine ⟨c', hc', ?_, ih c' hc' (holdsBelow_of_allNodes _ c' hs) hdc⟩
      simp only [SSNode.intersectsPoint, decide_eq_true_eq]
      exact encloses_of_sound env hx c' hs d hdc hd

/-- The search in exact arithmetic.  With the exact square root of an ordered field and
records whose embeddings have `DIM` coordinates, after any sequence of insertions into an
empty tree `SSTree::search(r)` returns, for every inserted record `r`, a node of the tree
that is a leaf and whose record list contains `r`.  This holds for every branching factor.
-/
theorem search_finds_inserted_exact (env : Env K) (hx : env.Exact) (M : Nat)
    (R : List (Data K)) (t : SSTree K) (hf : addrFaithful R)
    (hlen : ∀ r ∈ R, r.embedding.coordinates_.length = env.DIM)
    (h : SSTree.build env M R = .ok t) (r : Data K) (hr : r ∈ R) :
    ∃ leaf, t.search env r = .ok (some leaf) ∧ leaf ∈ t.nodes ∧ leaf.isLeaf = true ∧
      r ∈ leaf._data := by
  have hrec := build_mem_records env M R t hf h
  have hrt : r ∈ t.records := (hrec r).2 hr
  cases hroot : t.root with
  | none => simp [SSTree.records, hroot] at hrt
  | some root =>
    simp only [SSTree.records, hroot] at hrt
    have hb := build_sound_below env M R t h root hroot
    have hsome := search_complete env hx r (hlen r hr) root hb hrt
    obtain ⟨leaf, hleaf⟩ := Option.isSome_iff_exists.1 hsome
    obtain ⟨h1, h2, h3⟩ := search_sound env r root leaf hleaf
    refine ⟨leaf, ?_, ?_, h2, ?_⟩
    · simp [SSTree.search, hroot, hleaf]
    · simpa [SSTree.nodes, hroot] using h1
    · obtain ⟨e, he, hea⟩ := (containsPtr_iff _ _).1 h3
      have het : e ∈ t.records := by
        simp only [SSTree.records, hroot]
        exact leaf_data_subset_collect root leaf h1 h2 e he
      have := hf e ((hrec e).1 het) r hr hea
      rw [← this]
      exact he

/-- An instance of `search_finds_inserted_exact`: three records over the reals with the real
square root and `M = 2`, so that the search crosses a root split. -/
theorem search_finds_inserted_exact_witness :
    ∃ t leaf,
      SSTree.build (⟨768, Real.sqrt, 2 ^ 128 - 2 ^ 104⟩ : Env ℝ) 2
        [⟨1, ⟨List.replicate 768 0⟩, ""⟩, ⟨2, ⟨List.replicate 768 10⟩, ""⟩,
         ⟨3, ⟨List.replicate 768 11⟩, ""⟩] = .ok t ∧
      t.search (⟨768, Real.sqrt, 2 ^ 128 - 2 ^ 104⟩ : Env ℝ)
        ⟨3, ⟨List.replicate 768 11⟩, ""⟩ = .ok (some leaf) ∧
      leaf ∈ t.nodes ∧ leaf.isLeaf = true ∧
      (⟨3, ⟨List.replicate 768 11⟩, ""⟩ : Data ℝ) ∈ leaf._data := by
  have hx : (⟨768, Real.sqrt, 2 ^ 128 - 2 ^ 104⟩ : Env ℝ).Exact :=
    ⟨Real.sqrt_nonneg, fun x h => Real.mul_self_sqrt h⟩
  obtain ⟨leaf, hleaf⟩ := search_finds_inserted_exact
    (⟨768, Real.sqrt, 2 ^ 128 - 2 ^ 104⟩ : Env ℝ) hx 2
    [⟨1, ⟨List.replicate 768 0⟩, ""⟩, ⟨2, ⟨List.replicate 768 10⟩, ""⟩,
     ⟨3, ⟨List.replicate 768 11⟩, ""⟩] _
    (by
      intro a ha b hb hab
      simp only [List.mem_cons, List.mem_singleton, List.not_mem_nil, or_false] at ha hb
      rcases ha with rfl | rfl | rfl <;> rcases hb with rfl | rfl | rfl <;>
        first | rfl | (simp only [OfNat.ofNat_ne_one, OfNat.one_ne_ofNat, Nat.reduceEqDiff] at hab))
    (by
      intro r hr
      simp only [List.mem_cons, List.mem_singleton, List.not_mem_nil, or_false] at hr
      rcases hr with rfl | rfl | rfl <;> simp only [List.length_replicate])
    rfl ⟨3, ⟨List.replicate 768 11⟩, ""⟩
    (List.mem_cons_of_mem _ (List.mem_cons_of_mem _ (List.mem_cons_self _ _)))
  exact ⟨_, leaf, rfl, hleaf⟩

end

end Search

section KnnOne

section

variable {K : Type} [Zero K] [Add K] [Sub K] [Mul K] [Div K] [NatCast K] [LinearOrder K]
  [PowAcc K]

theorem mem_or_mem_eraseIdx {α : Type} :
    ∀ (l : List α) (i : Nat) (x : α), l.get? i = some x →
      ∀ e ∈ l, e = x ∨ e ∈ l.eraseIdx i
  | [], i, x, h, e, he => by simp at h
  | a :: l, 0, x, h, e, he => by
    simp only [List.get?_cons_zero, Option.some.injEq] at h
    subst h
    simpa [List.eraseIdx] using he
  | a :: l, i + 1, x, h, e, he => by
    simp only [List.get?_cons_succ] at h
    simp only [List.eraseIdx, List.mem_cons] at he ⊢
    rcases he with rfl | he
    · exact Or.inr (Or.inl rfl)
    · rcases mem_or_mem_eraseIdx l i x h e he with h1 | h1
      · exact Or.inl h1
      · exact Or.inr (Or.inr h1)

theorem pruned_nil (env : Env K) (query : Point K) (d : K) :
    pruned env query [] d = false := by
  simp [pruned, topDistance, pqTop, minElement]

/-- A node is pruned only when some record of the result heap is strictly closer to the
query than the key of the node. -/
theorem pruned_true (env : Env K) (query : Point K) (nn : List (Data K)) (d : K)
    (h : pruned env query nn d = true) :
    ∃ e ∈ nn, Point.distance env e.embedding query < d := by
  by_cases hnn : nn = []
  · subst hnn; rw [pruned_nil] at h; exact absurd h (by simp)
  · obtain ⟨i, e, _, he, ht, _⟩ := heap_top_defined env query nn hnn
    simp only [pruned, ht, decide_eq_true_eq, gt_iff_lt] at h
    exact ⟨e, mem_of_get?_eq_some he, h⟩

theorem mem_enqueueChildren (env : Env K) (query : Point K) (nn : List (Data K)) :
    ∀ (cs : List (SSNode K)) (q : List (SSNode K × K)) (e : SSNode K × K),
      e ∈ enqueueChildren env query nn cs q ↔
        e ∈ q ∨ ∃ c ∈ cs, e = (c, Point.distance env query c.centroid - c.radius) ∧
          pruned env query nn (Point.distance env query c.centroid - c.radius) = false
  | [], q, e => by simp [enqueueChildren]
  | c :: cs, q, e => by
    unfold enqueueChildren
    simp only
    by_cases hp : pruned env query nn (Point.distance env query c.centroid - c.radius) = true
    · simp only [hp, if_true]
      rw [mem_enqueueChildren env query nn cs q e]
      constructor
      · rintro (h | ⟨c', hc', h1, h2⟩)
        · exact Or.inl h
        · exact Or.inr ⟨c', List.mem_cons_of_mem _ hc', h1, h2⟩
      · rintro (h | ⟨c', hc', h1, h2⟩)
        · exact Or.inl h
        · rcases List.mem_cons.1 hc' with rfl | hc'
          · rw [hp] at h2; exact absurd h2 (by simp)
          · exact Or.inr ⟨c', hc', h1, h2⟩
    · simp only [Bool.not_eq_true] at hp
      simp only [hp, Bool.false_eq_true, if_false]
      rw [mem_enqueueChildren env query nn cs _ e]
      constructor
      · rintro (h | ⟨c', hc', h1, h2⟩)
        · rcases List.mem_append.1 h with h | h
          · exact Or.inl h
          · simp only [List.mem_singleton] at h
            exact Or.inr ⟨c, List.mem_cons_self _ _, h, hp⟩
        · exact Or.inr ⟨c', List.mem_cons_of_mem _ hc', h1, h2⟩
      · rintro (h | ⟨c', hc', h1, h2⟩)
        · exact Or.inl (List.mem_append.2 (Or.inl h))
        · rcases List.mem_cons.1 hc' with rfl | hc'
          · exact Or.inl (List.mem_append.2 (Or.inr (by simp [h1])))
          · exact Or.inr ⟨c', hc', h1, h2⟩

end

section

variable {K : Type} [LinearOrderedField K]

/-- The key of a node whose sphere encloses a record is a lower bound of the distance from
the query to that record. -/
theorem key_le_distance (env : Env K) (hx : env.Exact) (query : Point K)
    (hq : query.coordinates_.length = env.DIM) (n : SSNode K)
    (hs : ∀ x ∈ allNodes n, envelopeSound env x) (r : Data K) (hr : r ∈ collectDataDFS n)
    (hlen : r.embedding.coordinates_.length = env.DIM) :
    Point.distance env query n.centroid - n.radius ≤ Point.distance env r.embedding query := by
  have h1 := encloses_of_sound env hx n hs r hr hlen
  have hc := (hs n (self_mem_allNodes n)).1
  have h2 := distance_triangle env hx query r.embedding n.centroid
    (by rw [hq, hlen]) (by rw [hlen, hc])
  rw [distance_comm env query r.embedding, distance_comm env r.embedding n.centroid] at h2
  linarith

end

section

variable {K : Type} [Zero K] [Add K] [Sub K] [Mul K] [Div K] [NatCast K] [LinearOrder K]
  [PowAcc K]

/-- The scan of a leaf for `k = 1`: the heap keeps at most one record, taken from the old
heap or from the leaf, and it is at least as close as every record of both. -/
theorem scanLeaf_one (env : Env K) (query : Point K) :
    ∀ (ds nn nn1 : List (Data K)), nn.length ≤ 1 →
      scanLeaf env query 1 ds nn = .ok nn1 →
      nn1.length ≤ 1 ∧ (∀ b ∈ nn1, b ∈ nn ∨ b ∈ ds) ∧
      (∀ r, (r ∈ nn ∨ r ∈ ds) →
        ∃ b ∈ nn1, Point.distance env b.embedding query ≤ Point.distance env r.embedding query)
  | [], nn, nn1, hlen, h => by
    simp only [scanLeaf, Except.ok.injEq] at h
    subst h
    refine ⟨hlen, fun b hb => Or.inl hb, ?_⟩
    rintro r (hr | hr)
    · exact ⟨r, hr, le_refl _⟩
    · simp at hr
  | d :: ds, nn, nn1, hlen, h => by
    unfold scanLeaf at h
    simp only at h
    by_cases hlt : nn.length < 1
    · simp only [hlt, if_true] at h
      have hnn : nn = [] := List.length_eq_zero.1 (by omega)
      subst hnn
      obtain ⟨h1, h2, h3⟩ := scanLeaf_one env query ds _ nn1 (by simp) h
      refine ⟨h1, ?_, ?_⟩
      · intro b hb
        rcases h2 b hb with hb | hb
        · simp only [List.nil_append, List.mem_singleton] at hb
          exact Or.inr (by simp [hb])
        · exact Or.inr (List.mem_cons_of_mem _ hb)
      · rintro r (hr | hr)
        · simp at hr
        · rcases List.mem_cons.1 hr with rfl | hr
          · exact h3 r (Or.inl (by simp))
          · exact h3 r (Or.inr hr)
    · simp only [hlt, if_false] at h
      have hnn : nn ≠ [] := by
        intro hnil; subst hnil; simp at hlt
      obtain ⟨i, e, hi, he, ht, hmax⟩ := heap_top_defined env query nn hnn
      simp only [hi, ht] at h
      split at h
      · next hcl =>
        have hlen2 : (nn.eraseIdx i ++ [d]).length ≤ 1 := by
          have hil : i < nn.length := by
            by_contra hcon
            rw [List.get?_eq_none.2 (not_lt.1 hcon)] at he
            exact absurd he (by simp)
          simp only [List.length_append, List.length_eraseIdx, hil, if_true, List.length_cons,
            List.length_nil]
          omega
        obtain ⟨h1, h2, h3⟩ := scanLeaf_one env query ds _ nn1 hlen2 h
        refine ⟨h1, ?_, ?_⟩
        · intro b hb
          rcases h2 b hb with hb | hb
          · rcases List.mem_append.1 hb with hb | hb
            · exact Or.inl (List.mem_of_mem_eraseIdx hb)
            · simp only [List.mem_singleton] at hb
              exact Or.inr (by simp [hb])
          · exact Or.inr (List.mem_cons_of_mem _ hb)
        · have hd := h3 d (Or.inl (by simp))
          rintro r (hr | hr)
          · obtain ⟨b, hb, hbd⟩ := hd
            exact ⟨b, hb, le_trans hbd (le_trans (le_of_lt hcl) (by
              -- `nn` holds the single record `e`
              have : r = e := by
                have hee := mem_of_get?_eq_some he
                match nn, hlen, hr, hee with
                | [x], _, hr, hee =>
                  simp only [List.mem_singleton] at hr hee
                  rw [hr, hee]
              rw [this]))⟩
          · rcases List.mem_cons.1 hr with rfl | hr
            · exact hd
            · exact h3 r (Or.inr hr)
      · next hcl =>
        obtain ⟨h1, h2, h3⟩ := scanLeaf_one env query ds nn nn1 hlen h
        refine ⟨h1, ?_, ?_⟩
        · intro b hb
          rcases h2 b hb with hb | hb
          · exact Or.inl hb
          · exact Or.inr (List.mem_cons_of_mem _ hb)
        · rintro r (hr | hr)
          · exact h3 r (Or.inl hr)
          · rcases List.mem_cons.1 hr with rfl | hr
            · obtain ⟨b, hb, hbe⟩ := h3 e (Or.inl (mem_of_get?_eq_some he))
              exact ⟨b, hb, le_trans hbe (not_lt.1 hcl)⟩
            · exact h3 r (Or.inr hr)

end

end KnnOne

section KnnLoop

variable {K : Type} [LinearOrderedField K]

/-- The loop of `SSTree::knn` for `k = 1`, started on a queue of nodes whose subtrees have
consistent envelopes and whose keys are `dist(query, centroid) - radius`: the heap ends
with at most one record, taken from the old heap or from the queued subtrees, and that
record is at least as close to the query as every record of both. -/
theorem knnLoop_one (env : Env K) (hex : env.Exact) (query : Point K)
    (hq : query.coordinates_.length = env.DIM) :
    ∀ (fuel : Nat) (queue : List (SSNode K × K)) (nn nn' : List (Data K)),
      (∀ e ∈ queue, (∀ x ∈ allNodes e.1, envelopeSound env x) ∧
        e.2 = Point.distance env query e.1.centroid - e.1.radius ∧
        ∀ r ∈ collectDataDFS e.1, r.embedding.coordinates_.length = env.DIM) →
      nn.length ≤ 1 → knnLoop env query 1 fuel queue nn = .ok nn' →
      nn'.length ≤ 1 ∧
      (∀ b ∈ nn', b ∈ nn ∨ ∃ e ∈ queue, b ∈ collectDataDFS e.1) ∧
      (∀ r, (r ∈ nn ∨ ∃ e ∈ queue, r ∈ collectDataDFS e.1) →
        ∃ b ∈ nn', Point.distance env b.embedding query ≤ Point.distance env r.embedding query)
  | _, [], nn, nn', _, hlen, h => by
    simp only [knnLoop, Except.ok.injEq] at h
    subst h
    refine ⟨hlen, fun b hb => Or.inl hb, ?_⟩
    rintro r (hr | ⟨e, he, _⟩)
    · exact ⟨r, hr, le_refl _⟩
    · simp at he
  | 0, e :: es, nn, nn', _, _, h => by simp [knnLoop] at h
  | fuel + 1, e :: es, nn, nn', hv, hlen, h => by
    unfold knnLoop at h
    obtain ⟨i, top, hi, ht, _⟩ := pqTop_spec nodeCompare nodeCompare_irrefl
      nodeCompare_trans (e :: es) (by simp)
    obtain ⟨cur, dcur⟩ := top
    simp only [hi, ht] at h
    have hcurmem : (cur, dcur) ∈ e :: es := mem_of_get?_eq_some ht
    obtain ⟨hcs, hck, hcl⟩ := hv _ hcurmem
    simp only at hcs hck hcl
    have hsub : ∀ x ∈ (e :: es).eraseIdx i, x ∈ e :: es := fun x hx =>
      List.mem_of_mem_eraseIdx hx
    have hsplit := mem_or_mem_eraseIdx (e :: es) i (cur, dcur) ht
    have hv' : ∀ x ∈ (e :: es).eraseIdx i, (∀ y ∈ allNodes x.1, envelopeSound env y) ∧
        x.2 = Point.distance env query x.1.centroid - x.1.radius ∧
        ∀ r ∈ collectDataDFS x.1, r.embedding.coordinates_.length = env.DIM :=
      fun x hx => hv x (hsub x hx)
    split at h
    · -- the node is pruned
      next hp =>
      obtain ⟨e0, he0, hlt⟩ := pruned_true env query nn dcur hp
      obtain ⟨h1, h2, h3⟩ := knnLoop_one env hex query hq fuel _ nn nn' hv' hlen h
      refine ⟨h1, ?_, ?_⟩
      · intro b hb
        rcases h2 b hb with hb | ⟨x, hx, hbx⟩
        · exact Or.inl hb
        · exact Or.inr ⟨x, hsub x hx, hbx⟩
      · rintro r (hr | ⟨x, hx, hrx⟩)
        · exact h3 r (Or.inl hr)
        · rcases hsplit x hx with rfl | hx'
          · obtain ⟨b, hb, hbe⟩ := h3 e0 (Or.inl he0)
            have hkey := key_le_distance env hex query hq cur hcs r hrx (hcl r hrx)
            rw [← hck] at hkey
            exact ⟨b, hb, le_trans hbe (le_trans (le_of_lt hlt) hkey)⟩
          · exact h3 r (Or.inr ⟨x, hx', hrx⟩)
    · split at h
      · -- a leaf is scanned
        next hnp hleaf =>
        cases hsc : scanLeaf env query 1 cur._data nn with
        | error err => simp [hsc] at h
        | ok nn1 =>
          simp only [hsc] at h
          obtain ⟨s1, s2, s3⟩ := scanLeaf_one env query cur._data nn nn1 hlen hsc
          obtain ⟨h1, h2, h3⟩ := knnLoop_one env hex query hq fuel _ nn1 nn' hv' s1 h
          have hcol : collectDataDFS cur = cur._data := by
            rw [collectDataDFS_eq, hleaf]; rfl
          refine ⟨h1, ?_, ?_⟩
          · intro b hb
            rcases h2 b hb with hb | ⟨x, hx, hbx⟩
            · rcases s2 b hb with hb | hb
              · exact Or.inl hb
              · exact Or.inr ⟨(cur, dcur), hcurmem, by rw [hcol]; exact hb⟩
            · exact Or.inr ⟨x, hsub x hx, hbx⟩
          · have hscan : ∀ r, (r ∈ nn ∨ r ∈ cur._data) → ∃ b ∈ nn',
                Point.distance env b.embedding query ≤ Point.distance env r.embedding query := by
              intro r hr
              obtain ⟨b1, hb1, hle1⟩ := s3 r hr
              obtain ⟨b, hb, hle⟩ := h3 b1 (Or.inl hb1)
              exact ⟨b, hb, le_trans hle hle1⟩
            rintro r (hr | ⟨x, hx, hrx⟩)
            · exact hscan r (Or.inl hr)
            · rcases hsplit x hx with rfl | hx'
              · exact hscan r (Or.inr (by rw [← hcol]; exact hrx))
              · exact h3 r (Or.inr ⟨x, hx', hrx⟩)
      · -- the children of an internal node are enqueued
        next hnp hleaf =>
        simp only [Bool.not_eq_true] at hleaf
        have hvq : ∀ x ∈ enqueueChildren env query nn cur.children ((e :: es).eraseIdx i),
            (∀ y ∈ allNodes x.1, envelopeSound env y) ∧
            x.2 = Point.distance env query x.1.centroid - x.1.radius ∧
            ∀ r ∈ collectDataDFS x.1, r.embedding.coordinates_.length = env.DIM := by
          intro x hx
          rcases (mem_enqueueChildren env query nn _ _ x).1 hx with hx | ⟨c, hc, rfl, _⟩
          · exact hv' x hx
          · refine ⟨fun y hy => hcs y (mem_allNodes_of_child hleaf hc hy), rfl, ?_⟩
            intro r hr
            apply hcl r
            rw [collectDataDFS_eq, hleaf]
            simp only [Bool.false_eq_true, if_false]
            exact (mem_collectDataDFSChildren _ _).2 ⟨c, hc, hr⟩
        obtain ⟨h1, h2, h3⟩ := knnLoop_one env hex query hq fuel _ nn nn' hvq hlen h
        have hcol : ∀ r, r ∈ collectDataDFS cur ↔ ∃ c ∈ cur.children, r ∈ collectDataDFS c := by
          intro r
          rw [collectDataDFS_eq, hleaf]
          simp only [Bool.false_eq_true, if_false]
          exact mem_collectDataDFSChildren _ _
        refine ⟨h1, ?_, ?_⟩
        · intro b hb
          rcases h2 b hb with hb | ⟨x, hx, hbx⟩
          · exact Or.inl hb
          · rcases (mem_enqueueChildren env query nn _ _ x).1 hx with hx | ⟨c, hc, rfl, _⟩
            · exact Or.inr ⟨x, hsub x hx, hbx⟩
            · exact Or.inr ⟨(cur, dcur), hcurmem, (hcol b).2 ⟨c, hc, hbx⟩⟩
        · rintro r (hr | ⟨x, hx, hrx⟩)
          · exact h3 r (Or.inl hr)
          · rcases hsplit x hx with rfl | hx'
            · obtain ⟨c, hc, hrc⟩ := (hcol r).1 hrx
              by_cases hp : pruned env query nn
                  (Point.distance env query c.centroid - c.radius) = true
              · obtain ⟨e0, he0, hlt⟩ := pruned_true env query nn _ hp
                obtain ⟨b, hb, hbe⟩ := h3 e0 (Or.inl he0)
                have hkey := key_le_distance env hex query hq c
                  (fun y hy => hcs y (mem_allNodes_of_child hleaf hc hy)) r hrc (hcl r hrx)
                exact ⟨b, hb, le_trans hbe (le_trans (le_of_lt hlt) hkey)⟩
              · simp only [Bool.not_eq_true] at hp
                exact h3 r (Or.inr ⟨_, (mem_enqueueChildren env query nn _ _ _).2
                  (Or.inr ⟨c, hc, rfl, hp⟩), hrc⟩)
            · exact h3 r (Or.inr ⟨x, (mem_enqueueChildren env query nn _ _ x).2 (Or.inl hx'), hrx⟩)

end KnnLoop

section KnnNearest

section

variable {K : Type} [Zero K] [Add K] [Sub K] [Mul K] [Div K] [NatCast K] [LinearOrder K]
  [PowAcc K]

/-- The first round of the loop of `SSTree::knn`: the root is popped and, the result heap
being empty, it is never pruned. -/
theorem knnLoop_first (env : Env K) (query : Point K) (k N : Nat) (root : SSNode K) (d0 : K) :
    knnLoop env query k (N + 1) [(root, d0)] [] =
      if root.isLeaf then
        (match scanLeaf env query k root._data [] with
         | .error err => .error err
         | .ok nn => knnLoop env query k N [] nn)
      else knnLoop env query k N (enqueueChildren env query [] root.children []) [] := by
  cases hl : root.isLeaf with
  | true =>
    cases hs : scanLeaf env query k root._data [] with
    | error err =>
      simp [knnLoop, pqTop, minElement, minElementGo, pruned_nil, List.eraseIdx, hl, hs]
    | ok nn =>
      simp [knnLoop, pqTop, minElement, minElementGo, pruned_nil, List.eraseIdx, hl, hs]
  | false =>
    simp [knnLoop, pqTop, minElement, minElementGo, pruned_nil, List.eraseIdx, hl]

theorem knnLoop_nil (env : Env K) (query : Point K) (k N : Nat) (nn : List (Data K)) :
    knnLoop env query k N [] nn = .ok nn := by
  cases N <;> simp [knnLoop]

end

section

variable {K : Type} [LinearOrderedField K]

/-- The loop of `SSTree::knn` for `k = 1` on a tree whose envelopes are consistent below
the root. -/
theorem knn_root_one (env : Env K) (hex : env.Exact) (query : Point K)
    (hq : query.coordinates_.length = env.DIM) (root : SSNode K)
    (hb : holdsBelow (envelopeSound env) root)
    (hl : ∀ r ∈ collectDataDFS root, r.embedding.coordinates_.length = env.DIM)
    (d0 : K) (nn' : List (Data K))
    (h : knnLoop env query 1 (countNodes root) [(root, d0)] [] = .ok nn') :
    nn'.length ≤ 1 ∧ (∀ b ∈ nn', b ∈ collectDataDFS root) ∧
    (∀ r ∈ collectDataDFS root,
      ∃ b ∈ nn', Point.distance env b.embedding query ≤ Point.distance env r.embedding query) := by
  rw [countNodes_eq, Nat.add_comm, knnLoop_first] at h
  cases hleaf : root.isLeaf with
  | true =>
    simp only [hleaf, if_true] at h
    have hcol : collectDataDFS root = root._data := by
      rw [collectDataDFS_eq, hleaf]; rfl
    cases hsc : scanLeaf env query 1 root._data [] with
    | error err => simp [hsc] at h
    | ok nn1 =>
      simp only [hsc, knnLoop_nil, Except.ok.injEq] at h
      subst h
      obtain ⟨s1, s2, s3⟩ := scanLeaf_one env query root._data [] nn1 (by simp) hsc
      rw [hcol]
      refine ⟨s1, ?_, fun r hr => s3 r (Or.inr hr)⟩
      intro b hb'
      rcases s2 b hb' with hb' | hb'
      · simp at hb'
      · exact hb'
  | false =>
    simp only [hleaf, Bool.false_eq_true, if_false] at h
    have hcol : ∀ r, r ∈ collectDataDFS root ↔ ∃ c ∈ root.children, r ∈ collectDataDFS c := by
      intro r
      rw [collectDataDFS_eq, hleaf]
      simp only [Bool.false_eq_true, if_false]
      exact mem_collectDataDFSChildren _ _
    have hmem : ∀ x, x ∈ enqueueChildren env query [] root.children [] ↔
        ∃ c ∈ root.children, x = (c, Point.distance env query c.centroid - c.radius) := by
      intro x
      rw [mem_enqueueChildren]
      simp [pruned_nil]
    have hv : ∀ x ∈ enqueueChildren env query [] root.children [],
        (∀ y ∈ allNodes x.1, envelopeSound env y) ∧
        x.2 = Point.distance env query x.1.centroid - x.1.radius ∧
        ∀ r ∈ collectDataDFS x.1, r.embedding.coordinates_.length = env.DIM := by
      intro x hx
      obtain ⟨c, hc, rfl⟩ := (hmem x).1 hx
      exact ⟨hb.2 hleaf c hc, rfl, fun r hr => hl r ((hcol r).2 ⟨c, hc, hr⟩)⟩
    obtain ⟨h1, h2, h3⟩ := knnLoop_one env hex query hq _ _ [] nn' hv (by simp) h
    refine ⟨h1, ?_, ?_⟩
    · intro b hb'
      rcases h2 b hb' with hb' | ⟨x, hx, hbx⟩
      · simp at hb'
      · obtain ⟨c, hc, rfl⟩ := (hmem x).1 hx
        exact (hcol b).2 ⟨c, hc, hbx⟩
    · intro r hr
      obtain ⟨c, hc, hrc⟩ := (hcol r).1 hr
      exact h3 r (Or.inr ⟨_, (hmem _).2 ⟨c, hc, rfl⟩, hrc⟩)

end

section

variable {K : Type} [Zero K] [Add K] [Sub K] [Mul K] [Div K] [NatCast K] [LinearOrder K]
  [PowAcc K]

theorem drain_singleton {α : Type} (comp : α → α → Bool) (b : α) :
    drain comp 1 [b] = [b] := by
  simp [drain, pqTop, minElement, minElementGo, List.eraseIdx]

end

section

variable {K : Type} [LinearOrderedField K]

/-- The nearest neighbour in exact arithmetic.  With the exact square root of an ordered
field, records and query of `DIM` coordinates, for every non-empty tree built by inserting
the records `R` and every query, `SSTree::knn(q, 1)` returns exactly one record; it is one
of the inserted records and its distance to the query is the minimum over `R` (so for a
single-record tree it is that record).  This holds for every branching factor. -/
theorem knn_nearest_exact (env : Env K) (hex : env.Exact) (M : Nat) (R : List (Data K))
    (t : SSTree K) (query : Point K) (hf : addrFaithful R)
    (hlen : ∀ r ∈ R, r.embedding.coordinates_.length = env.DIM)
    (hq : query.coordinates_.length = env.DIM) (hne : R ≠ [])
    (h : SSTree.build env M R = .ok t) :
    ∃ b, t.knn env query 1 = .ok [b] ∧ b ∈ R ∧
      ∀ r ∈ R, Point.distance env b.embedding query ≤ Point.distance env r.embedding query := by
  have hrec := build_mem_records env M R t hf h
  obtain ⟨r0, hr0⟩ := List.exists_mem_of_ne_nil R hne
  have hr0t : r0 ∈ t.records := (hrec r0).2 hr0
  cases hroot : t.root with
  | none => simp [SSTree.records, hroot] at hr0t
  | some root =>
    have hrecs : ∀ r, r ∈ collectDataDFS root ↔ r ∈ R := by
      intro r
      have := hrec r
      simpa [SSTree.records, hroot] using this
    have hb := build_sound_below env M R t h root hroot
    obtain ⟨res, hres⟩ := knn_ok env t query 1 (le_refl 1)
    unfold SSTree.knn at hres ⊢
    simp only [hroot] at hres ⊢
    cases hloop : knnLoop env query 1 (countNodes root)
        [(root, Point.distance env query root.centroid - root.radius)] [] with
    | error err => simp [hloop] at hres
    | ok nn' =>
      simp only [hloop]
      obtain ⟨h1, h2, h3⟩ := knn_root_one env hex query hq root hb
        (fun r hr => hlen r ((hrecs r).1 hr)) _ nn' hloop
      obtain ⟨b0, hb0, _⟩ := h3 r0 ((hrecs r0).2 hr0)
      match nn', h1, hb0, h2, h3 with
      | [b], _, _, h2, h3 =>
        refine ⟨b, ?_, (hrecs b).1 (h2 b (by simp)), ?_⟩
        · simp [drain_singleton]
        · intro r hr
          obtain ⟨b', hb', hle⟩ := h3 r ((hrecs r).2 hr)
          simp only [List.mem_singleton] at hb'
          rw [← hb']
          exact hle

/-- An instance of `knn_nearest_exact`: three records over the reals with the real square
root and `M = 2`, queried at the origin; the tree has an internal root. -/
theorem knn_nearest_exact_witness :
    ∃ t b,
      SSTree.build (⟨768, Real.sqrt, 2 ^ 128 - 2 ^ 104⟩ : Env ℝ) 2
        [⟨1, ⟨List.replicate 768 0⟩, ""⟩, ⟨2, ⟨List.replicate 768 10⟩, ""⟩,
         ⟨3, ⟨List.replicate 768 11⟩, ""⟩] = .ok t ∧
      t.knn (⟨768, Real.sqrt, 2 ^ 128 - 2 ^ 104⟩ : Env ℝ) ⟨List.replicate 768 0⟩ 1
        = .ok [b] ∧
      b ∈ ([⟨1, ⟨List.replicate 768 0⟩, ""⟩, ⟨2, ⟨List.replicate 768 10⟩, ""⟩,
         ⟨3, ⟨List.replicate 768 11⟩, ""⟩] : List (Data ℝ)) ∧
      ∀ r ∈ ([⟨1, ⟨List.replicate 768 0⟩, ""⟩, ⟨2, ⟨List.replicate 768 10⟩, ""⟩,
         ⟨3, ⟨List.replicate 768 11⟩, ""⟩] : List (Data ℝ)),
        Point.distance (⟨768, Real.sqrt, 2 ^ 128 - 2 ^ 104⟩ : Env ℝ) b.embedding
            ⟨List.replicate 768 0⟩ ≤
          Point.distance (⟨768, Real.sqrt, 2 ^ 128 - 2 ^ 104⟩ : Env ℝ) r.embedding
            ⟨List.replicate 768 0⟩ := by
  have hex : (⟨768, Real.sqrt, 2 ^ 128 - 2 ^ 104⟩ : Env ℝ).Exact :=
    ⟨Real.sqrt_nonneg, fun x h => Real.mul_self_sqrt h⟩
  obtain ⟨b, hb⟩ := knn_nearest_exact
    (⟨768, Real.sqrt, 2 ^ 128 - 2 ^ 104⟩ : Env ℝ) hex 2
    [⟨1, ⟨List.replicate 768 0⟩, ""⟩, ⟨2, ⟨List.replicate 768 10⟩, ""⟩,
     ⟨3, ⟨List.replicate 768 11⟩, ""⟩] _ ⟨List.replicate 768 0⟩
    (by
      intro a ha b hb hab
      simp only [List.mem_cons, List.mem_singleton, List.not_mem_nil, or_false] at ha hb
      rcases ha with rfl | rfl | rfl <;> rcases hb with rfl | rfl | rfl <;>
        first | rfl | (simp only [OfNat.ofNat_ne_one, OfNat.one_ne_ofNat, Nat.reduceEqDiff] at hab))
    (by
      intro r hr
      simp only [List.mem_cons, List.mem_singleton, List.not_mem_nil, or_false] at hr
      rcases hr with rfl | rfl | rfl <;> simp only [List.length_replicate])
    (by simp only [List.length_replicate])
    (List.cons_ne_nil _ _) rfl
  exact ⟨_, b, rfl, hb⟩

end

end KnnNearest

section Lift

variable {K : Type} [Zero K] [Add K] [Sub K] [Mul K] [Div K] [NatCast K] [LinearOrder K]
  [PowAcc K] [PadLaws K]

theorem liftNodes_eq_map (n : Nat) (cs : List (SSNode K)) :
    liftNodes n cs = cs.map (liftNode n) := by
  induction cs with
  | nil => simp [liftNodes]
  | cons c cs ih => simp [liftNodes, ih]

theorem liftNode_mk (n M : Nat) (c : Point K) (r : K) (l : Bool) (cs : List (SSNode K))
    (ds : List (Data K)) :
    liftNode n (SSNode.mk M c r l cs ds) =
      SSNode.mk M (liftPoint n c) r l (cs.map (liftNode n)) (ds.map (liftData n)) := by
  simp [liftNode, liftNodes_eq_map]

@[simp] theorem liftNode_isLeaf (n : Nat) (x : SSNode K) : (liftNode n x).isLeaf = x.isLeaf := by
  cases x; simp [liftNode_mk]

@[simp] theorem liftNode_radius (n : Nat) (x : SSNode K) : (liftNode n x).radius = x.radius := by
  cases x; simp [liftNode_mk]

@[simp] theorem liftNode_centroid (n : Nat) (x : SSNode K) :
    (liftNode n x).centroid = liftPoint n x.centroid := by
  cases x; simp [liftNode_mk]

@[simp] theorem liftNode_children (n : Nat) (x : SSNode K) :
    (liftNode n x).children = x.children.map (liftNode n) := by
  cases x; simp [liftNode_mk]

@[simp] theorem liftNode_data (n : Nat) (x : SSNode K) :
    (liftNode n x)._data = x._data.map (liftData n) := by
  cases x; simp [liftNode_mk]

@[simp] theorem liftNode_maxPointsPerNode (n : Nat) (x : SSNode K) :
    (liftNode n x).maxPointsPerNode = x.maxPointsPerNode := by
  cases x; simp [liftNode_mk]

theorem liftNode_eq (n : Nat) (x : SSNode K) :
    liftNode n x =
      SSNode.mk x.maxPointsPerNode (liftPoint n x.centroid) x.radius x.isLeaf
        (x.children.map (liftNode n)) (x._data.map (liftData n)) := by
  cases x; simp [liftNode_mk]

theorem wfNodes_iff (D : Nat) (cs : List (SSNode K)) :
    wfNodes D cs ↔ ∀ c ∈ cs, wfNode D c := by
  induction cs with
  | nil => simp [wfNodes]
  | cons c cs ih => simp [wfNodes, ih]

theorem wfNode_iff (D : Nat) (x : SSNode K) :
    wfNode D x ↔ x.centroid.coordinates_.length = D ∧
      (∀ d ∈ x._data, d.embedding.coordinates_.length = D) ∧ ∀ c ∈ x.children, wfNode D c := by
  cases x; simp [wfNode, wfNodes_iff]

@[simp] theorem get_liftPoint (n : Nat) (p : Point K) (i : Nat) :
    (liftPoint n p).get i = p.get i := by
  simp only [Point.get, liftPoint]
  by_cases h : i < p.coordinates_.length
  · rw [List.getD_append _ _ _ _ h]
  · rw [List.getD_append_right _ _ _ _ (not_lt.1 h)]
    rw [List.getD_eq_default _ _ (not_lt.1 h)]
    simp [List.getD_eq_getElem?_getD, List.getElem?_replicate]
    split <;> rfl

theorem get_of_length_le (p : Point K) (i : Nat) (h : p.coordinates_.length ≤ i) :
    p.get i = 0 := by
  simp only [Point.get]
  exact List.getD_eq_default _ _ h

theorem zipWith_sub_lift (n : Nat) :
    ∀ (a b : List K), a.length = b.length →
      List.zipWith (fun x y => x - y) (a ++ List.replicate n 0) (b ++ List.replicate n 0) =
        List.zipWith (fun x y => x - y) a b ++ List.replicate n 0
  | [], b, h => by
    have : b = [] := List.length_eq_zero.1 h.symm
    subst this
    simp [PadLaws.zero_sub_zero]
  | x :: a, [], h => by simp at h
  | x :: a, y :: b, h => by
    simp only [List.length_cons, add_left_inj] at h
    simp [zipWith_sub_lift n a b h]

theorem sum_replicate_zero (n : Nat) : (List.replicate n (0 : K)).sum = 0 := by
  induction n with
  | zero => rfl
  | succ n ih => rw [List.replicate_succ, List.sum_cons, ih, PadLaws.zero_add_zero]

theorem sum_append_zeros (xs : List K) (n : Nat) :
    (xs ++ List.replicate n 0).sum = xs.sum := by
  induction xs with
  | nil => rw [List.nil_append, sum_replicate_zero, List.sum_nil]
  | cons x xs ih => rw [List.cons_append, List.sum_cons, ih, List.sum_cons]

/-- Padding both points with zeros does not change their distance. -/
theorem distance_lift (env : Env K) (n : Nat) (a b : Point K)
    (h : a.coordinates_.length = b.coordinates_.length) :
    Point.distance env (liftPoint n a) (liftPoint n b) = Point.distance env a b := by
  simp only [Point.distance, Point.norm, Point.sub, Point.normSquared, liftPoint,
    zipWith_sub_lift n _ _ h, List.map_append, List.map_replicate, PadLaws.zero_mul_zero,
    sum_append_zeros]

theorem distance_widen (env : Env K) (n : Nat) (a b : Point K) :
    Point.distance (env.widen n) a b = Point.distance env a b := rfl

theorem foldl_congr {α β : Type} (f g : β → α → β) (l : List α)
    (h : ∀ b, ∀ a ∈ l, f b a = g b a) : ∀ init, l.foldl f init = l.foldl g init := by
  induction l with
  | nil => intro init; rfl
  | cons a l ih =>
    intro init
    simp only [List.foldl_cons]
    rw [h init a (List.mem_cons_self _ _)]
    exact ih (fun b x hx => h b x (List.mem_cons_of_mem _ hx)) _

theorem calculateMean_lift (n : Nat) (ps : List (Point K)) (dim : Nat) :
    calculateMean (ps.map (liftPoint n)) dim = calculateMean ps dim := by
  simp only [calculateMean, List.foldl_map, get_liftPoint, List.length_map]

theorem calculateVariance_lift (n : Nat) (ps : List (Point K)) (dim : Nat) :
    calculateVariance (ps.map (liftPoint n)) dim = calculateVariance ps dim := by
  simp only [calculateVariance, calculateMean_lift, List.foldl_map, get_liftPoint,
    List.length_map]

theorem foldl_add_zero {α : Type} (l : List α) (f : α → K) (h : ∀ a ∈ l, f a = 0) :
    l.foldl (fun s a => s + f a) 0 = 0 := by
  induction l with
  | nil => rfl
  | cons a l ih =>
    simp only [List.foldl_cons, h a (List.mem_cons_self _ _), PadLaws.zero_add_zero]
    exact ih (fun x hx => h x (List.mem_cons_of_mem _ hx))

theorem calculateMean_of_length_le (ps : List (Point K)) (dim : Nat)
    (h : ∀ p ∈ ps, p.coordinates_.length ≤ dim) : calculateMean ps dim = 0 := by
  simp only [calculateMean]
  rw [foldl_add_zero ps (fun p => p.get dim) (fun p hp => get_of_length_le p dim (h p hp))]
  exact PadLaws.zero_div _

theorem calculateVariance_of_length_le (ps : List (Point K)) (dim : Nat)
    (h : ∀ p ∈ ps, p.coordinates_.length ≤ dim) : calculateVariance ps dim = 0 := by
  simp only [calculateVariance, calculateMean_of_length_le ps dim h]
  rw [foldl_add_zero ps (fun p => (p.get dim - 0) * (p.get dim - 0))
    (fun p hp => by
      simp only [get_of_length_le p dim (h p hp), PadLaws.zero_sub_zero,
        PadLaws.zero_mul_zero])]
  exact PadLaws.zero_div _

theorem getEntriesCentroids_lift (n : Nat) (x : SSNode K) :
    (liftNode n x).getEntriesCentroids = x.getEntriesCentroids.map (liftPoint n) := by
  simp only [SSNode.getEntriesCentroids, liftNode_isLeaf, liftNode_data, liftNode_children,
    List.map_map]
  split
  · simp [Function.comp_def, liftData]
  · simp [Function.comp_def]

theorem entries_length_of_wf (D : Nat) (x : SSNode K) (hw : wfNode D x) :
    ∀ p ∈ x.getEntriesCentroids, p.coordinates_.length = D := by
  rw [wfNode_iff] at hw
  intro p hp
  simp only [SSNode.getEntriesCentroids] at hp
  split at hp
  · obtain ⟨d, hd, rfl⟩ := List.mem_map.1 hp
    exact hw.2.1 d hd
  · obtain ⟨c, hc, rfl⟩ := List.mem_map.1 hp
    exact ((wfNode_iff D c).1 (hw.2.2 c hc)).1

/-- The centroid that `updateBoundingEnvelope` computes in the wider space is the padded
centroid of the narrower space. -/
theorem centroid_lift (env : Env K) (n : Nat) (ps : List (Point K))
    (h : ∀ p ∈ ps, p.coordinates_.length = env.DIM) :
    (⟨(List.range (env.widen n).DIM).map
        (fun dim => calculateMean (ps.map (liftPoint n)) dim)⟩ : Point K) =
      liftPoint n ⟨(List.range env.DIM).map (fun dim => calculateMean ps dim)⟩ := by
  simp only [Env.widen, liftPoint, Point.mk.injEq, calculateMean_lift]
  rw [List.range_add, List.map_append]
  congr 1
  rw [List.map_map]
  rw [List.eq_replicate_iff]
  refine ⟨by simp, ?_⟩
  intro b hb
  obtain ⟨i, _, rfl⟩ := List.mem_map.1 hb
  simp only [Function.comp_apply]
  exact calculateMean_of_length_le ps _ (fun p hp => by rw [h p hp]; omega)

end Lift

section LiftEnvelope

variable {K : Type} [Zero K] [Add K] [Sub K] [Mul K] [Div K] [NatCast K] [LinearOrder K]
  [PowAcc K] [PadLaws K]

theorem foldl_map_congr {α β γ : Type} (f : γ → β → γ) (g : γ → α → γ) (m : α → β)
    (l : List α) (h : ∀ c, ∀ a ∈ l, f c (m a) = g c a) :
    ∀ init, (l.map m).foldl f init = l.foldl g init := by
  induction l with
  | nil => intro init; rfl
  | cons a l ih =>
    intro init
    simp only [List.map_cons, List.foldl_cons]
    rw [h init a (List.mem_cons_self _ _)]
    exact ih (fun c x hx => h c x (List.mem_cons_of_mem _ hx)) _

/-- Recomputing the envelope commutes with padding, for a node whose entries have `DIM`
coordinates. -/
theorem update_lift (env : Env K) (n : Nat) (x : SSNode K)
    (h : ∀ p ∈ x.getEntriesCentroids, p.coordinates_.length = env.DIM) :
    (liftNode n x).updateBoundingEnvelope (env.widen n) =
      liftNode n (x.updateBoundingEnvelope env) := by
  have hc := centroid_lift env n x.getEntriesCentroids h
  have hclen : (x.updateBoundingEnvelope env).centroid.coordinates_.length = env.DIM := by
    simp [update_centroid]
  have hcen : ((liftNode n x).updateBoundingEnvelope (env.widen n)).centroid =
      liftPoint n (x.updateBoundingEnvelope env).centroid := by
    rw [update_centroid, update_centroid, getEntriesCentroids_lift]
    exact hc
  rw [liftNode_eq n (x.updateBoundingEnvelope env)]
  rw [← node_eta ((liftNode n x).updateBoundingEnvelope (env.widen n))]
  simp only [update_isLeaf, update_children, update_data, update_maxPointsPerNode,
    liftNode_isLeaf, liftNode_children, liftNode_data, liftNode_maxPointsPerNode, hcen]
  congr 1
  cases hl : x.isLeaf with
  | true =>
    rw [update_radius_leaf _ _ (by simpa using hl), update_radius_leaf _ _ hl, hcen]
    simp only [liftNode_data]
    apply foldl_map_congr
    intro c a ha
    have hlen : a.embedding.coordinates_.length = env.DIM := by
      apply h
      simp only [SSNode.getEntriesCentroids, hl, if_true]
      exact List.mem_map_of_mem _ ha
    simp only [liftData, distance_widen]
    rw [distance_lift env n _ _ (by rw [hclen, hlen])]
  | false =>
    rw [update_radius_internal _ _ (by simpa using hl), update_radius_internal _ _ hl, hcen]
    simp only [liftNode_children]
    apply foldl_map_congr
    intro c a ha
    have hlen : a.centroid.coordinates_.length = env.DIM := by
      apply h
      simp only [SSNode.getEntriesCentroids, hl, Bool.false_eq_true, if_false]
      exact List.mem_map_of_mem _ ha
    simp only [liftNode_centroid, liftNode_radius, distance_widen]
    rw [distance_lift env n _ _ (by rw [hclen, hlen])]

theorem directionLoop_congr (E1 E2 : List (Point K))
    (h : ∀ dim, calculateVariance E2 dim = calculateVariance E1 dim) :
    ∀ (l : List Nat) (hv : K) (d : Nat), directionLoop E2 l hv d = directionLoop E1 l hv d := by
  intro l
  induction l with
  | nil => intro hv d; rfl
  | cons a l ih =>
    intro hv d
    simp only [directionLoop, h, ih]

theorem directionLoop_append_of_le (E : List (Point K)) :
    ∀ (l1 l2 : List Nat) (hv : K) (d : Nat), (∀ dim ∈ l2, calculateVariance E dim ≤ hv) →
      directionLoop E (l1 ++ l2) hv d = directionLoop E l1 hv d := by
  intro l1
  induction l1 with
  | nil =>
    intro l2
    induction l2 with
    | nil => intro hv d _; rfl
    | cons a l2 ih2 =>
      intro hv d h
      simp only [List.nil_append, directionLoop]
      have := h a (List.mem_cons_self _ _)
      rw [if_neg (not_lt.2 this)]
      have := ih2 hv d (fun x hx => h x (List.mem_cons_of_mem _ hx))
      simpa [directionLoop] using this
  | cons a l1 ih =>
    intro l2 hv d h
    simp only [List.cons_append, directionLoop]
    split
    · next hgt =>
      exact ih l2 _ _ (fun x hx => le_trans (h x hx) (le_of_lt hgt))
    · exact ih l2 _ _ h

/-- The split axis does not change with padding: the variance along an added dimension is
zero and never beats the running maximum. -/
theorem direction_lift (env : Env K) (n : Nat) (x : SSNode K)
    (h : ∀ p ∈ x.getEntriesCentroids, p.coordinates_.length = env.DIM) :
    (liftNode n x).directionOfMaxVariance (env.widen n) = x.directionOfMaxVariance env := by
  simp only [SSNode.directionOfMaxVariance, getEntriesCentroids_lift]
  rw [directionLoop_congr x.getEntriesCentroids _ (calculateVariance_lift n _)]
  simp only [Env.widen]
  rw [List.range_add]
  apply directionLoop_append_of_le
  intro dim hd
  obtain ⟨i, _, rfl⟩ := List.mem_map.1 hd
  rw [calculateVariance_of_length_le _ _ (fun p hp => by rw [h p hp]; omega)]

theorem sortByKey_map {α β : Type} (f : α → β) (key1 : α → K) (key2 : β → K)
    (h : ∀ a, key2 (f a) = key1 a) (l : List α) :
    sortByKey key2 (l.map f) = (sortByKey key1 l).map f := by
  unfold sortByKey
  refine (List.map_insertionSort _ _ f l ?_).symm
  intro a _ b _
  simp only [h]

theorem update_lift_mk_leaf (env : Env K) (n M : Nat) (c : Point K) (r : K)
    (ds : List (Data K)) (h : ∀ d ∈ ds, d.embedding.coordinates_.length = env.DIM) :
    (SSNode.mk M (liftPoint n c) r true [] (ds.map (liftData n))).updateBoundingEnvelope
        (env.widen n) =
      liftNode n ((SSNode.mk M c r true [] ds).updateBoundingEnvelope env) := by
  rw [← update_lift env n _ (by
    intro p hp
    simp only [SSNode.getEntriesCentroids, isLeaf_mk, if_true, data_mk] at hp
    obtain ⟨d, hd, rfl⟩ := List.mem_map.1 hp
    exact h d hd)]
  simp [liftNode_mk]

theorem update_lift_mk_internal (env : Env K) (n M : Nat) (c : Point K) (r : K)
    (cs : List (SSNode K)) (h : ∀ x ∈ cs, x.centroid.coordinates_.length = env.DIM) :
    (SSNode.mk M (liftPoint n c) r false (cs.map (liftNode n)) []).updateBoundingEnvelope
        (env.widen n) =
      liftNode n ((SSNode.mk M c r false cs []).updateBoundingEnvelope env) := by
  rw [← update_lift env n _ (by
    intro p hp
    simp only [SSNode.getEntriesCentroids, isLeaf_mk, Bool.false_eq_true, if_false,
      children_mk] at hp
    obtain ⟨d, hd, rfl⟩ := List.mem_map.1 hp
    exact h d hd)]
  simp [liftNode_mk]

theorem minVarianceSplit_widen (env : Env K) (n M : Nat) (values : List K) :
    minVarianceSplit (env.widen n) M values = minVarianceSplit env M values := rfl

/-- Method `SSNode::split` commutes with padding. -/
theorem split_lift (env : Env K) (n : Nat) (x : SSNode K)
    (hd : ∀ d ∈ x._data, d.embedding.coordinates_.length = env.DIM)
    (hc : ∀ c ∈ x.children, c.centroid.coordinates_.length = env.DIM) :
    (liftNode n x).split (env.widen n) =
      (liftNode n (x.split env).1, liftNode n (x.split env).2) := by
  have hent : ∀ p ∈ x.getEntriesCentroids, p.coordinates_.length = env.DIM := by
    intro p hp
    simp only [SSNode.getEntriesCentroids] at hp
    split at hp
    · obtain ⟨d, hdm, rfl⟩ := List.mem_map.1 hp
      exact hd d hdm
    · obtain ⟨c, hcm, rfl⟩ := List.mem_map.1 hp
      exact hc c hcm
  cases hl : x.isLeaf with
  | true =>
    rw [split_leaf _ _ (by simpa using hl), split_leaf _ _ hl]
    simp only [direction_lift env n x hent, liftNode_data, liftNode_maxPointsPerNode,
      liftNode_centroid, liftNode_radius]
    rw [sortByKey_map (liftData n) (fun (e : Data K) => e.embedding.get (x.directionOfMaxVariance env))
      (fun (e : Data K) => e.embedding.get (x.directionOfMaxVariance env))
      (by intro a; simp [liftData])]
    simp only [List.map_map, minVarianceSplit_widen]
    have hkey : ((fun (e : Data K) => e.embedding.get (x.directionOfMaxVariance env)) ∘
        liftData n) = fun (e : Data K) => e.embedding.get (x.directionOfMaxVariance env) := by
      funext a; simp [liftData]
    rw [hkey]
    simp only [← List.map_take, ← List.map_drop]
    rw [update_lift_mk_leaf env n _ _ _ _
        (fun d hdm => hd d ((mem_sortByKey _ _ _).1 (List.mem_of_mem_take hdm))),
      update_lift_mk_leaf env n _ _ _ _
        (fun d hdm => hd d ((mem_sortByKey _ _ _).1 (List.mem_of_mem_drop hdm)))]
  | false =>
    rw [split_internal _ _ (by simpa using hl), split_internal _ _ hl]
    simp only [direction_lift env n x hent, liftNode_children, liftNode_maxPointsPerNode,
      liftNode_centroid, liftNode_radius]
    rw [sortByKey_map (liftNode n) (fun (c : SSNode K) => c.centroid.get (x.directionOfMaxVariance env))
      (fun (c : SSNode K) => c.centroid.get (x.directionOfMaxVariance env))
      (by intro a; simp)]
    simp only [List.map_map, minVarianceSplit_widen]
    have hkey : ((fun (c : SSNode K) => c.centroid.get (x.directionOfMaxVariance env)) ∘
        liftNode n) = fun (c : SSNode K) => c.centroid.get (x.directionOfMaxVariance env) := by
      funext a; simp
    rw [hkey]
    simp only [← List.map_take, ← List.map_drop]
    rw [update_lift_mk_internal env n _ _ _ _
        (fun d hdm => hc d ((mem_sortByKey _ _ _).1 (List.mem_of_mem_take hdm))),
      update_lift_mk_internal env n _ _ _ _
        (fun d hdm => hc d ((mem_sortByKey _ _ _).1 (List.mem_of_mem_drop hdm)))]

end LiftEnvelope

section LiftInsert

variable {K : Type} [Zero K] [Add K] [Sub K] [Mul K] [Div K] [NatCast K] [LinearOrder K]
  [PowAcc K] [PadLaws K]

theorem wf_update (env : Env K) (x : SSNode K)
    (hd : ∀ d ∈ x._data, d.embedding.coordinates_.length = env.DIM)
    (hc : ∀ c ∈ x.children, wfNode env.DIM c) :
    wfNode env.DIM (x.updateBoundingEnvelope env) := by
  rw [wfNode_iff]
  exact ⟨by simp [update_centroid], by simpa using hd, by simpa using hc⟩

theorem wf_split (env : Env K) (x : SSNode K)
    (hd : ∀ d ∈ x._data, d.embedding.coordinates_.length = env.DIM)
    (hc : ∀ c ∈ x.children, wfNode env.DIM c) :
    wfNode env.DIM (x.split env).1 ∧ wfNode env.DIM (x.split env).2 := by
  cases hl : x.isLeaf with
  | true =>
    rw [split_leaf env x hl]
    constructor
    · apply wf_update
      · intro d hdm
        exact hd d ((mem_sortByKey _ _ _).1 (List.mem_of_mem_take hdm))
      · intro c hcm; simp at hcm
    · apply wf_update
      · intro d hdm
        exact hd d ((mem_sortByKey _ _ _).1 (List.mem_of_mem_drop hdm))
      · intro c hcm; simp at hcm
  | false =>
    rw [split_internal env x hl]
    constructor
    · apply wf_update
      · intro d hdm; simp at hdm
      · intro c hcm
        exact hc c ((mem_sortByKey _ _ _).1 (List.mem_of_mem_take hcm))
    · apply wf_update
      · intro d hdm; simp at hdm
      · intro c hcm
        exact hc c ((mem_sortByKey _ _ _).1 (List.mem_of_mem_drop hcm))

theorem centroid_length_of_wf {D : Nat} {c : SSNode K} (h : wfNode D c) :
    c.centroid.coordinates_.length = D := ((wfNode_iff D c).1 h).1

/-- The tail of `SSNode::insert` commutes with padding and keeps the dimensions. -/
theorem finishInsert_lift (env : Env K) (n : Nat) (x : SSNode K) (size : Nat)
    (hd : ∀ d ∈ x._data, d.embedding.coordinates_.length = env.DIM)
    (hc : ∀ c ∈ x.children, wfNode env.DIM c) :
    finishInsert (env.widen n) (liftNode n x) size = liftResult n (finishInsert env x size) ∧
    (finishInsert env x size).Forall (wfNode env.DIM) := by
  have hent : ∀ p ∈ x.getEntriesCentroids, p.coordinates_.length = env.DIM := by
    intro p hp
    simp only [SSNode.getEntriesCentroids] at hp
    split at hp
    · obtain ⟨d, hdm, rfl⟩ := List.mem_map.1 hp
      exact hd d hdm
    · obtain ⟨c, hcm, rfl⟩ := List.mem_map.1 hp
      exact centroid_length_of_wf (hc c hcm)
  unfold finishInsert
  simp only [update_lift env n x hent, liftNode_maxPointsPerNode, update_maxPointsPerNode]
  split
  · exact ⟨rfl, wf_update env x hd hc⟩
  · constructor
    · rw [split_lift env n (x.updateBoundingEnvelope env) (by simpa using hd)
        (by simpa using fun c hcm => centroid_length_of_wf (hc c hcm))]
      rfl
    · exact wf_split env _ (by simpa using hd) (by simpa using hc)

theorem minElementGo_map {α β : Type} (f : α → β) (less1 : α → α → Bool)
    (less2 : β → β → Bool) :
    ∀ (xs : List α) (i : Nat) (cur : α) (best : Nat),
      (∀ a ∈ cur :: xs, ∀ b ∈ cur :: xs, less2 (f a) (f b) = less1 a b) →
      minElementGo less2 (xs.map f) i (f cur) best = minElementGo less1 xs i cur best
  | [], _, _, _, _ => rfl
  | x :: xs, i, cur, best, h => by
    simp only [List.map_cons, minElementGo]
    rw [h x (by simp) cur (by simp)]
    split
    · exact minElementGo_map f less1 less2 xs _ x _ (fun a ha b hb =>
        h a (by
          rcases List.mem_cons.1 ha with rfl | ha
          · simp
          · simp [ha]) b (by
          rcases List.mem_cons.1 hb with rfl | hb
          · simp
          · simp [hb]))
    · exact minElementGo_map f less1 less2 xs _ cur _ (fun a ha b hb =>
        h a (by
          rcases List.mem_cons.1 ha with rfl | ha
          · simp
          · simp [ha]) b (by
          rcases List.mem_cons.1 hb with rfl | hb
          · simp
          · simp [hb]))

theorem minElement_map {α β : Type} (f : α → β) (less1 : α → α → Bool)
    (less2 : β → β → Bool) (l : List α)
    (h : ∀ a ∈ l, ∀ b ∈ l, less2 (f a) (f b) = less1 a b) :
    minElement less2 (l.map f) = minElement less1 l := by
  cases l with
  | nil => rfl
  | cons x xs =>
    simp only [List.map_cons, minElement]
    rw [minElementGo_map f less1 less2 xs 1 x 0 h]

theorem findClosestChild_lift (env : Env K) (n : Nat) (cs : List (SSNode K)) (target : Point K)
    (hc : ∀ c ∈ cs, c.centroid.coordinates_.length = target.coordinates_.length) :
    findClosestChild (env.widen n) (cs.map (liftNode n)) (liftPoint n target) =
      findClosestChild env cs target := by
  unfold findClosestChild
  rw [minElement_map (liftNode n)
    (fun a b => decide (Point.distance env a.centroid target
                          < Point.distance env b.centroid target))]
  intro a ha b hb
  simp only [liftNode_centroid, distance_widen]
  rw [distance_lift env n _ _ (hc a ha), distance_lift env n _ _ (hc b hb)]

theorem containsPtr_lift (n : Nat) (ds : List (Data K)) (d : Data K) :
    containsPtr (ds.map (liftData n)) (liftData n d) = containsPtr ds d := by
  simp [containsPtr, List.any_map, Function.comp_def, liftData]

mutual
/-- Method `SSNode::insert` commutes with padding, and keeps the dimensions. -/
theorem insert_lift (env : Env K) (n : Nat) :
    ∀ (x : SSNode K) (d : Data K) (res : InsertResult K),
      wfNode env.DIM x → d.embedding.coordinates_.length = env.DIM →
      x.insert env d = .ok res →
      (liftNode n x).insert (env.widen n) (liftData n d) = .ok (liftResult n res) ∧
      res.Forall (wfNode env.DIM)
  | .mk M c r isLeaf children _data, d, res, hw, hd, h => by
    have hw' := (wfNode_iff _ _).1 hw
    simp only [centroid_mk, data_mk, children_mk] at hw'
    rw [liftNode_mk]
    unfold SSNode.insert at h ⊢
    cases isLeaf with
    | true =>
      simp only [if_true, containsPtr_lift] at h ⊢
      split at h
      · next hcp =>
        simp only [Except.ok.injEq] at h
        subst h
        refine ⟨?_, hw⟩
        simp only [hcp, if_true, liftResult, liftNode_mk]
      · next hcp =>
        simp only [Except.ok.injEq] at h
        subst h
        simp only [hcp, Bool.false_eq_true, if_false]
        have := finishInsert_lift env n (SSNode.mk M c r true children (_data ++ [d]))
          (_data.length + 1)
          (by
            intro e he
            simp only [data_mk, List.mem_append, List.mem_singleton] at he
            rcases he with he | rfl
            · exact hw'.2.1 e he
            · exact hd)
          (by simpa using hw'.2.2)
        rw [liftNode_mk] at this
        simp only [List.map_append, List.map_cons, List.map_nil, List.length_map] at this ⊢
        exact ⟨by rw [this.1], this.2⟩
    | false =>
      simp only [Bool.false_eq_true, if_false] at h ⊢
      have hfc := findClosestChild_lift env n children d.embedding
        (fun x hx => by rw [centroid_length_of_wf (hw'.2.2 x hx), hd])
      have hld : (liftData n d).embedding = liftPoint n d.embedding := rfl
      rw [hld, hfc]
      cases hf : findClosestChild env children d.embedding with
      | error e => simp [hf] at h
      | ok i =>
        simp only [hf] at h ⊢
        cases hci : insertChildAt env children i d with
        | error e => simp [hci] at h
        | ok p =>
          have ih := insertChildAt_lift env n children i d p
            ((wfNodes_iff _ _).2 hw'.2.2) hd hci
          rw [liftNodes_eq_map] at ih
          obtain ⟨cs', o⟩ := p
          cases o with
          | none =>
            simp only [hci, Except.ok.injEq] at h
            subst h
            simp only [ih.1, liftChildResult]
            have hu := update_lift env n (SSNode.mk M c r false cs' _data) (by
              intro p hp
              simp only [SSNode.getEntriesCentroids, isLeaf_mk, Bool.false_eq_true, if_false,
                children_mk] at hp
              obtain ⟨x, hx, rfl⟩ := List.mem_map.1 hp
              exact centroid_length_of_wf (ih.2.1 x hx))
            rw [liftNode_mk] at hu
            simp only [liftResult]
            refine ⟨by rw [hu], ?_⟩
            exact wf_update env _ (by simpa using hw'.2.1) (by simpa using ih.2.1)
          | some lr =>
            obtain ⟨l, r'⟩ := lr
            simp only [hci, Except.ok.injEq] at h
            subst h
            simp only [ih.1, liftChildResult]
            have := finishInsert_lift env n (SSNode.mk M c r false (cs' ++ [l, r']) _data)
              (cs'.length + 2) (by simpa using hw'.2.1)
              (by
                intro x hx
                simp only [children_mk, List.mem_append, List.mem_cons, List.mem_singleton,
                  List.not_mem_nil, or_false] at hx
                rcases hx with hx | rfl | rfl
                · exact ih.2.1 x hx
                · exact ih.2.2.1
                · exact ih.2.2.2)
            rw [liftNode_mk] at this
            simp only [List.map_append, List.map_cons, List.map_nil, List.length_map] at this ⊢
            exact ⟨by rw [this.1], this.2⟩
theorem insertChildAt_lift (env : Env K) (n : Nat) :
    ∀ (cs : List (SSNode K)) (i : Nat) (d : Data K)
      (p : List (SSNode K) × Option (SSNode K × SSNode K)),
      wfNodes env.DIM cs → d.embedding.coordinates_.length = env.DIM →
      insertChildAt env cs i d = .ok p →
      insertChildAt (env.widen n) (liftNodes n cs) i (liftData n d) =
        .ok (liftChildResult n p) ∧
      childForall (wfNode env.DIM) p
  | [], _, _, _, _, _, h => by simp [insertChildAt] at h
  | child :: rest, 0, d, p, hw, hd, h => by
    simp only [wfNodes] at hw
    unfold insertChildAt at h
    simp only [liftNodes]
    unfold insertChildAt
    cases hi : SSNode.insert env child d with
    | error e => simp [hi] at h
    | ok res =>
      have ih := insert_lift env n child d res hw.1 hd hi
      cases res with
      | absorbed child' =>
        simp only [hi, Except.ok.injEq] at h
        subst h
        simp only [ih.1, liftResult, liftChildResult, List.map_cons, liftNodes_eq_map]
        refine ⟨trivial, ?_, trivial⟩
        intro x hx
        rcases List.mem_cons.1 hx with rfl | hx
        · exact ih.2
        · exact (wfNodes_iff _ _).1 hw.2 x hx
      | split l r =>
        simp only [hi, Except.ok.injEq] at h
        subst h
        simp only [ih.1, liftResult, liftChildResult, liftNodes_eq_map]
        exact ⟨trivial, (wfNodes_iff _ _).1 hw.2, ih.2⟩
  | child :: rest, i + 1, d, p, hw, hd, h => by
    simp only [wfNodes] at hw
    unfold insertChildAt at h
    simp only [liftNodes]
    unfold insertChildAt
    cases hi : insertChildAt env rest i d with
    | error e => simp [hi] at h
    | ok q =>
      have ih := insertChildAt_lift env n rest i d q hw.2 hd hi
      obtain ⟨rest', o⟩ := q
      simp only [hi, Except.ok.injEq] at h
      subst h
      simp only [ih.1, liftChildResult, List.map_cons]
      refine ⟨trivial, ?_, ih.2.2⟩
      intro x hx
      rcases List.mem_cons.1 hx with rfl | hx
      · exact hw.1
      · exact ih.2.1 x hx
end

end LiftInsert

section LiftTree

variable {K : Type} [Zero K] [Add K] [Sub K] [Mul K] [Div K] [NatCast K] [LinearOrder K]
  [PowAcc K] [PadLaws K]

theorem tree_insert_eq (env : Env K) (t : SSTree K) (d : Data K) (x : SSNode K)
    (hx : x = (match t.root with
      | none => SSNode.mk t.maxPointsPerNode d.embedding 0 true [] []
      | some root => root)) :
    t.insert env d =
      (match x.insert env d with
       | .error e => .error e
       | .ok (.absorbed root) => .ok ⟨some root, t.maxPointsPerNode⟩
       | .ok (.split n1 n2) =>
         .ok ⟨some (.mk t.maxPointsPerNode d.embedding 0 false [n1, n2] []),
              t.maxPointsPerNode⟩) := by
  subst hx
  rfl

/-- Method `SSTree::insert` commutes with padding, and keeps the dimensions. -/
theorem tree_insert_lift (env : Env K) (n : Nat) (t t' : SSTree K) (d : Data K)
    (hw : wfTree env.DIM t) (hd : d.embedding.coordinates_.length = env.DIM)
    (h : t.insert env d = .ok t') :
    (liftTree n t).insert (env.widen n) (liftData n d) = .ok (liftTree n t') ∧
    wfTree env.DIM t' := by
  have hroot : liftNode n (match t.root with
        | none => SSNode.mk t.maxPointsPerNode d.embedding 0 true [] []
        | some root => root) =
      (match (liftTree n t).root with
      | none => SSNode.mk (liftTree n t).maxPointsPerNode (liftData n d).embedding 0 true [] []
      | some root => root) := by
    cases hr : t.root with
    | none => simp [liftTree, hr, liftNode_mk, liftData]
    | some root => simp [liftTree, hr]
  have hwf : wfNode env.DIM (match t.root with
      | none => SSNode.mk t.maxPointsPerNode d.embedding 0 true [] []
      | some root => root) := by
    cases hr : t.root with
    | none => simp [wfNode, wfNodes, hd]
    | some root => exact hw root hr
  rw [tree_insert_eq env t d _ rfl] at h
  rw [tree_insert_eq (env.widen n) (liftTree n t) (liftData n d) _ hroot]
  split at h
  · simp at h
  · next root' hi =>
    simp only [Except.ok.injEq] at h
    subst h
    have := insert_lift env n _ d _ hwf hd hi
    simp only [this.1, liftResult]
    refine ⟨rfl, ?_⟩
    intro r hr
    simp only [Option.some.injEq] at hr
    subst hr
    exact this.2
  · next n1 n2 hi =>
    simp only [Except.ok.injEq] at h
    subst h
    have := insert_lift env n _ d _ hwf hd hi
    simp only [this.1, liftResult]
    refine ⟨by simp [liftTree, liftNode_mk, liftData], ?_⟩
    intro r hr
    simp only [Option.some.injEq] at hr
    subst hr
    rw [wfNode_iff]
    refine ⟨hd, by simp, ?_⟩
    intro c hc
    simp only [children_mk, List.mem_cons, List.mem_singleton, List.not_mem_nil,
      or_false] at hc
    rcases hc with rfl | rfl
    · exact this.2.1
    · exact this.2.2

theorem insertAll_lift (env : Env K) (n : Nat) :
    ∀ (R : List (Data K)) (t t' : SSTree K), wfTree env.DIM t →
      (∀ r ∈ R, r.embedding.coordinates_.length = env.DIM) →
      SSTree.insertAll env t R = .ok t' →
      SSTree.insertAll (env.widen n) (liftTree n t) (R.map (liftData n)) = .ok (liftTree n t') ∧
      wfTree env.DIM t'
  | [], t, t', hw, _, h => by
    simp only [SSTree.insertAll, Except.ok.injEq] at h
    subst h
    exact ⟨rfl, hw⟩
  | d :: ds, t, t', hw, hR, h => by
    unfold SSTree.insertAll at h
    simp only [List.map_cons]
    unfold SSTree.insertAll
    cases hi : t.insert env d with
    | error e => simp [hi] at h
    | ok t1 =>
      simp only [hi] at h
      have h1 := tree_insert_lift env n t t1 d hw (hR d (List.mem_cons_self _ _)) hi
      simp only [h1.1]
      exact insertAll_lift env n ds t1 t' h1.2
        (fun r hr => hR r (List.mem_cons_of_mem _ hr)) h

/-- Building a tree commutes with padding: the tree built in the wider space from the
padded records is the padded tree. -/
theorem build_lift (env : Env K) (n M : Nat) (R : List (Data K)) (t : SSTree K)
    (hR : ∀ r ∈ R, r.embedding.coordinates_.length = env.DIM)
    (h : SSTree.build env M R = .ok t) :
    SSTree.build (env.widen n) M (R.map (liftData n)) = .ok (liftTree n t) ∧
    wfTree env.DIM t :=
  insertAll_lift env n R (SSTree.empty M) t
    (by intro r hr; simp [SSTree.empty] at hr) hR h

end LiftTree

section LiftKnn

variable {K : Type} [Zero K] [Add K] [Sub K] [Mul K] [Div K] [NatCast K] [LinearOrder K]
  [PowAcc K] [PadLaws K]

theorem eraseIdx_map {α β : Type} (f : α → β) :
    ∀ (l : List α) (i : Nat), (l.map f).eraseIdx i = (l.eraseIdx i).map f
  | [], _ => by simp
  | a :: l, 0 => by simp [List.eraseIdx]
  | a :: l, i + 1 => by simp [List.eraseIdx, eraseIdx_map f l i]

theorem pqTop_map {α β : Type} (f : α → β) (comp1 : α → α → Bool) (comp2 : β → β → Bool)
    (l : List α) (h : ∀ a ∈ l, ∀ b ∈ l, comp2 (f a) (f b) = comp1 a b) :
    pqTop comp2 (l.map f) = pqTop comp1 l := by
  unfold pqTop
  exact minElement_map f _ _ l (fun a ha b hb => h b hb a ha)

theorem drain_map {α β : Type} (f : α → β) (comp1 : α → α → Bool) (comp2 : β → β → Bool) :
    ∀ (m : Nat) (l : List α), (∀ a ∈ l, ∀ b ∈ l, comp2 (f a) (f b) = comp1 a b) →
      drain comp2 m (l.map f) = (drain comp1 m l).map f
  | 0, _, _ => rfl
  | m + 1, l, h => by
    unfold drain
    rw [pqTop_map f comp1 comp2 l h]
    cases hp : pqTop comp1 l with
    | none => rfl
    | some i =>
      simp only [List.get?_map]
      cases hg : l.get? i with
      | none => rfl
      | some top =>
        simp only [Option.map_some', List.map_cons, eraseIdx_map]
        rw [drain_map f comp1 comp2 m (l.eraseIdx i)
          (fun a ha b hb => h a (List.mem_of_mem_eraseIdx ha) b (List.mem_of_mem_eraseIdx hb))]

theorem dataCompare_lift (env : Env K) (n : Nat) (query : Point K) (a b : Data K)
    (ha : a.embedding.coordinates_.length = query.coordinates_.length)
    (hb : b.embedding.coordinates_.length = query.coordinates_.length) :
    dataCompare (env.widen n) (liftPoint n query) (liftData n a) (liftData n b) =
      dataCompare env query a b := by
  have e1 := distance_lift env n _ _ ha
  have e2 := distance_lift env n _ _ hb
  simp only [dataCompare, liftData, distance_widen, e1, e2]

theorem topDistance_lift (env : Env K) (n : Nat) (query : Point K) (nn : List (Data K))
    (h : ∀ e ∈ nn, e.embedding.coordinates_.length = query.coordinates_.length) :
    topDistance (env.widen n) (liftPoint n query) (nn.map (liftData n)) =
      topDistance env query nn := by
  unfold topDistance
  rw [pqTop_map (liftData n) (dataCompare env query) _ nn
    (fun a ha b hb => dataCompare_lift env n query a b (h a ha) (h b hb))]
  cases hp : pqTop (dataCompare env query) nn with
  | none => rfl
  | some i =>
    simp only [List.get?_map]
    cases hg : nn.get? i with
    | none => rfl
    | some top =>
      simp only [Option.map_some', liftData, distance_widen]
      rw [distance_lift env n _ _ (h top (mem_of_get?_eq_some hg))]

theorem pruned_lift (env : Env K) (n : Nat) (query : Point K) (nn : List (Data K)) (d : K)
    (h : ∀ e ∈ nn, e.embedding.coordinates_.length = query.coordinates_.length) :
    pruned (env.widen n) (liftPoint n query) (nn.map (liftData n)) d =
      pruned env query nn d := by
  simp only [pruned, topDistance_lift env n query nn h]

theorem scanLeaf_lift (env : Env K) (n : Nat) (query : Point K) (k : Nat) :
    ∀ (ds nn : List (Data K)),
      (∀ e ∈ ds, e.embedding.coordinates_.length = query.coordinates_.length) →
      (∀ e ∈ nn, e.embedding.coordinates_.length = query.coordinates_.length) →
      scanLeaf (env.widen n) (liftPoint n query) k (ds.map (liftData n)) (nn.map (liftData n)) =
        Except.map (List.map (liftData n)) (scanLeaf env query k ds nn) ∧
      ∀ nn', scanLeaf env query k ds nn = .ok nn' →
        ∀ e ∈ nn', e.embedding.coordinates_.length = query.coordinates_.length
  | [], nn, _, hnn => by
    simp only [List.map_nil, scanLeaf, Except.map, Except.ok.injEq, true_and]
    intro nn' h
    subst h
    exact hnn
  | d :: ds, nn, hds, hnn => by
    have hd := hds d (List.mem_cons_self _ _)
    have hds' : ∀ e ∈ ds, e.embedding.coordinates_.length = query.coordinates_.length :=
      fun e he => hds e (List.mem_cons_of_mem _ he)
    simp only [List.map_cons]
    unfold scanLeaf
    simp only [List.length_map]
    split
    · have := scanLeaf_lift env n query k ds (nn ++ [d]) hds' (by
        intro e he
        rcases List.mem_append.1 he with he | he
        · exact hnn e he
        · simp only [List.mem_singleton] at he
          rw [he]; exact hd)
      simpa using this
    · rw [pqTop_map (liftData n) (dataCompare env query) _ nn
        (fun a ha b hb => dataCompare_lift env n query a b (hnn a ha) (hnn b hb)),
        topDistance_lift env n query nn hnn]
      cases hp : pqTop (dataCompare env query) nn with
      | none => simp [Except.map]
      | some i =>
        cases ht : topDistance env query nn with
        | none => simp [Except.map]
        | some t =>
          simp only [liftData, distance_widen]
          rw [distance_lift env n _ _ hd]
          split
          · have := scanLeaf_lift env n query k ds (nn.eraseIdx i ++ [d]) hds' (by
              intro e he
              rcases List.mem_append.1 he with he | he
              · exact hnn e (List.mem_of_mem_eraseIdx he)
              · simp only [List.mem_singleton] at he
                rw [he]; exact hd)
            simpa [eraseIdx_map, liftData] using this
          · exact scanLeaf_lift env n query k ds nn hds' hnn

theorem enqueueChildren_lift (env : Env K) (n : Nat) (query : Point K) (nn : List (Data K))
    (hnn : ∀ e ∈ nn, e.embedding.coordinates_.length = query.coordinates_.length) :
    ∀ (cs : List (SSNode K)) (q : List (SSNode K × K)),
      (∀ c ∈ cs, c.centroid.coordinates_.length = query.coordinates_.length) →
      enqueueChildren (env.widen n) (liftPoint n query) (nn.map (liftData n))
          (cs.map (liftNode n)) (q.map (liftEntry n)) =
        (enqueueChildren env query nn cs q).map (liftEntry n)
  | [], q, _ => rfl
  | c :: cs, q, hcs => by
    simp only [List.map_cons]
    unfold enqueueChildren
    simp only [liftNode_centroid, liftNode_radius, distance_widen,
      pruned_lift env n query nn _ hnn]
    rw [distance_lift env n _ _ (hcs c (List.mem_cons_self _ _)).symm]
    split
    · exact enqueueChildren_lift env n query nn hnn cs q
        (fun x hx => hcs x (List.mem_cons_of_mem _ hx))
    · have := enqueueChildren_lift env n query nn hnn cs
        (q ++ [(c, Point.distance env query c.centroid - c.radius)])
        (fun x hx => hcs x (List.mem_cons_of_mem _ hx))
      simpa [liftEntry] using this

theorem nodeCompare_lift (n : Nat) (a b : SSNode K × K) :
    nodeCompare (liftEntry n a) (liftEntry n b) = nodeCompare a b := rfl

/-- The loop of `SSTree::knn` commutes with padding. -/
theorem knnLoop_lift (env : Env K) (n : Nat) (query : Point K) (k : Nat)
    (hq : query.coordinates_.length = env.DIM) :
    ∀ (fuel : Nat) (q : List (SSNode K × K)) (nn : List (Data K)),
      (∀ e ∈ q, wfNode env.DIM e.1) →
      (∀ e ∈ nn, e.embedding.coordinates_.length = query.coordinates_.length) →
      knnLoop (env.widen n) (liftPoint n query) k fuel (q.map (liftEntry n))
          (nn.map (liftData n)) =
        Except.map (List.map (liftData n)) (knnLoop env query k fuel q nn) ∧
      ∀ nn', knnLoop env query k fuel q nn = .ok nn' →
        ∀ e ∈ nn', e.embedding.coordinates_.length = query.coordinates_.length
  | fuel, [], nn, _, hnn => by
    cases fuel <;>
    · simp only [List.map_nil, knnLoop, Except.map, Except.ok.injEq, true_and]
      intro nn' h
      subst h
      exact hnn
  | 0, e :: es, nn, _, _ => by
    simp [knnLoop, Except.map]
  | fuel + 1, e :: es, nn, hw, hnn => by
    have hmap : liftEntry n e :: es.map (liftEntry n) = (e :: es).map (liftEntry n) := rfl
    simp only [List.map_cons]
    unfold knnLoop
    rw [hmap]
    generalize e :: es = Q at hw hmap
    clear hmap
    revert hw
    intro hw
    cases hQ : Q with
    | nil =>
      simp [pqTop, minElement, Except.map]
    | cons e' es' =>
      rw [← hQ]
      rw [hQ] at hw
      rw [pqTop_map (liftEntry n) nodeCompare nodeCompare Q
        (fun a _ b _ => nodeCompare_lift n a b)]
      rw [hQ]
      cases hp : pqTop nodeCompare (e' :: es') with
      | none => simp [Except.map]
      | some i =>
        simp only [List.get?_map]
        cases hg : (e' :: es').get? i with
        | none => simp [Except.map]
        | some top =>
          obtain ⟨cur, dcur⟩ := top
          have hcw : wfNode env.DIM cur := hw _ (mem_of_get?_eq_some hg)
          have hcw' := (wfNode_iff _ _).1 hcw
          have hw' : ∀ x ∈ (e' :: es').eraseIdx i, wfNode env.DIM x.1 :=
            fun x hx => hw x (List.mem_of_mem_eraseIdx hx)
          simp only [Option.map_some', liftEntry, pruned_lift env n query nn _ hnn,
            liftNode_isLeaf, liftNode_data, liftNode_children, eraseIdx_map]
          split
          · exact knnLoop_lift env n query k hq fuel _ nn hw' hnn
          · split
            · have hs := scanLeaf_lift env n query k cur._data nn
                (fun x hx => by rw [hcw'.2.1 x hx, hq]) hnn
              rw [hs.1]
              cases hsc : scanLeaf env query k cur._data nn with
              | error err => simp [Except.map]
              | ok nn1 =>
                simp only [Except.map]
                exact knnLoop_lift env n query k hq fuel _ nn1 hw' (hs.2 nn1 hsc)
            · have he := enqueueChildren_lift env n query nn hnn cur.children
                ((e' :: es').eraseIdx i)
                (fun c hc => by rw [centroid_length_of_wf (hcw'.2.2 c hc), hq])
              rw [he]
              refine knnLoop_lift env n query k hq fuel _ nn ?_ hnn
              intro x hx
              rcases (mem_enqueueChildren env query nn _ _ x).1 hx with hx | ⟨c, hc, rfl, _⟩
              · exact hw' x hx
              · exact hcw'.2.2 c hc

theorem countNodes_lift (n : Nat) :
    ∀ x : SSNode K, countNodes (liftNode n x) = countNodes x := by
  intro x
  induction x using SSNode.induction_aux with
  | h x ih =>
    rw [countNodes_eq, countNodes_eq, liftNode_children]
    congr 1
    have : ∀ cs : List (SSNode K), (∀ c ∈ cs, countNodes (liftNode n c) = countNodes c) →
        countNodesList (cs.map (liftNode n)) = countNodesList cs := by
      intro cs
      induction cs with
      | nil => intro _; rfl
      | cons c cs ihc =>
        intro h
        simp only [List.map_cons, countNodesList, h c (List.mem_cons_self _ _)]
        rw [ihc (fun x hx => h x (List.mem_cons_of_mem _ hx))]
    exact this _ ih

/-- Method `SSTree::knn` commutes with padding: in the wider space, on the padded tree and
the padded query, it returns the padded records (or fails in the same way). -/
theorem knn_lift (env : Env K) (n : Nat) (t : SSTree K) (query : Point K) (k : Nat)
    (hw : wfTree env.DIM t) (hq : query.coordinates_.length = env.DIM) :
    (liftTree n t).knn (env.widen n) (liftPoint n query) k =
      Except.map (List.map (liftData n)) (t.knn env query k) := by
  unfold SSTree.knn
  cases hr : t.root with
  | none => simp [liftTree, hr, Except.map]
  | some root =>
    have hrw := hw root hr
    simp only [liftTree, hr, Option.map_some', countNodes_lift, liftNode_centroid,
      liftNode_radius, distance_widen]
    rw [distance_lift env n _ _ (by rw [hq, centroid_length_of_wf hrw])]
    have hl := knnLoop_lift env n query k hq (countNodes root)
      [(root, Point.distance env query root.centroid - root.radius)] []
      (by intro e he; simp only [List.mem_singleton] at he; rw [he]; exact hrw)
      (by intro e he; simp at he)
    simp only [List.map_cons, List.map_nil, liftEntry] at hl
    rw [hl.1]
    cases hloop : knnLoop env query k (countNodes root)
        [(root, Point.distance env query root.centroid - root.radius)] [] with
    | error err => simp [Except.map]
    | ok nn' =>
      simp only [Except.map, List.length_map, Except.ok.injEq]
      rw [drain_map (liftData n) (dataCompare env query) _ _ nn'
        (fun a ha b hb => dataCompare_lift env n query a b (hl.2 nn' hloop a ha)
          (hl.2 nn' hloop b hb))]
      simp

end LiftKnn

section LiftCheck

variable {K : Type} [Zero K] [Add K] [Sub K] [Mul K] [Div K] [NatCast K] [LinearOrder K]
  [PowAcc K] [PadLaws K]

theorem resultIs_iff {α : Type} (r : Except Failure α) (p : α → Bool) :
    resultIs r p = true ↔ ∃ a, r = .ok a ∧ p a = true := by
  cases r with
  | error e => simp [resultIs]
  | ok a => simp [resultIs]

theorem rootIs_iff (t : SSTree K) (p : SSNode K → Bool) :
    rootIs t p = true ↔ ∃ root, t.root = some root ∧ p root = true := by
  unfold rootIs
  cases t.root with
  | none => simp
  | some root => simp

theorem all_congr_mem {α : Type} (l : List α) (f g : α → Bool) (h : ∀ a ∈ l, f a = g a) :
    l.all f = l.all g := by
  induction l with
  | nil => rfl
  | cons a l ih =>
    simp only [List.all_cons, h a (List.mem_cons_self _ _)]
    rw [ih (fun x hx => h x (List.mem_cons_of_mem _ hx))]

theorem coverLoop_eq_all (env : Env K) (cs : List (SSNode K)) :
    dfsSphereCoversAllChildrenSpheresLoop env cs =
      cs.all (fun c => dfsSphereCoversAllChildrenSpheres env c) := by
  induction cs with
  | nil => simp [dfsSphereCoversAllChildrenSpheresLoop]
  | cons c cs ih =>
    simp only [dfsSphereCoversAllChildrenSpheresLoop, ih, List.all_cons]
    cases dfsSphereCoversAllChildrenSpheres env c <;> simp

theorem cover_eq (env : Env K) (x : SSNode K) :
    dfsSphereCoversAllChildrenSpheres env x =
      (sphereCoversAllChildrenSpheresDFS env x &&
        x.children.all (fun c => dfsSphereCoversAllChildrenSpheres env c)) := by
  cases x with
  | mk M c r l cs ds =>
    simp only [dfsSphereCoversAllChildrenSpheres, coverLoop_eq_all, children_mk]
    cases sphereCoversAllChildrenSpheresDFS env (SSNode.mk M c r l cs ds) <;> simp

theorem coverLocal_lift (env : Env K) (n : Nat) (x : SSNode K) (hw : wfNode env.DIM x) :
    sphereCoversAllChildrenSpheresDFS (env.widen n) (liftNode n x) =
      sphereCoversAllChildrenSpheresDFS env x := by
  have hw' := (wfNode_iff _ _).1 hw
  simp only [sphereCoversAllChildrenSpheresDFS, liftNode_isLeaf, liftNode_children,
    liftNode_centroid, liftNode_radius, List.all_map, Function.comp_def, distance_widen]
  split
  · rfl
  · apply all_congr_mem
    intro c hc
    have := distance_lift env n x.centroid c.centroid
      (by rw [hw'.1, centroid_length_of_wf (hw'.2.2 c hc)])
    simp only [this]

/-- The test `sphereCoversAllChildrenSpheres` gives the same verdict on a padded tree. -/
theorem cover_lift (env : Env K) (n : Nat) :
    ∀ x : SSNode K, wfNode env.DIM x →
      sphereCoversAllChildrenSpheres (env.widen n) (liftNode n x) =
        sphereCoversAllChildrenSpheres env x := by
  intro x
  induction x using SSNode.induction_aux with
  | h x ih =>
    intro hw
    have hw' := (wfNode_iff _ _).1 hw
    unfold sphereCoversAllChildrenSpheres at ih ⊢
    rw [cover_eq, cover_eq env x, coverLocal_lift env n x hw, liftNode_children,
      List.all_map]
    congr 1
    apply all_congr_mem
    intro c hc
    exact ih c hc (hw'.2.2 c hc)

theorem entryCount_lift (n : Nat) (x : SSNode K) :
    (liftNode n x).entryCount = x.entryCount := by
  simp [SSNode.entryCount]

theorem capacityOkList_eq_all (M : Nat) (cs : List (SSNode K)) :
    capacityOkList M cs = cs.all (fun c => capacityOk M c) := by
  induction cs with
  | nil => simp [capacityOkList]
  | cons c cs ih => simp [capacityOkList, ih]

theorem capacityOk_eq (M : Nat) (x : SSNode K) :
    capacityOk M x =
      (decide (1 ≤ x.entryCount) && decide (x.entryCount ≤ M) &&
        (x.isLeaf || x.children.all (fun c => capacityOk M c))) := by
  cases x with
  | mk M' c r l cs ds => simp [capacityOk, capacityOkList_eq_all]

/-- The capacity test gives the same verdict on a padded tree. -/
theorem capacityOk_lift (n M : Nat) :
    ∀ x : SSNode K, capacityOk M (liftNode n x) = capacityOk M x := by
  intro x
  induction x using SSNode.induction_aux with
  | h x ih =>
    rw [capacityOk_eq, capacityOk_eq M x, entryCount_lift, liftNode_isLeaf, liftNode_children,
      List.all_map]
    congr 2
    apply all_congr_mem
    intro c hc
    exact ih c hc

end LiftCheck

section Evaluations

theorem threeLineRecords_length :
    ∀ r ∈ threeLineRecords, r.embedding.coordinates_.length = envQ1.DIM := by
  decide

theorem farLineRecords_length :
    ∀ r ∈ farLineRecords, r.embedding.coordinates_.length = envQ1.DIM := by
  decide

/-- The run of `SSTree::knn` with `k = 2` on the first coordinate of `threeRecords`. -/
theorem eval_knn_two :
    resultIs (SSTree.build envQ1 2 threeLineRecords)
      (fun t => resultIs (t.knn envQ1 (linePoint 0) 2)
        (fun l => decide (l = [lineRecord 1 0]))) = true := by
  decide!

/-- The runs of `SSTree::knn` with `k = 5` and `k = 0` on the first coordinate of
`threeRecords`. -/
theorem eval_knn_five_zero :
    resultIs (SSTree.build envQ1 2 threeLineRecords)
      (fun t => resultIs (t.knn envQ1 (linePoint 0) 5) (fun l => decide (l = [lineRecord 1 0]))
        && failsWith (t.knn envQ1 (linePoint 0) 0) Failure.emptyHeap) = true := by
  decide!

/-- The split of the leaf that holds the first coordinates of `farRecords`. -/
theorem eval_far_split :
    resultIs (SSTree.build envQ1 2 farLineRecords)
      (fun t => rootIs t (fun root => !capacityOk 2 root &&
        decide (root.children.map SSNode.entryCount = [0, 3]))) = true := by
  decide!

/-- The root that `SSTree::insert` promotes on the first coordinate of `threeRecords`. -/
theorem eval_stale_root :
    resultIs (SSTree.build envQ1 2 threeLineRecords)
      (fun t => rootIs t (fun root => !sphereCoversAllChildrenSpheres envQ1 root &&
        decide (root.radius = 0))) = true := by
  decide!

/-- Claim C1 (k nearest neighbours), evaluation of the code at a failing input.  With
`M = 2` and the three records at 0, 10 and 11 on the first axis, `knn((0,…,0), 2)` returns
the single record at 0: the leaf that holds 10 and 11 is discarded as soon as the result
heap is non-empty, although the heap holds fewer than `k = 2` records. -/
theorem claim_C1_knn_returns_too_few :
    ∃ t, SSTree.build envQ 2 threeRecords = .ok t ∧
      t.knn envQ (axisPoint 0) 2 = .ok [axisRecord 1 0] := by
  obtain ⟨t1, hb1, hk1⟩ := (resultIs_iff _ _).1 eval_knn_two
  obtain ⟨l, hl, hl1⟩ := (resultIs_iff _ _).1 hk1
  have hlift := build_lift envQ1 767 2 threeLineRecords t1 threeLineRecords_length hb1
  refine ⟨liftTree 767 t1, hlift.1, ?_⟩
  have := knn_lift envQ1 767 t1 (linePoint 0) 2 hlift.2 rfl
  rw [hl, of_decide_eq_true hl1] at this
  exact this

/-- Claim C2 (length of the answer), evaluation of the code at two failing inputs.  With
`M = 2` and the three records at 0, 10 and 11 on the first axis, the tree holds three
records, `knn((0,…,0), 5)` returns one record instead of three, and `knn((0,…,0), 0)`
reads the top of the empty result heap. -/
theorem claim_C2_knn_length :
    ∃ t, SSTree.build envQ 2 threeRecords = .ok t ∧ t.records.length = 3 ∧
      t.knn envQ (axisPoint 0) 5 = .ok [axisRecord 1 0] ∧
      t.knn envQ (axisPoint 0) 0 = .error Failure.emptyHeap := by
  obtain ⟨t1, hb1, hk1⟩ := (resultIs_iff _ _).1 eval_knn_five_zero
  rw [Bool.and_eq_true] at hk1
  obtain ⟨l, hl, hl1⟩ := (resultIs_iff _ _).1 hk1.1
  have hlift := build_lift envQ1 767 2 threeLineRecords t1 threeLineRecords_length hb1
  have hrec : (liftTree 767 t1).records.length = 3 :=
    (build_records_perm envQ 2 threeRecords _ (by decide) hlift.1).length_eq
  refine ⟨liftTree 767 t1, hlift.1, hrec, ?_, ?_⟩
  · have := knn_lift envQ1 767 t1 (linePoint 0) 5 hlift.2 rfl
    rw [hl, of_decide_eq_true hl1] at this
    exact this
  · have := knn_lift envQ1 767 t1 (linePoint 0) 0 hlift.2 rfl
    cases h0 : t1.knn envQ1 (linePoint 0) 0 with
    | ok a => rw [h0] at hk1; simp [failsWith] at hk1
    | error e =>
      rw [h0] at hk1 this
      have he : e = Failure.emptyHeap := by simpa [failsWith] using hk1.2
      rw [he] at this
      exact this

/-- Claim C8 (capacity), evaluation of the code at a failing input.  With `M = 2` and the
three records at 0, 10^20 and 2·10^20 on the first axis, the sum of variances of the only
split candidate is not below `FLT_MAX`, `minVarianceSplit` returns 0, and the root gets
two leaves holding 0 and 3 records: the capacity test fails. -/
theorem claim_C8_capacity_violated :
    ∃ t root, SSTree.build envQ 2 farRecords = .ok t ∧ t.root = some root ∧
      capacityOk 2 root = false ∧ root.children.map SSNode.entryCount = [0, 3] := by
  obtain ⟨t1, hb1, hr1⟩ := (resultIs_iff _ _).1 eval_far_split
  obtain ⟨root1, hroot1, hc1⟩ := (rootIs_iff _ _).1 hr1
  rw [Bool.and_eq_true] at hc1
  have hlift := build_lift envQ1 767 2 farLineRecords t1 farLineRecords_length hb1
  refine ⟨liftTree 767 t1, liftNode 767 root1, hlift.1, by simp [liftTree, hroot1], ?_, ?_⟩
  · rw [capacityOk_lift]
    simpa using hc1.1
  · rw [liftNode_children, List.map_map]
    have : SSNode.entryCount ∘ liftNode 767 = (SSNode.entryCount : SSNode ℚ → Nat) := by
      funext x; exact entryCount_lift 767 x
    rw [this]
    exact of_decide_eq_true hc1.2

/-- Claim C10 (internal sphere coverage), evaluation of the code at a failing input.
With `M = 2` and the three records at 0, 10 and 11 on the first axis, the third insertion
splits the root; the new root keeps radius 0 and the embedding of the inserted record as
centroid, so the test `sphereCoversAllChildrenSpheres` of `main.cpp` rejects the tree. -/
theorem claim_C10_root_envelope_stale :
    ∃ t root, SSTree.build envQ 2 threeRecords = .ok t ∧ t.root = some root ∧
      root.radius = 0 ∧ sphereCoversAllChildrenSpheres envQ root = false := by
  obtain ⟨t1, hb1, hr1⟩ := (resultIs_iff _ _).1 eval_stale_root
  obtain ⟨root1, hroot1, hc1⟩ := (rootIs_iff _ _).1 hr1
  rw [Bool.and_eq_true] at hc1
  have hlift := build_lift envQ1 767 2 threeLineRecords t1 threeLineRecords_length hb1
  refine ⟨liftTree 767 t1, liftNode 767 root1, hlift.1, by simp [liftTree, hroot1], ?_, ?_⟩
  · rw [liftNode_radius]
    exact of_decide_eq_true hc1.2
  · have := cover_lift envQ1 767 root1 (hlift.2 root1 hroot1)
    have h2 : sphereCoversAllChildrenSpheres envQ1 root1 = false := by simpa using hc1.1
    rw [h2] at this
    exact this

end Evaluations

section Boundary

section

variable {K : Type} [LinearOrderedField K]

/-- The exact square root of zero is zero. -/
theorem sqrt_zero_of_exact (env : Env K) (hex : env.Exact) : env.sqrt 0 = 0 := by
  have h := hex.sqrt_mul_self 0 le_rfl
  exact mul_self_eq_zero.1 h

theorem sum_map_sub_self : ∀ l : List K,
    ((List.zipWith (fun x y => x - y) l l).map (fun x => x * x)).sum = 0
  | [] => rfl
  | x :: xs => by simp [sum_map_sub_self xs]

/-- A point is at distance zero from itself. -/
theorem distance_self (env : Env K) (hex : env.Exact) (p : Point K) :
    Point.distance env p p = 0 := by
  unfold Point.distance Point.norm Point.normSquared Point.sub
  rw [sum_map_sub_self]
  exact sqrt_zero_of_exact env hex

/-- The mean of a single point is the point itself, coordinate by coordinate. -/
theorem calculateMean_singleton (p : Point K) (dim : Nat) :
    calculateMean [p] dim = p.get dim := by
  simp [calculateMean]

end

section

variable {K : Type} [Zero K] [Add K] [Sub K] [Mul K] [Div K] [NatCast K] [LinearOrder K]
  [PowAcc K]

/-- Reading the first `DIM` coordinates of a point that has `DIM` coordinates gives the
point back. -/
theorem map_get_range (p : Point K) :
    (⟨(List.range p.coordinates_.length).map (fun dim => p.get dim)⟩ : Point K) = p := by
  cases p with
  | mk cs =>
    congr 1
    apply List.ext_getElem
    · simp
    · intro i h1 h2
      simp [Point.get, List.getD_eq_getElem?_getD, List.getElem?_eq_getElem h2]

end

section

variable {K : Type} [LinearOrderedField K]

/-- The envelope of a leaf with a single record: the embedding of the record and radius
zero. -/
theorem update_singleton (env : Env K) (hex : env.Exact) (M : Nat) (c : Point K) (r0 : K)
    (r : Data K) (hlen : r.embedding.coordinates_.length = env.DIM) :
    (SSNode.mk M c r0 true [] [r]).updateBoundingEnvelope env
      = SSNode.mk M r.embedding 0 true [] [r] := by
  have hc : (⟨(List.range env.DIM).map (fun dim => calculateMean [r.embedding] dim)⟩ : Point K)
      = r.embedding := by
    rw [← hlen]
    simp only [calculateMean_singleton]
    exact map_get_range r.embedding
  simp only [SSNode.updateBoundingEnvelope, SSNode.getEntriesCentroids, SSNode.isLeaf,
    SSNode._data, SSNode.maxPointsPerNode, SSNode.children, if_true, List.map_cons,
    List.map_nil, List.foldl_cons, List.foldl_nil, hc, distance_self env hex, max_self]

/-- Claim C18 (query on the empty tree).  On a tree on which no insertion has been
performed, `SSTree::knn(q, k)` returns the empty sequence, for every query `q` and every
`k`. -/
theorem claim_C18_knn_empty_tree (env : Env K) (M : Nat) (query : Point K) (k : Nat) :
    (SSTree.empty M).knn env query k = .ok [] := rfl

/-- Claim C19 (search on the empty tree), evaluation of the code at a failing input.
`SSTree::search` calls `root->search(root, _data)` without testing `root`: on the tree
with no insertion the null root is read, where the claim asks for the answer `none`. -/
theorem claim_C19_search_empty_tree_fails :
    (SSTree.empty 20).search envQ (axisRecord 1 0) = .error Failure.nullRoot := rfl

/-- Claim C15 (first insertion).  With the exact square root, a branching factor of at
least 1 and a record `r` whose embedding has `DIM` coordinates, `SSTree::insert` of `r`
into the empty tree succeeds and leaves a root that is a leaf holding exactly `r`, with
centroid `r.embedding` and radius 0. -/
theorem claim_C15_first_insertion (env : Env K) (hex : env.Exact) (M : Nat) (r : Data K)
    (hM : 1 ≤ M) (hlen : r.embedding.coordinates_.length = env.DIM) :
    ∃ t root, (SSTree.empty M).insert env r = .ok t ∧ t.root = some root ∧
      root.isLeaf = true ∧ root._data = [r] ∧ root.children = [] ∧
      root.centroid = r.embedding ∧ root.radius = 0 ∧ t.records = [r] := by
  refine ⟨⟨some (.mk M r.embedding 0 true [] [r]), M⟩, .mk M r.embedding 0 true [] [r],
    ?_, rfl, rfl, rfl, rfl, rfl, rfl, ?_⟩
  · simp only [SSTree.insert, SSTree.empty, SSNode.insert, containsPtr, List.any_nil,
      if_true, List.nil_append, List.length_nil, zero_add, finishInsert,
      update_singleton env hex M r.embedding 0 r hlen, SSNode.maxPointsPerNode, hM,
      Bool.false_eq_true, if_false]
  · simp [SSTree.records, collectDataDFS]

/-- Witness for claim C15: the record at the origin over the reals, with the real square
root, `DIM = 768` and `M = 20`. -/
theorem claim_C15_first_insertion_witness :
    ∃ t root, (SSTree.empty 20).insert (⟨768, Real.sqrt, 2 ^ 128 - 2 ^ 104⟩ : Env ℝ)
        ⟨1, ⟨List.replicate 768 0⟩, "eda_0.jpg"⟩ = .ok t ∧ t.root = some root ∧
      root.isLeaf = true ∧ root._data = [⟨1, ⟨List.replicate 768 0⟩, "eda_0.jpg"⟩] ∧
      root.children = [] ∧
      root.centroid = (⟨List.replicate 768 0⟩ : Point ℝ) ∧ root.radius = 0 ∧
      t.records = [⟨1, ⟨List.replicate 768 0⟩, "eda_0.jpg"⟩] :=
  claim_C15_first_insertion (⟨768, Real.sqrt, 2 ^ 128 - 2 ^ 104⟩ : Env ℝ)
    ⟨Real.sqrt_nonneg, fun x hx => Real.mul_self_sqrt hx⟩ 20
    ⟨1, ⟨List.replicate 768 0⟩, "eda_0.jpg"⟩ (by decide)
    (by simp only [List.length_replicate])

end

end Boundary

section SplitAxis

section

variable {K : Type} [LinearOrderedField K]

theorem foldl_add_eq_sum {α : Type} (f : α → K) : ∀ (l : List α) (init : K),
    l.foldl (fun s a => s + f a) init = init + (l.map f).sum
  | [], init => by simp
  | a :: l, init => by
    simp only [List.foldl_cons, List.map_cons, List.sum_cons]
    rw [foldl_add_eq_sum f l]
    ring

/-- The function `calculateMean` computes the arithmetic mean of the chosen coordinate. -/
theorem calculateMean_eq (centroids : List (Point K)) (dim : Nat) :
    calculateMean centroids dim = arithmeticMean (centroids.map (fun p => p.get dim)) := by
  unfold calculateMean arithmeticMean
  rw [foldl_add_eq_sum (fun p : Point K => p.get dim) centroids 0, zero_add,
    List.length_map]

/-- The function `calculateVariance` computes the population variance of the chosen
coordinate. -/
theorem calculateVariance_eq (centroids : List (Point K)) (dim : Nat) :
    calculateVariance centroids dim
      = populationVariance (centroids.map (fun p => p.get dim)) := by
  unfold calculateVariance populationVariance
  simp only []
  rw [foldl_add_eq_sum
    (fun p : Point K => (p.get dim - calculateMean centroids dim)
      * (p.get dim - calculateMean centroids dim)) centroids 0,
    zero_add, List.length_map, List.map_map, calculateMean_eq]
  congr 2
  apply List.map_congr_left
  intro p _
  simp only [Function.comp, pow_two]

theorem calculateVariance_nonneg (centroids : List (Point K)) (dim : Nat) :
    0 ≤ calculateVariance centroids dim := by
  unfold calculateVariance
  simp only []
  rw [foldl_add_eq_sum
    (fun p : Point K => (p.get dim - calculateMean centroids dim)
      * (p.get dim - calculateMean centroids dim)) centroids 0, zero_add]
  exact div_nonneg (sum_mul_self_nonneg _ _) (Nat.cast_nonneg _)

end

section

variable {K : Type} [Zero K] [Add K] [Sub K] [Mul K] [Div K] [NatCast K] [LinearOrder K]
  [PowAcc K]

/-- The loop of `SSNode::directionOfMaxVariance` from dimension `s` on: if the loop
variables describe a first maximum of the dimensions below `s`, the result is a first
maximum of the dimensions below `s + n`. -/
theorem directionLoop_spec (E : List (Point K)) :
    ∀ (n s : Nat) (hv : K) (best : Nat),
      (∀ d < s, calculateVariance E d ≤ hv) →
      ((hv = calculateVariance E best ∧ best < s) ∨ (hv = 0 ∧ best = 0)) →
      (∀ d < best, calculateVariance E d < hv) →
      ∃ hv',
        (∀ d < s + n, calculateVariance E d ≤ hv') ∧
        ((hv' = calculateVariance E (directionLoop E (List.range' s n) hv best) ∧
            directionLoop E (List.range' s n) hv best < s + n) ∨
          (hv' = 0 ∧ directionLoop E (List.range' s n) hv best = 0)) ∧
        (∀ d < directionLoop E (List.range' s n) hv best, calculateVariance E d < hv')
  | 0, s, hv, best, ha, hb, hc => by
    refine ⟨hv, ?_, ?_, ?_⟩
    · simpa using ha
    · simpa [directionLoop] using hb
    · simpa [directionLoop] using hc
  | n + 1, s, hv, best, ha, hb, hc => by
    rw [List.range'_succ]
    unfold directionLoop
    by_cases hgt : calculateVariance E s > hv
    · rw [if_pos hgt]
      have := directionLoop_spec E n (s + 1) (calculateVariance E s) s
        (fun d hd => by
          rcases Nat.lt_succ_iff_lt_or_eq.1 hd with h | h
          · exact le_trans (ha d h) (le_of_lt hgt)
          · rw [h])
        (Or.inl ⟨rfl, Nat.lt_succ_self s⟩)
        (fun d hd => lt_of_le_of_lt (ha d hd) hgt)
      rw [Nat.add_assoc, Nat.add_comm 1 n] at this
      exact this
    · rw [if_neg hgt]
      have := directionLoop_spec E n (s + 1) hv best
        (fun d hd => by
          rcases Nat.lt_succ_iff_lt_or_eq.1 hd with h | h
          · exact ha d h
          · rw [h]; exact not_lt.1 hgt)
        (hb.imp (fun h => ⟨h.1, Nat.lt_succ_of_lt h.2⟩) id)
        hc
      rw [Nat.add_assoc, Nat.add_comm 1 n] at this
      exact this

end

section

variable {K : Type} [LinearOrderedField K]

/-- The split axis in exact arithmetic.  For a node with at least one entry, in a space of
at least one dimension, `SSNode::directionOfMaxVariance` returns a dimension `d < DIM` at
which the population variance of the `d`-th coordinates of the entry centroids is largest,
and every dimension before `d` has a strictly smaller variance: `d` is the smallest
dimension of maximal variance (dimension 0 when every variance is 0). -/
theorem split_axis_exact (env : Env K) (node : SSNode K) (hD : 0 < env.DIM)
    (hne : 1 ≤ node.entryCount) :
    node.directionOfMaxVariance env < env.DIM ∧
    (∀ d < env.DIM,
      populationVariance (node.entryCoordinates d)
        ≤ populationVariance (node.entryCoordinates (node.directionOfMaxVariance env))) ∧
    (∀ d < node.directionOfMaxVariance env,
      populationVariance (node.entryCoordinates d)
        < populationVariance (node.entryCoordinates (node.directionOfMaxVariance env))) := by
  have _ := hne
  obtain ⟨hv, ha, hb, hc⟩ := directionLoop_spec node.getEntriesCentroids env.DIM 0 0 0
    (fun d hd => absurd hd (Nat.not_lt_zero d)) (Or.inr ⟨rfl, rfl⟩)
    (fun d hd => absurd hd (Nat.not_lt_zero d))
  rw [Nat.zero_add] at ha hb
  rw [← List.range_eq_range'] at hb hc
  have hbest : hv = calculateVariance node.getEntriesCentroids
        (node.directionOfMaxVariance env) ∧ node.directionOfMaxVariance env < env.DIM := by
    rcases hb with h | h
    · exact h
    · have h0 : directionLoop node.getEntriesCentroids (List.range env.DIM) 0 0 = 0 := h.2
      refine ⟨?_, ?_⟩
      · unfold SSNode.directionOfMaxVariance
        rw [h0, h.1]
        exact le_antisymm (calculateVariance_nonneg _ _) (h.1 ▸ ha 0 hD)
      · unfold SSNode.directionOfMaxVariance
        rw [h0]; exact hD
  simp only [SSNode.entryCoordinates, ← calculateVariance_eq]
  refine ⟨hbest.2, fun d hd => ?_, fun d hd => ?_⟩
  · rw [← hbest.1]; exact ha d hd
  · rw [← hbest.1]; exact hc d hd

/-- An instance of `split_axis_exact`: a leaf with the three records at 0, 10 and 11 on the
first axis, in 768 dimensions. -/
theorem split_axis_exact_witness :
    (SSNode.mk 2 (axisPoint 0) 0 true [] threeRecords).directionOfMaxVariance envQ
        < envQ.DIM ∧
    (∀ d < envQ.DIM,
      populationVariance ((SSNode.mk 2 (axisPoint 0) 0 true [] threeRecords).entryCoordinates d)
        ≤ populationVariance
            ((SSNode.mk 2 (axisPoint 0) 0 true [] threeRecords).entryCoordinates
              ((SSNode.mk 2 (axisPoint 0) 0 true [] threeRecords).directionOfMaxVariance
                envQ))) ∧
    (∀ d < (SSNode.mk 2 (axisPoint 0) 0 true [] threeRecords).directionOfMaxVariance envQ,
      populationVariance ((SSNode.mk 2 (axisPoint 0) 0 true [] threeRecords).entryCoordinates d)
        < populationVariance
            ((SSNode.mk 2 (axisPoint 0) 0 true [] threeRecords).entryCoordinates
              ((SSNode.mk 2 (axisPoint 0) 0 true [] threeRecords).directionOfMaxVariance
                envQ))) :=
  split_axis_exact envQ (SSNode.mk 2 (axisPoint 0) 0 true [] threeRecords)
    (by decide) (by decide)

end

end SplitAxis

section LeafRoot

variable {K : Type} [Zero K] [Add K] [Sub K] [Mul K] [Div K] [NatCast K] [LinearOrder K]
  [PowAcc K]

/-- The method `updateBoundingEnvelope` changes the centroid and the radius only. -/
theorem update_mk_shape (env : Env K) (M : Nat) (c : Point K) (r : K) (l : Bool)
    (cs : List (SSNode K)) (ds : List (Data K)) :
    ∃ c' r', (SSNode.mk M c r l cs ds).updateBoundingEnvelope env = SSNode.mk M c' r' l cs ds :=
  ⟨_, _, rfl⟩

/-- Both siblings made by the split of a leaf are leaves. -/
theorem split_leaf_isLeaf (env : Env K) (n : SSNode K) (h : n.isLeaf = true) :
    (n.split env).1.isLeaf = true ∧ (n.split env).2.isLeaf = true := by
  rw [split_leaf env n h]
  exact ⟨rfl, rfl⟩

/-- The method `SSTree::insert` on a tree whose root is a leaf with room for one more
record: the record is appended to the root. -/
theorem tree_insert_leaf_room (env : Env K) (M : Nat) (c : Point K) (r : K)
    (D : List (Data K)) (d : Data K) (hfresh : containsPtr D d = false)
    (hroom : D.length + 1 ≤ M) :
    ∃ c' r', SSTree.insert env ⟨some (.mk M c r true [] D), M⟩ d
      = .ok ⟨some (.mk M c' r' true [] (D ++ [d])), M⟩ := by
  obtain ⟨c', r', hu⟩ := update_mk_shape env M c r true [] (D ++ [d])
  refine ⟨c', r', ?_⟩
  simp only [SSTree.insert, SSNode.insert, hfresh, if_true, Bool.false_eq_true, if_false,
    finishInsert, hu, SSNode.maxPointsPerNode, hroom]

/-- The method `SSTree::insert` on a tree whose root is a full leaf: the root, with the
record appended and its envelope recomputed, is split, and a new internal root with the
two siblings is promoted. -/
theorem tree_insert_leaf_full_split (env : Env K) (M : Nat) (c : Point K) (r : K)
    (D : List (Data K)) (d : Data K) (hfresh : containsPtr D d = false)
    (hfull : M < D.length + 1) :
    ∃ c' r', SSTree.insert env ⟨some (.mk M c r true [] D), M⟩ d
        = .ok ⟨some (.mk M d.embedding 0 false
            [((SSNode.mk M c' r' true [] (D ++ [d])).split env).1,
              ((SSNode.mk M c' r' true [] (D ++ [d])).split env).2] []), M⟩ := by
  obtain ⟨c', r', hu⟩ := update_mk_shape env M c r true [] (D ++ [d])
  refine ⟨c', r', ?_⟩
  simp only [SSTree.insert, SSNode.insert, hfresh, if_true, Bool.false_eq_true, if_false,
    finishInsert, hu, SSNode.maxPointsPerNode, not_le.2 hfull]

/-- The method `SSTree::insert` on a tree whose root is a full leaf: the root is split and
a new internal root with the two leaves is promoted. -/
theorem tree_insert_leaf_full (env : Env K) (M : Nat) (c : Point K) (r : K)
    (D : List (Data K)) (d : Data K) (hfresh : containsPtr D d = false)
    (hfull : M < D.length + 1) :
    ∃ l rr, SSTree.insert env ⟨some (.mk M c r true [] D), M⟩ d
        = .ok ⟨some (.mk M d.embedding 0 false [l, rr] []), M⟩ ∧
      l.isLeaf = true ∧ rr.isLeaf = true := by
  obtain ⟨c', r', h⟩ := tree_insert_leaf_full_split env M c r D d hfresh hfull
  have hs := split_leaf_isLeaf env (SSNode.mk M c' r' true [] (D ++ [d])) rfl
  exact ⟨_, _, h, hs.1, hs.2⟩

/-- The first call of `SSTree::insert` makes a fresh leaf root and inserts into it. -/
theorem tree_insert_empty (env : Env K) (M : Nat) (d : Data K) :
    SSTree.insert env (SSTree.empty M) d
      = SSTree.insert env ⟨some (.mk M d.embedding 0 true [] []), M⟩ d := rfl

theorem insertAll_append (env : Env K) : ∀ (a b : List (Data K)) (t : SSTree K),
    SSTree.insertAll env t (a ++ b)
      = (match SSTree.insertAll env t a with
         | .error e => .error e
         | .ok t' => SSTree.insertAll env t' b)
  | [], b, t => rfl
  | d :: a, b, t => by
    simp only [List.cons_append, SSTree.insertAll]
    cases h : t.insert env d with
    | error e => rfl
    | ok t' => exact insertAll_append env a b t'

/-- Inserting records with fresh addresses into a leaf root that has room for all of them
keeps the root a leaf and appends the records in order. -/
theorem insertAll_leaf_room (env : Env K) (M : Nat) :
    ∀ (ds D : List (Data K)) (c : Point K) (r : K),
      (D ++ ds).length ≤ M → ((D ++ ds).map Data.addr).Nodup →
      ∃ c' r', SSTree.insertAll env ⟨some (.mk M c r true [] D), M⟩ ds
        = .ok ⟨some (.mk M c' r' true [] (D ++ ds)), M⟩
  | [], D, c, r, _, _ => ⟨c, r, by simp [SSTree.insertAll]⟩
  | d :: ds, D, c, r, hlen, hnd => by
    have hfresh : containsPtr D d = false := by
      apply containsPtr_eq_false
      intro e he heq
      rw [List.map_append, List.nodup_append] at hnd
      exact hnd.2.2 (List.mem_map_of_mem _ he)
        (heq ▸ List.mem_map_of_mem _ (List.mem_cons_self d ds))
    have hroom : D.length + 1 ≤ M := by
      simp only [List.length_append, List.length_cons] at hlen
      omega
    obtain ⟨c1, r1, h1⟩ := tree_insert_leaf_room env M c r D d hfresh hroom
    have hlen' : ((D ++ [d]) ++ ds).length ≤ M := by simpa using hlen
    have hnd' : (((D ++ [d]) ++ ds).map Data.addr).Nodup := by simpa using hnd
    obtain ⟨c2, r2, h2⟩ := insertAll_leaf_room env M ds (D ++ [d]) c1 r1 hlen' hnd'
    refine ⟨c2, r2, ?_⟩
    simp only [SSTree.insertAll, h1, h2, List.append_assoc, List.singleton_append]

/-- Building a tree from at least one and at most `M` distinct records gives a leaf root
that holds the records in insertion order. -/
theorem build_leaf_root (env : Env K) (M : Nat) (R : List (Data K)) (hne : R ≠ [])
    (hlen : R.length ≤ M) (hnd : (R.map Data.addr).Nodup) :
    ∃ c r, SSTree.build env M R = .ok ⟨some (.mk M c r true [] R), M⟩ := by
  cases R with
  | nil => exact absurd rfl hne
  | cons d ds =>
    have h := insertAll_leaf_room env M (d :: ds) [] d.embedding 0
      (by simpa using hlen) (by simpa using hnd)
    obtain ⟨c, r, h⟩ := h
    refine ⟨c, r, ?_⟩
    simp only [SSTree.build, SSTree.insertAll, tree_insert_empty]
    simpa [SSTree.insertAll] using h

theorem leafDepths_leaf (n : SSNode K) (h : n.isLeaf = true) (depth : Nat) :
    leafDepths n depth = [depth] := by
  cases n with
  | mk M c r l cs ds =>
    have hl : l = true := h
    subst hl
    simp [leafDepths]

/-- Building a tree from `M + 1` distinct records: the last insertion splits the leaf
root and promotes an internal root with two leaves. -/
theorem build_root_split (env : Env K) (M : Nat) (R : List (Data K))
    (hlen : R.length = M + 1) (hnd : (R.map Data.addr).Nodup) :
    ∃ c l rr, SSTree.build env M R = .ok ⟨some (.mk M c 0 false [l, rr] []), M⟩ ∧
      l.isLeaf = true ∧ rr.isLeaf = true := by
  obtain ⟨d, hd⟩ : ∃ d, R.drop M = [d] := by
    have : (R.drop M).length = 1 := by simp [hlen]
    match hdrop : R.drop M, this with
    | [d], _ => exact ⟨d, rfl⟩
  have hsplit : R = R.take M ++ [d] := by rw [← hd, List.take_append_drop]
  have hfresh : containsPtr (R.take M) d = false := by
    apply containsPtr_eq_false
    intro e he heq
    rw [hsplit, List.map_append, List.nodup_append] at hnd
    exact hnd.2.2 (List.mem_map_of_mem _ he)
      (heq ▸ List.mem_map_of_mem _ (List.mem_singleton_self d))
  have htake : (R.take M).length = M := by simp [hlen]
  by_cases hM : M = 0
  · subst hM
    simp only [List.take_zero, List.nil_append] at hsplit
    obtain ⟨l, rr, h, hl, hr⟩ := tree_insert_leaf_full env 0 d.embedding 0 [] d rfl
      (by simp)
    refine ⟨d.embedding, l, rr, ?_, hl, hr⟩
    rw [hsplit]
    simp only [SSTree.build, SSTree.insertAll, tree_insert_empty, h]
  · have hne : R.take M ≠ [] := by
      intro h0
      rw [h0] at htake
      exact hM htake.symm
    have hnd' : ((R.take M).map Data.addr).Nodup := by
      rw [hsplit, List.map_append, List.nodup_append] at hnd
      exact hnd.1
    obtain ⟨c, r, hb⟩ := build_leaf_root env M (R.take M) hne (le_of_eq htake) hnd'
    obtain ⟨l, rr, h, hl, hr⟩ := tree_insert_leaf_full env M c r (R.take M) d hfresh
      (by rw [htake]; exact Nat.lt_succ_self M)
    refine ⟨d.embedding, l, rr, ?_, hl, hr⟩
    have hb' : SSTree.insertAll env (SSTree.empty M) (R.take M)
        = .ok ⟨some (.mk M c r true [] (R.take M)), M⟩ := hb
    rw [hsplit]
    unfold SSTree.build
    rw [insertAll_append, hb']
    simp only [SSTree.insertAll, h]

end LeafRoot

section RootPromotion

section

variable {K : Type} [Zero K] [Add K] [Sub K] [Mul K] [Div K] [NatCast K] [LinearOrder K]
  [PowAcc K]

/-- The method `SSTree::insert` on a tree whose root is a leaf that already holds the
object: nothing changes. -/
theorem tree_insert_leaf_dup (env : Env K) (M : Nat) (c : Point K) (r : K)
    (D : List (Data K)) (d : Data K) (hdup : containsPtr D d = true) :
    SSTree.insert env ⟨some (.mk M c r true [] D), M⟩ d
      = .ok ⟨some (.mk M c r true [] D), M⟩ := by
  simp only [SSTree.insert, SSNode.insert, hdup, if_true]

end

section

variable {K : Type} [LinearOrderedField K]

/-- Claim C14 (root split promotion).  For every `M` (in particular `M ≥ 2`) and every
list `R` of `M + 1` distinct records (whatever their distances), inserted in order into an
empty tree: after each of the first `M` insertions the root is a leaf (depth 0), and after
the last one the root is internal with exactly two children, both leaves, so that every
leaf is at depth 1. -/
theorem claim_C14_root_split_promotion (env : Env K) (M : Nat) (R : List (Data K))
    (hlen : R.length = M + 1) (hR : (R.map Data.addr).Nodup) :
    (∀ n, 1 ≤ n → n ≤ M →
      ∃ t root, SSTree.build env M (R.take n) = .ok t ∧ t.root = some root ∧
        root.isLeaf = true ∧ leafDepths root 0 = [0]) ∧
    (∃ t root l r, SSTree.build env M R = .ok t ∧ t.root = some root ∧
      root.isLeaf = false ∧ root.children = [l, r] ∧ l.isLeaf = true ∧ r.isLeaf = true ∧
      leafDepths root 0 = [1, 1]) := by
  constructor
  · intro n h1 hn
    have hne : R.take n ≠ [] := by
      intro h0
      have : (R.take n).length = n := by simp; omega
      rw [h0] at this
      simp at this
      omega
    have hl : (R.take n).length ≤ M := by simp; omega
    have hnd : ((R.take n).map Data.addr).Nodup := by
      rw [← List.take_append_drop n R, List.map_append, List.nodup_append] at hR
      exact hR.1
    obtain ⟨c, r, hb⟩ := build_leaf_root env M (R.take n) hne hl hnd
    exact ⟨_, _, hb, rfl, rfl, by simp [leafDepths]⟩
  · obtain ⟨c, l, rr, hb, hl, hr⟩ := build_root_split env M R hlen hR
    refine ⟨_, _, l, rr, hb, rfl, rfl, rfl, hl, hr, ?_⟩
    simp [leafDepths, leafDepthsChildren, leafDepths_leaf l hl, leafDepths_leaf rr hr]

/-- Witness for claim C14: `M = 2` and the three records at 0, 10 and 11 on the first
axis. -/
theorem claim_C14_root_split_promotion_witness :
    (∀ n, 1 ≤ n → n ≤ 2 →
      ∃ t root, SSTree.build envQ 2 (threeRecords.take n) = .ok t ∧ t.root = some root ∧
        root.isLeaf = true ∧ leafDepths root 0 = [0]) ∧
    (∃ t root l r, SSTree.build envQ 2 threeRecords = .ok t ∧ t.root = some root ∧
      root.isLeaf = false ∧ root.children = [l, r] ∧ l.isLeaf = true ∧ r.isLeaf = true ∧
      leafDepths root 0 = [1, 1]) :=
  claim_C14_root_split_promotion envQ 2 threeRecords (by decide) (by decide)

/-- Claim C13 (duplicate key), as the code has it.  Duplicate detection in a leaf compares
objects, not keys: for `M ≥ 2`, inserting into an empty tree a record `R1` and then a
different object `R2` (whatever their keys and embeddings, the same key with another
embedding included) leaves a tree whose root is a leaf without children that holds exactly
the two records `R1` and `R2`; inserting the object `R1` a second time leaves a tree whose
root is a leaf without children that holds exactly `R1`. -/
theorem claim_C13_duplicate_by_identity (env : Env K) (M : Nat) (R1 R2 : Data K)
    (hM : 2 ≤ M) (hobj : R1.addr ≠ R2.addr) :
    (∃ t root, SSTree.build env M [R1, R2] = .ok t ∧ t.root = some root ∧
      root.isLeaf = true ∧ root._data = [R1, R2] ∧ root.children = [] ∧
      t.records = [R1, R2]) ∧
    (∃ t root, SSTree.build env M [R1, R1] = .ok t ∧ t.root = some root ∧
      root.isLeaf = true ∧ root._data = [R1] ∧ root.children = [] ∧ t.records = [R1]) := by
  constructor
  · obtain ⟨c, r, hb⟩ := build_leaf_root env M [R1, R2] (by simp) (by simpa using hM)
      (by simpa using hobj)
    exact ⟨_, _, hb, rfl, rfl, rfl, rfl, by simp [SSTree.records, collectDataDFS]⟩
  · obtain ⟨c, r, hb⟩ := build_leaf_root env M [R1] (by simp)
      (by simp only [List.length_singleton]; omega) (by simp)
    have hb' : SSTree.insertAll env (SSTree.empty M) [R1]
        = .ok ⟨some (.mk M c r true [] [R1]), M⟩ := hb
    refine ⟨⟨some (.mk M c r true [] [R1]), M⟩, _, ?_, rfl, rfl, rfl, rfl,
      by simp [SSTree.records, collectDataDFS]⟩
    have happ := insertAll_append env [R1] [R1] (SSTree.empty M)
    rw [hb'] at happ
    have hdup := tree_insert_leaf_dup env M c r [R1] R1 (by simp [containsPtr])
    simp only [SSTree.insertAll, hdup] at happ
    exact happ

/-- Witness for claim C13: two record objects with the key `a`, at 0 and at 10 on the
first axis, and `M = 2`. -/
theorem claim_C13_duplicate_by_identity_witness :
    2 ≤ 2 ∧ (keyRecord 1 0 "a").addr ≠ (keyRecord 2 10 "a").addr ∧
    (∃ t root, SSTree.build envQ 2 [keyRecord 1 0 "a", keyRecord 2 10 "a"] = .ok t ∧
      t.root = some root ∧ root.isLeaf = true ∧
      root._data = [keyRecord 1 0 "a", keyRecord 2 10 "a"] ∧ root.children = [] ∧
      t.records = [keyRecord 1 0 "a", keyRecord 2 10 "a"]) ∧
    (∃ t root, SSTree.build envQ 2 [keyRecord 1 0 "a", keyRecord 1 0 "a"] = .ok t ∧
      t.root = some root ∧ root.isLeaf = true ∧ root._data = [keyRecord 1 0 "a"] ∧
      root.children = [] ∧ t.records = [keyRecord 1 0 "a"]) :=
  ⟨by decide, by decide,
    claim_C13_duplicate_by_identity envQ 2 (keyRecord 1 0 "a") (keyRecord 2 10 "a")
      (by decide) (by decide)⟩

/-- Counterexample to claim C13 as stated: two records with the same key `a` and
different embeddings are both kept; the tree holds two records, not one. -/
theorem claim_C13_same_key_counterexample :
    (keyRecord 1 0 "a").path = (keyRecord 2 10 "a").path ∧
    (keyRecord 1 0 "a").embedding ≠ (keyRecord 2 10 "a").embedding ∧
    ∃ t, SSTree.build envQ 2 [keyRecord 1 0 "a", keyRecord 2 10 "a"] = .ok t ∧
      t.records = [keyRecord 1 0 "a", keyRecord 2 10 "a"] ∧ t.records.length = 2 := by
  refine ⟨rfl, by decide, ?_⟩
  obtain ⟨c, r, hb⟩ := build_leaf_root envQ 2 [keyRecord 1 0 "a", keyRecord 2 10 "a"]
    (by simp) (by decide) (by decide)
  exact ⟨_, hb, by simp [SSTree.records, collectDataDFS], by simp [SSTree.records, collectDataDFS]⟩

end

end RootPromotion

section MoreEvaluations

section

variable {K : Type} [LinearOrderedField K]

theorem entryCoordinates_lift (n : Nat) (x : SSNode K) (dim : Nat) :
    (liftNode n x).entryCoordinates dim = x.entryCoordinates dim := by
  unfold SSNode.entryCoordinates
  rw [getEntriesCentroids_lift, List.map_map]
  apply List.map_congr_left
  intro p _
  simp

end

section

variable {K : Type} [Zero K] [Add K] [Sub K] [Mul K] [Div K] [NatCast K] [LinearOrder K]
  [PowAcc K] [PadLaws K]

/-- Padding commutes with the depth-first collection of the records. -/
theorem collectDataDFS_lift (n : Nat) : ∀ x : SSNode K,
    collectDataDFS (liftNode n x) = (collectDataDFS x).map (liftData n) := by
  apply SSNode.induction_aux
  intro x ih
  rw [collectDataDFS_eq, collectDataDFS_eq, liftNode_isLeaf, liftNode_data,
    liftNode_children]
  cases x.isLeaf with
  | true => simp
  | false =>
    simp only [Bool.false_eq_true, if_false, collectDataDFSChildren_eq_join, List.map_map,
      List.map_flatten]
    congr 1
    apply List.map_congr_left
    intro c hc
    exact ih c hc

theorem records_lift (n : Nat) (t : SSTree K) :
    (liftTree n t).records = t.records.map (liftData n) := by
  cases t with
  | mk root M =>
    cases root with
    | none => rfl
    | some root => simp [liftTree, SSTree.records, collectDataDFS_lift]

theorem nearLineRecords_length :
    ∀ r ∈ nearLineRecords, r.embedding.coordinates_.length = envQ1.DIM := by
  decide

/-- The centroid of the root that `SSTree::insert` promotes on the first coordinate of
`threeRecords`, and the mean of the centroids of its two children. -/
theorem eval_root_centroid :
    resultIs (SSTree.build envQ1 2 threeLineRecords)
      (fun t => rootIs t (fun root => !root.isLeaf &&
        decide (root.centroid.get 0 = 11) &&
        decide (arithmeticMean (root.entryCoordinates 0) = 21 / 4))) = true := by
  decide!

/-- The second insertion of the record at 1 on the first coordinate of `nearRecords`. -/
theorem eval_reinsert :
    resultIs (SSTree.build envQ1 2 nearLineRecords)
      (fun t1 => decide (t1.records = [lineRecord 1 0, lineRecord 3 1, lineRecord 2 4]) &&
        resultIs (t1.insert envQ1 (lineRecord 3 1))
          (fun t2 => decide (t2.records
            = [lineRecord 1 0, lineRecord 3 1, lineRecord 3 1, lineRecord 2 4]))) = true := by
  decide!

end

section

variable {K : Type} [LinearOrderedField K]

/-- Claim C11 (centroid correctness), evaluation of the code at a failing input.  With
`M = 2` and the three records at 0, 10 and 11 on the first axis, the third insertion
splits the root; the promoted root keeps the embedding of the inserted record as centroid
(first coordinate 11), while the mean of the first coordinates of the centroids of its two
children is 21/4. -/
theorem claim_C11_root_centroid_not_mean :
    ∃ t root, SSTree.build envQ 2 threeRecords = .ok t ∧ t.root = some root ∧
      root.isLeaf = false ∧ root.centroid.get 0 = 11 ∧
      arithmeticMean (root.entryCoordinates 0) = 21 / 4 := by
  obtain ⟨t1, hb1, hr1⟩ := (resultIs_iff _ _).1 eval_root_centroid
  obtain ⟨root1, hroot1, hc1⟩ := (rootIs_iff _ _).1 hr1
  simp only [Bool.and_eq_true, Bool.not_eq_true', decide_eq_true_eq] at hc1
  have hlift := build_lift envQ1 767 2 threeLineRecords t1 threeLineRecords_length hb1
  refine ⟨liftTree 767 t1, liftNode 767 root1, hlift.1, by simp [liftTree, hroot1], ?_, ?_, ?_⟩
  · rw [liftNode_isLeaf]; exact hc1.1.1
  · rw [liftNode_centroid, get_liftPoint]; exact hc1.1.2
  · rw [entryCoordinates_lift]; exact hc1.2

/-- Claim C12 (idempotent insert), evaluation of the code at a failing input.  With
`M = 2`, the records at 0 and 4 on the first axis are inserted, then the record `r` at 1
is inserted twice.  The first insertion of `r` splits the root leaf into the leaves `{0}`
and `{r, 4}` (centroids 0 and 5/2).  The second insertion of `r` descends to the child with the closest
centroid, the leaf `{0}`, where `r` is not found, and `r` is stored a second time: the
tree holds four records instead of three. -/
theorem claim_C12_insert_twice_duplicates :
    ∃ t t1 t2, SSTree.build envQ 2 [axisRecord 1 0, axisRecord 2 4] = .ok t ∧
      t.insert envQ (axisRecord 3 1) = .ok t1 ∧
      t1.insert envQ (axisRecord 3 1) = .ok t2 ∧
      t1.records = [axisRecord 1 0, axisRecord 3 1, axisRecord 2 4] ∧
      t2.records = [axisRecord 1 0, axisRecord 3 1, axisRecord 3 1, axisRecord 2 4] := by
  obtain ⟨t1, hb1, hr1⟩ := (resultIs_iff _ _).1 eval_reinsert
  rw [Bool.and_eq_true] at hr1
  obtain ⟨t2, hi2, hr2⟩ := (resultIs_iff _ _).1 hr1.2
  have hlift := build_lift envQ1 767 2 nearLineRecords t1 nearLineRecords_length hb1
  have hins := tree_insert_lift envQ1 767 t1 t2 (lineRecord 3 1) hlift.2 rfl hi2
  -- the build of the three records is the build of the first two followed by one insertion
  have happ := insertAll_append envQ [axisRecord 1 0, axisRecord 2 4] [axisRecord 3 1]
    (SSTree.empty 2)
  have hb3 : SSTree.insertAll envQ (SSTree.empty 2)
      ([axisRecord 1 0, axisRecord 2 4] ++ [axisRecord 3 1])
      = .ok (liftTree 767 t1) := hlift.1
  rw [hb3] at happ
  cases hb2 : SSTree.insertAll envQ (SSTree.empty 2) [axisRecord 1 0, axisRecord 2 4] with
  | error e => rw [hb2] at happ; cases happ
  | ok t =>
    rw [hb2] at happ
    simp only [SSTree.insertAll] at happ
    cases hi1 : t.insert envQ (axisRecord 3 1) with
    | error e => rw [hi1] at happ; cases happ
    | ok t1' =>
      rw [hi1] at happ
      simp only [Except.ok.injEq] at happ
      refine ⟨t, liftTree 767 t1, liftTree 767 t2, hb2, ?_, hins.1, ?_, ?_⟩
      · rw [hi1, ← happ]
      · rw [records_lift, of_decide_eq_true hr1.1]; rfl
      · rw [records_lift, of_decide_eq_true hr2]; rfl

/-- Claim C16 (split index), evaluation of the code at two failing inputs.  For `M = 3`
and the ascending values 0, 2, 3, 5 the code returns the index 2, the minimiser of the
sums of squared deviations (4 against 14/3), while the sum of the two population variances
is smaller at index 1 (14/9 against 2).  For `M = 2` and the ascending values 0, 10^20,
2·10^20 the only candidate has a sum that is not below `FLT_MAX`, and the code returns 0,
which is not a candidate index. -/
theorem claim_C16_split_index_not_min_variance :
    minVarianceSplit envQ 3 [0, 2, 3, 5] = 2 ∧
    sumVarianceAt ([0, 2, 3, 5] : List ℚ) 2 < sumVarianceAt ([0, 2, 3, 5] : List ℚ) 1 ∧
    varianceSumAt ([0, 2, 3, 5] : List ℚ) 1 < varianceSumAt ([0, 2, 3, 5] : List ℚ) 2 ∧
    minVarianceSplit envQ 2 [0, 10 ^ 20, 2 * 10 ^ 20] = 0 := by
  decide!

end

end MoreEvaluations

section ExactRoot

variable {K : Type} [LinearOrderedField K]

/-- The exact square root of a square of a non-negative number. -/
theorem sqrt_mul_self_of_exact (env : Env K) (hex : env.Exact) (c : K) (hc : 0 ≤ c) :
    env.sqrt (c * c) = c := by
  have h := hex.sqrt_mul_self (c * c) (mul_self_nonneg c)
  exact (mul_self_inj_of_nonneg (hex.sqrt_nonneg _) hc).1 h

/-- The exact square root is monotone on the non-negative numbers. -/
theorem sqrt_le_sqrt_of_exact (env : Env K) (hex : env.Exact) (x y : K) (hx : 0 ≤ x)
    (hxy : x ≤ y) : env.sqrt x ≤ env.sqrt y := by
  by_contra hlt
  have hlt := not_le.1 hlt
  have := mul_self_lt_mul_self (hex.sqrt_nonneg y) hlt
  rw [hex.sqrt_mul_self x hx, hex.sqrt_mul_self y (le_trans hx hxy)] at this
  exact absurd hxy (not_le.2 this)

/-- The exact square root is strictly monotone on the non-negative numbers. -/
theorem sqrt_lt_sqrt_of_exact (env : Env K) (hex : env.Exact) (x y : K) (hx : 0 ≤ x)
    (hxy : x < y) : env.sqrt x < env.sqrt y := by
  by_contra hle
  have hle := not_lt.1 hle
  have := mul_self_le_mul_self (hex.sqrt_nonneg y) hle
  rw [hex.sqrt_mul_self x hx, hex.sqrt_mul_self y (le_trans hx (le_of_lt hxy))] at this
  exact absurd hxy (not_lt.2 this)

/-- The distance of two points of the plane. -/
theorem distance_flat (env : Env K) (a b c d : K) :
    Point.distance env (flatPoint a b) (flatPoint c d)
      = env.sqrt ((a - c) * (a - c) + (b - d) * (b - d)) := by
  simp [Point.distance, Point.norm, Point.sub, Point.normSquared, flatPoint]

end ExactRoot

section ScenarioSplit

variable {K : Type} [LinearOrderedField K]

theorem sumVarianceAt_five_one : sumVarianceAt ([0, 0, 5, 10, 10] : List K) 1 = 275 / 4 := by
  norm_num [sumVarianceAt]

theorem sumVarianceAt_five_two : sumVarianceAt ([0, 0, 5, 10, 10] : List K) 2 = 50 / 3 := by
  norm_num [sumVarianceAt]

theorem sumVarianceAt_five_three :
    sumVarianceAt ([0, 0, 5, 10, 10] : List K) 3 = 50 / 3 := by
  norm_num [sumVarianceAt]

/-- The split index of the scenario: the candidates 2 and 3 tie, the first one is kept. -/
theorem minVarianceSplit_five (env : Env K) (hmax : env.FLT_MAX = 2 ^ 128 - 2 ^ 104) :
    minVarianceSplit env 4 [0, 0, 5, 10, 10] = 2 := by
  have h1 : (275 / 4 : K) < 2 ^ 128 - 2 ^ 104 := by norm_num
  have h2 : (50 / 3 : K) < 275 / 4 := by norm_num
  have hr : List.range' 1 (4 + 1 - 1 - 1) = [1, 2, 3] := rfl
  simp only [minVarianceSplit, hr, minVarianceLoop, Nat.reduceAdd, sumVarianceAt_five_one,
    sumVarianceAt_five_two, sumVarianceAt_five_three, hmax, h1, h2, if_true, lt_self_iff_false,
    if_false]

/-- The split axis of the scenario: both axes have variance 20, the first one is kept. -/
theorem direction_five (env : Env K) (hdim : env.DIM = 2) (M : Nat) (c : Point K) (r : K) :
    (SSNode.mk M c r true [] (fiveFlatRecords : List (Data K))).directionOfMaxVariance env
      = 0 := by
  have hr : List.range 2 = [0, 1] := rfl
  have h0 : calculateVariance ((fiveFlatRecords : List (Data K)).map (fun d => d.embedding)) 0
      = 20 := by
    norm_num [calculateVariance, calculateMean, fiveFlatRecords, flatRecord, flatPoint,
      Point.get]
  have h1 : calculateVariance ((fiveFlatRecords : List (Data K)).map (fun d => d.embedding)) 1
      = 20 := by
    norm_num [calculateVariance, calculateMean, fiveFlatRecords, flatRecord, flatPoint,
      Point.get]
  have h20 : (20 : K) > 0 := by norm_num
  simp only [SSNode.directionOfMaxVariance, SSNode.getEntriesCentroids, SSNode.isLeaf,
    SSNode._data, if_true, hdim, hr, directionLoop, h0, h1, h20, gt_iff_lt, lt_self_iff_false,
    if_false]

/-- The entries of the scenario sorted by their first coordinate; equal keys keep their
order. -/
theorem sortByKey_five :
    sortByKey (fun (e : Data K) => e.embedding.get 0) fiveFlatRecords
      = [flatRecord 1 0 0, flatRecord 3 0 10, flatRecord 5 5 5, flatRecord 2 10 0,
          flatRecord 4 10 10] := by
  norm_num [sortByKey, fiveFlatRecords, flatRecord, flatPoint, Point.get,
    List.insertionSort, List.orderedInsert]

end ScenarioSplit

section ScenarioBuild

variable {K : Type} [LinearOrderedField K]

theorem sqrt_numeral_facts (env : Env K) (hex : env.Exact) :
    env.sqrt 0 = 0 ∧ env.sqrt 25 = 5 ∧ env.sqrt 100 = 10 ∧ env.sqrt (100 / 9) = 10 / 3 := by
  refine ⟨sqrt_zero_of_exact env hex, ?_, ?_, ?_⟩
  · have := sqrt_mul_self_of_exact env hex 5 (by norm_num)
    norm_num at this
    exact this
  · have := sqrt_mul_self_of_exact env hex 10 (by norm_num)
    norm_num at this
    exact this
  · have := sqrt_mul_self_of_exact env hex (10 / 3) (by norm_num)
    norm_num at this
    exact this

/-- The envelope of the left leaf of the scenario. -/
theorem update_left_leaf (env : Env K) (hex : env.Exact) (hdim : env.DIM = 2) (c : Point K)
    (r : K) :
    (SSNode.mk 4 c r true [] [flatRecord 1 0 0, flatRecord 3 0 10]).updateBoundingEnvelope env
      = SSNode.mk 4 (flatPoint 0 5) 5 true [] [flatRecord 1 0 0, flatRecord 3 0 10] := by
  have hr : List.range 2 = [0, 1] := rfl
  obtain ⟨h0, h25, h100, h9⟩ := sqrt_numeral_facts env hex
  have hc : (⟨(List.range env.DIM).map (fun dim =>
      calculateMean [flatPoint (0 : K) 0, flatPoint 0 10] dim)⟩ : Point K) = flatPoint 0 5 := by
    rw [hdim, hr]
    norm_num [calculateMean, flatPoint, Point.get]
  simp only [SSNode.updateBoundingEnvelope, SSNode.getEntriesCentroids, SSNode.isLeaf,
    SSNode._data, SSNode.maxPointsPerNode, SSNode.children, if_true, List.map_cons,
    List.map_nil, flatRecord, hc, List.foldl_cons, List.foldl_nil, distance_flat]
  norm_num [h25]

/-- The envelope of the right leaf of the scenario. -/
theorem update_right_leaf (env : Env K) (hex : env.Exact) (hdim : env.DIM = 2) (c : Point K)
    (r : K) :
    (SSNode.mk 4 c r true [] [flatRecord 5 5 5, flatRecord 2 10 0,
        flatRecord 4 10 10]).updateBoundingEnvelope env
      = SSNode.mk 4 (flatPoint (25 / 3) 5) (env.sqrt (250 / 9)) true []
          [flatRecord 5 5 5, flatRecord 2 10 0, flatRecord 4 10 10] := by
  have hr : List.range 2 = [0, 1] := rfl
  have hc : (⟨(List.range env.DIM).map (fun dim =>
      calculateMean [flatPoint (5 : K) 5, flatPoint 10 0, flatPoint 10 10] dim)⟩ : Point K)
      = flatPoint (25 / 3) 5 := by
    rw [hdim, hr]
    norm_num [calculateMean, flatPoint, Point.get]
  have h0 : 0 ≤ env.sqrt (100 / 9) := hex.sqrt_nonneg _
  have h1 : env.sqrt (100 / 9) ≤ env.sqrt (250 / 9) :=
    sqrt_le_sqrt_of_exact env hex _ _ (by norm_num) (by norm_num)
  simp only [SSNode.updateBoundingEnvelope, SSNode.getEntriesCentroids, SSNode.isLeaf,
    SSNode._data, SSNode.maxPointsPerNode, SSNode.children, if_true, List.map_cons,
    List.map_nil, flatRecord, hc, List.foldl_cons, List.foldl_nil, distance_flat]
  norm_num [max_eq_right h0, max_eq_right h1]

/-- The five insertions of the scenario on the two significant coordinates. -/
theorem build_five_flat (env : Env K) (hex : env.Exact) (hdim : env.DIM = 2)
    (hmax : env.FLT_MAX = 2 ^ 128 - 2 ^ 104) :
    SSTree.build env 4 fiveFlatRecords = .ok (scenarioFlatTree env) := by
  obtain ⟨c, r, h4⟩ := build_leaf_root env 4
    [flatRecord 1 0 0, flatRecord 2 10 0, flatRecord 3 0 10, flatRecord 4 (10 : K) 10]
    (by simp) (by simp) (by simp [flatRecord])
  have h4' : SSTree.insertAll env (SSTree.empty 4)
      [flatRecord 1 0 0, flatRecord 2 10 0, flatRecord 3 0 10, flatRecord 4 (10 : K) 10]
      = .ok ⟨some (.mk 4 c r true []
          [flatRecord 1 0 0, flatRecord 2 10 0, flatRecord 3 0 10, flatRecord 4 10 10]), 4⟩ := h4
  obtain ⟨c', r', h5⟩ := tree_insert_leaf_full_split env 4 c r
    [flatRecord 1 0 0, flatRecord 2 10 0, flatRecord 3 0 10, flatRecord 4 (10 : K) 10]
    (flatRecord 5 5 5) (by simp [containsPtr, flatRecord]) (by simp)
  have happ := insertAll_append env
    [flatRecord 1 0 0, flatRecord 2 10 0, flatRecord 3 0 10, flatRecord 4 (10 : K) 10]
    [flatRecord 5 5 5] (SSTree.empty 4)
  rw [h4'] at happ
  simp only [SSTree.insertAll, h5] at happ
  have hkey : List.map (fun (e : Data K) => e.embedding.get 0)
      [flatRecord 1 0 0, flatRecord 3 0 10, flatRecord 5 5 5, flatRecord 2 10 0,
        flatRecord 4 10 10] = [0, 0, 5, 10, 10] := by
    simp [flatRecord, flatPoint, Point.get]
  have hsplit : (SSNode.mk 4 c' r' true [] (fiveFlatRecords : List (Data K))).split env
      = (SSNode.mk 4 (flatPoint 0 5) 5 true [] [flatRecord 1 0 0, flatRecord 3 0 10],
         SSNode.mk 4 (flatPoint (25 / 3) 5) (env.sqrt (250 / 9)) true []
          [flatRecord 5 5 5, flatRecord 2 10 0, flatRecord 4 10 10]) := by
    rw [split_leaf env (SSNode.mk 4 c' r' true [] (fiveFlatRecords : List (Data K))) rfl]
    simp only [SSNode._data, SSNode.maxPointsPerNode, SSNode.centroid, SSNode.radius,
      direction_five env hdim, sortByKey_five, hkey, minVarianceSplit_five env hmax,
      List.take, List.drop, update_left_leaf env hex hdim, update_right_leaf env hex hdim]
  have hsplit' : (SSNode.mk 4 c' r' true []
      ([flatRecord 1 0 0, flatRecord 2 10 0, flatRecord 3 0 10, flatRecord 4 (10 : K) 10]
        ++ [flatRecord 5 5 5])).split env = _ := hsplit
  rw [hsplit'] at happ
  exact happ

end ScenarioBuild

section ScenarioKnn

variable {K : Type} [LinearOrderedField K]

theorem sqrt_scenario_facts (env : Env K) (hex : env.Exact) :
    10 / 3 < env.sqrt (250 / 9) ∧ 0 < env.sqrt 50 ∧ env.sqrt 50 < 10 ∧
    10 ≤ env.sqrt 200 ∧ env.sqrt (250 / 9) ≤ env.sqrt (850 / 9) ∧
    env.sqrt (850 / 9) ≤ 10 := by
  obtain ⟨h0, h25, h100, h9⟩ := sqrt_numeral_facts env hex
  refine ⟨?_, ?_, ?_, ?_, ?_, ?_⟩
  · rw [← h9]; exact sqrt_lt_sqrt_of_exact env hex _ _ (by norm_num) (by norm_num)
  · rw [← h0]; exact sqrt_lt_sqrt_of_exact env hex _ _ (by norm_num) (by norm_num)
  · rw [← h100]; exact sqrt_lt_sqrt_of_exact env hex _ _ (by norm_num) (by norm_num)
  · rw [← h100]; exact sqrt_le_sqrt_of_exact env hex _ _ (by norm_num) (by norm_num)
  · exact sqrt_le_sqrt_of_exact env hex _ _ (by norm_num) (by norm_num)
  · rw [← h100]; exact sqrt_le_sqrt_of_exact env hex _ _ (by norm_num) (by norm_num)

/-- The query `(5,5)` with `k = 1` on the tree of the scenario. -/
theorem knn_five_one (env : Env K) (hex : env.Exact) :
    (scenarioFlatTree env).knn env (flatPoint 5 5) 1 = .ok [flatRecord 5 5 5] := by
  obtain ⟨h0, h25, h100, h9⟩ := sqrt_numeral_facts env hex
  obtain ⟨hA, hB, hC, hD, hE, hF⟩ := sqrt_scenario_facts env hex
  simp only [SSTree.knn, scenarioFlatTree, countNodes, countNodesList, knnLoop, pqTop,
    minElement, minElementGo, List.get?, List.eraseIdx, pruned, topDistance, SSNode.isLeaf,
    SSNode.children, SSNode._data, SSNode.centroid, SSNode.radius, enqueueChildren,
    List.nil_append, List.cons_append, nodeCompare, distance_flat, flatRecord]
  norm_num [h0, h25, h100, h9, hA, knnLoop, scanLeaf, pqTop, minElement, minElementGo,
    pruned, topDistance, dataCompare, distance_flat, drain, not_lt.2 (le_of_lt hB)]

/-- The query `(0,0)` with `k = 3` on the tree of the scenario. -/
theorem knn_five_three (env : Env K) (hex : env.Exact) :
    (scenarioFlatTree env).knn env (flatPoint 0 0) 3
      = .ok [flatRecord 1 0 0, flatRecord 5 5 5, flatRecord 3 0 10] := by
  obtain ⟨h0, h25, h100, h9⟩ := sqrt_numeral_facts env hex
  obtain ⟨hA, hB, hC, hD, hE, hF⟩ := sqrt_scenario_facts env hex
  have hr : 0 ≤ env.sqrt (250 / 9) := hex.sqrt_nonneg _
  have hG : ¬ (10 < env.sqrt (850 / 9) - env.sqrt (250 / 9)) := by
    rw [not_lt]; linarith
  have hG' : ¬ (10 + env.sqrt (250 / 9) < env.sqrt (850 / 9)) := by
    rw [not_lt]; linarith
  simp only [SSTree.knn, scenarioFlatTree, countNodes, countNodesList, knnLoop, pqTop,
    minElement, minElementGo, List.get?, List.eraseIdx, pruned, topDistance, SSNode.isLeaf,
    SSNode.children, SSNode._data, SSNode.centroid, SSNode.radius, enqueueChildren,
    List.nil_append, List.cons_append, nodeCompare, distance_flat, flatRecord]
  norm_num [h0, h25, h100, h9, hA, knnLoop, scanLeaf, pqTop, minElement, minElementGo,
    pruned, topDistance, dataCompare, distance_flat, drain, not_lt.2 (le_of_lt hB),
    not_lt.2 hE, hG, hG', hB, hC, not_lt.2 hD, not_lt.2 (le_of_lt hC)]

end ScenarioKnn

section Scenario

variable {K : Type} [LinearOrderedField K]

theorem fiveFlatRecords_length (D : Nat) (hD : D = 2) :
    ∀ r ∈ (fiveFlatRecords : List (Data K)), r.embedding.coordinates_.length = D := by
  subst hD
  simp [fiveFlatRecords, flatRecord, flatPoint]

/-- Claim C20 (concrete scenario).  With the exact square root, `DIM = 768`, the largest
binary32 value as `FLT_MAX` and `M = 4`: after inserting the records `(0,0)`, `(10,0)`,
`(0,10)`, `(10,10)`, `(5,5)` (all other coordinates 0) in that order into an empty tree,
the root is internal with exactly two children, every leaf holds at most 4 records,
`knn((5,5), 1)` returns the record `(5,5)`, and `knn((0,0), 3)` returns the records
`(0,0)`, `(5,5)`, `(0,10)` in that order. -/
theorem claim_C20_concrete_scenario (env : Env K) (hex : env.Exact) (hdim : env.DIM = 768)
    (hmax : env.FLT_MAX = 2 ^ 128 - 2 ^ 104) :
    ∃ t root l r, SSTree.build env 4 fiveRecords = .ok t ∧ t.root = some root ∧
      root.isLeaf = false ∧ root.children = [l, r] ∧
      (∀ L ∈ allNodes root, L.isLeaf = true → L._data.length ≤ 4) ∧
      t.knn env (planePoint 5 5) 1 = .ok [planeRecord 5 5 5] ∧
      t.knn env (planePoint 0 0) 3
        = .ok [planeRecord 1 0 0, planeRecord 5 5 5, planeRecord 3 0 10] := by
  have henv : env = (⟨2, env.sqrt, env.FLT_MAX⟩ : Env K).widen 766 := by
    cases env with
    | mk DIM sqrt FLT_MAX =>
      simp only at hdim
      subst hdim
      rfl
  have hex2 : (⟨2, env.sqrt, env.FLT_MAX⟩ : Env K).Exact :=
    ⟨hex.sqrt_nonneg, hex.sqrt_mul_self⟩
  have hb := build_five_flat (⟨2, env.sqrt, env.FLT_MAX⟩ : Env K) hex2 rfl hmax
  have hlift := build_lift (⟨2, env.sqrt, env.FLT_MAX⟩ : Env K) 766 4 fiveFlatRecords _
    (fiveFlatRecords_length 2 rfl) hb
  have h1 := knn_lift (⟨2, env.sqrt, env.FLT_MAX⟩ : Env K) 766 _ (flatPoint 5 5) 1
    hlift.2 rfl
  have h3 := knn_lift (⟨2, env.sqrt, env.FLT_MAX⟩ : Env K) 766 _ (flatPoint 0 0) 3
    hlift.2 rfl
  rw [knn_five_one _ hex2] at h1
  rw [knn_five_three _ hex2] at h3
  rw [← henv] at hlift h1 h3
  refine ⟨_, _, _, _, hlift.1, rfl, rfl, rfl, ?_, h1, h3⟩
  intro L hL _
  simp only [liftNode, liftNodes, allNodes, allNodesList, Bool.false_eq_true, if_false,
    if_true, List.append_nil, List.cons_append, List.nil_append, List.mem_cons,
    List.mem_singleton, List.not_mem_nil, or_false] at hL
  rcases hL with rfl | rfl | rfl <;> simp [SSNode._data]

/-- Witness for claim C20: the reals with the real square root. -/
theorem claim_C20_concrete_scenario_witness :
    ∃ t root l r,
      SSTree.build (⟨768, Real.sqrt, 2 ^ 128 - 2 ^ 104⟩ : Env ℝ) 4 fiveRecords = .ok t ∧
      t.root = some root ∧ root.isLeaf = false ∧ root.children = [l, r] ∧
      (∀ L ∈ allNodes root, L.isLeaf = true → L._data.length ≤ 4) ∧
      t.knn (⟨768, Real.sqrt, 2 ^ 128 - 2 ^ 104⟩ : Env ℝ) (planePoint 5 5) 1
        = .ok [planeRecord 5 5 5] ∧
      t.knn (⟨768, Real.sqrt, 2 ^ 128 - 2 ^ 104⟩ : Env ℝ) (planePoint 0 0) 3
        = .ok [planeRecord 1 0 0, planeRecord 5 5 5, planeRecord 3 0 10] :=
  claim_C20_concrete_scenario (⟨768, Real.sqrt, 2 ^ 128 - 2 ^ 104⟩ : Env ℝ)
    ⟨Real.sqrt_nonneg, fun x hx => Real.mul_self_sqrt hx⟩ rfl rfl

end Scenario

section PointClaims

variable {K : Type} [LinearOrderedField K]

/-- Claim C21 (scalar division).  For a point with `DIM` coordinates, `operator/` and
`operator/=` throw exactly when `|scalar| < EPSILON`; otherwise they succeed and give the
point whose coordinates are the original ones divided by the scalar; when `operator/=`
throws, the point is unchanged. -/
theorem claim_C21_scalar_division (env : Env K) (EPSILON : K) (p : Point K) (scalar : K)
    (hp : p.coordinates_.length = env.DIM) :
    ((∃ e, Point.div env EPSILON p scalar = .error e) ↔ |scalar| < EPSILON) ∧
    (¬ |scalar| < EPSILON →
      Point.div env EPSILON p scalar = .ok ⟨p.coordinates_.map (fun x => x / scalar)⟩) ∧
    ((∃ e, (Point.divAssign EPSILON p scalar).2 = .error e) ↔ |scalar| < EPSILON) ∧
    (¬ |scalar| < EPSILON →
      Point.divAssign EPSILON p scalar
        = (⟨p.coordinates_.map (fun x => x / scalar)⟩, .ok ())) ∧
    (|scalar| < EPSILON → (Point.divAssign EPSILON p scalar).1 = p) := by
  by_cases h : |scalar| < EPSILON
  · refine ⟨⟨fun _ => h, fun _ => ⟨.invalidArgument, ?_⟩⟩, fun hn => absurd h hn,
      ⟨fun _ => h, fun _ => ⟨.invalidArgument, ?_⟩⟩, fun hn => absurd h hn, fun _ => ?_⟩
    · simp [Point.div, h]
    · simp [Point.divAssign, h]
    · simp [Point.divAssign, h]
  · simp [Point.div, Point.divAssign, Point.ofCoordinates, h, hp]

/-- Witness for claim C21: the point `(4, 0, …, 0)` divided by 2, with `EPSILON = 1e-8`. -/
theorem claim_C21_scalar_division_witness :
    ((∃ e, Point.div envQ (1 / 10 ^ 8) (axisPoint 4) 2 = .error e) ↔ |(2 : ℚ)| < 1 / 10 ^ 8) ∧
    (¬ |(2 : ℚ)| < 1 / 10 ^ 8 →
      Point.div envQ (1 / 10 ^ 8) (axisPoint 4) 2
        = .ok ⟨(axisPoint 4).coordinates_.map (fun x => x / 2)⟩) ∧
    ((∃ e, (Point.divAssign (1 / 10 ^ 8) (axisPoint 4) 2).2 = .error e)
      ↔ |(2 : ℚ)| < 1 / 10 ^ 8) ∧
    (¬ |(2 : ℚ)| < 1 / 10 ^ 8 →
      Point.divAssign (1 / 10 ^ 8) (axisPoint 4) 2
        = (⟨(axisPoint 4).coordinates_.map (fun x => x / 2)⟩, .ok ())) ∧
    (|(2 : ℚ)| < 1 / 10 ^ 8 → (Point.divAssign (1 / 10 ^ 8) (axisPoint 4) 2).1 = axisPoint 4) :=
  claim_C21_scalar_division envQ (1 / 10 ^ 8) (axisPoint 4) 2
    (by simp only [axisPoint, envQ, List.length_cons, List.length_replicate])

theorem normSquared_sub_eq (a b : Point K) :
    (a.sub b).normSquared
      = (List.zipWith (fun x y => (x - y) ^ 2) a.coordinates_ b.coordinates_).sum := by
  unfold Point.normSquared Point.sub
  simp only [List.map_zipWith, pow_two]

/-- Claim C22 (the distance is a metric).  With the exact square root and points of `DIM`
coordinates: `distance(a, b)` is the square root of the sum of the squared coordinate
differences, it is non-negative and symmetric, `distance(a, a) = 0`, and the triangle
inequality holds. -/
theorem claim_C22_distance_metric (env : Env K) (hex : env.Exact) (a b c : Point K)
    (ha : a.coordinates_.length = env.DIM) (hb : b.coordinates_.length = env.DIM)
    (hc : c.coordinates_.length = env.DIM) :
    Point.distance env a b
      = env.sqrt (List.zipWith (fun x y => (x - y) ^ 2) a.coordinates_ b.coordinates_).sum ∧
    0 ≤ Point.distance env a b ∧
    Point.distance env a b = Point.distance env b a ∧
    Point.distance env a a = 0 ∧
    Point.distance env a c ≤ Point.distance env a b + Point.distance env b c := by
  refine ⟨?_, distance_nonneg env hex a b, distance_comm env a b, distance_self env hex a,
    distance_triangle env hex a b c (ha.trans hb.symm) (hb.trans hc.symm)⟩
  unfold Point.distance Point.norm
  rw [normSquared_sub_eq]

/-- Witness for claim C22: three points of 768 coordinates over the reals, with the real
square root. -/
theorem claim_C22_distance_metric_witness :
    Point.distance (⟨768, Real.sqrt, 2 ^ 128 - 2 ^ 104⟩ : Env ℝ)
        ⟨List.replicate 768 0⟩ ⟨List.replicate 768 10⟩
      = Real.sqrt (List.zipWith (fun x y => (x - y) ^ 2)
          (List.replicate 768 (0 : ℝ)) (List.replicate 768 10)).sum ∧
    0 ≤ Point.distance (⟨768, Real.sqrt, 2 ^ 128 - 2 ^ 104⟩ : Env ℝ)
        ⟨List.replicate 768 0⟩ ⟨List.replicate 768 10⟩ ∧
    Point.distance (⟨768, Real.sqrt, 2 ^ 128 - 2 ^ 104⟩ : Env ℝ)
        ⟨List.replicate 768 0⟩ ⟨List.replicate 768 10⟩
      = Point.distance (⟨768, Real.sqrt, 2 ^ 128 - 2 ^ 104⟩ : Env ℝ)
        ⟨List.replicate 768 10⟩ ⟨List.replicate 768 0⟩ ∧
    Point.distance (⟨768, Real.sqrt, 2 ^ 128 - 2 ^ 104⟩ : Env ℝ)
        ⟨List.replicate 768 0⟩ ⟨List.replicate 768 0⟩ = 0 ∧
    Point.distance (⟨768, Real.sqrt, 2 ^ 128 - 2 ^ 104⟩ : Env ℝ)
        ⟨List.replicate 768 0⟩ ⟨List.replicate 768 11⟩
      ≤ Point.distance (⟨768, Real.sqrt, 2 ^ 128 - 2 ^ 104⟩ : Env ℝ)
          ⟨List.replicate 768 0⟩ ⟨List.replicate 768 10⟩
        + Point.distance (⟨768, Real.sqrt, 2 ^ 128 - 2 ^ 104⟩ : Env ℝ)
          ⟨List.replicate 768 10⟩ ⟨List.replicate 768 11⟩ :=
  claim_C22_distance_metric (⟨768, Real.sqrt, 2 ^ 128 - 2 ^ 104⟩ : Env ℝ)
    ⟨Real.sqrt_nonneg, fun x hx => Real.mul_self_sqrt hx⟩
    ⟨List.replicate 768 0⟩ ⟨List.replicate 768 10⟩ ⟨List.replicate 768 11⟩
    (by simp only [List.length_replicate]) (by simp only [List.length_replicate])
    (by simp only [List.length_replicate])

end PointClaims

section Descent

section

variable {K : Type} [Zero K] [Add K] [Sub K] [Mul K] [Div K] [NatCast K] [LinearOrder K]
  [PowAcc K]

/-- The loop of `std::min_element` with a comparator that compares keys: the result is the
first position at which the key is smallest. -/
theorem minElementGo_first {α : Type} (key : α → K) :
    ∀ (xs pre : List α) (cur : α) (best : Nat),
      pre.get? best = some cur → (∀ y ∈ pre, key cur ≤ key y) →
      (∀ j y, j < best → pre.get? j = some y → key cur < key y) →
      ∃ e, (pre ++ xs).get?
            (minElementGo (fun a b => decide (key a < key b)) xs pre.length cur best) = some e ∧
        (∀ y ∈ pre ++ xs, key e ≤ key y) ∧
        (∀ j y, j < minElementGo (fun a b => decide (key a < key b)) xs pre.length cur best →
          (pre ++ xs).get? j = some y → key e < key y)
  | [], pre, cur, best, hget, hmin, hfirst => by
    refine ⟨cur, ?_, ?_, ?_⟩
    · simpa [minElementGo] using hget
    · simpa using hmin
    · simpa [minElementGo] using hfirst
  | x :: xs, pre, cur, best, hget, hmin, hfirst => by
    have hb : best < pre.length := by
      by_contra hcon
      rw [List.get?_eq_none.2 (not_lt.1 hcon)] at hget
      exact absurd hget (by simp)
    unfold minElementGo
    by_cases hx : key x < key cur
    · simp only [hx, decide_True, if_true]
      have h1 : (pre ++ [x]).get? pre.length = some x := by simp
      have h2 : ∀ y ∈ pre ++ [x], key x ≤ key y := by
        intro y hy
        rcases List.mem_append.1 hy with hy | hy
        · exact le_trans (le_of_lt hx) (hmin y hy)
        · simp only [List.mem_singleton] at hy
          rw [hy]
      have h3 : ∀ j y, j < pre.length → (pre ++ [x]).get? j = some y → key x < key y := by
        intro j y hj hy
        simp only [List.get?_eq_getElem?] at hy
        rw [List.getElem?_append_left hj] at hy
        exact lt_of_lt_of_le hx
          (hmin y (List.get?_mem (by simpa [List.get?_eq_getElem?] using hy)))
      have ih := minElementGo_first key xs (pre ++ [x]) x pre.length h1 h2 h3
      simpa [List.append_assoc] using ih
    · simp only [hx, decide_False, Bool.false_eq_true, if_false]
      have h1 : (pre ++ [x]).get? best = some cur := by
        simp only [List.get?_eq_getElem?] at hget ⊢
        rw [List.getElem?_append_left hb]
        exact hget
      have h2 : ∀ y ∈ pre ++ [x], key cur ≤ key y := by
        intro y hy
        rcases List.mem_append.1 hy with hy | hy
        · exact hmin y hy
        · simp only [List.mem_singleton] at hy
          rw [hy]
          exact not_lt.1 hx
      have h3 : ∀ j y, j < best → (pre ++ [x]).get? j = some y → key cur < key y := by
        intro j y hj hy
        simp only [List.get?_eq_getElem?] at hy
        rw [List.getElem?_append_left (lt_trans hj hb)] at hy
        exact hfirst j y hj (by simpa [List.get?_eq_getElem?] using hy)
      have ih := minElementGo_first key xs (pre ++ [x]) cur best h1 h2 h3
      simpa [List.append_assoc] using ih

/-- The method `SSNode::findClosestChild` on a non-empty child vector: the position of the
first child whose centroid is closest to the target. -/
theorem findClosestChild_spec (env : Env K) (children : List (SSNode K)) (target : Point K)
    (hne : children ≠ []) :
    ∃ i child, findClosestChild env children target = .ok i ∧ children.get? i = some child ∧
      (∀ y ∈ children,
        Point.distance env child.centroid target ≤ Point.distance env y.centroid target) ∧
      (∀ j y, j < i → children.get? j = some y →
        Point.distance env child.centroid target < Point.distance env y.centroid target) := by
  cases children with
  | nil => exact absurd rfl hne
  | cons x xs =>
    obtain ⟨e, he, hmin, hfirst⟩ := minElementGo_first
      (fun (a : SSNode K) => Point.distance env a.centroid target) xs [x] x 0 (by simp)
      (by simp) (by intro j y hj; exact absurd hj (Nat.not_lt_zero j))
    refine ⟨_, e, ?_, by simpa using he, by simpa using hmin, by simpa using hfirst⟩
    simp only [findClosestChild, minElement]

/-- The recursive call of `SSNode::insert` on the child at position `i`: the child at that
position, and no other one, receives the record; it stays in place if it absorbs the
record and is erased if it splits. -/
theorem insertChildAt_eq (env : Env K) (d : Data K) :
    ∀ (cs : List (SSNode K)) (i : Nat),
      insertChildAt env cs i d =
        (match cs.get? i with
         | none => .error .emptyRange
         | some child =>
           match child.insert env d with
           | .error e => .error e
           | .ok (.absorbed child') => .ok (cs.set i child', none)
           | .ok (.split leftSplit rightSplit) =>
             .ok (cs.eraseIdx i, some (leftSplit, rightSplit)))
  | [], i => by
    unfold insertChildAt
    simp
  | child :: rest, 0 => by
    unfold insertChildAt
    cases h : SSNode.insert env child d with
    | error e => simp only [List.get?, List.set, List.eraseIdx, h]
    | ok res => cases res <;> simp only [List.get?, List.set, List.eraseIdx, h]
  | child :: rest, i + 1 => by
    unfold insertChildAt
    rw [insertChildAt_eq env d rest i]
    simp only [List.get?, List.set, List.eraseIdx]
    cases hg : rest.get? i with
    | none => rfl
    | some c =>
      simp only []
      cases h : SSNode.insert env c d with
      | error e => rfl
      | ok res => cases res <;> rfl

end

section

variable {K : Type} [LinearOrderedField K]

/-- Claim C25 (descent choice).  For an internal node with a non-empty child vector:
`SSNode::findClosestChild` returns, for every target, a child whose centroid is at minimal
distance from the target, and the first such child of the vector; `SSNode::insert` of a
record recurses into exactly the child chosen for the embedding of the record, which stays
in place if it absorbs the record and is replaced by the two siblings if it splits. -/
theorem claim_C25_descent_choice (env : Env K) (M : Nat) (centroid : Point K) (radius : K)
    (children : List (SSNode K)) (_data : List (Data K)) (target : Point K) (data : Data K)
    (hne : children ≠ []) :
    (∃ i child, findClosestChild env children target = .ok i ∧ children.get? i = some child ∧
      (∀ y ∈ children,
        Point.distance env child.centroid target ≤ Point.distance env y.centroid target) ∧
      (∀ j y, j < i → children.get? j = some y →
        Point.distance env child.centroid target < Point.distance env y.centroid target)) ∧
    (∃ i child, findClosestChild env children data.embedding = .ok i ∧
      children.get? i = some child ∧
      (SSNode.mk M centroid radius false children _data).insert env data =
        afterChildInsert env M centroid radius children _data i (child.insert env data)) := by
  refine ⟨findClosestChild_spec env children target hne, ?_⟩
  obtain ⟨i, child, hi, hget, _, _⟩ := findClosestChild_spec env children data.embedding hne
  refine ⟨i, child, hi, hget, ?_⟩
  have key : (SSNode.mk M centroid radius false children _data).insert env data =
      (match insertChildAt env children i data with
       | .error e => .error e
       | .ok (children, none) =>
         .ok (.absorbed
               ((SSNode.mk M centroid radius false children _data).updateBoundingEnvelope env))
       | .ok (children, some (leftSplit, rightSplit)) =>
         .ok (finishInsert env
               (.mk M centroid radius false (children ++ [leftSplit, rightSplit]) _data)
               (children.length + 2))) := by
    conv_lhs => unfold SSNode.insert
    cases hc : insertChildAt env children i data with
    | error e => simp only [Bool.false_eq_true, if_false, hi, hc]
    | ok p =>
      obtain ⟨cs, o⟩ := p
      cases o with
      | none => simp only [Bool.false_eq_true, if_false, hi, hc]
      | some q =>
        obtain ⟨l, rr⟩ := q
        simp only [Bool.false_eq_true, if_false, hi, hc]
  rw [key, insertChildAt_eq env data children i, hget]
  simp only []
  cases h : SSNode.insert env child data with
  | error e => rfl
  | ok res => cases res <;> rfl

/-- Witness for claim C25: an internal node over two leaves at 0 and at 10 on the first
axis; the target and the record are at 1. -/
theorem claim_C25_descent_choice_witness :
    (∃ i child, findClosestChild envQ twoLeaves (axisPoint 1) = .ok i ∧
      twoLeaves.get? i = some child ∧
      (∀ y ∈ twoLeaves,
        Point.distance envQ child.centroid (axisPoint 1)
          ≤ Point.distance envQ y.centroid (axisPoint 1)) ∧
      (∀ j y, j < i → twoLeaves.get? j = some y →
        Point.distance envQ child.centroid (axisPoint 1)
          < Point.distance envQ y.centroid (axisPoint 1))) ∧
    (∃ i child, findClosestChild envQ twoLeaves (axisRecord 3 1).embedding = .ok i ∧
      twoLeaves.get? i = some child ∧
      (SSNode.mk 2 (axisPoint 5) 5 false twoLeaves []).insert envQ (axisRecord 3 1) =
        afterChildInsert envQ 2 (axisPoint 5) 5 twoLeaves [] i
          (child.insert envQ (axisRecord 3 1))) :=
  claim_C25_descent_choice envQ 2 (axisPoint 5) 5 twoLeaves [] (axisPoint 1) (axisRecord 3 1)
    (by simp [twoLeaves])

end

end Descent

section SplitPartition

section

variable {K : Type} [Zero K] [Add K] [Sub K] [Mul K] [Div K] [NatCast K] [LinearOrder K]
  [PowAcc K]

/-- Recomputing the envelope of a node whose envelope has just been recomputed changes
nothing. -/
theorem update_idem (env : Env K) (n : SSNode K) :
    (n.updateBoundingEnvelope env).updateBoundingEnvelope env
      = n.updateBoundingEnvelope env := by
  cases n with
  | mk M c r l cs ds => rfl

/-- The `std::sort` calls of `SSNode::findSplitIndex` leave the entries in ascending order
of the key. -/
theorem sortByKey_sorted {α : Type} (key : α → K) (xs : List α) :
    (sortByKey key xs).Pairwise (fun a b => key a ≤ key b) := by
  haveI : IsTotal α (fun a b => key a ≤ key b) := ⟨fun a b => le_total (key a) (key b)⟩
  haveI : IsTrans α (fun a b => key a ≤ key b) := ⟨fun a b c hab hbc => le_trans hab hbc⟩
  exact List.sorted_insertionSort (fun a b => key a ≤ key b) xs

theorem take_le_drop {α : Type} (key : α → K) (l : List α) (i : Nat)
    (h : l.Pairwise (fun a b => key a ≤ key b)) :
    ∀ a ∈ l.take i, ∀ b ∈ l.drop i, key a ≤ key b := by
  rw [← List.take_append_drop i l, List.pairwise_append] at h
  exact h.2.2

end

section

variable {K : Type} [LinearOrderedField K]

/-- Claim C26 (split partition).  For every node, `SSNode::split` returns two siblings with
the `isLeaf` flag of the node; the entries of the left sibling followed by those of the
right sibling are the entries of the node sorted in ascending order of their coordinate on
the split axis (a permutation of the entries of the node); the left sibling holds the
first `i*` of them, where `i*` is the result of `minVarianceSplit`, and the right sibling
the rest, so that no coordinate on the left exceeds one on the right; and the envelope of
each sibling is the one recomputed from its own entries. -/
theorem claim_C26_split_partition (env : Env K) (n : SSNode K) :
    (n.split env).1.isLeaf = n.isLeaf ∧ (n.split env).2.isLeaf = n.isLeaf ∧
    (n.isLeaf = true →
      (n.split env).1._data ++ (n.split env).2._data
        = sortByKey (fun e => e.embedding.get (n.directionOfMaxVariance env)) n._data ∧
      (sortByKey (fun e => e.embedding.get (n.directionOfMaxVariance env)) n._data).Perm
        n._data ∧
      (sortByKey (fun e => e.embedding.get (n.directionOfMaxVariance env)) n._data).Pairwise
        (fun a b => a.embedding.get (n.directionOfMaxVariance env)
          ≤ b.embedding.get (n.directionOfMaxVariance env)) ∧
      (n.split env).1._data.length
        = min (minVarianceSplit env n.maxPointsPerNode
            ((sortByKey (fun e => e.embedding.get (n.directionOfMaxVariance env)) n._data).map
              (fun e => e.embedding.get (n.directionOfMaxVariance env)))) n._data.length ∧
      ∀ a ∈ (n.split env).1._data, ∀ b ∈ (n.split env).2._data,
        a.embedding.get (n.directionOfMaxVariance env)
          ≤ b.embedding.get (n.directionOfMaxVariance env)) ∧
    (n.isLeaf = false →
      (n.split env).1.children ++ (n.split env).2.children
        = sortByKey (fun c => c.centroid.get (n.directionOfMaxVariance env)) n.children ∧
      (sortByKey (fun c => c.centroid.get (n.directionOfMaxVariance env)) n.children).Perm
        n.children ∧
      (sortByKey (fun c => c.centroid.get (n.directionOfMaxVariance env)) n.children).Pairwise
        (fun a b => a.centroid.get (n.directionOfMaxVariance env)
          ≤ b.centroid.get (n.directionOfMaxVariance env)) ∧
      (n.split env).1.children.length
        = min (minVarianceSplit env n.maxPointsPerNode
            ((sortByKey (fun c => c.centroid.get (n.directionOfMaxVariance env))
                n.children).map
              (fun c => c.centroid.get (n.directionOfMaxVariance env)))) n.children.length ∧
      ∀ a ∈ (n.split env).1.children, ∀ b ∈ (n.split env).2.children,
        a.centroid.get (n.directionOfMaxVariance env)
          ≤ b.centroid.get (n.directionOfMaxVariance env)) ∧
    (n.split env).1.updateBoundingEnvelope env = (n.split env).1 ∧
    (n.split env).2.updateBoundingEnvelope env = (n.split env).2 := by
  cases hl : n.isLeaf with
  | true =>
    rw [split_leaf env n hl]
    refine ⟨rfl, rfl, fun _ => ⟨?_, sortByKey_perm _ _, sortByKey_sorted _ _, ?_, ?_⟩,
      fun h => absurd h (by simp), update_idem env _, update_idem env _⟩
    · simp only [update_data, data_mk, List.take_append_drop]
    · simp only [update_data, data_mk, List.length_take]
      rw [(sortByKey_perm _ n._data).length_eq]
    · simp only [update_data, data_mk]
      exact take_le_drop _ _ _ (sortByKey_sorted _ _)
  | false =>
    rw [split_internal env n hl]
    refine ⟨rfl, rfl, fun h => absurd h (by simp),
      fun _ => ⟨?_, sortByKey_perm _ _, sortByKey_sorted _ _, ?_, ?_⟩,
      update_idem env _, update_idem env _⟩
    · simp only [update_children, children_mk, List.take_append_drop]
    · simp only [update_children, children_mk, List.length_take]
      rw [(sortByKey_perm _ n.children).length_eq]
    · simp only [update_children, children_mk]
      exact take_le_drop _ _ _ (sortByKey_sorted _ _)

end

end SplitPartition

section SearchSound

section

variable {K : Type} [Zero K] [Add K] [Sub K] [Mul K] [Div K] [NatCast K] [LinearOrder K]
  [PowAcc K]

/-- The nodes of the subtree of a node of a subtree are nodes of the subtree. -/
theorem allNodes_trans : ∀ m : SSNode K, ∀ n ∈ allNodes m, ∀ x ∈ allNodes n, x ∈ allNodes m := by
  intro m
  induction m using SSNode.induction_aux with
  | h m ih =>
    intro n hn x hx
    rcases (mem_allNodes m n).1 hn with rfl | ⟨hl, c, hc, hnc⟩
    · exact hx
    · exact mem_allNodes_of_child hl hc (ih c hc n hnc x hx)

/-- The records below a node of a subtree are records of the subtree. -/
theorem collect_subset_of_mem_allNodes :
    ∀ m : SSNode K, ∀ n ∈ allNodes m, ∀ r ∈ collectDataDFS n, r ∈ collectDataDFS m := by
  intro m
  induction m using SSNode.induction_aux with
  | h m ih =>
    intro n hn r hr
    rcases (mem_allNodes m n).1 hn with rfl | ⟨hl, c, hc, hnc⟩
    · exact hr
    · rw [collectDataDFS_eq, hl]
      simp only [Bool.false_eq_true, if_false]
      exact (mem_collectDataDFSChildren _ _).2 ⟨c, hc, ih c hc n hnc r hr⟩

end

section

variable {K : Type} [LinearOrderedField K]

/-- In a subtree all of whose embeddings have `D` coordinates, every record has `D`
coordinates. -/
theorem wf_records (D : Nat) : ∀ n : SSNode K, wfNode D n →
    ∀ r ∈ collectDataDFS n, r.embedding.coordinates_.length = D := by
  intro n
  induction n using SSNode.induction_aux with
  | h n ih =>
    intro hw r hr
    rw [wfNode_iff] at hw
    rw [collectDataDFS_eq] at hr
    cases hl : n.isLeaf with
    | true =>
      simp only [hl, if_true] at hr
      exact hw.2.1 r hr
    | false =>
      simp only [hl, Bool.false_eq_true, if_false] at hr
      obtain ⟨c, hc, hrc⟩ := (mem_collectDataDFSChildren _ _).1 hr
      exact ih c hc (hw.2.2 c hc) r hrc

/-- Claim C27 (search soundness).  On a tree with a root, `SSTree::search(r)` returns
normally; if it returns a node, the node is a leaf of the tree and its record list
contains the object `r`; and if the tree holds no record at the address of `r` (a record
that was never inserted), it returns none. -/
theorem claim_C27_search_soundness (env : Env K) (t : SSTree K) (root : SSNode K)
    (r : Data K) (hroot : t.root = some root) :
    (∃ res, t.search env r = .ok res) ∧
    (∀ L, t.search env r = .ok (some L) →
      L ∈ t.nodes ∧ L.isLeaf = true ∧ ∃ e ∈ L._data, e.addr = r.addr) ∧
    ((∀ e ∈ t.records, e.addr ≠ r.addr) → t.search env r = .ok none) := by
  have hs : t.search env r = .ok (root.search env r) := by
    simp only [SSTree.search, hroot]
  have hsound : ∀ L, root.search env r = some L →
      L ∈ allNodes root ∧ L.isLeaf = true ∧ ∃ e ∈ L._data, e.addr = r.addr := by
    intro L hL
    obtain ⟨h1, h2, h3⟩ := search_sound env r root L hL
    exact ⟨h1, h2, (containsPtr_iff _ _).1 h3⟩
  refine ⟨⟨_, hs⟩, ?_, ?_⟩
  · intro L hL
    rw [hs] at hL
    simp only [Except.ok.injEq] at hL
    have := hsound L hL
    simpa [SSTree.nodes, hroot] using this
  · intro hfresh
    rw [hs]
    cases hres : root.search env r with
    | none => rfl
    | some L =>
      obtain ⟨h1, h2, e, he, hea⟩ := hsound L hres
      have hmem : e ∈ t.records := by
        simp only [SSTree.records, hroot]
        exact leaf_data_subset_collect root L h1 h2 e he
      exact absurd hea (hfresh e hmem)

/-- Witness for claim C27: the tree of the three records at 0, 10 and 11, searched for a
record that was never inserted. -/
theorem claim_C27_search_soundness_witness :
    ∃ t root, SSTree.build envQ 2 threeRecords = .ok t ∧ t.root = some root ∧
      ((∃ res, t.search envQ (axisRecord 4 5) = .ok res) ∧
        (∀ L, t.search envQ (axisRecord 4 5) = .ok (some L) →
          L ∈ t.nodes ∧ L.isLeaf = true ∧ ∃ e ∈ L._data, e.addr = (axisRecord 4 5).addr) ∧
        ((∀ e ∈ t.records, e.addr ≠ (axisRecord 4 5).addr) →
          t.search envQ (axisRecord 4 5) = .ok none)) := by
  obtain ⟨c, l, rr, hb, _, _⟩ := build_root_split envQ 2 threeRecords (by decide) (by decide)
  exact ⟨_, _, hb, rfl, claim_C27_search_soundness envQ _ _ (axisRecord 4 5) rfl⟩

/-- Subtree containment below the root in exact arithmetic.  With the exact square root of
an ordered field and records of `DIM` coordinates, in a tree built by insertions into an
empty tree: for every node `n` below the root and every record `r` stored in a leaf of the
subtree of `n`, `dist(n.centroid, r.embedding) ≤ n.radius`, and for every query `q` of `DIM`
coordinates `dist(q, n.centroid) - n.radius` is a lower bound of `dist(q, r.embedding)`. -/
theorem subtree_containment_exact (env : Env K) (hex : env.Exact) (M : Nat)
    (R : List (Data K)) (t : SSTree K) (root : SSNode K)
    (hlen : ∀ r ∈ R, r.embedding.coordinates_.length = env.DIM)
    (hb : SSTree.build env M R = .ok t) (hroot : t.root = some root)
    (hint : root.isLeaf = false) :
    ∀ c ∈ root.children, ∀ n ∈ allNodes c, ∀ r ∈ collectDataDFS n,
      Point.distance env n.centroid r.embedding ≤ n.radius ∧
      ∀ q : Point K, q.coordinates_.length = env.DIM →
        Point.distance env q n.centroid - n.radius ≤ Point.distance env q r.embedding := by
  intro c hc n hn r hr
  have hsound := (build_sound_below env M R t hb root hroot).2 hint c hc
  have hwf : wfNode env.DIM root := (build_lift env 0 M R t hlen hb).2 root hroot
  have hrlen : r.embedding.coordinates_.length = env.DIM := by
    apply wf_records env.DIM root hwf
    apply collect_subset_of_mem_allNodes root c (mem_allNodes_of_child hint hc
      (self_mem_allNodes c))
    exact collect_subset_of_mem_allNodes c n hn r hr
  have hns : ∀ x ∈ allNodes n, envelopeSound env x := fun x hx =>
    hsound x (allNodes_trans c n hn x hx)
  have h1 := encloses_of_sound env hex n hns r hr hrlen
  refine ⟨h1, fun q hq => ?_⟩
  have hclen := (hns n (self_mem_allNodes n)).1
  have h2 := distance_triangle env hex q r.embedding n.centroid
    (by rw [hq, hrlen]) (by rw [hrlen, hclen])
  rw [distance_comm env r.embedding n.centroid] at h2
  linarith

/-- An instance of `subtree_containment_exact`: three records over the reals with the real
square root and `M = 2`; the root is internal. -/
theorem subtree_containment_exact_witness :
    ∃ t root,
      SSTree.build (⟨768, Real.sqrt, 2 ^ 128 - 2 ^ 104⟩ : Env ℝ) 2
        [planeRecord 1 0 0, planeRecord 2 10 0, planeRecord 3 11 0] = .ok t ∧
      t.root = some root ∧ root.isLeaf = false ∧
      ∀ c ∈ root.children, ∀ n ∈ allNodes c, ∀ r ∈ collectDataDFS n,
        Point.distance (⟨768, Real.sqrt, 2 ^ 128 - 2 ^ 104⟩ : Env ℝ) n.centroid r.embedding
          ≤ n.radius ∧
        ∀ q : Point ℝ, q.coordinates_.length = 768 →
          Point.distance (⟨768, Real.sqrt, 2 ^ 128 - 2 ^ 104⟩ : Env ℝ) q n.centroid - n.radius
            ≤ Point.distance (⟨768, Real.sqrt, 2 ^ 128 - 2 ^ 104⟩ : Env ℝ) q r.embedding :=
  ⟨_, _, rfl, rfl, rfl,
    subtree_containment_exact (⟨768, Real.sqrt, 2 ^ 128 - 2 ^ 104⟩ : Env ℝ)
      ⟨Real.sqrt_nonneg, fun x hx => Real.mul_self_sqrt hx⟩ 2
      [planeRecord 1 0 0, planeRecord 2 10 0, planeRecord 3 11 0] _ _
      (by
        intro r hr
        simp only [List.mem_cons, List.mem_singleton, List.not_mem_nil, or_false] at hr
        rcases hr with rfl | rfl | rfl <;>
          simp only [planeRecord, planePoint, List.length_cons, List.length_replicate])
      rfl rfl rfl⟩

end

end SearchSound

section RootRefresh

section

variable {K : Type} [LinearOrderedField K]

end

section

variable {K : Type} [Zero K] [Add K] [Sub K] [Mul K] [Div K] [NatCast K] [LinearOrder K]
  [PowAcc K]

end

section

variable {K : Type} [LinearOrderedField K]

end

end RootRefresh

section KnnSteps

section

variable {K : Type} [LinearOrderedField K]

theorem queueKey_lift (env : Env K) (n : Nat) (query : Point K) (x : SSNode K)
    (h : query.coordinates_.length = x.centroid.coordinates_.length) :
    queueKey (env.widen n) (liftPoint n query) (liftNode n x) = queueKey env query x := by
  unfold queueKey
  rw [liftNode_centroid, liftNode_radius, distance_widen, distance_lift env n _ _ h]

/-- The method `SSTree::knn` on a tree with a root: the loop is started with the root in
the node queue, under its key, and an empty result heap. -/
theorem knn_eq_finishKnn (env : Env K) (root : SSNode K) (M : Nat) (query : Point K)
    (k : Nat) :
    (⟨some root, M⟩ : SSTree K).knn env query k
      = finishKnn env query
          (knnLoop env query k (countNodes root) [(root, queueKey env query root)] []) := by
  simp only [SSTree.knn, queueKey]
  cases knnLoop env query k (countNodes root)
      [(root, Point.distance env query root.centroid - root.radius)] [] with
  | error e => rfl
  | ok nn => rfl

/-- Claim C24 (node queue key), as the code has it.  Every node that `SSTree::knn` places
in the node queue, the root seed and every enqueued child, is keyed by
`dist(query, node.centroid) - node.radius`, without clamping at 0; the key is negative
exactly when the query lies strictly inside the sphere of the node. -/
theorem claim_C24_queue_key_unclamped (env : Env K) (query : Point K) (k : Nat)
    (root : SSNode K) (M : Nat) (nearestNeighbors : List (Data K))
    (children : List (SSNode K)) (nodeQueue : List (SSNode K × K)) :
    (⟨some root, M⟩ : SSTree K).knn env query k
      = finishKnn env query
          (knnLoop env query k (countNodes root) [(root, queueKey env query root)] []) ∧
    (∀ e ∈ enqueueChildren env query nearestNeighbors children nodeQueue,
      e ∈ nodeQueue ∨ ∃ c ∈ children, e = (c, queueKey env query c)) ∧
    (∀ node : SSNode K,
      queueKey env query node < 0 ↔ Point.distance env query node.centroid < node.radius) := by
  refine ⟨knn_eq_finishKnn env root M query k, ?_, fun node => sub_neg⟩
  intro e he
  rcases (mem_enqueueChildren env query nearestNeighbors children nodeQueue e).1 he with
    h | ⟨c, hc, hec, _⟩
  · exact Or.inl h
  · exact Or.inr ⟨c, hc, hec⟩

end

section

variable {K : Type} [Zero K] [Add K] [Sub K] [Mul K] [Div K] [NatCast K] [LinearOrder K]
  [PowAcc K] [PadLaws K]

/-- The keys of the children of the root of the tree on the first coordinate of
`threeRecords`, for the query at 21/2. -/
theorem eval_child_keys :
    resultIs (SSTree.build envQ1 2 threeLineRecords)
      (fun t => rootIs t (fun root =>
        decide ((enqueueChildren envQ1 (linePoint (21 / 2)) [] root.children []).map Prod.snd
          = [21 / 2, -1 / 2]))) = true := by
  decide!

end

section

variable {K : Type} [LinearOrderedField K]

/-- Counterexample to claim C24 as stated: in the tree of the three records at 0, 10 and
11 (`M = 2`), the query at 21/2 on the first axis lies strictly inside the sphere of the
second child of the root (centroid 21/2, radius 1/2), and that child is enqueued under the
key -1/2, not under `max(0, -1/2) = 0`. -/
theorem claim_C24_negative_key_counterexample :
    ∃ t root, SSTree.build envQ 2 threeRecords = .ok t ∧ t.root = some root ∧
      (enqueueChildren envQ (axisPoint (21 / 2)) [] root.children []).map Prod.snd
        = [21 / 2, -1 / 2] ∧
      max (0 : ℚ) (-1 / 2) ≠ -1 / 2 := by
  obtain ⟨t1, hb1, hr1⟩ := (resultIs_iff _ _).1 eval_child_keys
  obtain ⟨root1, hroot1, hc1⟩ := (rootIs_iff _ _).1 hr1
  have hlift := build_lift envQ1 767 2 threeLineRecords t1 threeLineRecords_length hb1
  have hwf := (wfNode_iff _ _).1 (hlift.2 root1 hroot1)
  refine ⟨liftTree 767 t1, liftNode 767 root1, hlift.1, by simp [liftTree, hroot1], ?_,
    by norm_num⟩
  have h := enqueueChildren_lift envQ1 767 (linePoint (21 / 2)) []
    (by intro e he; simp at he) root1.children []
    (fun c hc => centroid_length_of_wf (hwf.2.2 c hc))
  rw [liftNode_children]
  have h' : enqueueChildren envQ (axisPoint (21 / 2)) [] (root1.children.map (liftNode 767)) []
      = (enqueueChildren envQ1 (linePoint (21 / 2)) [] root1.children []).map
          (liftEntry 767) := h
  rw [h', List.map_map]
  exact of_decide_eq_true hc1

end

section

variable {K : Type} [Zero K] [Add K] [Sub K] [Mul K] [Div K] [NatCast K] [LinearOrder K]
  [PowAcc K] [PadLaws K]

/-- The second child of the root of the tree on the first coordinate of `threeRecords`,
popped from the node queue of a query at 0 with `k = 2` while the result heap holds one
record. -/
theorem eval_pruned_early :
    resultIs (SSTree.build envQ1 2 threeLineRecords)
      (fun t => rootIs t (fun root =>
        decide (root.children.length = 2) &&
        (root.children.drop 1).all (fun r =>
          decide (r.entryCount = 2) &&
          pruned envQ1 (linePoint 0) [lineRecord 1 0] (queueKey envQ1 (linePoint 0) r) &&
          resultIs
            (knnLoop envQ1 (linePoint 0) 2 1 [(r, queueKey envQ1 (linePoint 0) r)]
              [lineRecord 1 0])
            (fun l => decide (l = [lineRecord 1 0]))))) = true := by
  decide!

end

section

variable {K : Type} [LinearOrderedField K]

/-- Claim C23 (pruning step), evaluation of the code at a failing input.  In the tree of
the three records at 0, 10 and 11 (`M = 2`), for the query at 0 with `k = 2`: when the
second child of the root (the leaf with the two records at 10 and 11) is popped, the
result heap holds one record, fewer than `k`; the pruning test discards the leaf all the
same, and the loop ends with one record in the heap. -/
theorem claim_C23_pruned_before_heap_full :
    ∃ t root l r, SSTree.build envQ 2 threeRecords = .ok t ∧ t.root = some root ∧
      root.children = [l, r] ∧ r.entryCount = 2 ∧
      [axisRecord 1 0].length < 2 ∧
      pruned envQ (axisPoint 0) [axisRecord 1 0] (queueKey envQ (axisPoint 0) r) = true ∧
      knnLoop envQ (axisPoint 0) 2 1 [(r, queueKey envQ (axisPoint 0) r)] [axisRecord 1 0]
        = .ok [axisRecord 1 0] := by
  obtain ⟨t1, hb1, hr1⟩ := (resultIs_iff _ _).1 eval_pruned_early
  obtain ⟨root1, hroot1, hc1⟩ := (rootIs_iff _ _).1 hr1
  rw [Bool.and_eq_true, decide_eq_true_eq] at hc1
  obtain ⟨hlen, hall⟩ := hc1
  have hlift := build_lift envQ1 767 2 threeLineRecords t1 threeLineRecords_length hb1
  have hwf := (wfNode_iff _ _).1 (hlift.2 root1 hroot1)
  match hch : root1.children, hlen with
  | [l1, r1], _ =>
    rw [hch] at hall
    simp only [List.drop, List.all_cons, List.all_nil, Bool.and_true, Bool.and_eq_true,
      decide_eq_true_eq] at hall
    obtain ⟨⟨hcount, hpr⟩, hloop⟩ := hall
    obtain ⟨res, hres, hreseq⟩ := (resultIs_iff _ _).1 hloop
    have hr1wf : wfNode envQ1.DIM r1 := hwf.2.2 r1 (by rw [hch]; simp)
    have hkey : queueKey envQ (axisPoint 0) (liftNode 767 r1)
        = queueKey envQ1 (linePoint 0) r1 :=
      queueKey_lift envQ1 767 (linePoint 0) r1 (centroid_length_of_wf hr1wf).symm
    refine ⟨liftTree 767 t1, liftNode 767 root1, liftNode 767 l1, liftNode 767 r1, hlift.1,
      by simp [liftTree, hroot1], by rw [liftNode_children, hch]; rfl, ?_, by decide, ?_, ?_⟩
    · rw [entryCount_lift]; exact hcount
    · rw [hkey]
      have := pruned_lift envQ1 767 (linePoint 0) [lineRecord 1 0]
        (queueKey envQ1 (linePoint 0) r1) (by decide)
      rw [hpr] at this
      exact this
    · rw [hkey]
      have := (knnLoop_lift envQ1 767 (linePoint 0) 2 rfl 1
        [(r1, queueKey envQ1 (linePoint 0) r1)] [lineRecord 1 0]
        (by intro e he; simp only [List.mem_singleton] at he; rw [he]; exact hr1wf)
        (by decide)).1
      rw [hres, of_decide_eq_true hreseq] at this
      exact this

end

section

variable {K : Type} [Zero K] [Add K] [Sub K] [Mul K] [Div K] [NatCast K] [LinearOrder K]
  [PowAcc K] [PadLaws K]

/-- The split index for the first coordinates of `farRecords`. -/
theorem eval_far_index : minVarianceSplit envQ 2 [0, 10 ^ 20, 2 * 10 ^ 20] = 0 := by
  decide!

end

section

variable {K : Type} [LinearOrderedField K]

/-- Claim C30 (split index range), evaluation of the code at a failing input.  For
`M = 2` and the values 0, 10^20, 2·10^20 the sum of the only candidate is not below
`FLT_MAX`, and `SSNode::minVarianceSplit` returns 0, outside `[1, M - 1]`; the split of the
root leaf that holds the three records at these positions gives a left sibling with no
entry and a right sibling with `M + 1 = 3` entries. -/
theorem claim_C30_split_index_zero :
    minVarianceSplit envQ 2 [0, 10 ^ 20, 2 * 10 ^ 20] = 0 ∧
    ∃ t root l r, SSTree.build envQ 2 farRecords = .ok t ∧ t.root = some root ∧
      root.children = [l, r] ∧ l.entryCount = 0 ∧ r.entryCount = 3 := by
  refine ⟨eval_far_index, ?_⟩
  obtain ⟨t1, hb1, hr1⟩ := (resultIs_iff _ _).1 eval_far_split
  obtain ⟨root1, hroot1, hc1⟩ := (rootIs_iff _ _).1 hr1
  rw [Bool.and_eq_true] at hc1
  have hcounts : root1.children.map SSNode.entryCount = [0, 3] := of_decide_eq_true hc1.2
  have hlift := build_lift envQ1 767 2 farLineRecords t1 farLineRecords_length hb1
  have hlen : root1.children.length = 2 := by
    have := congrArg List.length hcounts
    simpa using this
  match hch : root1.children, hlen with
  | [l1, r1], _ =>
    rw [hch] at hcounts
    simp only [List.map_cons, List.map_nil, List.cons.injEq, and_true] at hcounts
    refine ⟨liftTree 767 t1, liftNode 767 root1, liftNode 767 l1, liftNode 767 r1, hlift.1,
      by simp [liftTree, hroot1], by rw [liftNode_children, hch]; rfl, ?_, ?_⟩
    · rw [entryCount_lift]; exact hcounts.1
    · rw [entryCount_lift]; exact hcounts.2

end

end KnnSteps

section KnnWellFormed

section

variable {K : Type} [Zero K] [Add K] [Sub K] [Mul K] [Div K] [NatCast K] [LinearOrder K]
  [PowAcc K]

theorem perm_cons_eraseIdx_of_get {α : Type} :
    ∀ (l : List α) (i : Nat) (x : α), l.get? i = some x → l.Perm (x :: l.eraseIdx i)
  | [], i, x, h => by simp at h
  | a :: l, 0, x, h => by
    simp only [List.get?_cons_zero, Option.some.injEq] at h
    subst h
    exact List.Perm.refl _
  | a :: l, i + 1, x, h => by
    simp only [List.get?_cons_succ] at h
    have ih := perm_cons_eraseIdx_of_get l i x h
    simp only [List.eraseIdx]
    exact (ih.cons a).trans (List.Perm.swap x a _)

theorem queueRecords_eraseIdx {α : Type} (q : List (SSNode K × α)) (i : Nat)
    (e : SSNode K × α) (h : q.get? i = some e) :
    (queueRecords q).Perm (collectDataDFS e.1 ++ queueRecords (q.eraseIdx i)) := by
  have hp := perm_cons_eraseIdx_of_get q i e h
  have := (hp.map (fun (e : SSNode K × α) => collectDataDFS e.1)).flatten
  simpa [queueRecords] using this

/-- The drained heap is the heap in another order, or a part of it. -/
theorem drain_subperm {α : Type} (comp : α → α → Bool) :
    ∀ (n : Nat) (q : List α), (drain comp n q).Subperm q
  | 0, q => by simp [drain, List.nil_subperm]
  | n + 1, q => by
    unfold drain
    split
    · exact List.nil_subperm
    · next i hi =>
      split
      · exact List.nil_subperm
      · next top hg =>
        have ih := drain_subperm comp n (q.eraseIdx i)
        have hp := perm_cons_eraseIdx_of_get q i top hg
        exact ((List.subperm_cons top).2 ih).trans hp.symm.subperm

/-- The scan of a leaf leaves in the heap records of the heap and of the leaf, each as
often as there at most, and never more than `k` of them. -/
theorem scanLeaf_subperm (env : Env K) (query : Point K) (k : Nat) :
    ∀ (ds nn nn' : List (Data K)), scanLeaf env query k ds nn = .ok nn' →
      nn'.Subperm (nn ++ ds) ∧ (nn.length ≤ k → nn'.length ≤ k)
  | [], nn, nn', h => by
    simp only [scanLeaf, Except.ok.injEq] at h
    subst h
    simp [List.Subperm.refl]
  | d :: ds, nn, nn', h => by
    unfold scanLeaf at h
    simp only at h
    by_cases hlen : nn.length < k
    · simp only [hlen, if_true] at h
      have ih := scanLeaf_subperm env query k ds (nn ++ [d]) nn' h
      refine ⟨?_, fun _ => ih.2 (by simp; omega)⟩
      simpa [List.append_assoc] using ih.1
    · simp only [hlen, if_false] at h
      by_cases hnn : nn = []
      · subst hnn
        simp [pqTop, minElement] at h
      · obtain ⟨i, e, hi, hg, ht, _⟩ := heap_top_defined env query nn hnn
        simp only [hi, ht] at h
        have hilt : i < nn.length := by
          by_contra hcon
          rw [List.get?_eq_none.2 (not_lt.1 hcon)] at hg
          exact absurd hg (by simp)
        split at h
        · have ih := scanLeaf_subperm env query k ds (nn.eraseIdx i ++ [d]) nn' h
          constructor
          · refine ih.1.trans ?_
            rw [List.append_assoc]
            exact ((List.eraseIdx_sublist nn i).append_right _).subperm
          · intro hk
            apply ih.2
            rw [List.length_append, List.length_eraseIdx_of_lt hilt]
            simp only [List.length_singleton]
            omega
        · have ih := scanLeaf_subperm env query k ds nn nn' h
          exact ⟨ih.1.trans ((List.sublist_cons_self d ds).append_left nn).subperm, ih.2⟩

/-- The children that enter the node queue bring along records of their subtrees only. -/
theorem enqueueChildren_records (env : Env K) (query : Point K) (nn : List (Data K)) :
    ∀ (cs : List (SSNode K)) (q : List (SSNode K × K)),
      (queueRecords (enqueueChildren env query nn cs q)).Subperm
        (queueRecords q ++ collectDataDFSChildren cs)
  | [], q => by simp [enqueueChildren, List.Subperm.refl]
  | c :: cs, q => by
    unfold enqueueChildren
    simp only
    split
    · refine (enqueueChildren_records env query nn cs q).trans ?_
      simp only [collectDataDFSChildren_cons]
      exact ((List.sublist_append_right (collectDataDFS c)
        (collectDataDFSChildren cs)).append_left (queueRecords q)).subperm
    · refine (enqueueChildren_records env query nn cs _).trans ?_
      simp [queueRecords, List.append_assoc, List.Subperm.refl]

/-- The loop of `SSTree::knn` leaves in the result heap records of the heap and of the
subtrees in the node queue, each as often as there at most, and never more than `k`. -/
theorem knnLoop_subperm (env : Env K) (query : Point K) (k : Nat) :
    ∀ (fuel : Nat) (q : List (SSNode K × K)) (nn nn' : List (Data K)),
      knnLoop env query k fuel q nn = .ok nn' →
        nn'.Subperm (nn ++ queueRecords q) ∧ (nn.length ≤ k → nn'.length ≤ k)
  | _, [], nn, nn', h => by
    simp only [knnLoop, Except.ok.injEq] at h
    subst h
    simp [queueRecords, List.Subperm.refl]
  | 0, e :: es, nn, nn', h => by simp [knnLoop] at h
  | fuel + 1, e :: es, nn, nn', h => by
    unfold knnLoop at h
    obtain ⟨i, top, hi, ht, _⟩ := pqTop_spec nodeCompare nodeCompare_irrefl
      nodeCompare_trans (e :: es) (by simp)
    obtain ⟨currentNode, nodeDistance⟩ := top
    have hq := queueRecords_eraseIdx (e :: es) i _ ht
    simp only at hq
    simp only [hi, ht] at h
    have hrest : (nn ++ queueRecords ((e :: es).eraseIdx i)).Subperm
        (nn ++ queueRecords (e :: es)) :=
      (List.subperm_append_left nn).2
        ((List.sublist_append_right _ _).subperm.trans hq.symm.subperm)
    split at h
    · have ih := knnLoop_subperm env query k fuel _ nn nn' h
      exact ⟨ih.1.trans hrest, ih.2⟩
    · split at h
      · next hleaf =>
        cases hs : scanLeaf env query k currentNode._data nn with
        | error err => simp [hs] at h
        | ok nn1 =>
          simp only [hs] at h
          have h1 := scanLeaf_subperm env query k currentNode._data nn nn1 hs
          have ih := knnLoop_subperm env query k fuel _ nn1 nn' h
          refine ⟨ih.1.trans ?_, fun hk => ih.2 (h1.2 hk)⟩
          refine ((List.subperm_append_right _).2 h1.1).trans ?_
          rw [List.append_assoc]
          refine (List.subperm_append_left nn).2 ?_
          rw [collectDataDFS_eq, hleaf, if_pos rfl] at hq
          exact hq.symm.subperm
      · next hleaf =>
        have ih := knnLoop_subperm env query k fuel _ nn nn' h
        refine ⟨ih.1.trans ((List.subperm_append_left nn).2 ?_), ih.2⟩
        refine (enqueueChildren_records env query nn currentNode.children _).trans ?_
        rw [collectDataDFS_eq] at hq
        simp only [hleaf, Bool.false_eq_true, if_false] at hq
        exact (List.perm_append_comm.trans hq.symm).subperm

/-- The records collected from a subtree are stored in leaves of the subtree. -/
theorem mem_collect_leaf :
    ∀ n : SSNode K, ∀ r ∈ collectDataDFS n,
      ∃ L ∈ allNodes n, L.isLeaf = true ∧ r ∈ L._data := by
  intro n
  induction n using SSNode.induction_aux with
  | h n ih =>
    intro r hr
    rw [collectDataDFS_eq] at hr
    cases hl : n.isLeaf with
    | true =>
      rw [hl, if_pos rfl] at hr
      exact ⟨n, self_mem_allNodes n, hl, hr⟩
    | false =>
      simp only [hl, Bool.false_eq_true, if_false] at hr
      obtain ⟨c, hc, hrc⟩ := (mem_collectDataDFSChildren _ r).1 hr
      obtain ⟨L, hL, hleaf, hmem⟩ := ih c hc r hrc
      exact ⟨L, mem_allNodes_of_child hl hc hL, hleaf, hmem⟩

end

section

variable {K : Type} [LinearOrderedField K]

/-- Claim C31 (k-NN result well-formedness).  For every tree built by inserting the
pairwise distinct records `R` (distinct objects, that is, distinct addresses), every
query and every `k ≥ 1`, `SSTree::knn` returns; it returns at most `k` records, every
returned record is stored in a leaf of the tree, and no record is returned twice. -/
theorem claim_C31_knn_well_formed (env : Env K) (M : Nat) (R : List (Data K))
    (t : SSTree K) (query : Point K) (k : Nat)
    (hR : (R.map Data.addr).Nodup) (hb : SSTree.build env M R = .ok t) (hk : 1 ≤ k) :
    ∃ res, t.knn env query k = .ok res ∧ res.length ≤ k ∧
      (∀ r ∈ res, ∃ L ∈ t.nodes, L.isLeaf = true ∧ r ∈ L._data) ∧
      (res.map Data.addr).Nodup := by
  obtain ⟨res, hres⟩ := knn_ok env t query k hk
  have hperm := build_records_perm env M R t hR hb
  have hsub : res.Subperm t.records ∧ res.length ≤ k := by
    have h := hres
    unfold SSTree.knn at h
    unfold SSTree.records
    cases hr : t.root with
    | none =>
      simp only [hr, Except.ok.injEq] at h
      subst h
      exact ⟨List.nil_subperm, Nat.zero_le _⟩
    | some root =>
      simp only [hr] at h
      cases hl : knnLoop env query k (countNodes root)
          [(root, Point.distance env query root.centroid - root.radius)] [] with
      | error err => simp [hl] at h
      | ok nn =>
        simp only [hl, Except.ok.injEq] at h
        subst h
        have h1 := knnLoop_subperm env query k _ _ _ _ hl
        have h2 := drain_subperm (dataCompare env query) nn.length nn
        have h3 : nn.Subperm (collectDataDFS root) := by
          simpa [queueRecords] using h1.1
        refine ⟨(List.reverse_perm _).subperm.trans (h2.trans h3), ?_⟩
        rw [List.length_reverse]
        exact h2.length_le.trans (h1.2 (Nat.zero_le _))
  refine ⟨res, hres, hsub.2, ?_, ?_⟩
  · intro r hr
    have hmem := hsub.1.subset hr
    unfold SSTree.records at hmem
    unfold SSTree.nodes
    cases hroot : t.root with
    | none => simp [hroot] at hmem
    | some root =>
      simp only [hroot] at hmem
      exact mem_collect_leaf root r hmem
  · obtain ⟨l, hl1, hl2⟩ := hsub.1.trans hperm.subperm
    have : (l.map Data.addr).Nodup := (hl2.map Data.addr).nodup hR
    exact (hl1.map Data.addr).nodup_iff.1 this

/-- Witness for claim C31: three distinct records, a root split at `M = 2`, and the two
nearest neighbours of the origin. -/
theorem claim_C31_knn_well_formed_witness :
    ∃ t, (threeRecords.map Data.addr).Nodup ∧
      SSTree.build envQ 2 threeRecords = .ok t ∧ 1 ≤ 2 ∧
      ∃ res, t.knn envQ (axisPoint 0) 2 = .ok res ∧ res.length ≤ 2 ∧
        (∀ r ∈ res, ∃ L ∈ t.nodes, L.isLeaf = true ∧ r ∈ L._data) ∧
        (res.map Data.addr).Nodup :=
  ⟨_, by decide, rfl, by decide,
    claim_C31_knn_well_formed envQ 2 threeRecords _ (axisPoint 0) 2 (by decide) rfl
      (by decide)⟩

end

end KnnWellFormed

section DraftSearch

section

variable {K : Type} [Zero K] [Add K] [Sub K] [Mul K] [Div K] [NatCast K] [LinearOrder K]
  [PowAcc K]

/-- Method `SSNode::search` of the second draft on a leaf: the loop over the children. -/
theorem draft_search_leaf (M : Nat) (c : Point K) (r : K) (cs : List (SSNode K))
    (ds : List (Data K)) (data : Data K) :
    Draft.SSNode.search (.mk M c r true cs ds) data = Draft.searchChildren cs data := by
  simp only [Draft.SSNode.search, if_true]

/-- Method `SSNode::search` of the second draft on an internal node: the scan of the
records by path. -/
theorem draft_search_internal (M : Nat) (c : Point K) (r : K) (cs : List (SSNode K))
    (ds : List (Data K)) (data : Data K) :
    Draft.SSNode.search (.mk M c r false cs ds) data =
      if ds.any (fun d => data.path == d.path) then some (.mk M c r false cs ds)
      else none := by
  simp only [Draft.SSNode.search, Bool.false_eq_true, if_false]

end

section

variable {K : Type} [LinearOrderedField K]

/-- Claim C32 (search of the second draft).  `SSNode::search` of the second draft runs the
loop over the children on a leaf and the scan of the records by path on an internal node.
Hence on every tree in which the leaves have no children and the internal nodes have no
records, `SSTree::search` of the second draft answers `none` for every record, whether
the record is stored in the tree or not. -/
theorem claim_C32_draft_search_inverted (tree : SSTree K) (data : Data K)
    (h : ∀ n ∈ tree.nodes, (n.isLeaf = true → n.children = []) ∧
      (n.isLeaf = false → n._data = [])) :
    (∀ M c r cs ds, Draft.SSNode.search (.mk M c r true cs ds) data =
        Draft.searchChildren cs data) ∧
    (∀ M c r cs ds, Draft.SSNode.search (.mk M c r false cs ds) data =
        if ds.any (fun d => data.path == d.path) then some (.mk M c r false cs ds)
        else none) ∧
    Draft.SSTree.search tree data = none := by
  refine ⟨fun M c r cs ds => draft_search_leaf M c r cs ds data,
    fun M c r cs ds => draft_search_internal M c r cs ds data, ?_⟩
  unfold Draft.SSTree.search
  cases hr : tree.root with
  | none => rfl
  | some root =>
    simp only
    have hroot := h root (by simp only [SSTree.nodes, hr]; exact self_mem_allNodes root)
    cases root with
    | mk M c r l cs ds =>
      cases l with
      | true =>
        have hcs : cs = [] := hroot.1 rfl
        subst hcs
        rw [draft_search_leaf]
        rfl
      | false =>
        have hds : ds = [] := hroot.2 rfl
        subst hds
        rw [draft_search_internal]
        rfl

/-- Witness for claim C32: a tree with an internal root over two leaves, searched for the
record stored in its first leaf. -/
theorem claim_C32_draft_search_inverted_witness :
    (∀ n ∈ twoLeafTree.nodes, (n.isLeaf = true → n.children = []) ∧
      (n.isLeaf = false → n._data = [])) ∧
    axisRecord 1 0 ∈ twoLeafTree.records ∧
    (∀ M c r cs ds, Draft.SSNode.search (.mk M c r true cs ds) (axisRecord 1 0) =
        Draft.searchChildren cs (axisRecord 1 0)) ∧
    (∀ M c r cs ds, Draft.SSNode.search (.mk M c r false cs ds) (axisRecord 1 0) =
        if ds.any (fun d => (axisRecord 1 0).path == d.path) then
          some (.mk M c r false cs ds)
        else none) ∧
    Draft.SSTree.search twoLeafTree (axisRecord 1 0) = none := by
  have hn : ∀ n ∈ twoLeafTree.nodes, (n.isLeaf = true → n.children = []) ∧
      (n.isLeaf = false → n._data = []) := by
    intro n hn
    simp only [SSTree.nodes, twoLeafTree, twoLeaves, allNodes, allNodesList, if_true,
      Bool.false_eq_true, if_false, List.cons_append, List.nil_append, List.append_nil,
      List.mem_cons, List.mem_singleton, List.not_mem_nil, or_false] at hn
    rcases hn with rfl | rfl | rfl <;> simp [SSNode.isLeaf, SSNode.children, SSNode._data]
  refine ⟨hn, ?_, claim_C32_draft_search_inverted twoLeafTree (axisRecord 1 0) hn⟩
  simp [SSTree.records, twoLeafTree, twoLeaves, collectDataDFS, collectDataDFSChildren]

end

end DraftSearch

section DraftInsert

section

variable {K : Type} [LinearOrderedField K]

/-- The method `SSNode::updateBoundingEnvelope` of the second draft does not throw on a
leaf that holds a record, and it changes the centroid and the radius only. -/
theorem draft_update_leaf (env : Env K) (EPSILON : K) (hE : EPSILON ≤ 1) (M : Nat)
    (c : Point K) (r : K) (cs : List (SSNode K)) (ds : List (Data K)) (hds : ds ≠ []) :
    ∃ c' r', Draft.SSNode.updateBoundingEnvelope env EPSILON (.mk M c r true cs ds) =
      .ok (.mk M c' r' true cs ds) := by
  have hlen : 1 ≤ ds.length := by
    cases ds with
    | nil => exact absurd rfl hds
    | cons d ds => simp
  have hcast : (1 : K) ≤ (ds.length : K) := by exact_mod_cast hlen
  have hnot : ¬ |(ds.length : K)| < EPSILON := by
    rw [abs_of_nonneg (le_trans zero_le_one hcast)]
    exact not_lt.2 (hE.trans hcast)
  simp only [Draft.SSNode.updateBoundingEnvelope, SSNode.isLeaf, SSNode._data,
    SSNode.maxPointsPerNode, SSNode.children, if_true, Point.divAssign, hnot, if_false]
  exact ⟨_, _, rfl⟩

/-- The method `SSNode::insert` of the second draft on a leaf with room: the record is
appended. -/
theorem draft_insert_leaf_room (env : Env K) (EPSILON : K) (hE : EPSILON ≤ 1) (M : Nat)
    (c : Point K) (r : K) (cs : List (SSNode K)) (ds : List (Data K)) (d : Data K)
    (hroom : ds.length < M) :
    ∃ c' r', Draft.SSNode.insert env EPSILON (.mk M c r true cs ds) d =
      .ok (.mk M c' r' true cs (ds ++ [d]), none) := by
  obtain ⟨c', r', h⟩ := draft_update_leaf env EPSILON hE M c r cs (ds ++ [d]) (by simp)
  refine ⟨c', r', ?_⟩
  have hgt : M > ds.length := hroom
  simp only [Draft.SSNode.insert, if_true, hgt, Draft.finish, Bool.false_eq_true, if_false, h]

/-- The split index of two values at `M = 2` is 1. -/
theorem minVarianceSplit_pair (env : Env K) (hmax : 0 < env.FLT_MAX) (a b : K) :
    minVarianceSplit env 2 [a, b] = 1 := by
  have hr : List.range' 1 (2 + 1 - 1 - 1) = [1] := rfl
  have hs : sumVarianceAt [a, b] 1 = 0 := by
    simp [sumVarianceAt]
  simp only [minVarianceSplit, hr, minVarianceLoop, hs, hmax, if_true]

/-- The method `SSNode::split` of the second draft on a leaf with `M = 2` that holds two
records, the first of which is not behind the second one on the split axis: the leaf
keeps the first record and the new node takes the second one. -/
theorem draft_split_pair (env : Env K) (EPSILON : K) (hE : EPSILON ≤ 1)
    (hmax : 0 < env.FLT_MAX) (c : Point K) (r : K) (cs : List (SSNode K)) (a b : Data K)
    (hab : ∀ dir, a.embedding.get dir ≤ b.embedding.get dir) :
    ∃ c1 r1 c2 r2, Draft.SSNode.split env EPSILON (.mk 2 c r true cs [a, b]) =
      .ok (.mk 2 c1 r1 true cs [a], .mk 2 c2 r2 true [] [b]) := by
  obtain ⟨c1, r1, h1⟩ := draft_update_leaf env EPSILON hE 2 c r cs [a] (by simp)
  obtain ⟨c2, r2, h2⟩ := draft_update_leaf env EPSILON hE 2 (Point.Zero env) 0 [] [b]
    (by simp)
  refine ⟨c1, r1, c2, r2, ?_⟩
  have hidx : ∀ dir, Draft.SSNode.findSplitIndex env (.mk 2 c r true cs [a, b]) dir = 1 := by
    intro dir
    simp only [Draft.SSNode.findSplitIndex, SSNode.isLeaf, SSNode._data,
      SSNode.maxPointsPerNode, if_true, List.map_cons, List.map_nil]
    exact minVarianceSplit_pair env hmax _ _
  have hsort : ∀ dir, Draft.nth_element (fun (x : Data K) => x.embedding.get dir) 1 [a, b]
      = [a, b] := by
    intro dir
    simp [Draft.nth_element, sortByKey, List.insertionSort, List.orderedInsert, hab dir]
  simp only [Draft.SSNode.split, hidx, SSNode.isLeaf, SSNode._data,
    SSNode.maxPointsPerNode, SSNode.children, SSNode.centroid, SSNode.radius, if_true, hsort,
    List.take, List.drop, h1, h2]

/-- The method `SSTree::insert` of the second draft on the empty tree: the root becomes a
leaf that holds the record. -/
theorem draft_tree_insert_empty (env : Env K) (EPSILON : K) (hE : EPSILON ≤ 1) (M : Nat)
    (hM : 0 < M) (d : Data K) :
    ∃ c r, Draft.SSTree.insert env EPSILON (SSTree.empty M) d =
      .ok ⟨some (.mk M c r true [] [d]), M⟩ := by
  obtain ⟨c, r, h⟩ := draft_insert_leaf_room env EPSILON hE M d.embedding 0 [] [] d hM
  refine ⟨c, r, ?_⟩
  simp only [List.nil_append] at h
  simp only [Draft.SSTree.insert, SSTree.empty, h]

/-- The method `SSTree::insert` of the second draft on a tree whose root is a leaf with
room: the record is appended to the root. -/
theorem draft_tree_insert_room (env : Env K) (EPSILON : K) (hE : EPSILON ≤ 1) (M : Nat)
    (c : Point K) (r : K) (cs : List (SSNode K)) (ds : List (Data K)) (d : Data K)
    (hroom : ds.length < M) :
    ∃ c' r', Draft.SSTree.insert env EPSILON ⟨some (.mk M c r true cs ds), M⟩ d =
      .ok ⟨some (.mk M c' r' true cs (ds ++ [d])), M⟩ := by
  obtain ⟨c', r', h⟩ := draft_insert_leaf_room env EPSILON hE M c r cs ds d hroom
  refine ⟨c', r', ?_⟩
  simp only [Draft.SSTree.insert, h]

/-- The method `SSTree::insert` of the second draft on a tree with `M = 2` whose root is a
leaf that holds two records in the order of every axis: the root keeps the first record,
the second one leaves the tree with the node that `split` returns, and the record that
was to be inserted is not stored. -/
theorem draft_tree_insert_full_pair (env : Env K) (EPSILON : K) (hE : EPSILON ≤ 1)
    (hmax : 0 < env.FLT_MAX) (c : Point K) (r : K) (cs : List (SSNode K)) (a b d : Data K)
    (hab : ∀ dir, a.embedding.get dir ≤ b.embedding.get dir) :
    ∃ c' r', Draft.SSTree.insert env EPSILON ⟨some (.mk 2 c r true cs [a, b]), 2⟩ d =
      .ok ⟨some (.mk 2 c' r' true cs [a]), 2⟩ := by
  obtain ⟨c1, r1, c2, r2, h⟩ := draft_split_pair env EPSILON hE hmax c r cs a b hab
  refine ⟨c1, r1, ?_⟩
  have hfull : ¬ (2 > [a, b].length) := by simp
  simp only [Draft.SSTree.insert, Draft.SSNode.insert, if_true, hfull, if_false,
    Draft.finish, h]

/-- The driver of the second draft on three records with `M = 2`, the first two of which
stand in the order of every axis: the final tree is a leaf root that holds the first
record only. -/
theorem draft_build_three (env : Env K) (EPSILON : K) (hE : EPSILON ≤ 1)
    (hmax : 0 < env.FLT_MAX) (a b d : Data K)
    (hab : ∀ dir, a.embedding.get dir ≤ b.embedding.get dir) :
    ∃ c r, Draft.SSTree.build env EPSILON 2 [a, b, d] =
      .ok ⟨some (.mk 2 c r true [] [a]), 2⟩ := by
  obtain ⟨c1, r1, h1⟩ := draft_tree_insert_empty env EPSILON hE 2 (by decide) a
  obtain ⟨c2, r2, h2⟩ := draft_tree_insert_room env EPSILON hE 2 c1 r1 [] [a] b
    (by simp only [List.length_singleton, Nat.one_lt_ofNat])
  obtain ⟨c3, r3, h3⟩ := draft_tree_insert_full_pair env EPSILON hE hmax c2 r2 [] a b d hab
  refine ⟨c3, r3, ?_⟩
  simp only [Draft.SSTree.build, Draft.SSTree.insertAll, h1, h2, List.singleton_append, h3]

end

section

variable {K : Type} [Zero K] [Add K] [Sub K] [Mul K] [Div K] [NatCast K] [LinearOrder K]
  [PowAcc K]

/-- Records with different addresses are different records. -/
theorem ne_of_addr_ne {a b : Data K} (h : a.addr ≠ b.addr) : a ≠ b :=
  fun hab => h (congrArg Data.addr hab)

/-- The first coordinate of a record on the first axis. -/
theorem axisPoint_get_zero (x : ℚ) : (axisPoint x).get 0 = x := by
  simp only [axisPoint, Point.get, List.getD_cons_zero]

/-- The other coordinates of a record on the first axis. -/
theorem axisPoint_get_succ (x : ℚ) (n : Nat) : (axisPoint x).get (n + 1) = 0 := by
  simp only [axisPoint, Point.get, List.getD_cons_succ]
  rw [List.getD_eq_getElem?_getD, List.getElem?_replicate]
  split <;> rfl

/-- The coordinates of the records on an axis are ordered like their first ones. -/
theorem axisPoint_get_le (x y : ℚ) (hxy : x ≤ y) (dir : Nat) :
    (axisPoint x).get dir ≤ (axisPoint y).get dir := by
  cases dir with
  | zero => simpa only [axisPoint_get_zero] using hxy
  | succ n => simp only [axisPoint_get_succ, le_refl]

end

section

variable {K : Type} [LinearOrderedField K]

/-- The loop of `SSNode::directionOfMaxVariance` of the second draft keeps its candidate
when no later dimension has a larger sum of squared deviations. -/
theorem draft_directionLoop_keep (points : List (Point K)) :
    ∀ (dims : List Nat) (m : Nat),
      (∀ i ∈ dims, ¬ Draft.variances points i > Draft.variances points m) →
      Draft.directionLoop points dims m = m
  | [], m, _ => rfl
  | i :: dims, m, h => by
    have hi := h i (List.mem_cons_self i dims)
    simp only [Draft.directionLoop, hi, if_false]
    exact draft_directionLoop_keep points dims m
      (fun j hj => h j (List.mem_cons_of_mem i hj))

end

section

variable {K : Type} [Zero K] [Add K] [Sub K] [Mul K] [Div K] [NatCast K] [LinearOrder K]
  [PowAcc K]

/-- The split axis of the full leaf of the failing input is the first axis, on which its
two records differ. -/
theorem draft_direction_pair (c : Point ℚ) (r : ℚ) :
    Draft.SSNode.directionOfMaxVariance envQ
      (.mk 2 c r true [] [axisRecord 1 0, axisRecord 2 10]) = 0 := by
  simp only [Draft.SSNode.directionOfMaxVariance, SSNode.isLeaf, SSNode._data, if_true,
    List.map_cons, List.map_nil, axisRecord]
  apply draft_directionLoop_keep
  intro i hi
  obtain ⟨n, rfl⟩ : ∃ n, i = n + 1 := by
    have h1 : 1 ≤ i := (List.mem_range'_1.1 hi).1
    exact ⟨i - 1, by omega⟩
  have h0 : Draft.variances [axisPoint 0, axisPoint 10] 0 = 50 := by
    simp only [Draft.variances, Draft.med_vals, List.foldl_cons, List.foldl_nil,
      axisPoint_get_zero, List.length_cons, List.length_nil]
    norm_num
  have hn : Draft.variances [axisPoint 0, axisPoint 10] (n + 1) = 0 := by
    simp only [Draft.variances, Draft.med_vals, List.foldl_cons, List.foldl_nil,
      axisPoint_get_succ, List.length_cons, List.length_nil]
    norm_num
  rw [h0, hn]
  norm_num

end

section

variable {K : Type} [LinearOrderedField K]

/-- Claim C33 (completeness of the second draft), evaluation of the code at a failing
input.  With `M = 2`, the three distinct records at 0, 10 and 11 on the first axis are
inserted into the empty tree of the second draft.  The third insertion finds the root
leaf full: `SSNode::insert` splits it (on the first axis, where its two records differ)
and returns without storing the record, and `SSTree::insert` drops the returned node with
the record at 10.  The depth-first traversal of the final tree yields the record at 0
only, where the claim asks for all three records. -/
theorem claim_C33_draft_insert_loses_records :
    (∀ c r, Draft.SSNode.directionOfMaxVariance envQ
      (.mk 2 c r true [] [axisRecord 1 0, axisRecord 2 10]) = 0) ∧
    ∃ t, Draft.SSTree.build envQ EPSILON 2 threeRecords = .ok t ∧
      t.records = [axisRecord 1 0] ∧
      axisRecord 2 10 ∉ t.records ∧ axisRecord 3 11 ∉ t.records ∧
      ¬ t.records.Perm threeRecords := by
  have hE : EPSILON ≤ 1 := by norm_num [EPSILON]
  have hmax : 0 < envQ.FLT_MAX := by norm_num [envQ]
  obtain ⟨c, r, h⟩ := draft_build_three envQ EPSILON hE hmax (axisRecord 1 0)
    (axisRecord 2 10) (axisRecord 3 11)
    (fun dir => axisPoint_get_le 0 10 (by norm_num) dir)
  refine ⟨draft_direction_pair, _, h, ?_, ?_, ?_, ?_⟩
  · simp only [SSTree.records, collectDataDFS, if_true]
  · simp only [SSTree.records, collectDataDFS, if_true, List.mem_singleton]
    exact ne_of_addr_ne (by decide)
  · simp only [SSTree.records, collectDataDFS, if_true, List.mem_singleton]
    exact ne_of_addr_ne (by decide)
  · intro hp
    have := hp.length_eq
    simp only [SSTree.records, collectDataDFS, if_true, threeRecords, List.length_cons,
      List.length_nil] at this
    omega

end

end DraftInsert

section LiftSearch

variable {K : Type} [Zero K] [Add K] [Sub K] [Mul K] [Div K] [NatCast K] [LinearOrder K]
  [PowAcc K] [PadLaws K]

/-- The test `intersectsPoint` does not change with padding. -/
theorem intersectsPoint_lift (env : Env K) (n : Nat) (x : SSNode K) (p : Point K)
    (h : x.centroid.coordinates_.length = p.coordinates_.length) :
    (liftNode n x).intersectsPoint (env.widen n) (liftPoint n p) = x.intersectsPoint env p := by
  simp only [SSNode.intersectsPoint, liftNode_centroid, liftNode_radius, distance_widen]
  rw [distance_lift env n _ _ h]

mutual
/-- Method `SSNode::search` commutes with padding. -/
theorem search_lift (env : Env K) (n : Nat) :
    ∀ (x : SSNode K) (d : Data K),
      wfNode env.DIM x → d.embedding.coordinates_.length = env.DIM →
      (liftNode n x).search (env.widen n) (liftData n d) =
        (x.search env d).map (liftNode n)
  | .mk M c r isLeaf children _data, d, hw, hd => by
    have hw' := hw
    simp only [wfNode] at hw'
    cases isLeaf with
    | true =>
      simp only [liftNode, SSNode.search, if_true, containsPtr_lift]
      cases hc : containsPtr _data d with
      | true => simp only [if_true, Option.map_some', liftNode]
      | false => simp only [Bool.false_eq_true, if_false, Option.map_none']
    | false =>
      simp only [liftNode, SSNode.search, Bool.false_eq_true, if_false]
      exact searchChildren_lift env n children d hw'.2.2 hd
/-- The loop over the children of `SSNode::search` commutes with padding. -/
theorem searchChildren_lift (env : Env K) (n : Nat) :
    ∀ (cs : List (SSNode K)) (d : Data K),
      wfNodes env.DIM cs → d.embedding.coordinates_.length = env.DIM →
      searchChildren (env.widen n) (liftNodes n cs) (liftData n d) =
        (searchChildren env cs d).map (liftNode n)
  | [], d, _, _ => rfl
  | child :: rest, d, hw, hd => by
    have hw' := hw
    simp only [wfNodes] at hw'
    have hi : (liftNode n child).intersectsPoint (env.widen n) (liftData n d).embedding =
        child.intersectsPoint env d.embedding :=
      intersectsPoint_lift env n child d.embedding
        (by rw [centroid_length_of_wf hw'.1, hd])
    have ih := searchChildren_lift env n rest d hw'.2 hd
    have ic := search_lift env n child d hw'.1 hd
    simp only [liftNodes, searchChildren, hi]
    cases hint : child.intersectsPoint env d.embedding with
    | true =>
      simp only [if_true, ic]
      cases hs : child.search env d with
      | none => simp only [Option.map_none', ih]
      | some ans => simp only [Option.map_some']
    | false => simp only [Bool.false_eq_true, if_false, ih]
end

/-- Method `SSTree::search` commutes with padding. -/
theorem tree_search_lift (env : Env K) (n : Nat) (t : SSTree K) (d : Data K)
    (hw : wfTree env.DIM t) (hd : d.embedding.coordinates_.length = env.DIM) :
    (liftTree n t).search (env.widen n) (liftData n d) =
      Except.map (Option.map (liftNode n)) (t.search env d) := by
  unfold SSTree.search
  cases hr : t.root with
  | none => simp [liftTree, hr, Except.map]
  | some root =>
    simp only [liftTree, hr, Option.map_some', Except.map]
    rw [search_lift env n root d (hw root hr) hd]

end LiftSearch

section Binary32

theorem knnLineRecordsF_length :
    ∀ r ∈ knnLineRecordsF, r.embedding.coordinates_.length = envF1.DIM := by
  decide

theorem searchLineRecordsF_length :
    ∀ r ∈ searchLineRecordsF, r.embedding.coordinates_.length = envF1.DIM := by
  decide

/-- The rounding on known cases: the literals `2.6f` and `4.3f`, the two kinds of ties at
the 24th bit and below the smallest positive binary32 number, the `double` nearest to
`0.1`, the `float` square root of 2, and the literal `1e-8f` of `Point.h`. -/
theorem eval_rounding :
    (F32.ofRat (26 / 10)).val = 5452595 / 2097152 ∧
    (F32.ofRat (43 / 10)).val = 4508877 / 1048576 ∧
    F32.round (1 + 1 / 2 ^ 24) = 1 ∧
    F32.round (1 + 3 / 2 ^ 24) = 1 + 1 / 2 ^ 22 ∧
    F32.round (1 / 2 ^ 150) = 0 ∧
    F32.round (3 / 2 ^ 150) = 1 / 2 ^ 148 ∧
    F32.round64 (1 / 10) = 3602879701896397 / 36028797018963968 ∧
    (F32.sqrt ⟨2⟩).val = 11863283 / 8388608 ∧
    F32.round (1 / 10 ^ 8) = EPSILON := by
  decide!

/-- The nearest-neighbour query on the first coordinates of `knnRecordsF`, in binary32:
the answer is the record at `2.6f`. -/
theorem eval_knn_rounding :
    resultIs (SSTree.build envF1 2 knnLineRecordsF)
      (fun t => resultIs (t.knn envF1 (linePointF (43 / 10)) 1)
        (fun res => decide (res = [lineRecordF 1 (26 / 10)]))) = true := by
  decide!

/-- The distances of the records at `6.0f` and at `2.6f` to the query `4.3f`, in
binary32. -/
theorem eval_knn_distances :
    (Point.distance envF1 (linePointF 6) (linePointF (43 / 10))).val = 1782579 / 1048576 ∧
    (Point.distance envF1 (linePointF (26 / 10)) (linePointF (43 / 10))).val =
      3565159 / 2097152 := by
  decide!

/-- The search for the record at `95.7f` on the first coordinates of `searchRecordsF`, in
binary32: the record is in the tree, the search answers `none`, and a child of the root
that holds the record in its subtree has a radius below its distance to the record. -/
theorem eval_search_rounding :
    resultIs (SSTree.build envF1 2 searchLineRecordsF)
      (fun t =>
        resultIs (t.search envF1 (lineRecordF 5 (957 / 10))) (fun ans => ans.isNone) &&
        rootIs t (fun root => root.children.any (fun n =>
          decide (lineRecordF 5 (957 / 10) ∈ collectDataDFS n) &&
          decide (n.radius.val = 10167090 / 131072) &&
          decide ((Point.distance envF1 n.centroid (linePointF (957 / 10))).val =
            10167091 / 131072) &&
          decide (Point.distance envF1 (linePointF (957 / 10)) (linePointF (957 / 10)) <
            Point.distance envF1 (linePointF (957 / 10)) n.centroid - n.radius)))) = true := by
  decide!

/-- Claim C3 (nearest neighbour), evaluation of the code at a failing input in binary32.
With `M = 2`, the four records at `2.6f`, `6.0f`, `79.2f` and `9.6f` on the first axis are
inserted; `knn((4.3f, 0, …, 0), 1)` returns the record at `2.6f`, although the record at
`6.0f` is strictly nearer to the query by the distance that the code itself computes: the
leaf that holds it is discarded because its key `distance - radius`, computed with
rounding, exceeds the distance of the record found first. -/
theorem claim_C3_knn_misses_nearest :
    ∃ t, SSTree.build envF 2 knnRecordsF = .ok t ∧
      t.knn envF (axisPointF (43 / 10)) 1 = .ok [axisRecordF 1 (26 / 10)] ∧
      axisRecordF 2 6 ∈ knnRecordsF ∧
      Point.distance envF (axisRecordF 2 6).embedding (axisPointF (43 / 10)) <
        Point.distance envF (axisRecordF 1 (26 / 10)).embedding (axisPointF (43 / 10)) := by
  obtain ⟨t1, hb1, hk1⟩ := (resultIs_iff _ _).1 eval_knn_rounding
  obtain ⟨l, hl, hl1⟩ := (resultIs_iff _ _).1 hk1
  have hlift := build_lift envF1 767 2 knnLineRecordsF t1 knnLineRecordsF_length hb1
  refine ⟨liftTree 767 t1, hlift.1, ?_, List.mem_cons_of_mem _ (List.mem_cons_self _ _), ?_⟩
  · have := knn_lift envF1 767 t1 (linePointF (43 / 10)) 1 hlift.2 rfl
    rw [hl, of_decide_eq_true hl1] at this
    exact this
  · have h6 : Point.distance envF (axisPointF 6) (axisPointF (43 / 10)) =
        Point.distance envF1 (linePointF 6) (linePointF (43 / 10)) :=
      distance_lift envF1 767 (linePointF 6) (linePointF (43 / 10)) rfl
    have h26 : Point.distance envF (axisPointF (26 / 10)) (axisPointF (43 / 10)) =
        Point.distance envF1 (linePointF (26 / 10)) (linePointF (43 / 10)) :=
      distance_lift envF1 767 (linePointF (26 / 10)) (linePointF (43 / 10)) rfl
    show (Point.distance envF (axisPointF 6) (axisPointF (43 / 10))).val <
      (Point.distance envF (axisPointF (26 / 10)) (axisPointF (43 / 10))).val
    rw [h6, h26, eval_knn_distances.1, eval_knn_distances.2]
    norm_num

/-- Claim C5 (search finds what was inserted), evaluation of the code at a failing input
in binary32.  With `M = 2`, the six records at `4.2f`, `21.9f`, `7.4f`, `13.6f`, `95.7f`
and `37.0f` on the first axis are inserted; the record at `95.7f` is in the tree, and
`SSTree::search` of it returns `none`: `intersectsPoint` fails at a child of the root whose
subtree holds the record. -/
theorem claim_C5_search_misses_inserted :
    ∃ t, SSTree.build envF 2 searchRecordsF = .ok t ∧
      axisRecordF 5 (957 / 10) ∈ searchRecordsF ∧
      axisRecordF 5 (957 / 10) ∈ t.records ∧
      t.search envF (axisRecordF 5 (957 / 10)) = .ok none := by
  obtain ⟨t1, hb1, hk1⟩ := (resultIs_iff _ _).1 eval_search_rounding
  rw [Bool.and_eq_true] at hk1
  obtain ⟨ans, hans, hnone⟩ := (resultIs_iff _ _).1 hk1.1
  have hlift := build_lift envF1 767 2 searchLineRecordsF t1 searchLineRecordsF_length hb1
  have hmem : axisRecordF 5 (957 / 10) ∈ searchRecordsF := by
    simp only [searchRecordsF, List.mem_cons, true_or, or_true]
  refine ⟨liftTree 767 t1, hlift.1, hmem, ?_, ?_⟩
  · exact (build_records_perm envF 2 searchRecordsF _ (by decide) hlift.1).mem_iff.2 hmem
  · have := tree_search_lift envF1 767 t1 (lineRecordF 5 (957 / 10)) hlift.2 rfl
    rw [hans] at this
    cases ans with
    | none => exact this
    | some x => simp at hnone

/-- Claim C28 (subtree containment below the root), evaluation of the code at a failing
input in binary32.  In the tree built with `M = 2` from the six records at `4.2f`,
`21.9f`, `7.4f`, `13.6f`, `95.7f` and `37.0f` on the first axis, a child `n` of the root
holds the record at `95.7f` in its subtree, and the radius of `n` is smaller than the
distance from the centroid of `n` to the record; for the query at the record itself the
key `dist(q, n.centroid) - n.radius` is larger than the distance of the query to the
record, which is 0. -/
theorem claim_C28_subtree_not_contained :
    ∃ t root n, SSTree.build envF 2 searchRecordsF = .ok t ∧ t.root = some root ∧
      n ∈ root.children ∧ axisRecordF 5 (957 / 10) ∈ collectDataDFS n ∧
      n.radius < Point.distance envF n.centroid (axisRecordF 5 (957 / 10)).embedding ∧
      Point.distance envF (axisRecordF 5 (957 / 10)).embedding
          (axisRecordF 5 (957 / 10)).embedding <
        Point.distance envF (axisRecordF 5 (957 / 10)).embedding n.centroid - n.radius := by
  obtain ⟨t1, hb1, hk1⟩ := (resultIs_iff _ _).1 eval_search_rounding
  rw [Bool.and_eq_true] at hk1
  obtain ⟨root1, hroot1, hany⟩ := (rootIs_iff _ _).1 hk1.2
  obtain ⟨n1, hn1, hp⟩ := List.any_eq_true.1 hany
  simp only [Bool.and_eq_true, decide_eq_true_eq] at hp
  obtain ⟨⟨⟨hrec, hrad⟩, hdist⟩, hkey⟩ := hp
  have hlift := build_lift envF1 767 2 searchLineRecordsF t1 searchLineRecordsF_length hb1
  have hwroot := hlift.2 root1 hroot1
  have hwn : wfNode envF1.DIM n1 := ((wfNode_iff _ _).1 hwroot).2.2 n1 hn1
  have hclen : n1.centroid.coordinates_.length = (linePointF (957 / 10)).coordinates_.length :=
    centroid_length_of_wf hwn
  refine ⟨liftTree 767 t1, liftNode 767 root1, liftNode 767 n1, hlift.1, ?_, ?_, ?_, ?_, ?_⟩
  · simp only [liftTree, hroot1, Option.map_some']
  · rw [liftNode_children]
    exact List.mem_map_of_mem _ hn1
  · rw [collectDataDFS_lift]
    exact List.mem_map_of_mem (liftData 767) hrec
  · have hd : Point.distance envF (liftNode 767 n1).centroid
          (axisRecordF 5 (957 / 10)).embedding =
        Point.distance envF1 n1.centroid (linePointF (957 / 10)) := by
      rw [liftNode_centroid]
      exact distance_lift envF1 767 n1.centroid (linePointF (957 / 10)) hclen
    rw [hd, liftNode_radius]
    show n1.radius.val < (Point.distance envF1 n1.centroid (linePointF (957 / 10))).val
    rw [hrad, hdist]
    norm_num
  · have hd1 : Point.distance envF (axisRecordF 5 (957 / 10)).embedding
          (axisRecordF 5 (957 / 10)).embedding =
        Point.distance envF1 (linePointF (957 / 10)) (linePointF (957 / 10)) :=
      distance_lift envF1 767 (linePointF (957 / 10)) (linePointF (957 / 10)) rfl
    have hd2 : Point.distance envF (axisRecordF 5 (957 / 10)).embedding
          (liftNode 767 n1).centroid =
        Point.distance envF1 (linePointF (957 / 10)) n1.centroid := by
      rw [liftNode_centroid]
      exact distance_lift envF1 767 (linePointF (957 / 10)) n1.centroid hclen.symm
    rw [hd1, hd2, liftNode_radius]
    exact hkey

/-- The two nearest neighbours of the origin among the first coordinates of the records
at 10 and at 0 on the first axis, inserted in this order. -/
theorem eval_knn_pair :
    resultIs (SSTree.build envQ1 2 [lineRecord 1 10, lineRecord 2 0])
      (fun t => resultIs (t.knn envQ1 (linePoint 0) 2)
        (fun res => decide (res = [lineRecord 2 0, lineRecord 1 10]))) = true := by
  decide!

/-- Witness for claim C4: the records at 10 and at 0 on the first axis, inserted in this
order, and the query `knn((0, …, 0), 2)`: the answer holds both records, the one at 0
first. -/
theorem claim_C4_knn_sorted_witness :
    ∃ t, SSTree.build envQ 2 [axisRecord 1 10, axisRecord 2 0] = .ok t ∧
      t.knn envQ (axisPoint 0) 2 = .ok [axisRecord 2 0, axisRecord 1 10] ∧
      1 ≤ 2 ∧
      ∃ res, t.knn envQ (axisPoint 0) 2 = .ok res ∧
        res.Pairwise (fun a b =>
          Point.distance envQ a.embedding (axisPoint 0)
            ≤ Point.distance envQ b.embedding (axisPoint 0)) := by
  obtain ⟨t1, hb1, hk1⟩ := (resultIs_iff _ _).1 eval_knn_pair
  obtain ⟨l, hl, hl1⟩ := (resultIs_iff _ _).1 hk1
  have hlift := build_lift envQ1 767 2 [lineRecord 1 10, lineRecord 2 0] t1 (by decide) hb1
  have hknn := knn_lift envQ1 767 t1 (linePoint 0) 2 hlift.2 rfl
  rw [hl, of_decide_eq_true hl1] at hknn
  exact ⟨liftTree 767 t1, hlift.1, hknn, by decide,
    claim_C4_knn_sorted envQ (liftTree 767 t1) (axisPoint 0) 2 (by decide)⟩

end Binary32

section SplitAxisComputed

section

variable {K : Type} [Zero K] [Add K] [Sub K] [Mul K] [Div K] [NatCast K] [LinearOrder K]
  [PowAcc K]

/-- Claim C17 (split axis), as the code has it.  In every arithmetic (exact or rounded)
and for every node, in a space of at least one dimension,
`SSNode::directionOfMaxVariance` returns a dimension `d < DIM` that is described by the
variances which `calculateVariance` computes in that arithmetic: either no dimension has
a computed variance above 0 and `d = 0`, or the computed variance at `d` is largest among
all dimensions and strictly larger than at every dimension before `d`. -/
theorem claim_C17_split_axis_computed (env : Env K) (node : SSNode K) (hD : 0 < env.DIM) :
    node.directionOfMaxVariance env < env.DIM ∧
    (((∀ d < env.DIM, calculateVariance node.getEntriesCentroids d ≤ 0) ∧
        node.directionOfMaxVariance env = 0) ∨
      ((∀ d < env.DIM,
          calculateVariance node.getEntriesCentroids d ≤
            calculateVariance node.getEntriesCentroids (node.directionOfMaxVariance env)) ∧
        ∀ d < node.directionOfMaxVariance env,
          calculateVariance node.getEntriesCentroids d <
            calculateVariance node.getEntriesCentroids
              (node.directionOfMaxVariance env))) := by
  obtain ⟨hv, ha, hb, hc⟩ := directionLoop_spec node.getEntriesCentroids env.DIM 0 0 0
    (fun d hd => absurd hd (Nat.not_lt_zero d)) (Or.inr ⟨rfl, rfl⟩)
    (fun d hd => absurd hd (Nat.not_lt_zero d))
  rw [Nat.zero_add] at ha hb
  rw [← List.range_eq_range'] at hb hc
  have hdef : node.directionOfMaxVariance env =
      directionLoop node.getEntriesCentroids (List.range env.DIM) 0 0 := rfl
  rcases hb with h | h
  · refine ⟨hdef ▸ h.2, Or.inr ⟨fun d hd => ?_, fun d hd => ?_⟩⟩
    · rw [hdef, ← h.1]
      exact ha d hd
    · rw [hdef, ← h.1]
      exact hc d (hdef ▸ hd)
  · refine ⟨?_, Or.inl ⟨fun d hd => ?_, ?_⟩⟩
    · rw [hdef, h.2]
      exact hD
    · rw [← h.1]
      exact ha d hd
    · rw [hdef, h.2]

end

/-- The split axis of a leaf that holds `tiedRecordsF`, on the first two coordinates in
binary32: the computed variances are `0.20222223` on axis 0 and `0.20222224` on axis 1,
and the answer is axis 1. -/
theorem eval_direction_rounding :
    (calculateVariance
        (SSNode.mk 2 (flatPointF 0 0) 0 true [] tiedFlatRecordsF).getEntriesCentroids 0).val
      = 1696363 / 8388608 ∧
    (calculateVariance
        (SSNode.mk 2 (flatPointF 0 0) 0 true [] tiedFlatRecordsF).getEntriesCentroids 1).val
      = 13570905 / 67108864 ∧
    (SSNode.mk 2 (flatPointF 0 0) 0 true [] tiedFlatRecordsF).directionOfMaxVariance envF2
      = 1 := by
  decide!

/-- The split axis of a leaf that holds `tiedRecordsF`, in 768 dimensions in binary32. -/
theorem direction_tied :
    (SSNode.mk 2 (planePointF 0 0) 0 true [] tiedRecordsF).directionOfMaxVariance envF = 1 := by
  have h := direction_lift envF2 766 (SSNode.mk 2 (flatPointF 0 0) 0 true [] tiedFlatRecordsF)
    (by decide)
  exact h.trans eval_direction_rounding.2.2

/-- The split axis of a leaf that holds `skewedRecordsF`, on the first two coordinates in
binary32: the computed variances are the same as for `tiedRecordsF`, and the answer is
axis 1. -/
theorem eval_direction_skewed :
    (calculateVariance
        (SSNode.mk 2 (flatPointF 0 0) 0 true [] skewedFlatRecordsF).getEntriesCentroids 0).val
      = 1696363 / 8388608 ∧
    (calculateVariance
        (SSNode.mk 2 (flatPointF 0 0) 0 true [] skewedFlatRecordsF).getEntriesCentroids 1).val
      = 13570905 / 67108864 ∧
    (SSNode.mk 2 (flatPointF 0 0) 0 true [] skewedFlatRecordsF).directionOfMaxVariance envF2
      = 1 := by
  decide!

/-- The split axis of a leaf that holds `skewedRecordsF`, in 768 dimensions in binary32. -/
theorem direction_skewed :
    (SSNode.mk 2 (planePointF 0 0) 0 true [] skewedRecordsF).directionOfMaxVariance envF
      = 1 := by
  have h := direction_lift envF2 766
    (SSNode.mk 2 (flatPointF 0 0) 0 true [] skewedFlatRecordsF) (by decide)
  exact h.trans eval_direction_skewed.2.2

/-- Counterexample to claim C17 as stated, in binary32, on two leaves of three records.
On `(0.1f, 1.1f, 0, …)`, `(0.2f, 0.1f, 0, …)`, `(1.1f, 0.2f, 0, …)` axis 0 and axis 1 hold
the same three values, so their population variances are equal and the smallest dimension
of maximal population variance is not 1; the code returns 1.  On `(0.1f, 1.1f, 0, …)`,
`(0.19999999f, 0.1f, 0, …)`, `(1.1f, 0.2f, 0, …)` the population variance of axis 0 is
strictly larger than the one of axis 1, so axis 1 is not a dimension of maximal population
variance; the code returns 1 again. -/
theorem claim_C17_binary32_counterexample :
    (1 ≤ (SSNode.mk 2 (planePointF 0 0) 0 true [] tiedRecordsF).entryCount ∧
      (SSNode.mk 2 (planePointF 0 0) 0 true [] tiedRecordsF).directionOfMaxVariance envF
        = 1 ∧
      populationVariance (exactCoordinates tiedRecordsF 0) =
        populationVariance (exactCoordinates tiedRecordsF 1)) ∧
    (1 ≤ (SSNode.mk 2 (planePointF 0 0) 0 true [] skewedRecordsF).entryCount ∧
      (SSNode.mk 2 (planePointF 0 0) 0 true [] skewedRecordsF).directionOfMaxVariance envF
        = 1 ∧
      populationVariance (exactCoordinates skewedRecordsF 1) <
        populationVariance (exactCoordinates skewedRecordsF 0)) := by
  refine ⟨⟨by decide, direction_tied, ?_⟩, ⟨by decide, direction_skewed, ?_⟩⟩
  · decide!
  · decide!

/-- Witness for claim C17 as amended: the leaf of the counterexample in binary32, where
the answer is axis 1. -/
theorem claim_C17_split_axis_computed_witness :
    0 < envF.DIM ∧
    (SSNode.mk 2 (planePointF 0 0) 0 true [] tiedRecordsF).directionOfMaxVariance envF = 1 ∧
    (SSNode.mk 2 (planePointF 0 0) 0 true [] tiedRecordsF).directionOfMaxVariance envF
      < envF.DIM ∧
    (((∀ d < envF.DIM,
          calculateVariance
            (SSNode.mk 2 (planePointF 0 0) 0 true [] tiedRecordsF).getEntriesCentroids d ≤ 0) ∧
        (SSNode.mk 2 (planePointF 0 0) 0 true [] tiedRecordsF).directionOfMaxVariance envF
          = 0) ∨
      ((∀ d < envF.DIM,
          calculateVariance
              (SSNode.mk 2 (planePointF 0 0) 0 true [] tiedRecordsF).getEntriesCentroids d ≤
            calculateVariance
              (SSNode.mk 2 (planePointF 0 0) 0 true [] tiedRecordsF).getEntriesCentroids
              ((SSNode.mk 2 (planePointF 0 0) 0 true [] tiedRecordsF).directionOfMaxVariance
                envF)) ∧
        ∀ d < (SSNode.mk 2 (planePointF 0 0) 0 true [] tiedRecordsF).directionOfMaxVariance
            envF,
          calculateVariance
              (SSNode.mk 2 (planePointF 0 0) 0 true [] tiedRecordsF).getEntriesCentroids d <
            calculateVariance
              (SSNode.mk 2 (planePointF 0 0) 0 true [] tiedRecordsF).getEntriesCentroids
              ((SSNode.mk 2 (planePointF 0 0) 0 true [] tiedRecordsF).directionOfMaxVariance
                envF))) :=
  ⟨by decide, direction_tied,
    claim_C17_split_axis_computed envF
      (SSNode.mk 2 (planePointF 0 0) 0 true [] tiedRecordsF) (by decide)⟩

end SplitAxisComputed

end SSTreeModel
